import Mathlib

/-!
# File-handle cache and prefault engine of pg_prefaulter

A shallow embedding of `agent/fhcache/cache.go` and `agent/fhcache/fadvise.go`.

* Package-level variables, the `FileHandleCache` receiver and the objects reachable
  through `*_Value` pointers are collected in one `World`, passed explicitly.
* A call is a function `World → Res α`: it returns (`done`), waits for ever on a lock
  nobody will release (`blocked`), aborts (`panic`), or exhausts the bound put on the
  `for` loop (`spin`).
* Everything the program asks of the outside (the file system, the kernel, the cache
  library's replacement policy and clock) is an `Env` of oracles.
-/

namespace fhcache

/-! ## Data model -/

/-- Fork kind of a relation (main data, free-space map, visibility map, init fork). -/
inductive ForkKind where
  | main
  | fsm
  | vm
  | init
  deriving DecidableEq, Repr

/-- Build constants of package `pg` used by the cache: the page size `P` and the number
of blocks per segment `G`.  The package is not among the sources, so both are
parameters. -/
structure PgConsts where
  HeapPageSize : Nat
  BlocksPerSegment : Nat
  deriving DecidableEq, Repr

/-- Modelled from the spec: `structs.IOCacheKey`, the request
`{ tablespace_id, db_id, relation_id, fork, block_number }`. -/
structure IOCacheKey where
  Tablespace : Nat
  Database : Nat
  Relation : Nat
  Fork : ForkKind
  Block : Nat
  deriving DecidableEq, Repr

/-- Modelled from the spec: `_Key`, the relation key K (tablespace id, database id,
relation id, fork kind, segment number). -/
structure _Key where
  tablespace : Nat
  database : Nat
  relation : Nat
  fork : ForkKind
  segment : Nat
  deriving DecidableEq, Repr

/-- Modelled from the spec: `pg.HeapSegmentPageNum`, page-within-segment = B mod G. -/
def HeapSegmentPageNum (pg : PgConsts) (block : Nat) : Nat :=
  block % pg.BlocksPerSegment

/-- Modelled from the spec: `_NewKey`, which folds segment# = B / G into the key. -/
def _NewKey (pg : PgConsts) (ioReq : IOCacheKey) : _Key :=
  { tablespace := ioReq.Tablespace
    database := ioReq.Database
    relation := ioReq.Relation
    fork := ioReq.Fork
    segment := ioReq.Block / pg.BlocksPerSegment }

/-- State of a `sync.RWMutex`: the number of read locks held and whether the write lock
is held. -/
structure RWMutex where
  readers : Nat
  writer : Bool
  deriving DecidableEq, Repr

/-- The value `sync.RWMutex{}`. -/
def RWMutex.new : RWMutex := { readers := 0, writer := false }

/-- The handle entry `_Value`: embedded `_Key`, the guard, and the descriptor `f`
(`none` is the nil `*os.File`, `some fd` an open file with descriptor `fd`). -/
structure _Value where
  key : _Key
  lock : RWMutex
  f : Option Nat
  deriving DecidableEq, Repr

/-- Go errors: a cause produced outside the package, or a cause wrapped by
`errors.Wrap` / `errors.Wrapf` (the latter formatting a key with `%+v`). -/
inductive Err where
  | cause (msg : String)
  | wrap (err : Err) (msg : String)
  | wrapf (err : Err) (format : String) (arg : _Key)
  deriving DecidableEq, Repr

/-- A value of type `interface{}` as the cache library hands it to the callbacks. -/
inductive Iface where
  | key (k : _Key)
  | ptrValue (a : Nat)
  | other (tag : Nat)
  deriving DecidableEq, Repr

/-- A resident item of the cache: key, stored value and the expiration it was stored
with. -/
structure Item where
  key : _Key
  value : Iface
  expiration : Nat
  deriving DecidableEq, Repr

/-- `config.FHCacheConfig`, the fields `cache.go` reads. -/
structure FHCacheConfig where
  Size : Nat
  TTL : Nat
  MaxOpenFiles : Nat
  PGDataPath : String
  deriving DecidableEq, Repr

/-- Observable actions, in program order.  `osOpen` records the entry, the path and the
descriptor obtained (`none` when the open failed). -/
inductive Event where
  | cacheGet (k : _Key)
  | loader (k : _Key) (a : Nat)
  | RLock (a : Nat)
  | RUnlock (a : Nat)
  | Lock (a : Nat)
  | Unlock (a : Nat)
  | osOpen (a : Nat) (path : String) (fd : Option Nat)
  | osClose (a : Nat) (fd : Nat)
  | warn (msg : String) (k : _Key)
  | posix_fadvise (fd off len : Int) (advice : Nat) (rc : Int)
  deriving DecidableEq, Repr

/-- What a zerolog `Panic()` event carries: the message and the numeric fields. -/
structure PanicInfo where
  msg : String
  fields : List (String × Nat)
  deriving DecidableEq, Repr

/-- The oracles of one call. -/
structure Env where
  /-- Failure injected by the cache library's `Get`, if any. -/
  cacheErr : _Key → Option Err
  /-- Whether the resident item for a key has outlived its TTL. -/
  expired : _Key → Bool
  /-- The replacement policy's victim on a capacity breach. -/
  victim : Option _Key
  /-- Directory of a tablespace under the data root. -/
  tablespaceDir : Nat → String
  /-- Directory of a database under its tablespace. -/
  dbDir : Nat → String
  /-- Read-only `open(2)` of a path: a descriptor or an error. -/
  osOpen : String → Except Err Nat
  /-- Return code of `posix_fadvise(fd, off, len, advice)`. -/
  posix_fadvise : Int → Int → Int → Nat → Int

/-- Everything a call can read or write. -/
structure World where
  /-- Objects behind `*_Value` pointers, by address. -/
  heap : Nat → _Value
  /-- First address not yet allocated. -/
  next : Nat
  /-- Resident items of `fhc.c`. -/
  c : List Item
  purgeLock : Bool
  openLock : RWMutex
  openFDCount : Nat
  closeLock : RWMutex
  closeFDCount : Nat
  numConcurrentReadLock : Bool
  numConcurrentReads : Int
  trace : List Event

/-- Result of running a call. -/
inductive Res (α : Type) where
  | done (a : α) (w : World)
  | blocked
  | panic (p : PanicInfo)
  | spin

/-- A call: a function of the world. -/
def M (α : Type) : Type := World → Res α

/-- Return a value, world unchanged. -/
def M.pure {α : Type} (a : α) : M α := fun w => .done a w

/-- Sequencing: the second call runs in the world the first one left. -/
def M.bind {α β : Type} (m : M α) (f : α → M β) : M β := fun w =>
  match m w with
  | .done a w1 => f a w1
  | .blocked => .blocked
  | .panic p => .panic p
  | .spin => .spin

instance : Monad M where
  pure := M.pure
  bind := M.bind

/-- Abort with a panic. -/
def M.panic {α : Type} (msg : String) (fields : List (String × Nat)) : M α :=
  fun _ => .panic { msg := msg, fields := fields }

/-- Append an event to the trace. -/
def emit (e : Event) : M Unit := fun w =>
  .done () { w with trace := w.trace ++ [e] }

/-- Read the current world. -/
def getWorld : M World := fun w => .done w w

/-! ## Machine integers -/

/-- Conversion to `uint64`. -/
def toUint64 (n : Nat) : Nat := n % 2 ^ 64

/-- Conversion of a `uint64` bit pattern to `int64` (two's complement). -/
def toInt64 (n : Nat) : Int :=
  if n % 2 ^ 64 < 2 ^ 63 then ((n % 2 ^ 64 : Nat) : Int) else ((n % 2 ^ 64 : Nat) : Int) - 2 ^ 64

/-- Wrap-around of `int64` arithmetic. -/
def wrapInt64 (x : Int) : Int := (x + 2 ^ 63) % 2 ^ 64 - 2 ^ 63

/-! ## Locks -/

/-- Outcome of a lock operation on a mutex state. -/
inductive LockRes (μ : Type) where
  | ok (m : μ)
  | wait
  | fatal (msg : String)

/-- `RLock`: waits while the write lock is held. -/
def RWMutex.RLock (m : RWMutex) : LockRes RWMutex :=
  if m.writer then .wait else .ok { m with readers := m.readers + 1 }

/-- `RUnlock`: a fatal error when no read lock is held. -/
def RWMutex.RUnlock (m : RWMutex) : LockRes RWMutex :=
  if m.readers = 0 then .fatal "sync: RUnlock of unlocked RWMutex"
  else .ok { m with readers := m.readers - 1 }

/-- `Lock`: waits while any lock is held. -/
def RWMutex.Lock (m : RWMutex) : LockRes RWMutex :=
  if m.writer || decide (0 < m.readers) then .wait else .ok { m with writer := true }

/-- `Unlock`: a fatal error when the write lock is not held. -/
def RWMutex.Unlock (m : RWMutex) : LockRes RWMutex :=
  if m.writer then .ok { m with writer := false }
  else .fatal "sync: Unlock of unlocked RWMutex"

/-- `sync.Mutex.Lock` on a mutex held or not. -/
def mutexLock (held : Bool) : LockRes Bool :=
  if held then .wait else .ok true

/-- `sync.Mutex.Unlock`. -/
def mutexUnlock (held : Bool) : LockRes Bool :=
  if held then .ok false else .fatal "sync: unlock of unlocked mutex"

/-- Apply a lock operation to the guard of the entry at address `a`. -/
def onGuard (a : Nat) (op : RWMutex → LockRes RWMutex) (e : Event) : M Unit := fun w =>
  match op (w.heap a).lock with
  | .ok m =>
    .done () { w with
      heap := Function.update w.heap a { w.heap a with lock := m }
      trace := w.trace ++ [e] }
  | .wait => .blocked
  | .fatal msg => .panic { msg := msg, fields := [] }

/-- Guard operation `value.lock.RLock()`. -/
def _Value.RLock (value : Nat) : M Unit := onGuard value RWMutex.RLock (.RLock value)

/-- Guard operation `value.lock.RUnlock()`. -/
def _Value.RUnlock (value : Nat) : M Unit := onGuard value RWMutex.RUnlock (.RUnlock value)

/-- Guard operation `value.lock.Lock()`. -/
def _Value.Lock (value : Nat) : M Unit := onGuard value RWMutex.Lock (.Lock value)

/-- Guard operation `value.lock.Unlock()`. -/
def _Value.Unlock (value : Nat) : M Unit := onGuard value RWMutex.Unlock (.Unlock value)

/-- Read `value.f`. -/
def _Value.getF (value : Nat) : M (Option Nat) := fun w => .done (w.heap value).f w

/-- Assign `value.f = f`. -/
def _Value.setF (value : Nat) (f : Option Nat) : M Unit := fun w =>
  .done () { w with heap := Function.update w.heap value { w.heap value with f := f } }

/-! ## Handle entry: open and close -/

/-- Fork suffix of a segment file name. -/
def forkSuffix : ForkKind → String
  | .main => ""
  | .fsm => "_fsm"
  | .vm => "_vm"
  | .init => "_init"

/-- Modelled from the spec: the path resolver of `_Value.open`, which is not among the
sources: `<pgdata_root>/<tablespace-dir>/<db-dir>/<relation-id>[<fork-suffix>].<segment#>`,
segment 0 being the bare name. -/
def _Key.Filename (env : Env) (pgdataRoot : String) (k : _Key) : String :=
  pgdataRoot ++ "/" ++ env.tablespaceDir k.tablespace ++ "/" ++ env.dbDir k.database ++ "/"
    ++ toString k.relation ++ forkSuffix k.fork
    ++ (if k.segment = 0 then "" else "." ++ toString k.segment)

/-- Modelled from the spec: `_Value.open`, which is not among the sources: resolve the
path from the entry's key, open it read-only, and on success increment
`open_fd_count` (a `uint64`).  It returns the descriptor or the error and does not
assign `value.f`. -/
def _Value.open_ (env : Env) (value : Nat) (pgdataPath : String) :
    M (Option Nat × Option Err) := fun w =>
  let path := (w.heap value).key.Filename env pgdataPath
  match env.osOpen path with
  | .ok fd =>
    .done (some fd, none) { w with
      openFDCount := (w.openFDCount + 1) % 2 ^ 64
      trace := w.trace ++ [.osOpen value path (some fd)] }
  | .error e => .done (none, some e) { w with trace := w.trace ++ [.osOpen value path none] }

/-- Modelled from the spec: `_Value.close`, which is not among the sources: "closes the
descriptor if present and increments `close_fd_count`" (a `uint64`).  The counter
counts closed descriptors: an entry whose descriptor is none has nothing to close and
leaves it alone.  The spec gives the entry no state after its destruction, so the
descriptor field is left as it is. -/
def _Value.close (value : Nat) : M Unit := fun w =>
  match (w.heap value).f with
  | some fd =>
    .done () { w with
      closeFDCount := (w.closeFDCount + 1) % 2 ^ 64
      trace := w.trace ++ [.osClose value fd] }
  | none => .done () w

/-! ## The callbacks installed by `New` -/

/-- The `LoaderExpireFunc` closure of `New`: a fresh `_Value` for the key, behind a new
pointer, with the configured TTL and a nil error. -/
def LoaderExpireFunc (cfg : FHCacheConfig) (fhCacheKeyRaw : Iface) :
    M (Iface × Nat × Option Err) :=
  match fhCacheKeyRaw with
  | .key fhCacheKey => fun w =>
    let fhCacheVal : _Value := { key := fhCacheKey, lock := RWMutex.new, f := none }
    .done (.ptrValue w.next, cfg.TTL, none)
      { w with
        heap := Function.update w.heap w.next fhCacheVal
        next := w.next + 1
        trace := w.trace ++ [.loader fhCacheKey w.next] }
  | _ => M.panic "unable to type assert key in file handle cache" []

/-- The `EvictedFunc` closure of `New`. -/
def EvictedFunc (_fhCacheKeyRaw fhCacheValueRaw : Iface) : M Unit :=
  match fhCacheValueRaw with
  | .ptrValue fhCacheValue => _Value.close fhCacheValue
  | _ => M.panic "bad, evicting something not a file handle" []

/-- The `PurgeVisitorFunc` closure of `New`. -/
def PurgeVisitorFunc (_fhCacheKeyRaw fhCacheValueRaw : Iface) : M Unit :=
  match fhCacheValueRaw with
  | .ptrValue fhCacheValue => _Value.close fhCacheValue
  | _ => M.panic "bad, purging something not a file handle" []

/-! ## The cache library -/

/-- The resident item for a key. -/
def lookup (c : List Item) (k : _Key) : Option Item :=
  c.find? (fun it => decide (it.key = k))

/-- The items without those of a key. -/
def remove (c : List Item) (k : _Key) : List Item :=
  c.filter (fun it => decide (it.key ≠ k))

/-- Replace the resident items. -/
def setItems (c : List Item) : M Unit := fun w => .done () { w with c := c }

/-- Modelled from the spec: removal of one key by the cache library (capacity breach or
lazy TTL expiry): the item leaves the table and the eviction hook runs on it. -/
def Cache.evict (k : _Key) : M Unit := fun w =>
  match lookup w.c k with
  | none => .done () w
  | some it => (setItems (remove w.c k) >>= fun _ => EvictedFunc (.key it.key) it.value) w

/-- Modelled from the spec: "capacity breach evicts one entry under the replacement
policy": when the table is full, the policy's victim is evicted. -/
def Cache.makeRoom (cfg : FHCacheConfig) (env : Env) : M Unit := fun w =>
  if cfg.Size ≤ w.c.length then
    match env.victim with
    | some k => Cache.evict k w
    | none => .done () w
  else .done () w

/-- Store an item. -/
def addItem (it : Item) : M Unit := fun w => .done () { w with c := it :: w.c }

/-- Modelled from the spec: the miss path of `get`: the loader constructs the entry, room
is made for it, and it is stored with its TTL. -/
def Cache.load (cfg : FHCacheConfig) (env : Env) (key : _Key) :
    M (Option Iface × Option Err) := do
  let (v, ttl, err) ← LoaderExpireFunc cfg (.key key)
  match err with
  | some e => return (none, some e)
  | none =>
    Cache.makeRoom cfg env
    addItem { key := key, value := v, expiration := ttl }
    return (some v, none)

/-- Modelled from the spec: `get(K)` of the cache library (gcache, adaptive
replacement), which is not among the sources: a hit returns the resident entry, an
expired entry is evicted lazily, a miss goes through the loader.  The error branch
that `getLocked` checks is driven by the environment. -/
def Cache.Get (cfg : FHCacheConfig) (env : Env) (key : _Key) :
    M (Option Iface × Option Err) := do
  emit (.cacheGet key)
  match env.cacheErr key with
  | some e => return (none, some e)
  | none =>
    let w ← getWorld
    match lookup w.c key with
    | some it =>
      if env.expired key then do
        Cache.evict key
        Cache.load cfg env key
      else return (some it.value, none)
    | none => Cache.load cfg env key

/-- Run the purge visitor over the items. -/
def purgeVisit : List Item → M Unit
  | [] => pure ()
  | it :: rest => do
    PurgeVisitorFunc (.key it.key) it.value
    purgeVisit rest

/-- Modelled from the spec: `Purge` of the cache library: visit every resident entry,
then empty the table. -/
def Cache.Purge : M Unit := do
  let w ← getWorld
  purgeVisit w.c
  setItems []

/-! ## fadvise.go -/

/-- Advice value `POSIX_FADV_RANDOM` of `<fcntl.h>` (Linux). -/
def POSIX_FADV_RANDOM : Nat := 1

/-- Advice value `POSIX_FADV_WILLNEED` of `<fcntl.h>` (Linux). -/
def POSIX_FADV_WILLNEED : Nat := 3

/-- `Fadvise`: one call of `posix_fadvise`, whose return value is dropped. -/
def Fadvise (env : Env) (fd : Int) (off len : Int) : M Unit :=
  let advice := POSIX_FADV_WILLNEED ||| POSIX_FADV_RANDOM
  emit (.posix_fadvise fd off len advice (env.posix_fadvise fd off len advice))

/-! ## cache.go -/

/-- The `for` loop of `getLocked`, bounded by `fuel` iterations. -/
def getLockedLoop (cfg : FHCacheConfig) (env : Env) (key : _Key) (value : Nat) :
    Nat → M (Option Nat × Option Err)
  | 0 => fun _ => .spin
  | fuel + 1 => do
    _Value.RLock value
    match ← _Value.getF value with
    | some _ => return (some value, none)
    | none =>
      _Value.RUnlock value
      _Value.Lock value
      -- Revalidate lock predicate with exclusive lock held
      match ← _Value.getF value with
      | some _ =>
        _Value.Unlock value
        getLockedLoop cfg env key value fuel
      | none =>
        let (f, err) ← _Value.open_ env value cfg.PGDataPath
        match err with
        | some err =>
          emit (.warn "unable to open relation file" key)
          _Value.Unlock value
          let w ← getWorld
          return (none, some (.wrapf err "unable to re-open file: %+v" (w.heap value).key))
        | none =>
          _Value.setF value f
          _Value.Unlock value
          getLockedLoop cfg env key value fuel

/-- `FileHandleCache.getLocked`: the entry and the error it returns, as a Go pair. -/
def getLocked (pg : PgConsts) (cfg : FHCacheConfig) (env : Env) (fuel : Nat)
    (ioReq : IOCacheKey) : M (Option Nat × Option Err) := do
  let key := _NewKey pg ioReq
  let (valueRaw, err) ← Cache.Get cfg env key
  match err with
  | some err => return (none, some (.wrap err "unable to open cache file"))
  | none =>
    match valueRaw with
    | some (.ptrValue value) => getLockedLoop cfg env key value fuel
    | _ => M.panic "unable to type assert file handle in IO Cache" []

/-- Lock a `sync.Mutex` held in the world. -/
def numConcurrentReadLock_Lock : M Unit := fun w =>
  match mutexLock w.numConcurrentReadLock with
  | .ok b => .done () { w with numConcurrentReadLock := b }
  | .wait => .blocked
  | .fatal msg => .panic { msg := msg, fields := [] }

/-- Unlock it. -/
def numConcurrentReadLock_Unlock : M Unit := fun w =>
  match mutexUnlock w.numConcurrentReadLock with
  | .ok b => .done () { w with numConcurrentReadLock := b }
  | .wait => .blocked
  | .fatal msg => .panic { msg := msg, fields := [] }

/-- Add `d` to the `int64` gauge `numConcurrentReads`. -/
def addConcurrentReads (d : Int) : M Unit := fun w =>
  .done () { w with numConcurrentReads := wrapInt64 (w.numConcurrentReads + d) }

/-- `int(f.Fd())`: the descriptor of the file, `-1` for a nil file. -/
def fdOf (f : Option Nat) : Int :=
  match f with
  | some fd => (fd : Int)
  | none => -1

/-- `FileHandleCache.PrefaultPage`; the two deferred calls run last, in reverse order of
their `defer` statements. -/
def PrefaultPage (pg : PgConsts) (cfg : FHCacheConfig) (env : Env) (fuel : Nat)
    (ioCacheKey : IOCacheKey) : M (Option Err) := do
  let (fhcValue, err) ← getLocked pg cfg env fuel ioCacheKey
  match err with
  | some err => return some (.wrap err "unable to obtain file handle")
  | none =>
    match fhcValue with
    | none => M.panic "invalid memory address or nil pointer dereference" []
    | some fhcValue =>
      numConcurrentReadLock_Lock
      addConcurrentReads 1
      numConcurrentReadLock_Unlock
      let pageNum := HeapSegmentPageNum pg ioCacheKey.Block
      let f ← _Value.getF fhcValue
      Fadvise env (fdOf f) (toInt64 (toUint64 pageNum * toUint64 pg.HeapPageSize))
        (toInt64 pg.HeapPageSize)
      -- deferred
      numConcurrentReadLock_Lock
      addConcurrentReads (-1)
      numConcurrentReadLock_Unlock
      -- deferred
      _Value.RUnlock fhcValue
      return none

/-- Apply a lock operation to one of the two counter locks. -/
def onCounterLock (get : World → RWMutex) (set : World → RWMutex → World)
    (op : RWMutex → LockRes RWMutex) : M Unit := fun w =>
  match op (get w) with
  | .ok m => .done () (set w m)
  | .wait => .blocked
  | .fatal msg => .panic { msg := msg, fields := [] }

/-- Lock operation on `openLock`. -/
def onOpenLock (op : RWMutex → LockRes RWMutex) : M Unit :=
  onCounterLock (fun w => w.openLock) (fun w m => { w with openLock := m }) op

/-- Lock operation on `closeLock`. -/
def onCloseLock (op : RWMutex → LockRes RWMutex) : M Unit :=
  onCounterLock (fun w => w.closeLock) (fun w m => { w with closeLock := m }) op

/-- Lock operation on `fhc.purgeLock`. -/
def onPurgeLock (op : Bool → LockRes Bool) : M Unit := fun w =>
  match op w.purgeLock with
  | .ok b => .done () { w with purgeLock := b }
  | .wait => .blocked
  | .fatal msg => .panic { msg := msg, fields := [] }

/-- `FileHandleCache.Purge`.  A zerolog `Panic()` event logs its fields and message and
then panics; the deferred unlocks run on the normal return. -/
def Purge : M Unit := do
  onPurgeLock mutexLock
  Cache.Purge
  onOpenLock RWMutex.RLock
  onCloseLock RWMutex.RLock
  let w ← getWorld
  if w.openFDCount ≠ w.closeFDCount then
    -- Open vs close accountancy errors are considered fatal
    M.panic "bad, open vs close count not the same after purge"
      [("close-count", w.closeFDCount), ("open-count", w.openFDCount)]
  else
    onCloseLock RWMutex.RUnlock
    onOpenLock RWMutex.RUnlock
    onPurgeLock mutexUnlock

/-- The world right after `New`: an empty cache, no entry allocated, all counters zero
and every lock free. -/
def World.new : World :=
  { heap := fun _ => { key := ⟨0, 0, 0, .main, 0⟩, lock := RWMutex.new, f := none }
    next := 0
    c := []
    purgeLock := false
    openLock := RWMutex.new
    openFDCount := 0
    closeLock := RWMutex.new
    closeFDCount := 0
    numConcurrentReadLock := false
    numConcurrentReads := 0
    trace := [] }


/-! ## Goroutines calling `PrefaultPage` concurrently

Goroutines interleave at the calls that touch shared state: the cache's `Get`, the
operations of the guard and of `numConcurrentReadLock`, the reads and the write of
`value.f`, `open`, the warning, `Fadvise`.  Each such call is one step, executed by the
same definition as in the sequential embedding; a goroutine whose next call would wait
for a lock cannot take its step. -/

/-- The statement of `PrefaultPage` (with `getLocked` in it) a goroutine executes next,
together with its local variables. -/
inductive Pc where
  /-- Before `valueRaw, err := fhc.c.Get(key)` and the checks on its result. -/
  | start
  /-- Head of the loop: `value.lock.RLock()`. -/
  | rlock (value : Nat)
  /-- At `if value.f != nil { return value, nil }`, read lock held. -/
  | check (value : Nat)
  /-- At `value.lock.RUnlock()`. -/
  | runlock (value : Nat)
  /-- At `value.lock.Lock()`. -/
  | lock (value : Nat)
  /-- At `if value.f != nil`, exclusive lock held. -/
  | recheck (value : Nat)
  /-- At `value.lock.Unlock(); continue`. -/
  | unlockRetry (value : Nat)
  /-- At `f, err := value.open(fhc.cfg.PGDataPath)`. -/
  | open_ (value : Nat)
  /-- At `log.Warn()...` after a failed open. -/
  | warn (value : Nat) (err : Err)
  /-- At `value.lock.Unlock(); return nil, errors.Wrapf(...)`. -/
  | unlockFail (value : Nat) (err : Err)
  /-- At `value.f = f`. -/
  | assign (value : Nat) (f : Option Nat)
  /-- At `value.lock.Unlock()`, the end of the loop body. -/
  | unlockOpened (value : Nat)
  /-- At `numConcurrentReadLock.Lock()`. -/
  | gaugeLock (value : Nat)
  /-- At `numConcurrentReads++`. -/
  | gaugeInc (value : Nat)
  /-- At `numConcurrentReadLock.Unlock()`. -/
  | gaugeUnlock (value : Nat)
  /-- At `Fadvise(int(fhcValue.f.Fd()), ...)`. -/
  | advise (value : Nat)
  /-- Deferred: `numConcurrentReadLock.Lock()`. -/
  | deferLock (value : Nat)
  /-- Deferred: `numConcurrentReads--`. -/
  | deferDec (value : Nat)
  /-- Deferred: `numConcurrentReadLock.Unlock()`. -/
  | deferUnlock (value : Nat)
  /-- Deferred: `fhcValue.lock.RUnlock()`. -/
  | release (value : Nat)
  /-- Returned from `PrefaultPage` with this error. -/
  | ret (err : Option Err)
  deriving DecidableEq, Repr

/-- One step of a goroutine running `PrefaultPage(ioCacheKey)`: the call at its program
point and the program point that follows.  A goroutine that has returned has no step. -/
def Pc.step (pg : PgConsts) (cfg : FHCacheConfig) (env : Env) (ioCacheKey : IOCacheKey) :
    Pc → M Pc
  | .start => do
    let key := _NewKey pg ioCacheKey
    let (valueRaw, err) ← Cache.Get cfg env key
    match err with
    | some err =>
      return .ret (some (.wrap (.wrap err "unable to open cache file")
        "unable to obtain file handle"))
    | none =>
      match valueRaw with
      | some (.ptrValue value) => return .rlock value
      | _ => M.panic "unable to type assert file handle in IO Cache" []
  | .rlock value => do
    _Value.RLock value
    return .check value
  | .check value => do
    match ← _Value.getF value with
    | some _ => return .gaugeLock value
    | none => return .runlock value
  | .runlock value => do
    _Value.RUnlock value
    return .lock value
  | .lock value => do
    _Value.Lock value
    return .recheck value
  | .recheck value => do
    match ← _Value.getF value with
    | some _ => return .unlockRetry value
    | none => return .open_ value
  | .unlockRetry value => do
    _Value.Unlock value
    return .rlock value
  | .open_ value => do
    let (f, err) ← _Value.open_ env value cfg.PGDataPath
    match err with
    | some err => return .warn value err
    | none => return .assign value f
  | .warn value err => do
    emit (.warn "unable to open relation file" (_NewKey pg ioCacheKey))
    return .unlockFail value err
  | .unlockFail value err => do
    _Value.Unlock value
    let w ← getWorld
    return .ret (some (.wrap (.wrapf err "unable to re-open file: %+v" (w.heap value).key)
      "unable to obtain file handle"))
  | .assign value f => do
    _Value.setF value f
    return .unlockOpened value
  | .unlockOpened value => do
    _Value.Unlock value
    return .rlock value
  | .gaugeLock value => do
    numConcurrentReadLock_Lock
    return .gaugeInc value
  | .gaugeInc value => do
    addConcurrentReads 1
    return .gaugeUnlock value
  | .gaugeUnlock value => do
    numConcurrentReadLock_Unlock
    return .advise value
  | .advise value => do
    let pageNum := HeapSegmentPageNum pg ioCacheKey.Block
    let f ← _Value.getF value
    Fadvise env (fdOf f) (toInt64 (toUint64 pageNum * toUint64 pg.HeapPageSize))
      (toInt64 pg.HeapPageSize)
    return .deferLock value
  | .deferLock value => do
    numConcurrentReadLock_Lock
    return .deferDec value
  | .deferDec value => do
    addConcurrentReads (-1)
    return .deferUnlock value
  | .deferUnlock value => do
    numConcurrentReadLock_Unlock
    return .release value
  | .release value => do
    _Value.RUnlock value
    return .ret none
  | .ret _ => fun _ => .blocked

/-- Goroutine `i` takes its step; the others stay where they are. -/
def stepAt (pg : PgConsts) (cfg : FHCacheConfig) (env : Env) (ioCacheKey : IOCacheKey)
    (i : Nat) (goroutines : List Pc) : M (List Pc) := fun w =>
  match goroutines[i]? with
  | none => .blocked
  | some pc =>
    match pc.step pg cfg env ioCacheKey w with
    | .done pc1 w1 => .done (goroutines.set i pc1) w1
    | .blocked => .blocked
    | .panic p => .panic p
    | .spin => .spin

/-- The goroutines take their steps in the order of the schedule. -/
def runSched (pg : PgConsts) (cfg : FHCacheConfig) (env : Env) (ioCacheKey : IOCacheKey) :
    List Nat → List Pc → M (List Pc)
  | [], goroutines => fun w => .done goroutines w
  | i :: rest, goroutines => fun w =>
    match stepAt pg cfg env ioCacheKey i goroutines w with
    | .done goroutines1 w1 => runSched pg cfg env ioCacheKey rest goroutines1 w1
    | .blocked => .blocked
    | .panic p => .panic p
    | .spin => .spin

/-- Whether a goroutine has returned. -/
def Pc.returned : Pc → Bool
  | .ret _ => true
  | _ => false
end fhcache

/-!
# Configuration constants and the pre-run hook of the command

A shallow embedding of `config/consts.go` and of the `PersistentPreRunE` closure of
`cmd/root.go`.  The configuration store (viper), the case folding of package `strings`
(Unicode-aware in Go) and what the closure asks of the host are parameters.
-/

namespace config

/-- Go errors made by `fmt.Errorf` (format and rendered arguments), returned by the
host, or wrapped by `errors.Wrap`. -/
inductive Error where
  | errorf (format : String) (args : List String)
  | host (msg : String)
  | wrap (err : Error) (msg : String)
  deriving DecidableEq, Repr

/-- The functions of package `strings` the code calls for case folding. -/
structure Strings where
  ToLower : String → String
  ToUpper : String → String

/-- The configuration store: the value of a key, as viper returns it. -/
structure Viper where
  GetString : String → String
  GetBool : String → Bool
  GetInt : String → Int

/-- Key of the log level. -/
def KeyLogLevel : String := "log.level"

/-- Key of the log format. -/
def KeyAgentLogFormat : String := "run.log-format"

/-- Key of the pprof switch. -/
def KeyPProfEnable : String := "run.pprof.enable"

/-- Key of the pprof port. -/
def KeyPProfPort : String := "run.pprof.port"

/-- Key of the colour switch. -/
def KeyAgentUseColor : String := "run.use-color"

/-- Time format of the default logger. -/
def LogTimeFormat : String := "2006-01-02T15:04:05.000000000Z07:00"

/-- Time format of the bunyan logger. -/
def LogTimeFormatBunyan : String := "2006-01-02T15:04:05.000Z"

/-- `type LogFormat uint`. -/
structure LogFormat where
  val : Nat
  deriving DecidableEq, Repr

/-- `LogFormatAuto = iota`. -/
def LogFormatAuto : LogFormat := ⟨0⟩

/-- The second constant of the block. -/
def LogFormatZerolog : LogFormat := ⟨1⟩

/-- The third constant of the block. -/
def LogFormatBunyan : LogFormat := ⟨2⟩

/-- The fourth constant of the block. -/
def LogFormatHuman : LogFormat := ⟨3⟩

/-- `LogFormat.String`: the name of the format, or the panic with its message. -/
def LogFormat.String (f : LogFormat) : Except String String :=
  if f = LogFormatAuto then .ok "auto"
  else if f = LogFormatZerolog then .ok "zerolog"
  else if f = LogFormatBunyan then .ok "bunyan"
  else if f = LogFormatHuman then .ok "human"
  else .error ("unknown log format: " ++ toString f.val)

/-- `LogLevelParse`: the format and the error it returns, as a Go pair.  The argument is
not read: the value parsed is the one configured under `KeyAgentLogFormat`. -/
def LogLevelParse (strings : Strings) (viper : Viper) (_s : String) :
    LogFormat × Option Error :=
  let logFormat := strings.ToLower (viper.GetString KeyAgentLogFormat)
  if logFormat = "auto" then (LogFormatAuto, none)
  else if logFormat = "json" ∨ logFormat = "zerolog" then (LogFormatZerolog, none)
  else if logFormat = "bunyan" then (LogFormatBunyan, none)
  else if logFormat = "human" then (LogFormatHuman, none)
  else (LogFormatAuto, some (.errorf "unsupported log format: %q" [logFormat]))

/-- Case folding of the letters A to Z only, for examples. -/
def asciiStrings : Strings :=
  { ToLower := fun s => ⟨s.data.map Char.toLower⟩
    ToUpper := fun s => ⟨s.data.map Char.toUpper⟩ }

/-- A configuration store with the same string under every key, for examples. -/
def constViper (v : String) : Viper :=
  { GetString := fun _ => v, GetBool := fun _ => false, GetInt := fun _ => 0 }

end config

namespace cmd

open config

/-- What the closure asks of the host: whether standard output is a terminal, the host
name (a Go pair), the process id, and the program name fixed at build time. -/
structure Host where
  isTerminal : Bool
  Hostname : String × Option Error
  Getpid : Int
  PROGNAME : String

/-- The levels of zerolog the closure sets. -/
inductive Level where
  | DebugLevel
  | InfoLevel
  | WarnLevel
  | ErrorLevel
  | FatalLevel
  deriving DecidableEq, Repr

/-- The writers a logger is built on. -/
inductive Writer where
  | Stdout
  | Stderr
  | SyncWriter (w : Writer)
  | ConsoleWriter (Out : Writer) (NoColor : Bool)
  deriving DecidableEq, Repr

/-- A zerolog logger: its writer and the context fields added with `With()`. -/
structure ZerologLogger where
  w : Writer
  timestamp : Bool
  ints : List (String × Int)
  strs : List (String × String)
  deriving DecidableEq, Repr

/-- The package-level state of zerolog, `log` and the standard `log` the closure
writes. -/
structure Logging where
  GlobalLevel : Level
  LevelFieldName : String
  TimeFieldFormat : String
  TimestampFieldName : String
  MessageFieldName : String
  Logger : ZerologLogger
  stdlogFlags : Nat
  stdlogOutput : ZerologLogger
  /-- The port of the pprof listener the closure has started, if any. -/
  pprof : Option Int
  deriving DecidableEq, Repr

/-- The levels named in the error message. -/
def supportedLevels : List String := ["DEBUG", "INFO", "WARN", "ERROR", "FATAL"]

/-- The first block of `PersistentPreRunE`: re-initialise logging from the
configuration. -/
def initLogging (strings : Strings) (viper : Viper) (host : Host) (z : Logging) :
    Logging × Option Error :=
  let logWriter : Writer := if host.isTerminal then .SyncWriter .Stdout else .Stdout
  match LogLevelParse strings viper (viper.GetString KeyAgentLogFormat) with
  | (_, some err) => (z, some (.wrap err "unable to parse log format"))
  | (logFmt0, none) =>
    let logFmt :=
      if logFmt0 = LogFormatAuto then
        if host.isTerminal then LogFormatHuman else LogFormatZerolog
      else logFmt0
    let install (z : Logging) (zlog : ZerologLogger) : Logging × Option Error :=
      ({ z with Logger := zlog, stdlogFlags := 0, stdlogOutput := zlog }, none)
    if logFmt = LogFormatZerolog then
      install z { w := logWriter, timestamp := true, ints := [], strs := [] }
    else if logFmt = LogFormatBunyan then
      match host.Hostname with
      | (_, some err) => (z, some (.wrap err "unable to determine the hostname"))
      | (hostname, none) =>
        if hostname = "" then
          (z, some (.errorf "unable to use bunyan logging with an empty hostname" []))
        else
          install
            { z with
              LevelFieldName := "level"
              TimeFieldFormat := LogTimeFormatBunyan
              TimestampFieldName := "time"
              MessageFieldName := "msg" }
            { w := logWriter, timestamp := true
              ints := [("v", 0), ("pid", host.Getpid)]
              strs := [("name", host.PROGNAME), ("hostname", hostname)] }
    else if logFmt = LogFormatHuman then
      let useColor := viper.GetBool KeyAgentUseColor
      install z
        { w := .ConsoleWriter logWriter (!useColor), timestamp := true, ints := [], strs := [] }
    else
      (z, some (.errorf "unsupported log format: %q"
        [match logFmt.String with
          | .ok s => s
          | .error p => p]))

/-- The second block of `PersistentPreRunE`: validate the log level and set it. -/
def validateLogLevel (strings : Strings) (viper : Viper) (z : Logging) :
    Logging × Option Error :=
  let logLevel := strings.ToUpper (viper.GetString KeyLogLevel)
  if logLevel = "DEBUG" then ({ z with GlobalLevel := .DebugLevel }, none)
  else if logLevel = "INFO" then ({ z with GlobalLevel := .InfoLevel }, none)
  else if logLevel = "WARN" then ({ z with GlobalLevel := .WarnLevel }, none)
  else if logLevel = "ERROR" then ({ z with GlobalLevel := .ErrorLevel }, none)
  else if logLevel = "FATAL" then ({ z with GlobalLevel := .FatalLevel }, none)
  else
    (z, some (.errorf "unsupported error level: %q (supported levels: %s)"
      [logLevel, " ".intercalate ["DEBUG", "INFO", "WARN", "ERROR", "FATAL"]]))

/-- The closure `RootCmd.PersistentPreRunE`: the state of logging it leaves and the error
it returns.  The goroutine it starts last is recorded by the port it listens on. -/
def PersistentPreRunE (strings : Strings) (viper : Viper) (host : Host) (z : Logging) :
    Logging × Option Error :=
  match initLogging strings viper host z with
  | (z1, some err) => (z1, some err)
  | (z1, none) =>
    match validateLogLevel strings viper z1 with
    | (z2, some err) => (z2, some err)
    | (z2, none) =>
      ({ z2 with
          pprof := if viper.GetBool KeyPProfEnable then some (viper.GetInt KeyPProfPort)
            else none },
        none)

/-- The state of logging `init` leaves. -/
def Logging.init : Logging :=
  { GlobalLevel := .DebugLevel
    LevelFieldName := "level"
    TimeFieldFormat := LogTimeFormat
    TimestampFieldName := "time"
    MessageFieldName := "message"
    Logger := { w := .SyncWriter .Stderr, timestamp := true, ints := [], strs := [] }
    stdlogFlags := 0
    stdlogOutput := { w := .SyncWriter .Stderr, timestamp := true, ints := [], strs := [] }
    pprof := none }

/-- A host whose output is not a terminal. -/
def demoHost : Host :=
  { isTerminal := false, Hostname := ("db1", none), Getpid := 4242, PROGNAME := "pg_prefaulter" }

/-- A store with level "info" and format "auto". -/
def demoViper : Viper :=
  { GetString := fun k => if k = KeyLogLevel then "info" else "auto"
    GetBool := fun _ => false
    GetInt := fun _ => 0 }

end cmd


/-!
# The connection handle of pgx

A shallow embedding of the functions of `vendor/github.com/jackc/pgx/conn.go` that keep
configuration and render or read text: `CommandTag.RowsAffected`, `Identifier.Sanitize`,
`ConnConfig.Merge`, `configSSL`, `Conn.SetLogLevel`.  Go strings are read as lists of
characters; a pointer to a `tls.Config` is the configuration it points to (`none` is
nil); loggers and functions are opaque tokens.
-/

namespace pgx

/-- An error made by `errors.New`. -/
structure Error where
  msg : String
  deriving DecidableEq, Repr

/-! ## Package `strings` and package `strconv` -/

/-- Scan for `strings.LastIndex(s, sep)` with a separator of one character: `i` is the index
of the head of the list, `found` the last index seen so far. -/
def lastIndexFrom (sep : Char) : List Char → Int → Int → Int
  | [], _, found => found
  | c :: cs, i, found => lastIndexFrom sep cs (i + 1) (if c = sep then i else found)

/-- The index of the last instance of a separator of one character in `s`, or `-1`:
`strings.LastIndex(s, sep)`. -/
def LastIndex (s : List Char) (sep : Char) : Int :=
  lastIndexFrom sep s 0 (-1)

/-- Scan for `strings.Replace(s, old, new, -1)`: `skip` characters of an instance of `old`
found before are still to be passed over. -/
def replaceFrom (old new : List Char) : Nat → List Char → List Char
  | _, [] => []
  | skip + 1, _ :: cs => replaceFrom old new skip cs
  | 0, c :: cs =>
    if old.isPrefixOf (c :: cs) then new ++ replaceFrom old new (old.length - 1) cs
    else c :: replaceFrom old new 0 cs

/-- A copy of `s` with all non-overlapping instances of a non-empty `old` replaced by
`new`: `strings.Replace(s, old, new, -1)`. -/
def Replace (s old new : List Char) : List Char :=
  replaceFrom old new 0 s

/-- The elements joined with the separator between them: `strings.Join(a, sep)`. -/
def Join : List (List Char) → List Char → List Char
  | [], _ => []
  | [a], _ => a
  | a :: b :: rest, sep => a ++ sep ++ Join (b :: rest) sep

/-- The errors of package `strconv`. -/
inductive NumError where
  | ErrSyntax
  | ErrRange
  deriving DecidableEq, Repr

/-- The largest `uint64`. -/
def maxUint64 : Nat := 2 ^ 64 - 1

/-- The loop of `strconv.ParseUint(s, 10, 64)` over the characters, `n` being the value
read so far: a character that is not a decimal digit is a syntax error with value 0; a
value that leaves the `uint64` range is a range error with the largest value, reported
as soon as it is seen. -/
def parseUintLoop : List Char → Nat → Nat × Option NumError
  | [], n => (n, none)
  | d :: rest, n =>
    if d.isDigit then
      let v := d.toNat - '0'.toNat
      -- cutoff is the smallest number such that cutoff*base > maxUint64
      if n ≥ maxUint64 / 10 + 1 then (maxUint64, some .ErrRange)
      else
        let n10 := n * 10
        let n1 := (n10 + v) % 2 ^ 64
        if n1 < n10 ∨ n1 > maxUint64 then (maxUint64, some .ErrRange)
        else parseUintLoop rest n1
    else (0, some .ErrSyntax)

/-- The call `strconv.ParseUint(s, 10, 64)`. -/
def ParseUint (s : List Char) : Nat × Option NumError :=
  if s.length < 1 then (0, some .ErrSyntax) else parseUintLoop s 0

/-- Conversion of a `uint64` to `int64` (two's complement). -/
def int64 (un : Nat) : Int :=
  if un % 2 ^ 64 < 2 ^ 63 then ((un % 2 ^ 64 : Nat) : Int) else ((un % 2 ^ 64 : Nat) : Int) - 2 ^ 64

/-- Negation of an `int64`, which wraps at the smallest value. -/
def negInt64 (n : Int) : Int := (-n + 2 ^ 63) % 2 ^ 64 - 2 ^ 63

/-- The call `strconv.ParseInt(s, 10, 64)`: an optional sign, then `ParseUint`; a syntax
error gives 0, a value beyond the `int64` range gives the bound on its side. -/
def ParseInt (s : List Char) : Int × Option NumError :=
  match s with
  | [] => (0, some .ErrSyntax)
  | c :: cs =>
    let neg := decide (c = '-')
    let s1 := if c = '+' then cs else if c = '-' then cs else c :: cs
    let (un, err) := ParseUint s1
    if err = some .ErrSyntax then (0, err)
    else
      let cutoff : Nat := 2 ^ 63
      if !neg && decide (un ≥ cutoff) then (((cutoff - 1 : Nat) : Int), some .ErrRange)
      else if neg && decide (un > cutoff) then (-((cutoff : Nat) : Int), some .ErrRange)
      else
        let n := int64 un
        (if neg then negInt64 n else n, none)

/-! ## conn.go -/

/-- `CommandTag.RowsAffected`: the number parsed from the text after the last space, the
error of the parse being dropped; 0 for a tag without a space. -/
def RowsAffected (ct : String) : Int :=
  let s := ct.toList
  let index := LastIndex s ' '
  if index = -1 then 0
  else
    let (n, _) := ParseInt (s.drop (index + 1).toNat)
    n

/-- `Identifier.Sanitize`: every part between double quotes, its double quotes doubled,
the parts joined by a dot. -/
def Sanitize (ident : List String) : String :=
  let parts := ident.map (fun p => ['"'] ++ Replace p.toList ['"'] ['"', '"'] ++ ['"'])
  String.mk (Join parts ['.'])

/-- The fields of a `tls.Config` that `conn.go` sets; a configuration made there has the
zero value in all the others. -/
structure TlsConfig where
  InsecureSkipVerify : Bool
  ServerName : String
  deriving DecidableEq, Repr

/-- A `map[string]string`: its entries in the order `range` visits them.  The nil map and
the empty map are both the empty list. -/
abbrev StringMap : Type := List (String × String)

/-- The value of `m[k]`, if the key is there. -/
def StringMap.get (m : StringMap) (k : String) : Option String :=
  (m.find? (fun e => decide (e.1 = k))).map Prod.snd

/-- The map after `m[k] = v`. -/
def StringMap.set (m : StringMap) (k v : String) : StringMap :=
  (k, v) :: m.filter (fun e => decide (e.1 ≠ k))

/-- `ConnConfig`: the options used to establish a connection. -/
structure ConnConfig where
  Host : String
  Port : Nat
  Database : String
  User : String
  Password : String
  TLSConfig : Option TlsConfig
  UseFallbackTLS : Bool
  FallbackTLSConfig : Option TlsConfig
  Logger : Option Nat
  LogLevel : Int
  Dial : Option Nat
  RuntimeParams : StringMap
  OnNotice : Option Nat
  deriving DecidableEq, Repr

/-- `ConnConfig.Merge`. -/
def ConnConfig.Merge (old other : ConnConfig) : ConnConfig :=
  let cc := old
  let cc := if other.Host ≠ "" then { cc with Host := other.Host } else cc
  let cc := if other.Port ≠ 0 then { cc with Port := other.Port } else cc
  let cc := if other.Database ≠ "" then { cc with Database := other.Database } else cc
  let cc := if other.User ≠ "" then { cc with User := other.User } else cc
  let cc := if other.Password ≠ "" then { cc with Password := other.Password } else cc
  let cc :=
    if other.TLSConfig ≠ none then
      { cc with
        TLSConfig := other.TLSConfig
        UseFallbackTLS := other.UseFallbackTLS
        FallbackTLSConfig := other.FallbackTLSConfig }
    else cc
  let cc := if other.Logger ≠ none then { cc with Logger := other.Logger } else cc
  let cc := if other.LogLevel ≠ 0 then { cc with LogLevel := other.LogLevel } else cc
  let cc := if other.Dial ≠ none then { cc with Dial := other.Dial } else cc
  let params : StringMap := []
  let params := old.RuntimeParams.foldl (fun m e => m.set e.1 e.2) params
  let params := other.RuntimeParams.foldl (fun m e => m.set e.1 e.2) params
  { cc with RuntimeParams := params }

/-- `configSSL`: the configuration it leaves behind `cc` and the error it returns. -/
def configSSL (sslmode : String) (cc : ConnConfig) : ConnConfig × Option Error :=
  -- Match libpq default behavior
  let sslmode := if sslmode = "" then "prefer" else sslmode
  if sslmode = "disable" then (cc, none)
  else if sslmode = "allow" then
    ({ cc with
        UseFallbackTLS := true
        FallbackTLSConfig := some { InsecureSkipVerify := true, ServerName := "" } },
      none)
  else if sslmode = "prefer" then
    ({ cc with
        TLSConfig := some { InsecureSkipVerify := true, ServerName := "" }
        UseFallbackTLS := true
        FallbackTLSConfig := none },
      none)
  else if sslmode = "require" then
    ({ cc with TLSConfig := some { InsecureSkipVerify := true, ServerName := "" } }, none)
  else if sslmode = "verify-ca" ∨ sslmode = "verify-full" then
    ({ cc with TLSConfig := some { InsecureSkipVerify := false, ServerName := cc.Host } }, none)
  else (cc, some ⟨"sslmode is invalid"⟩)

/-- `ErrInvalidLogLevel`. -/
def ErrInvalidLogLevel : Error := ⟨"invalid log level"⟩

/-- The fields of `Conn` that `SetLogger` and `SetLogLevel` read or write. -/
structure Conn where
  logger : Option Nat
  logLevel : Int
  deriving DecidableEq, Repr

/-- `Conn.SetLogger`: the connection it leaves and the logger it returns. -/
def Conn.SetLogger (c : Conn) (logger : Option Nat) : Conn × Option Nat :=
  let oldLogger := c.logger
  ({ c with logger := logger }, oldLogger)

/-- `Conn.SetLogLevel`: the connection it leaves, the level and the error it returns.
`LogLevelNone` and `LogLevelTrace` are declared in another file of the package and are
parameters here. -/
def Conn.SetLogLevel (LogLevelNone LogLevelTrace : Int) (c : Conn) (lvl : Int) :
    Conn × Int × Option Error :=
  let oldLvl := c.logLevel
  if lvl < LogLevelNone ∨ lvl > LogLevelTrace then (c, oldLvl, some ErrInvalidLogLevel)
  else ({ c with logLevel := lvl }, lvl, none)

/-! ## Reading a sanitized identifier back -/

/-- Where the reader of a dotted sequence of quoted identifiers stands: nothing read yet,
after a dot, inside a quoted identifier, or after a double quote inside one (its end, or
the first half of a doubled quote). -/
inductive Lex where
  | start
  | dot
  | body
  | quote
  deriving DecidableEq, Repr

/-- The parts of a dotted sequence of SQL quoted identifiers (`"a"."b"`, a doubled quote
inside standing for one quote), or `none` for any other text.  `parts` are the
identifiers read so far and `cur` the characters of the one being read. -/
def readQuoted : Lex → List String → List Char → List Char → Option (List String)
  | .start, _, _, [] => some []
  | .start, parts, _, c :: rest =>
    if c = '"' then readQuoted .body parts [] rest else none
  | .dot, _, _, [] => none
  | .dot, parts, _, c :: rest =>
    if c = '"' then readQuoted .body parts [] rest else none
  | .body, _, _, [] => none
  | .body, parts, cur, c :: rest =>
    if c = '"' then readQuoted .quote parts cur rest
    else readQuoted .body parts (cur ++ [c]) rest
  | .quote, parts, cur, [] => some (parts ++ [String.mk cur])
  | .quote, parts, cur, c :: rest =>
    if c = '"' then readQuoted .body parts (cur ++ ['"']) rest
    else if c = '.' then readQuoted .dot (parts ++ [String.mk cur]) [] rest
    else none

/-- The identifier a text denotes when read as a dotted sequence of quoted identifiers. -/
def parseIdentifier (s : String) : Option (List String) :=
  readQuoted .start [] [] s.toList

/-- A character as it stands inside a quoted identifier: a double quote is doubled. -/
def doubled (c : Char) : List Char := if c = '"' then ['"', '"'] else [c]

/-- The number a string of decimal digits denotes, continuing from `n`. -/
def decimalFrom : Nat → List Char → Nat
  | n, [] => n
  | n, d :: rest => decimalFrom (n * 10 + (d.toNat - '0'.toNat)) rest

/-- The number a string of decimal digits denotes. -/
def decimal (ds : List Char) : Nat := decimalFrom 0 ds

/-- The level constants of pgx: `LogLevelNone` is 1 and `LogLevelTrace` is 6. -/
def demoLogLevelNone : Int := 1

/-- See `demoLogLevelNone`. -/
def demoLogLevelTrace : Int := 6

/-- A configuration with a host only. -/
def demoOld : ConnConfig :=
  { Host := "db1", Port := 0, Database := "", User := "", Password := ""
    TLSConfig := none, UseFallbackTLS := false, FallbackTLSConfig := none
    Logger := none, LogLevel := 0, Dial := none
    RuntimeParams := [("application_name", "old"), ("search_path", "public")]
    OnNotice := none }

/-- A configuration that verifies the server and has no fallback. -/
def demoSecure : ConnConfig :=
  { demoOld with
    TLSConfig := some { InsecureSkipVerify := false, ServerName := "db1" }
    UseFallbackTLS := false
    FallbackTLSConfig := none }

/-- A configuration that sets the fallback TLS attributes but no `TLSConfig`. -/
def demoOther : ConnConfig :=
  { Host := "", Port := 5433, Database := "", User := "", Password := ""
    TLSConfig := none, UseFallbackTLS := true
    FallbackTLSConfig := some { InsecureSkipVerify := true, ServerName := "" }
    Logger := none, LogLevel := 0, Dial := none
    RuntimeParams := [("application_name", "new")]
    OnNotice := none }

end pgx
namespace fhcache

/-! ## Worlds reached by the steps of a call, and predicates on them -/

/-- The world with events appended to its trace. -/
def World.log (w : World) (es : List Event) : World :=
  { w with trace := w.trace ++ es }

/-- The world with the guard of the entry at `a` replaced and events appended. -/
def World.withGuard (w : World) (a : Nat) (m : RWMutex) (es : List Event) : World :=
  { w with
    heap := Function.update w.heap a { w.heap a with lock := m }
    trace := w.trace ++ es }

/-- The world after the iteration of the loop that opens the file of the entry at `a`
and obtains `fd`. -/
def World.opened (cfg : FHCacheConfig) (env : Env) (w : World) (a fd : Nat) : World :=
  { w with
    heap := Function.update w.heap a { w.heap a with f := some fd }
    openFDCount := (w.openFDCount + 1) % 2 ^ 64
    trace := w.trace ++ [.RLock a, .RUnlock a, .Lock a,
      .osOpen a ((w.heap a).key.Filename env cfg.PGDataPath) (some fd), .Unlock a] }

/-- The world after `close` on the entry at `a`. -/
def World.closed (w : World) (a : Nat) : World :=
  match (w.heap a).f with
  | some fd =>
    { w with
      closeFDCount := (w.closeFDCount + 1) % 2 ^ 64
      trace := w.trace ++ [.osClose a fd] }
  | none => w

/-- The world after the loader has allocated the entry for `k`. -/
def World.alloc (w : World) (k : _Key) : World :=
  { w with
    heap := Function.update w.heap w.next { key := k, lock := RWMutex.new, f := none }
    next := w.next + 1
    trace := w.trace ++ [.loader k w.next] }

/-- The guard of the entry at `a`: an entry that is not allocated yet gets a new, free
guard when the loader creates it. -/
def World.guard (w : World) (a : Nat) : RWMutex :=
  if a < w.next then (w.heap a).lock else RWMutex.new

/-- Every cached value points to an allocated entry. -/
def World.WF (w : World) : Prop :=
  ∀ it ∈ w.c, ∀ a, it.value = .ptrValue a → a < w.next

/-- One iteration of the loop of `getLocked` in closed form, `rest` being what follows a
successful open (the next iteration). -/
def loopBody (cfg : FHCacheConfig) (env : Env) (key : _Key) (a : Nat)
    (rest : World → Res (Option Nat × Option Err)) (w : World) :
    Res (Option Nat × Option Err) :=
  if (w.heap a).lock.writer then .blocked
  else match (w.heap a).f with
    | some _ => .done (some a, none)
        (w.withGuard a ⟨(w.heap a).lock.readers + 1, false⟩ [.RLock a])
    | none =>
      if 0 < (w.heap a).lock.readers then .blocked
      else match env.osOpen ((w.heap a).key.Filename env cfg.PGDataPath) with
        | .error e =>
          .done (none, some (.wrapf e "unable to re-open file: %+v" (w.heap a).key))
            (w.withGuard a (w.heap a).lock [.RLock a, .RUnlock a, .Lock a,
              .osOpen a ((w.heap a).key.Filename env cfg.PGDataPath) none,
              .warn "unable to open relation file" key, .Unlock a])
        | .ok fd => rest (w.opened cfg env a fd)

/-- Events of the cache internals: the loader and the closing of a descriptor. -/
def Event.internal : Event → Bool
  | .loader _ _ => true
  | .osClose _ _ => true
  | _ => false

/-- What the cache library may change while it evicts: nothing but the table, the close
counter and the trace, which gains internal events only. -/
structure CacheStep (w w1 : World) : Prop where
  heap : w1.heap = w.heap
  next : w1.next = w.next
  items : ∀ it ∈ w1.c, it ∈ w.c
  openFDCount : w1.openFDCount = w.openFDCount
  purgeLock : w1.purgeLock = w.purgeLock
  openLock : w1.openLock = w.openLock
  closeLock : w1.closeLock = w.closeLock
  numConcurrentReadLock : w1.numConcurrentReadLock = w.numConcurrentReadLock
  numConcurrentReads : w1.numConcurrentReads = w.numConcurrentReads
  trace : ∃ es, w1.trace = w.trace ++ es ∧ ∀ e ∈ es, e.internal = true

/-- What `Cache.load` leaves behind when it returns: a new entry for the key at the first
free address, resident and returned. -/
structure Loaded (cfg : FHCacheConfig) (key : _Key) (w w1 : World) : Prop where
  heap : w1.heap = Function.update w.heap w.next { key := key, lock := RWMutex.new, f := none }
  next : w1.next = w.next + 1
  resident : lookup w1.c key = some ⟨key, .ptrValue w.next, cfg.TTL⟩
  items : ∀ it ∈ w1.c, it = ⟨key, .ptrValue w.next, cfg.TTL⟩ ∨ it ∈ w.c
  openFDCount : w1.openFDCount = w.openFDCount
  purgeLock : w1.purgeLock = w.purgeLock
  openLock : w1.openLock = w.openLock
  closeLock : w1.closeLock = w.closeLock
  numConcurrentReadLock : w1.numConcurrentReadLock = w.numConcurrentReadLock
  numConcurrentReads : w1.numConcurrentReads = w.numConcurrentReads
  trace : ∃ es, w1.trace = w.trace ++ es ∧ ∀ e ∈ es, e.internal = true

/-- Page size 8 kB, 131072 blocks per segment. -/
def demoPg : PgConsts := { HeapPageSize := 8192, BlocksPerSegment := 131072 }

/-- A cache of two handles. -/
def demoCfg : FHCacheConfig :=
  { Size := 2, TTL := 3600, MaxOpenFiles := 100, PGDataPath := "/tmp/pgdata" }

/-- An environment in which every open succeeds with descriptor 7. -/
def demoEnv : Env :=
  { cacheErr := fun _ => none
    expired := fun _ => false
    victim := none
    tablespaceDir := fun _ => "base"
    dbDir := fun n => toString n
    osOpen := fun _ => .ok 7
    posix_fadvise := fun _ _ _ _ => 0 }

/-- An environment in which every open fails. -/
def demoEnvFail : Env :=
  { demoEnv with osOpen := fun _ => .error (.cause "no such file or directory") }

/-- A request for block 131075 of relation 16384. -/
def demoReq : IOCacheKey :=
  { Tablespace := 1, Database := 1, Relation := 16384, Fork := .main, Block := 131075 }

/-- The world with an item stored in the table. -/
def World.stored (w : World) (it : Item) : World :=
  { w with c := it :: w.c }

/-- The world after `Cache.Get` has missed and loaded the entry for `key` without a
capacity breach. -/
def World.missed (cfg : FHCacheConfig) (w : World) (key : _Key) : World :=
  ((w.log [.cacheGet key]).alloc key).stored ⟨key, .ptrValue w.next, cfg.TTL⟩

/-- The world after `getLocked` on a cold cache when the open succeeds with `fd`. -/
def World.coldOpened (cfg : FHCacheConfig) (env : Env) (w : World) (key : _Key) (fd : Nat) :
    World :=
  ((w.missed cfg key).opened cfg env w.next fd).withGuard w.next ⟨1, false⟩ [.RLock w.next]

/-- The world after `getLocked` on a cold cache when the open fails. -/
def World.coldFailed (cfg : FHCacheConfig) (env : Env) (w : World) (key : _Key) : World :=
  (w.missed cfg key).withGuard w.next RWMutex.new [.RLock w.next, .RUnlock w.next,
    .Lock w.next, .osOpen w.next (key.Filename env cfg.PGDataPath) none,
    .warn "unable to open relation file" key, .Unlock w.next]

/-- The advisory events. -/
def Event.isAdvise : Event → Bool
  | .posix_fadvise _ _ _ _ _ => true
  | _ => false

/-- The advisory `PrefaultPage` issues for a block on a file. -/
def adviseEvent (pg : PgConsts) (env : Env) (f : Option Nat) (block : Nat) : Event :=
  .posix_fadvise (fdOf f)
    (toInt64 (toUint64 (HeapSegmentPageNum pg block) * toUint64 pg.HeapPageSize))
    (toInt64 pg.HeapPageSize) (POSIX_FADV_WILLNEED ||| POSIX_FADV_RANDOM)
    (env.posix_fadvise (fdOf f)
      (toInt64 (toUint64 (HeapSegmentPageNum pg block) * toUint64 pg.HeapPageSize))
      (toInt64 pg.HeapPageSize) (POSIX_FADV_WILLNEED ||| POSIX_FADV_RANDOM))

/-- The world after the part of `PrefaultPage` that follows `getLocked`, on the entry at
`a`. -/
def World.prefaulted (pg : PgConsts) (env : Env) (w : World) (a : Nat) (block : Nat) :
    World :=
  { w with
    heap := Function.update w.heap a
      { w.heap a with lock := { (w.heap a).lock with readers := (w.heap a).lock.readers - 1 } }
    numConcurrentReadLock := false
    numConcurrentReads := wrapInt64 (wrapInt64 (w.numConcurrentReads + 1) + -1)
    trace := w.trace ++ [adviseEvent pg env (w.heap a).f block, .RUnlock a] }

/-- The cache lookups. -/
def Event.isCacheGet : Event → Bool
  | .cacheGet _ => true
  | _ => false

/-- A result with the trace of its world erased: what a call returned and the state it
left, without the record of how it got there. -/
def Res.untraced {α : Type} : Res α → Res α
  | .done a w => .done a { w with trace := [] }
  | .blocked => .blocked
  | .panic p => .panic p
  | .spin => .spin

/-- The attempts to open a file. -/
def Event.isOpen : Event → Bool
  | .osOpen _ _ _ => true
  | _ => false

/-- The panic of `Purge` on a mismatch of the counters. -/
def purgePanic (w : World) : PanicInfo :=
  { msg := "bad, open vs close count not the same after purge"
    fields := [("close-count", w.closeFDCount), ("open-count", w.openFDCount)] }

/-- A world with one descriptor opened and never closed, and an empty cache. -/
def demoLeak : World := { World.new with openFDCount := 1 }

/-- Apply a function to the world of a result. -/
def Res.mapWorld {α : Type} (f : World → World) : Res α → Res α
  | .done a w => .done a (f w)
  | .blocked => .blocked
  | .panic p => .panic p
  | .spin => .spin

/-- The events of the loop of `getLocked` on the entry at `a`: lock operations and opens
of that entry, and the warning. -/
def Event.onEntry (a : Nat) : Event → Bool
  | .RLock b => decide (b = a)
  | .RUnlock b => decide (b = a)
  | .Lock b => decide (b = a)
  | .Unlock b => decide (b = a)
  | .osOpen b _ _ => decide (b = a)
  | .warn _ _ => true
  | _ => false

/-- The key of the demo request. -/
def demoKey : _Key := _NewKey demoPg demoReq

/-- The world right after the one cache lookup of a cold `getLocked`: entry 0 is resident
under the key. -/
def demoFetched : World := World.new.missed demoCfg demoKey

/-- The world at the end of the first iteration of the loop: the descriptor of entry 0 is
assigned and the write lock released. -/
def demoIterated : World := demoFetched.opened demoCfg demoEnv 0 7

/-- The world after the cache has evicted the key at that point. -/
def demoEvicted : World :=
  World.closed { demoIterated with c := remove demoIterated.c demoKey } 0

/-- The world the second iteration returns in. -/
def demoReturned : World := demoEvicted.withGuard 0 ⟨1, false⟩ [.RLock 0]

/-- One step of a history of the cache: a call of `PrefaultPage` (with fuel for `fuel + 2`
iterations of the loop of `getLocked`, in some environment) or the eviction of a key by
the cache library. -/
inductive Op where
  | prefault (env : Env) (fuel : Nat) (ioReq : IOCacheKey)
  | evict (k : _Key)

/-- Run one step; the error `PrefaultPage` may return is dropped. -/
def runOp (pg : PgConsts) (cfg : FHCacheConfig) : Op → M Unit
  | .prefault env fuel ioReq => fun w =>
    match PrefaultPage pg cfg env (fuel + 2) ioReq w with
    | .done _ w1 => .done () w1
    | .blocked => .blocked
    | .panic p => .panic p
    | .spin => .spin
  | .evict k => Cache.evict k

/-- Run a history, step after step. -/
def runOps (pg : PgConsts) (cfg : FHCacheConfig) : List Op → M Unit
  | [] => fun w => .done () w
  | op :: rest => fun w =>
    match runOp pg cfg op w with
    | .done _ w1 => runOps pg cfg rest w1
    | .blocked => .blocked
    | .panic p => .panic p
    | .spin => .spin

/-- Whether a cached item holds an open descriptor. -/
def World.holds (w : World) (it : Item) : Bool :=
  match it.value with
  | .ptrValue a => (w.heap a).f.isSome
  | _ => false

/-- The number of resident entries that hold an open descriptor. -/
def World.live (w : World) : Nat := w.c.countP w.holds

/-- Whether the entry at `a` is resident in the cache. -/
def World.resident (w : World) (a : Nat) : Bool :=
  w.c.any (fun it => decide (it.value = .ptrValue a))

/-- The successful opens of the file of the entry at `a`. -/
def Event.opens (a : Nat) : Event → Bool
  | .osOpen b _ (some _) => decide (b = a)
  | _ => false

/-- The closes of the descriptor of the entry at `a`. -/
def Event.closes (a : Nat) : Event → Bool
  | .osClose b _ => decide (b = a)
  | _ => false

/-- The invariant of the worlds reached between calls: all locks are free, the cache holds
allocated entries under distinct keys, memory not yet allocated holds no descriptor, the
open counter is the close counter plus the number of resident open descriptors (modulo
2^64), and for every entry the trace records one successful open if its descriptor is
there (none otherwise) and one close if moreover the entry has left the cache (none
otherwise). -/
structure Inv (w : World) : Prop where
  purgeLock : w.purgeLock = false
  openLock : w.openLock.writer = false
  closeLock : w.closeLock.writer = false
  numConcurrentReadLock : w.numConcurrentReadLock = false
  items : ∀ it ∈ w.c, ∃ a, it.value = .ptrValue a ∧ a < w.next ∧
    (w.heap a).lock = ⟨0, false⟩
  keys : (w.c.map Item.key).Nodup
  values : (w.c.map Item.value).Nodup
  unallocated : ∀ a, w.next ≤ a → (w.heap a).f = none
  closeBound : w.closeFDCount < 2 ^ 64
  count : w.openFDCount = (w.closeFDCount + w.live) % 2 ^ 64
  opens : ∀ a, w.trace.countP (Event.opens a) = if (w.heap a).f.isSome then 1 else 0
  closes : ∀ a, w.trace.countP (Event.closes a)
    = if (w.heap a).f.isSome && !(w.resident a) then 1 else 0

/-- A request for block 5 of the segment of `demoReq`. -/
def demoReq2 : IOCacheKey :=
  { Tablespace := 1, Database := 1, Relation := 16384, Fork := .main, Block := 131077 }

/-- The advice values of `posix_fadvise(2)`. -/
inductive Advice where
  | normal
  | random
  | sequential
  | willneed
  | dontneed
  | noreuse
  deriving DecidableEq, Repr

/-- The constants `POSIX_FADV_*` of `<fcntl.h>`: an enumeration, not a set of flags. -/
def Advice.code : Advice → Nat
  | .normal => 0
  | .random => 1
  | .sequential => 2
  | .willneed => 3
  | .dontneed => 4
  | .noreuse => 5

/-- The advice the kernel reads in the `advice` argument of `posix_fadvise`: the one whose
constant the argument equals; any other value is rejected (`EINVAL`). -/
def adviceOf (v : Nat) : Option Advice :=
  [Advice.normal, .random, .sequential, .willneed, .dontneed, .noreuse].find?
    (fun a => decide (a.code = v))

/-- `errors.Cause`: the error at the bottom of a chain of wraps. -/
def Err.Cause : Err → Err
  | .cause msg => .cause msg
  | .wrap err _ => err.Cause
  | .wrapf err _ _ => err.Cause

/-- Program points at which the goroutine holds a read lock of its entry. -/
def Pc.holdsRead : Pc → Bool
  | .check _ | .runlock _ | .gaugeLock _ | .gaugeInc _ | .gaugeUnlock _ | .advise _
  | .deferLock _ | .deferDec _ | .deferUnlock _ | .release _ => true
  | _ => false

/-- Program points at which the goroutine holds the exclusive lock of its entry. -/
def Pc.holdsWrite : Pc → Bool
  | .recheck _ | .unlockRetry _ | .open_ _ | .warn _ _ | .unlockFail _ _ | .assign _ _
  | .unlockOpened _ => true
  | _ => false

/-- Program points at which the goroutine holds `numConcurrentReadLock`. -/
def Pc.holdsGauge : Pc → Bool
  | .gaugeInc _ | .gaugeUnlock _ | .deferDec _ | .deferUnlock _ => true
  | _ => false

/-- The program point between a successful open and the assignment of its result. -/
def Pc.isAssign : Pc → Bool
  | .assign _ _ => true
  | _ => false

/-- Program points a goroutine reaches only after it has seen or set the descriptor (a
goroutine that returned an error apart, which an episode does not have). -/
def Pc.sawFile : Pc → Bool
  | .unlockRetry _ | .unlockOpened _ | .gaugeLock _ | .gaugeInc _ | .gaugeUnlock _
  | .advise _ | .deferLock _ | .deferDec _ | .deferUnlock _ | .release _ | .ret _ => true
  | _ => false

/-- Program points a goroutine is at only while the descriptor is nil. -/
def Pc.sawNone : Pc → Bool
  | .open_ _ | .assign _ _ => true
  | _ => false

/-- Program points outside an episode on the entry at `a` whose open yields `fd`:
another entry, a failed open, another descriptor, a returned error. -/
def Pc.off (a fd : Nat) : Pc → Bool
  | .start => false
  | .rlock v | .check v | .runlock v | .lock v | .recheck v | .unlockRetry v | .open_ v
  | .unlockOpened v | .gaugeLock v | .gaugeInc v | .gaugeUnlock v | .advise v
  | .deferLock v | .deferDec v | .deferUnlock v | .release v => decide (v ≠ a)
  | .assign v f => decide (v ≠ a) || decide (f ≠ some fd)
  | .warn _ _ | .unlockFail _ _ => true
  | .ret e => e.isSome

/-- A bound on the steps a goroutine still takes, given whether the descriptor of its
entry is set. -/
def Pc.rank (fset : Bool) : Pc → Nat
  | .ret _ => 0
  | .release _ => 1
  | .deferUnlock _ => 2
  | .deferDec _ => 3
  | .deferLock _ => 4
  | .advise _ => 5
  | .gaugeUnlock _ => 6
  | .gaugeInc _ => 7
  | .gaugeLock _ => 8
  | .check _ => if fset then 9 else 17
  | .rlock _ => if fset then 10 else 18
  | .unlockRetry _ => 11
  | .unlockOpened _ => 11
  | .assign _ _ => 12
  | .open_ _ => 13
  | .recheck _ => if fset then 12 else 14
  | .lock _ => if fset then 13 else 15
  | .runlock _ => if fset then 14 else 16
  | .warn _ _ => 2
  | .unlockFail _ _ => 1
  | .start => 19

/-- The sum of the bounds of the goroutines. -/
def budget (a : Nat) (goroutines : List Pc) (w : World) : Nat :=
  (goroutines.map (Pc.rank (w.heap a).f.isSome)).sum

/-- What holds of the goroutines and the world throughout an episode: `N` goroutines
call `PrefaultPage` with the key of the entry at `a`, the cache being cold in `w0`, and
the open of its file yields `fd`. -/
structure Episode (cfg : FHCacheConfig) (key : _Key) (a fd : Nat) (w0 : World)
    (goroutines : List Pc) (w : World) : Prop where
  resident : lookup w.c key = some ⟨key, .ptrValue a, cfg.TTL⟩
  entryKey : (w.heap a).key = key
  off : goroutines.countP (Pc.off a fd) = 0
  readers : (w.heap a).lock.readers = goroutines.countP Pc.holdsRead
  writer : goroutines.countP Pc.holdsWrite = if (w.heap a).lock.writer then 1 else 0
  gauge : goroutines.countP Pc.holdsGauge = if w.numConcurrentReadLock then 1 else 0
  file : (w.heap a).f = none ∨ (w.heap a).f = some fd
  sawFile : (w.heap a).f = none → goroutines.countP Pc.sawFile = 0
  sawNone : (w.heap a).f = some fd → goroutines.countP Pc.sawNone = 0
  opens : (w.trace.filter Event.isOpen).length = (w0.trace.filter Event.isOpen).length +
    (if (w.heap a).f = none ∧ goroutines.countP Pc.isAssign = 0 then 0 else 1)
  count : w.openFDCount =
    if (w.heap a).f = none ∧ goroutines.countP Pc.isAssign = 0 then w0.openFDCount
    else (w0.openFDCount + 1) % 2 ^ 64

/-- What a step of the goroutine at `pc`, between the goroutines `l1` and `l2`, must
result in during an episode: it keeps the episode and uses up budget, or it waits; it
does not panic. -/
def StepOk (cfg : FHCacheConfig) (key : _Key) (a fd : Nat) (w0 : World) (l1 l2 : List Pc)
    (pc : Pc) (w : World) (r : Res Pc) : Prop :=
  match r with
  | .done pc1 w1 => Episode cfg key a fd w0 (l1 ++ pc1 :: l2) w1 ∧
      budget a (l1 ++ pc1 :: l2) w1 < budget a (l1 ++ pc :: l2) w
  | .blocked => True
  | .panic _ => False
  | .spin => False

/-- What holds throughout the run of goroutines that call `PrefaultPage` with one key on
a cache cold in `w0`: either none has called `Get` yet, or the episode on the entry the
first `Get` allocates is under way. -/
def Racing (cfg : FHCacheConfig) (key : _Key) (fd : Nat) (w0 : World) (goroutines : List Pc)
    (w : World) : Prop :=
  (w = w0 ∧ ∀ pc ∈ goroutines, pc = .start) ∨ Episode cfg key w0.next fd w0 goroutines w

/-- Whether the call at a program point waits in the world `w`: for a lock that is held,
or because the goroutine has returned. -/
def Pc.waits (w : World) : Pc → Bool
  | .rlock v => (w.heap v).lock.writer
  | .lock v => (w.heap v).lock.writer || decide (0 < (w.heap v).lock.readers)
  | .gaugeLock _ | .deferLock _ => w.numConcurrentReadLock
  | .ret _ => true
  | _ => false

/-- A goroutine on its own takes `n` steps. -/
def solo (pg : PgConsts) (cfg : FHCacheConfig) (env : Env) (ioCacheKey : IOCacheKey) :
    Nat → Pc → M Pc
  | 0, pc => fun w => .done pc w
  | n + 1, pc => fun w =>
    match pc.step pg cfg env ioCacheKey w with
    | .done pc1 w1 => solo pg cfg env ioCacheKey n pc1 w1
    | .blocked => .blocked
    | .panic p => .panic p
    | .spin => .spin

/-- The world a cold `getLocked` of the demo request leaves: entry 0 is resident, its
descriptor is 7 and the caller holds its read lock. -/
def demoOpened : World := World.new.coldOpened demoCfg demoEnv demoKey 7

/-! ## Lemmas on the embedding -/

@[simp] theorem M.bind_run {α β : Type} (m : M α) (f : α → M β) (w : World) :
    (m >>= f) w = match m w with
      | .done a w1 => f a w1
      | .blocked => .blocked
      | .panic p => .panic p
      | .spin => .spin := rfl

@[simp] theorem M.pure_run {α : Type} (a : α) (w : World) :
    (pure a : M α) w = .done a w := rfl

/-- One iteration of the loop of `getLocked`. -/
theorem getLockedLoop_succ (cfg : FHCacheConfig) (env : Env) (key : _Key) (a fuel : Nat)
    (w : World) :
    getLockedLoop cfg env key a (fuel + 1) w =
      loopBody cfg env key a (getLockedLoop cfg env key a fuel) w := by
  unfold loopBody
  rcases hv : w.heap a with ⟨k, ⟨r, wr⟩, f⟩
  cases wr
  · cases f
    · rcases Nat.eq_zero_or_pos r with hr | hr
      · subst hr
        cases ho : env.osOpen (k.Filename env cfg.PGDataPath)
        · simp [getLockedLoop, _Value.RLock, _Value.RUnlock, _Value.Lock, _Value.Unlock,
            onGuard, RWMutex.RLock, RWMutex.RUnlock, RWMutex.Lock, RWMutex.Unlock,
            _Value.getF, _Value.setF, _Value.open_, emit, getWorld, hv, ho, World.withGuard]
          rfl
        · simp [getLockedLoop, _Value.RLock, _Value.RUnlock, _Value.Lock, _Value.Unlock,
            onGuard, RWMutex.RLock, RWMutex.RUnlock, RWMutex.Lock, RWMutex.Unlock,
            _Value.getF, _Value.setF, _Value.open_, emit, getWorld, hv, ho, World.opened]
      · simp [getLockedLoop, _Value.RLock, _Value.RUnlock, _Value.Lock, _Value.Unlock,
          onGuard, RWMutex.RLock, RWMutex.RUnlock, RWMutex.Lock, RWMutex.Unlock,
          _Value.getF, hv, hr]
    · simp [getLockedLoop, _Value.RLock, onGuard, RWMutex.RLock, _Value.getF, hv,
        World.withGuard]
      rfl
  · simp [getLockedLoop, _Value.RLock, onGuard, RWMutex.RLock, hv]

/-- The second iteration, entered after a successful open, takes the read lock and
returns. -/
theorem getLockedLoop_opened (cfg : FHCacheConfig) (env : Env) (key : _Key) (a fuel fd : Nat)
    (w : World) (hw : (w.heap a).lock.writer = false) (hr : (w.heap a).lock.readers = 0) :
    getLockedLoop cfg env key a (fuel + 1) (w.opened cfg env a fd) =
      .done (some a, none) ((w.opened cfg env a fd).withGuard a ⟨1, false⟩ [.RLock a]) := by
  rw [getLockedLoop_succ]
  simp [loopBody, World.opened, hw, hr]

/-- What a returning iteration has done. -/
theorem loopBody_done {cfg : FHCacheConfig} {env : Env} {key : _Key} {a : Nat}
    {rest : World → Res (Option Nat × Option Err)} {w w1 : World}
    {r : Option Nat × Option Err} (h : loopBody cfg env key a rest w = .done r w1) :
    (w.heap a).lock.writer = false ∧
    ((∃ fd, (w.heap a).f = some fd ∧ r = (some a, none) ∧
        w1 = w.withGuard a ⟨(w.heap a).lock.readers + 1, false⟩ [.RLock a]) ∨
     (∃ e, (w.heap a).f = none ∧ (w.heap a).lock.readers = 0 ∧
        env.osOpen ((w.heap a).key.Filename env cfg.PGDataPath) = .error e ∧
        r = (none, some (.wrapf e "unable to re-open file: %+v" (w.heap a).key)) ∧
        w1 = w.withGuard a (w.heap a).lock [.RLock a, .RUnlock a, .Lock a,
          .osOpen a ((w.heap a).key.Filename env cfg.PGDataPath) none,
          .warn "unable to open relation file" key, .Unlock a]) ∨
     (∃ fd, (w.heap a).f = none ∧ (w.heap a).lock.readers = 0 ∧
        env.osOpen ((w.heap a).key.Filename env cfg.PGDataPath) = .ok fd ∧
        rest (w.opened cfg env a fd) = .done r w1)) := by
  unfold loopBody at h
  cases hwr : (w.heap a).lock.writer with
  | true => simp [hwr] at h
  | false =>
    refine ⟨rfl, ?_⟩
    simp only [hwr, Bool.false_eq_true, if_false] at h
    cases hf : (w.heap a).f with
    | some fd =>
      simp only [hf, Res.done.injEq] at h
      exact Or.inl ⟨fd, rfl, h.1.symm, h.2.symm⟩
    | none =>
      simp only [hf] at h
      by_cases hr : 0 < (w.heap a).lock.readers
      · simp [hr] at h
      · simp only [hr, if_false] at h
        have hr0 : (w.heap a).lock.readers = 0 := by omega
        cases ho : env.osOpen ((w.heap a).key.Filename env cfg.PGDataPath) with
        | error e =>
          simp only [ho, Res.done.injEq] at h
          exact Or.inr (Or.inl ⟨e, rfl, hr0, rfl, h.1.symm, h.2.symm⟩)
        | ok fd =>
          simp only [ho] at h
          exact Or.inr (Or.inr ⟨fd, rfl, hr0, rfl, h⟩)

/-- The three ways the loop of `getLocked` returns: the descriptor is there, the open
fails, or the open succeeds and the second iteration takes the read lock. -/
theorem getLockedLoop_done {cfg : FHCacheConfig} {env : Env} {key : _Key} {a fuel : Nat}
    {w w1 : World} {r : Option Nat × Option Err}
    (h : getLockedLoop cfg env key a fuel w = .done r w1) :
    (w.heap a).lock.writer = false ∧
    ((∃ fd, (w.heap a).f = some fd ∧ r = (some a, none) ∧
        w1 = w.withGuard a ⟨(w.heap a).lock.readers + 1, false⟩ [.RLock a]) ∨
     (∃ e, (w.heap a).f = none ∧ (w.heap a).lock.readers = 0 ∧
        env.osOpen ((w.heap a).key.Filename env cfg.PGDataPath) = .error e ∧
        r = (none, some (.wrapf e "unable to re-open file: %+v" (w.heap a).key)) ∧
        w1 = w.withGuard a (w.heap a).lock [.RLock a, .RUnlock a, .Lock a,
          .osOpen a ((w.heap a).key.Filename env cfg.PGDataPath) none,
          .warn "unable to open relation file" key, .Unlock a]) ∨
     (∃ fd, (w.heap a).f = none ∧ (w.heap a).lock.readers = 0 ∧
        env.osOpen ((w.heap a).key.Filename env cfg.PGDataPath) = .ok fd ∧
        r = (some a, none) ∧
        w1 = (w.opened cfg env a fd).withGuard a ⟨1, false⟩ [.RLock a])) := by
  cases fuel with
  | zero => cases h
  | succ n =>
    rw [getLockedLoop_succ] at h
    obtain ⟨hw, hcase⟩ := loopBody_done h
    refine ⟨hw, ?_⟩
    rcases hcase with hA | hB | ⟨fd, hf, hr, ho, hrest⟩
    · exact Or.inl hA
    · exact Or.inr (Or.inl hB)
    · cases n with
      | zero => cases hrest
      | succ m =>
        rw [getLockedLoop_opened cfg env key a m fd w hw hr] at hrest
        simp only [Res.done.injEq] at hrest
        exact Or.inr (Or.inr ⟨fd, hf, hr, ho, hrest.1.symm, hrest.2.symm⟩)

theorem CacheStep.refl (w : World) : CacheStep w w :=
  ⟨rfl, rfl, fun _ h => h, rfl, rfl, rfl, rfl, rfl, rfl, [], by simp, by simp⟩

theorem _Value.close_eq (a : Nat) (w : World) : _Value.close a w = .done () (w.closed a) := by
  unfold _Value.close World.closed
  cases (w.heap a).f <;> rfl

theorem World.closed_step (w : World) (a : Nat) : CacheStep w (w.closed a) := by
  unfold World.closed
  cases hf : (w.heap a).f with
  | none => exact CacheStep.refl w
  | some fd =>
    exact ⟨rfl, rfl, fun _ h => h, rfl, rfl, rfl, rfl, rfl, rfl, [.osClose a fd], rfl,
      by simp [Event.internal]⟩

theorem Cache.evict_eq (k : _Key) (w : World) :
    Cache.evict k w = match lookup w.c k with
      | none => .done () w
      | some it => match it.value with
        | .ptrValue a => .done () (World.closed { w with c := remove w.c k } a)
        | _ => .panic ⟨"bad, evicting something not a file handle", []⟩ := by
  unfold Cache.evict
  cases lookup w.c k with
  | none => rfl
  | some it =>
    rcases it with ⟨ik, iv, ie⟩
    cases iv <;> simp [setItems, EvictedFunc, _Value.close_eq, M.panic]

theorem remove_subset (c : List Item) (k : _Key) : ∀ it ∈ remove c k, it ∈ c := by
  intro it h
  exact (List.mem_filter.mp h).1

theorem Cache.evict_step {k : _Key} {w w1 : World} (h : Cache.evict k w = .done () w1) :
    CacheStep w w1 := by
  rw [Cache.evict_eq] at h
  cases hl : lookup w.c k with
  | none =>
    rw [hl] at h
    cases h
    exact CacheStep.refl w
  | some it =>
    rw [hl] at h
    rcases it with ⟨ik, iv, ie⟩
    cases iv with
    | ptrValue a =>
      simp only [Res.done.injEq, true_and] at h
      subst h
      have h2 := World.closed_step { w with c := remove w.c k } a
      exact ⟨h2.heap, h2.next, fun it hit => remove_subset w.c k it (h2.items it hit),
        h2.openFDCount, h2.purgeLock, h2.openLock, h2.closeLock, h2.numConcurrentReadLock,
        h2.numConcurrentReads, h2.trace⟩
    | key _ => simp at h
    | other _ => simp at h

theorem Cache.makeRoom_step {cfg : FHCacheConfig} {env : Env} {w w1 : World}
    (h : Cache.makeRoom cfg env w = .done () w1) : CacheStep w w1 := by
  unfold Cache.makeRoom at h
  split at h
  · split at h
    · exact Cache.evict_step h
    · cases h
      exact CacheStep.refl w
  · cases h
    exact CacheStep.refl w

theorem Cache.load_eq (cfg : FHCacheConfig) (env : Env) (key : _Key) (w : World) :
    Cache.load cfg env key w = match Cache.makeRoom cfg env (w.alloc key) with
      | .done _ w2 => .done (some (.ptrValue w.next), none)
          { w2 with c := ⟨key, .ptrValue w.next, cfg.TTL⟩ :: w2.c }
      | .blocked => .blocked
      | .panic p => .panic p
      | .spin => .spin := by
  simp only [Cache.load, LoaderExpireFunc, M.bind_run, World.alloc]
  cases Cache.makeRoom cfg env _ <;> rfl

theorem Cache.Get_eq (cfg : FHCacheConfig) (env : Env) (key : _Key) (w : World) :
    Cache.Get cfg env key w = match env.cacheErr key with
      | some e => .done (none, some e) (w.log [.cacheGet key])
      | none => match lookup w.c key with
        | some it =>
          if env.expired key then
            match Cache.evict key (w.log [.cacheGet key]) with
            | .done _ w1 => Cache.load cfg env key w1
            | .blocked => .blocked
            | .panic p => .panic p
            | .spin => .spin
          else .done (some it.value, none) (w.log [.cacheGet key])
        | none => Cache.load cfg env key (w.log [.cacheGet key]) := by
  cases hce : env.cacheErr key with
  | some e =>
    simp [Cache.Get, emit, hce, World.log]
    rfl
  | none =>
    cases hl : lookup w.c key with
    | none => simp [Cache.Get, emit, getWorld, hce, hl, World.log]
    | some it =>
      cases hx : env.expired key
      · simp [Cache.Get, emit, getWorld, hce, hl, hx, World.log]
        rfl
      · simp [Cache.Get, emit, getWorld, hce, hl, hx, World.log]
        cases Cache.evict key _ <;> rfl

theorem lookup_cons_self (it : Item) (c : List Item) : lookup (it :: c) it.key = some it := by
  simp [lookup]

theorem Cache.load_done {cfg : FHCacheConfig} {env : Env} {key : _Key} {w w1 : World}
    {r : Option Iface × Option Err} (h : Cache.load cfg env key w = .done r w1) :
    r = (some (.ptrValue w.next), none) ∧ Loaded cfg key w w1 := by
  rw [Cache.load_eq] at h
  cases hm : Cache.makeRoom cfg env (w.alloc key) with
  | done u w2 =>
    rw [hm] at h
    simp only [Res.done.injEq] at h
    obtain ⟨hr, hw⟩ := h
    have st := Cache.makeRoom_step hm
    obtain ⟨es, hes, hint⟩ := st.trace
    subst hw
    refine ⟨hr.symm, ?_, ?_, ?_, ?_, st.openFDCount, st.purgeLock, st.openLock, st.closeLock,
      st.numConcurrentReadLock, st.numConcurrentReads, ?_⟩
    · exact st.heap
    · exact st.next
    · exact lookup_cons_self ⟨key, .ptrValue w.next, cfg.TTL⟩ w2.c
    · intro it hit
      rcases List.mem_cons.mp hit with h1 | h1
      · exact Or.inl h1
      · exact Or.inr (st.items it h1)
    · refine ⟨.loader key w.next :: es, ?_, ?_⟩
      · show w2.trace = _
        rw [hes]
        simp [World.alloc]
      · intro e he
        rcases List.mem_cons.mp he with h1 | h1
        · subst h1
          rfl
        · exact hint e h1
  | blocked => rw [hm] at h; cases h
  | panic p => rw [hm] at h; cases h
  | spin => rw [hm] at h; cases h

/-- The three ways `Cache.Get` returns. -/
theorem Cache.Get_done {cfg : FHCacheConfig} {env : Env} {key : _Key} {w w1 : World}
    {r : Option Iface × Option Err} (h : Cache.Get cfg env key w = .done r w1) :
    (∃ e, env.cacheErr key = some e ∧ r = (none, some e) ∧ w1 = w.log [.cacheGet key]) ∨
    (∃ it, env.cacheErr key = none ∧ lookup w.c key = some it ∧ env.expired key = false ∧
      r = (some it.value, none) ∧ w1 = w.log [.cacheGet key]) ∨
    (∃ w0, env.cacheErr key = none ∧ r = (some (.ptrValue w.next), none) ∧
      CacheStep (w.log [.cacheGet key]) w0 ∧ Loaded cfg key w0 w1) := by
  rw [Cache.Get_eq] at h
  cases hce : env.cacheErr key with
  | some e =>
    rw [hce] at h
    simp only [Res.done.injEq] at h
    exact Or.inl ⟨e, rfl, h.1.symm, h.2.symm⟩
  | none =>
    rw [hce] at h
    simp only [] at h
    cases hl : lookup w.c key with
    | none =>
      rw [hl] at h
      have := Cache.load_done h
      exact Or.inr (Or.inr ⟨_, rfl, this.1, CacheStep.refl _, this.2⟩)
    | some it =>
      rw [hl] at h
      simp only [] at h
      cases hx : env.expired key
      · rw [hx] at h
        simp only [Bool.false_eq_true, if_false, Res.done.injEq] at h
        exact Or.inr (Or.inl ⟨it, rfl, rfl, rfl, h.1.symm, h.2.symm⟩)
      · rw [hx] at h
        simp only [if_true] at h
        cases he : Cache.evict key (w.log [.cacheGet key]) with
        | done u w0 =>
          rw [he] at h
          have st := Cache.evict_step he
          have := Cache.load_done h
          refine Or.inr (Or.inr ⟨w0, rfl, ?_, st, this.2⟩)
          rw [this.1, st.next]
          rfl
        | blocked => rw [he] at h; cases h
        | panic p => rw [he] at h; cases h
        | spin => rw [he] at h; cases h

/-- The two ways `getLocked` returns: the cache lookup failed, or the lookup gave an entry
and the loop returned. -/
theorem getLocked_done {pg : PgConsts} {cfg : FHCacheConfig} {env : Env} {fuel : Nat}
    {ioReq : IOCacheKey} {w w1 : World} {r : Option Nat × Option Err}
    (h : getLocked pg cfg env fuel ioReq w = .done r w1) :
    (∃ e, env.cacheErr (_NewKey pg ioReq) = some e ∧
      r = (none, some (.wrap e "unable to open cache file")) ∧
      w1 = w.log [.cacheGet (_NewKey pg ioReq)]) ∨
    (∃ a w0, Cache.Get cfg env (_NewKey pg ioReq) w = .done (some (.ptrValue a), none) w0 ∧
      getLockedLoop cfg env (_NewKey pg ioReq) a fuel w0 = .done r w1) := by
  simp only [getLocked, M.bind_run] at h
  cases hg : Cache.Get cfg env (_NewKey pg ioReq) w with
  | done rg w0 =>
    rw [hg] at h
    obtain ⟨v, err⟩ := rg
    cases err with
    | some e =>
      replace h : Res.done (none, some (Err.wrap e "unable to open cache file")) w0
          = Res.done r w1 := h
      simp only [Res.done.injEq] at h
      rcases Cache.Get_done hg with ⟨e1, hce, hr, hw⟩ | ⟨it, _, _, _, hr, _⟩ | ⟨w2, _, hr, _⟩
      · simp only [Prod.mk.injEq, Option.some.injEq] at hr
        obtain ⟨_, rfl⟩ := hr
        exact Or.inl ⟨e, hce, h.1.symm, by rw [← h.2, hw]⟩
      · simp at hr
      · simp at hr
    | none =>
      simp only [] at h
      cases v with
      | none => cases h
      | some i =>
        cases i with
        | ptrValue a => exact Or.inr ⟨a, w0, rfl, h⟩
        | key k => cases h
        | other t => cases h
  | blocked => rw [hg] at h; cases h
  | panic p => rw [hg] at h; cases h
  | spin => rw [hg] at h; cases h

@[simp] theorem World.withGuard_heap_same (w : World) (a : Nat) (m : RWMutex)
    (es : List Event) : (w.withGuard a m es).heap a = { w.heap a with lock := m } := by
  simp [World.withGuard]

@[simp] theorem World.withGuard_next (w : World) (a : Nat) (m : RWMutex) (es : List Event) :
    (w.withGuard a m es).next = w.next := rfl

@[simp] theorem World.withGuard_c (w : World) (a : Nat) (m : RWMutex) (es : List Event) :
    (w.withGuard a m es).c = w.c := rfl

@[simp] theorem World.opened_heap_same (cfg : FHCacheConfig) (env : Env) (w : World)
    (a fd : Nat) : (w.opened cfg env a fd).heap a = { w.heap a with f := some fd } := by
  simp [World.opened]

@[simp] theorem World.opened_next (cfg : FHCacheConfig) (env : Env) (w : World) (a fd : Nat) :
    (w.opened cfg env a fd).next = w.next := rfl

@[simp] theorem World.opened_c (cfg : FHCacheConfig) (env : Env) (w : World) (a fd : Nat) :
    (w.opened cfg env a fd).c = w.c := rfl

theorem lookup_mem {c : List Item} {k : _Key} {it : Item} (h : lookup c k = some it) :
    it ∈ c ∧ it.key = k := by
  unfold lookup at h
  have h1 := List.mem_of_find?_eq_some h
  have h2 := List.find?_some h
  exact ⟨h1, by simpa using h2⟩

/-- After a returning `Cache.Get` that gave the entry at `a`: the entry is allocated and
its guard is what it was before the call (a new guard for a new entry). -/
theorem Cache.Get_guard {cfg : FHCacheConfig} {env : Env} {key : _Key} {w w0 : World}
    {a : Nat} (hwf : w.WF)
    (h : Cache.Get cfg env key w = .done (some (.ptrValue a), none) w0) :
    a < w0.next ∧ (w0.heap a).lock = w.guard a ∧ w.next ≤ w0.next ∧
      ∀ b, w0.guard b = w.guard b := by
  rcases Cache.Get_done h with ⟨e, _, hr, _⟩ | ⟨it, _, hl, _, hr, hw⟩ | ⟨w2, _, hr, st, ld⟩
  · simp at hr
  · simp only [Prod.mk.injEq, Option.some.injEq, and_true] at hr
    have ha := hwf it (lookup_mem hl).1 a hr.symm
    subst hw
    simp [World.log, World.guard, ha]
  · simp only [Prod.mk.injEq, Option.some.injEq, Iface.ptrValue.injEq, and_true] at hr
    subst hr
    have hn : w2.next = w.next := st.next
    have hh : w2.heap = w.heap := st.heap
    refine ⟨?_, ?_, ?_, ?_⟩
    · rw [ld.next, hn]; omega
    · rw [ld.heap, hn]
      simp [World.guard]
    · rw [ld.next, hn]; omega
    · intro b
      unfold World.guard
      rw [ld.next, ld.heap, hn, hh]
      by_cases hb : b < w.next
      · have : b ≠ w.next := by omega
        have hb2 : b < w.next + 1 := by omega
        simp [hb, hb2, Function.update_noteq this]
      · by_cases hb3 : b = w.next
        · subst hb3
          simp
        · have hb4 : ¬ b < w.next + 1 := by omega
          simp [hb, hb4]

theorem World.new_WF : World.new.WF := by
  intro it hit
  cases hit

theorem getLocked_eq (pg : PgConsts) (cfg : FHCacheConfig) (env : Env) (fuel : Nat)
    (ioReq : IOCacheKey) (w : World) :
    getLocked pg cfg env fuel ioReq w =
      match Cache.Get cfg env (_NewKey pg ioReq) w with
      | .done (_, some err) w0 => .done (none, some (.wrap err "unable to open cache file")) w0
      | .done (some (.ptrValue value), none) w0 =>
        getLockedLoop cfg env (_NewKey pg ioReq) value fuel w0
      | .done (_, none) _ => .panic ⟨"unable to type assert file handle in IO Cache", []⟩
      | .blocked => .blocked
      | .panic p => .panic p
      | .spin => .spin := by
  simp only [getLocked, M.bind_run]
  cases Cache.Get cfg env (_NewKey pg ioReq) w with
  | done rg w0 =>
    obtain ⟨v, err⟩ := rg
    cases v with
    | none => cases err <;> rfl
    | some i => cases i <;> cases err <;> rfl
  | blocked => rfl
  | panic p => rfl
  | spin => rfl

/-- A miss below capacity. -/
theorem Cache.Get_miss (cfg : FHCacheConfig) (env : Env) (key : _Key) (w : World)
    (hce : env.cacheErr key = none) (hl : lookup w.c key = none)
    (hsz : w.c.length < cfg.Size) :
    Cache.Get cfg env key w = .done (some (.ptrValue w.next), none) (w.missed cfg key) := by
  rw [Cache.Get_eq, hce, hl]
  simp only []
  rw [Cache.load_eq]
  have : ¬ cfg.Size ≤ ((w.log [.cacheGet key]).alloc key).c.length := by
    show ¬ cfg.Size ≤ w.c.length
    omega
  simp only [Cache.makeRoom, this, if_false]
  rfl

/-- A hit on an entry that has not expired. -/
theorem Cache.Get_hit (cfg : FHCacheConfig) (env : Env) (key : _Key) (w : World) (it : Item)
    (hce : env.cacheErr key = none) (hl : lookup w.c key = some it)
    (hx : env.expired key = false) :
    Cache.Get cfg env key w = .done (some it.value, none) (w.log [.cacheGet key]) := by
  rw [Cache.Get_eq, hce, hl]
  simp [hx]

@[simp] theorem World.missed_heap_next (cfg : FHCacheConfig) (w : World) (key : _Key) :
    (w.missed cfg key).heap w.next = { key := key, lock := RWMutex.new, f := none } := by
  simp [World.missed, World.stored, World.alloc, World.log]

/-- A cold `getLocked` whose open succeeds: two iterations. -/
theorem getLocked_cold (pg : PgConsts) (cfg : FHCacheConfig) (env : Env) (fuel : Nat)
    (ioReq : IOCacheKey) (w : World) (fd : Nat)
    (hce : env.cacheErr (_NewKey pg ioReq) = none) (hl : lookup w.c (_NewKey pg ioReq) = none)
    (hsz : w.c.length < cfg.Size)
    (ho : env.osOpen ((_NewKey pg ioReq).Filename env cfg.PGDataPath) = .ok fd) :
    getLocked pg cfg env (fuel + 2) ioReq w =
      .done (some w.next, none) (w.coldOpened cfg env (_NewKey pg ioReq) fd) := by
  rw [getLocked_eq, Cache.Get_miss cfg env _ w hce hl hsz]
  simp only []
  rw [getLockedLoop_succ]
  simp only [loopBody, World.missed_heap_next, RWMutex.new, Bool.false_eq_true, if_false,
    Nat.lt_irrefl, ho]
  rw [getLockedLoop_opened cfg env _ _ _ _ _ (by simp [RWMutex.new]) (by simp [RWMutex.new])]
  rfl

/-- A cold `getLocked` whose open fails. -/
theorem getLocked_cold_fail (pg : PgConsts) (cfg : FHCacheConfig) (env : Env) (fuel : Nat)
    (ioReq : IOCacheKey) (w : World) (e : Err)
    (hce : env.cacheErr (_NewKey pg ioReq) = none) (hl : lookup w.c (_NewKey pg ioReq) = none)
    (hsz : w.c.length < cfg.Size)
    (ho : env.osOpen ((_NewKey pg ioReq).Filename env cfg.PGDataPath) = .error e) :
    getLocked pg cfg env (fuel + 1) ioReq w =
      .done (none, some (.wrapf e "unable to re-open file: %+v" (_NewKey pg ioReq)))
        (w.coldFailed cfg env (_NewKey pg ioReq)) := by
  rw [getLocked_eq, Cache.Get_miss cfg env _ w hce hl hsz]
  simp only []
  rw [getLockedLoop_succ]
  simp only [loopBody, World.missed_heap_next, RWMutex.new, Bool.false_eq_true, if_false,
    Nat.lt_irrefl, ho]
  rfl

/-- No returning `Cache.Get` changes a guard: resident entries keep theirs, and a new
entry gets a free one. -/
theorem Cache.Get_guards {cfg : FHCacheConfig} {env : Env} {key : _Key} {w w0 : World}
    {r : Option Iface × Option Err} (h : Cache.Get cfg env key w = .done r w0) :
    ∀ b, w0.guard b = w.guard b := by
  rcases Cache.Get_done h with ⟨e, _, _, hw⟩ | ⟨it, _, _, _, _, hw⟩ | ⟨w2, _, _, st, ld⟩
  · subst hw
    intro b
    rfl
  · subst hw
    intro b
    rfl
  · have hn : w2.next = w.next := st.next
    have hh : w2.heap = w.heap := st.heap
    intro b
    unfold World.guard
    rw [ld.next, ld.heap, hn, hh]
    by_cases hb : b < w.next
    · have : b ≠ w.next := by omega
      have hb2 : b < w.next + 1 := by omega
      simp [hb, hb2, Function.update_noteq this]
    · by_cases hb3 : b = w.next
      · subst hb3
        simp
      · have hb4 : ¬ b < w.next + 1 := by omega
        simp [hb, hb4]

theorem World.withGuard_guard_self (w : World) (a : Nat) (es : List Event) (b : Nat) :
    (w.withGuard a (w.heap a).lock es).guard b = w.guard b := by
  unfold World.guard World.withGuard
  by_cases hb : b = a
  · subst hb
    simp
  · simp [Function.update_noteq hb]

theorem PrefaultPage_eq (pg : PgConsts) (cfg : FHCacheConfig) (env : Env) (fuel : Nat)
    (ioCacheKey : IOCacheKey) (w : World) :
    PrefaultPage pg cfg env fuel ioCacheKey w =
      match getLocked pg cfg env fuel ioCacheKey w with
      | .done (_, some err) w0 => .done (some (.wrap err "unable to obtain file handle")) w0
      | .done (none, none) _ =>
        .panic ⟨"invalid memory address or nil pointer dereference", []⟩
      | .done (some a, none) w0 =>
        if w0.numConcurrentReadLock then .blocked
        else if (w0.heap a).lock.readers = 0 then
          .panic ⟨"sync: RUnlock of unlocked RWMutex", []⟩
        else .done none (w0.prefaulted pg env a ioCacheKey.Block)
      | .blocked => .blocked
      | .panic p => .panic p
      | .spin => .spin := by
  simp only [PrefaultPage, M.bind_run]
  cases getLocked pg cfg env fuel ioCacheKey w with
  | done rg w0 =>
    obtain ⟨v, err⟩ := rg
    cases v with
    | none => cases err <;> rfl
    | some a =>
      cases err with
      | some e => rfl
      | none =>
        simp only []
        cases hl : w0.numConcurrentReadLock with
        | true => simp [numConcurrentReadLock_Lock, mutexLock, hl]
        | false =>
          by_cases hr : (w0.heap a).lock.readers = 0
          · simp [numConcurrentReadLock_Lock, numConcurrentReadLock_Unlock, mutexLock,
              mutexUnlock, hl, addConcurrentReads, _Value.getF, Fadvise, emit, _Value.RUnlock,
              onGuard, RWMutex.RUnlock, hr]
          · simp [numConcurrentReadLock_Lock, numConcurrentReadLock_Unlock, mutexLock,
              mutexUnlock, hl, addConcurrentReads, _Value.getF, Fadvise, emit, _Value.RUnlock,
              onGuard, RWMutex.RUnlock, hr, World.prefaulted, adviseEvent]
            rfl
  | blocked => rfl
  | panic p => rfl
  | spin => rfl

theorem Event.internal_not_advise {e : Event} (h : e.internal = true) : e.isAdvise = false := by
  cases e <;> simp_all [Event.internal, Event.isAdvise]

theorem Event.internal_not_cacheGet {e : Event} (h : e.internal = true) :
    e.isCacheGet = false := by
  cases e <;> simp_all [Event.internal, Event.isCacheGet]

/-- The events of a returning `Cache.Get`: the lookup, then internal events. -/
theorem Cache.Get_trace {cfg : FHCacheConfig} {env : Env} {key : _Key} {w w0 : World}
    {r : Option Iface × Option Err} (h : Cache.Get cfg env key w = .done r w0) :
    ∃ es, w0.trace = w.trace ++ .cacheGet key :: es ∧ ∀ e ∈ es, e.internal = true := by
  rcases Cache.Get_done h with ⟨e, _, _, hw⟩ | ⟨it, _, _, _, _, hw⟩ | ⟨w2, _, _, st, ld⟩
  · exact ⟨[], by simp [hw, World.log], by simp⟩
  · exact ⟨[], by simp [hw, World.log], by simp⟩
  · obtain ⟨es1, h1, hi1⟩ := st.trace
    obtain ⟨es2, h2, hi2⟩ := ld.trace
    refine ⟨es1 ++ es2, ?_, ?_⟩
    · rw [h2, h1]
      simp [World.log]
    · intro e he
      rcases List.mem_append.mp he with h3 | h3
      · exact hi1 e h3
      · exact hi2 e h3

/-- After a returning `Cache.Get` that gave a value, the value is resident under the
key. -/
theorem Cache.Get_resident {cfg : FHCacheConfig} {env : Env} {key : _Key} {w w0 : World}
    {v : Iface} (h : Cache.Get cfg env key w = .done (some v, none) w0) :
    ∃ it, lookup w0.c key = some it ∧ it.value = v := by
  rcases Cache.Get_done h with ⟨e, _, hr, _⟩ | ⟨it, _, hl, _, hr, hw⟩ | ⟨w2, _, hr, st, ld⟩
  · simp at hr
  · simp only [Prod.mk.injEq, Option.some.injEq, and_true] at hr
    subst hw
    exact ⟨it, hl, hr.symm⟩
  · simp only [Prod.mk.injEq, Option.some.injEq, and_true] at hr
    refine ⟨_, ld.resident, ?_⟩
    rw [hr, st.next]
    rfl

/-- What a `getLocked` that returned an entry leaves behind: the entry is the resident
one of the key, its descriptor is there, and the events of the call are the cache lookup
followed by events that are neither lookups nor advisories. -/
theorem getLocked_ok {pg : PgConsts} {cfg : FHCacheConfig} {env : Env} {fuel : Nat}
    {ioReq : IOCacheKey} {w w1 : World} {a : Nat}
    (h : getLocked pg cfg env fuel ioReq w = .done (some a, none) w1) :
    (∃ it, lookup w1.c (_NewKey pg ioReq) = some it ∧ it.value = .ptrValue a) ∧
    (∃ fd, (w1.heap a).f = some fd) ∧
    (∃ es, w1.trace = w.trace ++ .cacheGet (_NewKey pg ioReq) :: es ∧
      ∀ e ∈ es, e.isCacheGet = false ∧ e.isAdvise = false) := by
  rcases getLocked_done h with ⟨e, _, hr, _⟩ | ⟨a0, w0, hg, hl⟩
  · simp at hr
  · obtain ⟨it, hit, hv⟩ := Cache.Get_resident hg
    obtain ⟨es, htr, hint⟩ := Cache.Get_trace hg
    have hes : ∀ e ∈ es, e.isCacheGet = false ∧ e.isAdvise = false := fun e he =>
      ⟨Event.internal_not_cacheGet (hint e he), Event.internal_not_advise (hint e he)⟩
    obtain ⟨_, hcase⟩ := getLockedLoop_done hl
    rcases hcase with ⟨fd, hf, hr, hw⟩ | ⟨e, _, _, _, hr, _⟩ | ⟨fd, hf, hrd, ho, hr, hw⟩
    · simp only [Prod.mk.injEq, Option.some.injEq, and_true] at hr
      subst hr hw
      refine ⟨⟨it, hit, hv⟩, ⟨fd, by simp [hf]⟩, es ++ [.RLock a], ?_, ?_⟩
      · simp [World.withGuard, htr]
      · intro e he
        rcases List.mem_append.mp he with h3 | h3
        · exact hes e h3
        · simp only [List.mem_singleton] at h3
          subst h3
          exact ⟨rfl, rfl⟩
    · simp at hr
    · simp only [Prod.mk.injEq, Option.some.injEq, and_true] at hr
      subst hr hw
      refine ⟨⟨it, hit, hv⟩, ⟨fd, by simp⟩, es ++ [.RLock a, .RUnlock a, .Lock a,
        .osOpen a ((w0.heap a).key.Filename env cfg.PGDataPath) (some fd), .Unlock a,
        .RLock a], ?_, ?_⟩
      · simp [World.withGuard, World.opened, htr]
      · intro e he
        rcases List.mem_append.mp he with h3 | h3
        · exact hes e h3
        · simp only [List.mem_cons, List.mem_singleton, List.not_mem_nil, or_false] at h3
          rcases h3 with h3 | h3 | h3 | h3 | h3 | h3 <;> subst h3 <;> exact ⟨rfl, rfl⟩

/-- The byte offset and the length passed to `Fadvise` do not wrap when a segment is
smaller than 2^63 bytes. -/
theorem offset_no_wrap (pg : PgConsts) (block : Nat) (hG : 0 < pg.BlocksPerSegment)
    (hGP : pg.BlocksPerSegment * pg.HeapPageSize < 2 ^ 63) :
    toInt64 (toUint64 (HeapSegmentPageNum pg block) * toUint64 pg.HeapPageSize)
      = ((block % pg.BlocksPerSegment * pg.HeapPageSize : Nat) : Int) ∧
    toInt64 pg.HeapPageSize = (pg.HeapPageSize : Int) := by
  have hlt : block % pg.BlocksPerSegment < pg.BlocksPerSegment := Nat.mod_lt _ hG
  have hP : pg.HeapPageSize < 2 ^ 63 :=
    lt_of_le_of_lt (Nat.le_mul_of_pos_left _ hG) hGP
  have hprod : block % pg.BlocksPerSegment * pg.HeapPageSize < 2 ^ 63 :=
    lt_of_le_of_lt (Nat.mul_le_mul_right _ (Nat.le_of_lt hlt)) hGP
  have hP64 : pg.HeapPageSize % 2 ^ 64 = pg.HeapPageSize :=
    Nat.mod_eq_of_lt (by omega)
  constructor
  · unfold toInt64 toUint64 HeapSegmentPageNum
    rw [hP64]
    by_cases hP0 : pg.HeapPageSize = 0
    · simp [hP0]
    · have hG63 : pg.BlocksPerSegment < 2 ^ 63 :=
        lt_of_le_of_lt (Nat.le_mul_of_pos_right _ (Nat.pos_of_ne_zero hP0)) hGP
      have h1 : block % pg.BlocksPerSegment % 2 ^ 64 = block % pg.BlocksPerSegment :=
        Nat.mod_eq_of_lt (by omega)
      rw [h1]
      have h2 : block % pg.BlocksPerSegment * pg.HeapPageSize % 2 ^ 64
          = block % pg.BlocksPerSegment * pg.HeapPageSize := Nat.mod_eq_of_lt (by omega)
      rw [h2, if_pos hprod]
  · unfold toInt64
    rw [hP64, if_pos hP]

@[simp] theorem World.coldOpened_heap_next (cfg : FHCacheConfig) (env : Env) (w : World)
    (key : _Key) (fd : Nat) :
    (w.coldOpened cfg env key fd).heap w.next
      = { key := key, lock := ⟨1, false⟩, f := some fd } := by
  simp [World.coldOpened]

/-- A cold `PrefaultPage` whose open succeeds. -/
theorem PrefaultPage_cold (pg : PgConsts) (cfg : FHCacheConfig) (env : Env) (fuel : Nat)
    (ioReq : IOCacheKey) (w : World) (fd : Nat)
    (hce : env.cacheErr (_NewKey pg ioReq) = none) (hl : lookup w.c (_NewKey pg ioReq) = none)
    (hsz : w.c.length < cfg.Size)
    (ho : env.osOpen ((_NewKey pg ioReq).Filename env cfg.PGDataPath) = .ok fd)
    (hn : w.numConcurrentReadLock = false) :
    PrefaultPage pg cfg env (fuel + 2) ioReq w =
      .done none ((w.coldOpened cfg env (_NewKey pg ioReq) fd).prefaulted pg env w.next
        ioReq.Block) := by
  rw [PrefaultPage_eq, getLocked_cold pg cfg env fuel ioReq w fd hce hl hsz ho]
  have h1 : (w.coldOpened cfg env (_NewKey pg ioReq) fd).numConcurrentReadLock = false := hn
  simp [h1]

/-- A cold `PrefaultPage` whose open fails. -/
theorem PrefaultPage_cold_fail (pg : PgConsts) (cfg : FHCacheConfig) (env : Env) (fuel : Nat)
    (ioReq : IOCacheKey) (w : World) (e : Err)
    (hce : env.cacheErr (_NewKey pg ioReq) = none) (hl : lookup w.c (_NewKey pg ioReq) = none)
    (hsz : w.c.length < cfg.Size)
    (ho : env.osOpen ((_NewKey pg ioReq).Filename env cfg.PGDataPath) = .error e) :
    PrefaultPage pg cfg env (fuel + 1) ioReq w =
      .done (some (.wrap (.wrapf e "unable to re-open file: %+v" (_NewKey pg ioReq))
          "unable to obtain file handle"))
        (w.coldFailed cfg env (_NewKey pg ioReq)) := by
  rw [PrefaultPage_eq, getLocked_cold_fail pg cfg env fuel ioReq w e hce hl hsz ho]

/-- What a returning `PrefaultPage` did after `getLocked`. -/
theorem PrefaultPage_done {pg : PgConsts} {cfg : FHCacheConfig} {env : Env} {fuel : Nat}
    {ioReq : IOCacheKey} {w w1 : World} {r : Option Err}
    (h : PrefaultPage pg cfg env fuel ioReq w = .done r w1) :
    (∃ v e, getLocked pg cfg env fuel ioReq w = .done (v, some e) w1 ∧
      r = some (.wrap e "unable to obtain file handle")) ∨
    (∃ a w0, getLocked pg cfg env fuel ioReq w = .done (some a, none) w0 ∧ r = none ∧
      w0.numConcurrentReadLock = false ∧ (w0.heap a).lock.readers ≠ 0 ∧
      w1 = w0.prefaulted pg env a ioReq.Block) := by
  rw [PrefaultPage_eq] at h
  cases hg : getLocked pg cfg env fuel ioReq w with
  | done rg w0 =>
    rw [hg] at h
    obtain ⟨v, err⟩ := rg
    cases v with
    | none =>
      cases err with
      | none => cases h
      | some e =>
        simp only [Res.done.injEq] at h
        exact Or.inl ⟨none, e, by rw [h.2], h.1.symm⟩
    | some a =>
      cases err with
      | some e =>
        simp only [Res.done.injEq] at h
        exact Or.inl ⟨some a, e, by rw [h.2], h.1.symm⟩
      | none =>
        simp only [] at h
        cases hl : w0.numConcurrentReadLock with
        | true => simp [hl] at h
        | false =>
          by_cases hr : (w0.heap a).lock.readers = 0
          · simp [hl, hr] at h
          · simp only [hl, hr, if_false, Bool.false_eq_true, Res.done.injEq] at h
            exact Or.inr ⟨a, w0, rfl, h.1.symm, hl, hr, h.2.symm⟩
  | blocked => rw [hg] at h; cases h
  | panic p => rw [hg] at h; cases h
  | spin => rw [hg] at h; cases h

theorem filter_advise_nil {es : List Event}
    (h : ∀ e ∈ es, e.isCacheGet = false ∧ e.isAdvise = false) :
    es.filter Event.isAdvise = [] := by
  rw [List.filter_eq_nil_iff]
  intro e he
  simp [(h e he).2]

/-- The loop of `getLocked` does not consult the advisory oracle. -/
theorem getLockedLoop_advice_irrelevant (cfg : FHCacheConfig) (env : Env)
    (adv : Int → Int → Int → Nat → Int) (key : _Key) (a : Nat) :
    ∀ (fuel : Nat) (w : World),
      getLockedLoop cfg { env with posix_fadvise := adv } key a fuel w
        = getLockedLoop cfg env key a fuel w := by
  intro fuel
  induction fuel with
  | zero => intro w; rfl
  | succ n ih =>
    intro w
    rw [getLockedLoop_succ, getLockedLoop_succ]
    have : getLockedLoop cfg { env with posix_fadvise := adv } key a n
        = getLockedLoop cfg env key a n := funext ih
    rw [this]
    rfl

/-- `getLocked` does not consult the advisory oracle. -/
theorem getLocked_advice_irrelevant (pg : PgConsts) (cfg : FHCacheConfig) (env : Env)
    (adv : Int → Int → Int → Nat → Int) (fuel : Nat) (ioReq : IOCacheKey) (w : World) :
    getLocked pg cfg { env with posix_fadvise := adv } fuel ioReq w
      = getLocked pg cfg env fuel ioReq w := by
  rw [getLocked_eq, getLocked_eq]
  have hg : Cache.Get cfg { env with posix_fadvise := adv } (_NewKey pg ioReq) w
      = Cache.Get cfg env (_NewKey pg ioReq) w := rfl
  rw [hg]
  cases Cache.Get cfg env (_NewKey pg ioReq) w with
  | done rg w0 =>
    obtain ⟨v, err⟩ := rg
    cases v with
    | none => cases err <;> rfl
    | some i =>
      cases i <;> cases err <;> first | rfl | exact getLockedLoop_advice_irrelevant _ _ _ _ _ _ _
  | blocked => rfl
  | panic p => rfl
  | spin => rfl

/-- The return code of the advisory reaches nothing but the trace. -/
theorem PrefaultPage_advice_irrelevant (pg : PgConsts) (cfg : FHCacheConfig) (env : Env)
    (adv : Int → Int → Int → Nat → Int) (fuel : Nat) (ioReq : IOCacheKey) (w : World) :
    (PrefaultPage pg cfg { env with posix_fadvise := adv } fuel ioReq w).untraced
      = (PrefaultPage pg cfg env fuel ioReq w).untraced := by
  rw [PrefaultPage_eq, PrefaultPage_eq, getLocked_advice_irrelevant]
  cases getLocked pg cfg env fuel ioReq w with
  | done rg w0 =>
    obtain ⟨v, err⟩ := rg
    cases v with
    | none => cases err <;> rfl
    | some a =>
      cases err with
      | some e => rfl
      | none =>
        simp only []
        cases hl : w0.numConcurrentReadLock with
        | true => rfl
        | false =>
          by_cases hr : (w0.heap a).lock.readers = 0
          · simp [hr]
          · simp [hr, Res.untraced, World.prefaulted]
  | blocked => rfl
  | panic p => rfl
  | spin => rfl

/-- The two reasons for which `getLocked` returns an error. -/
theorem getLocked_error_cause {pg : PgConsts} {cfg : FHCacheConfig} {env : Env} {fuel : Nat}
    {ioReq : IOCacheKey} {w w1 : World} {v : Option Nat} {e : Err}
    (h : getLocked pg cfg env fuel ioReq w = .done (v, some e) w1) :
    (∃ e0, env.cacheErr (_NewKey pg ioReq) = some e0 ∧
      e = .wrap e0 "unable to open cache file") ∨
    (∃ (k : _Key) (e0 : Err), env.osOpen (k.Filename env cfg.PGDataPath) = .error e0 ∧
      e = .wrapf e0 "unable to re-open file: %+v" k) := by
  rcases getLocked_done h with ⟨e1, hce, hr, _⟩ | ⟨a, w0, _, hl⟩
  · simp only [Prod.mk.injEq, Option.some.injEq] at hr
    exact Or.inl ⟨e1, hce, hr.2⟩
  · obtain ⟨_, hcase⟩ := getLockedLoop_done hl
    rcases hcase with ⟨fd, _, hr, _⟩ | ⟨e2, _, _, ho, hr, _⟩ | ⟨fd, _, _, _, hr, _⟩
    · simp at hr
    · simp only [Prod.mk.injEq, Option.some.injEq] at hr
      exact Or.inr ⟨_, e2, ho, hr.2⟩
    · simp at hr

/-- A warm `getLocked`: the entry is resident, has not expired and its descriptor is
there; one iteration. -/
theorem getLocked_warm (pg : PgConsts) (cfg : FHCacheConfig) (env : Env) (fuel : Nat)
    (ioReq : IOCacheKey) (w : World) (it : Item) (a fd : Nat)
    (hce : env.cacheErr (_NewKey pg ioReq) = none)
    (hl : lookup w.c (_NewKey pg ioReq) = some it) (hv : it.value = .ptrValue a)
    (hx : env.expired (_NewKey pg ioReq) = false)
    (hw : (w.heap a).lock.writer = false) (hf : (w.heap a).f = some fd) :
    getLocked pg cfg env (fuel + 1) ioReq w =
      .done (some a, none)
        ((w.log [.cacheGet (_NewKey pg ioReq)]).withGuard a
          ⟨(w.heap a).lock.readers + 1, false⟩ [.RLock a]) := by
  rw [getLocked_eq, Cache.Get_hit cfg env _ w it hce hl hx, hv]
  simp only []
  rw [getLockedLoop_succ]
  have h1 : (w.log [.cacheGet (_NewKey pg ioReq)]).heap a = w.heap a := rfl
  simp only [loopBody, h1, hw, hf, Bool.false_eq_true, if_false]

/-- A `getLocked` on a resident entry whose descriptor is none and whose guard is free:
the open is attempted. -/
theorem getLocked_retry (pg : PgConsts) (cfg : FHCacheConfig) (env : Env) (fuel : Nat)
    (ioReq : IOCacheKey) (w : World) (it : Item) (a : Nat)
    (hce : env.cacheErr (_NewKey pg ioReq) = none)
    (hl : lookup w.c (_NewKey pg ioReq) = some it) (hv : it.value = .ptrValue a)
    (hx : env.expired (_NewKey pg ioReq) = false)
    (hw : (w.heap a).lock.writer = false) (hr : (w.heap a).lock.readers = 0)
    (hf : (w.heap a).f = none) :
    getLocked pg cfg env (fuel + 2) ioReq w =
      match env.osOpen ((w.heap a).key.Filename env cfg.PGDataPath) with
      | .error e =>
        .done (none, some (.wrapf e "unable to re-open file: %+v" (w.heap a).key))
          ((w.log [.cacheGet (_NewKey pg ioReq)]).withGuard a (w.heap a).lock
            [.RLock a, .RUnlock a, .Lock a,
              .osOpen a ((w.heap a).key.Filename env cfg.PGDataPath) none,
              .warn "unable to open relation file" (_NewKey pg ioReq), .Unlock a])
      | .ok fd =>
        .done (some a, none)
          (((w.log [.cacheGet (_NewKey pg ioReq)]).opened cfg env a fd).withGuard a
            ⟨1, false⟩ [.RLock a]) := by
  rw [getLocked_eq, Cache.Get_hit cfg env _ w it hce hl hx, hv]
  simp only []
  rw [getLockedLoop_succ]
  have h1 : (w.log [.cacheGet (_NewKey pg ioReq)]).heap a = w.heap a := rfl
  simp only [loopBody, h1, hw, hr, hf, Bool.false_eq_true, if_false, Nat.lt_irrefl]
  cases env.osOpen ((w.heap a).key.Filename env cfg.PGDataPath) with
  | error e => rfl
  | ok fd =>
    simp only []
    rw [getLockedLoop_opened cfg env _ a fuel fd _ (by rw [h1]; exact hw) (by rw [h1]; exact hr)]

/-- What a `getLocked` that failed on the open leaves behind: the entry is resident under
the key, its descriptor is none and its guard is free. -/
theorem getLocked_open_failed {pg : PgConsts} {cfg : FHCacheConfig} {env : Env} {fuel : Nat}
    {ioReq : IOCacheKey} {w w1 : World} {v : Option Nat} {e : Err}
    (hce : env.cacheErr (_NewKey pg ioReq) = none)
    (h : getLocked pg cfg env fuel ioReq w = .done (v, some e) w1) :
    ∃ it a, lookup w1.c (_NewKey pg ioReq) = some it ∧ it.value = .ptrValue a ∧
      (w1.heap a).f = none ∧ (w1.heap a).lock.writer = false ∧
      (w1.heap a).lock.readers = 0 := by
  rcases getLocked_done h with ⟨e1, hce1, _, _⟩ | ⟨a, w0, hg, hl⟩
  · rw [hce] at hce1
    cases hce1
  · obtain ⟨it, hit, hv⟩ := Cache.Get_resident hg
    obtain ⟨hwr, hcase⟩ := getLockedLoop_done hl
    rcases hcase with ⟨fd, _, hr, _⟩ | ⟨e2, hf, hrd, _, _, hw⟩ | ⟨fd, _, _, _, hr, _⟩
    · simp at hr
    · subst hw
      exact ⟨it, a, hit, hv, by simp [hf], by simp [hwr], by simp [hrd]⟩
    · simp at hr

/-- The guard of the entry `getLocked` returned is read-locked and not write-locked. -/
theorem getLocked_ok_guard {pg : PgConsts} {cfg : FHCacheConfig} {env : Env} {fuel : Nat}
    {ioReq : IOCacheKey} {w w1 : World} {a : Nat}
    (h : getLocked pg cfg env fuel ioReq w = .done (some a, none) w1) :
    (w1.heap a).lock.writer = false ∧ 0 < (w1.heap a).lock.readers := by
  rcases getLocked_done h with ⟨e, _, hr, _⟩ | ⟨a0, w0, hg, hl⟩
  · simp at hr
  · obtain ⟨_, hcase⟩ := getLockedLoop_done hl
    rcases hcase with ⟨fd, hf, hr, hw⟩ | ⟨e, _, _, _, hr, _⟩ | ⟨fd, hf, hrd, ho, hr, hw⟩
    · simp only [Prod.mk.injEq, Option.some.injEq, and_true] at hr
      subst hr hw
      simp
    · simp at hr
    · simp only [Prod.mk.injEq, Option.some.injEq, and_true] at hr
      subst hr hw
      simp

/-- A warm `PrefaultPage`. -/
theorem PrefaultPage_warm (pg : PgConsts) (cfg : FHCacheConfig) (env : Env) (fuel : Nat)
    (ioReq : IOCacheKey) (w : World) (it : Item) (a fd : Nat)
    (hce : env.cacheErr (_NewKey pg ioReq) = none)
    (hl : lookup w.c (_NewKey pg ioReq) = some it) (hv : it.value = .ptrValue a)
    (hx : env.expired (_NewKey pg ioReq) = false)
    (hw : (w.heap a).lock.writer = false) (hf : (w.heap a).f = some fd)
    (hn : w.numConcurrentReadLock = false) :
    PrefaultPage pg cfg env (fuel + 1) ioReq w =
      .done none
        (((w.log [.cacheGet (_NewKey pg ioReq)]).withGuard a
          ⟨(w.heap a).lock.readers + 1, false⟩ [.RLock a]).prefaulted pg env a
            ioReq.Block) := by
  rw [PrefaultPage_eq, getLocked_warm pg cfg env fuel ioReq w it a fd hce hl hv hx hw hf]
  have h1 : ((w.log [.cacheGet (_NewKey pg ioReq)]).withGuard a
      ⟨(w.heap a).lock.readers + 1, false⟩ [.RLock a]).numConcurrentReadLock = false := hn
  simp [h1]

theorem CacheStep.trans {w w1 w2 : World} (h1 : CacheStep w w1) (h2 : CacheStep w1 w2) :
    CacheStep w w2 := by
  obtain ⟨es1, ht1, hi1⟩ := h1.trace
  obtain ⟨es2, ht2, hi2⟩ := h2.trace
  refine ⟨h2.heap.trans h1.heap, h2.next.trans h1.next,
    fun it hit => h1.items it (h2.items it hit), h2.openFDCount.trans h1.openFDCount,
    h2.purgeLock.trans h1.purgeLock, h2.openLock.trans h1.openLock,
    h2.closeLock.trans h1.closeLock,
    h2.numConcurrentReadLock.trans h1.numConcurrentReadLock,
    h2.numConcurrentReads.trans h1.numConcurrentReads, es1 ++ es2, ?_, ?_⟩
  · rw [ht2, ht1, List.append_assoc]
  · intro e he
    rcases List.mem_append.mp he with h3 | h3
    · exact hi1 e h3
    · exact hi2 e h3

theorem purgeVisit_cons (it : Item) (rest : List Item) (w : World) :
    purgeVisit (it :: rest) w = match it.value with
      | .ptrValue a => purgeVisit rest (w.closed a)
      | _ => .panic ⟨"bad, purging something not a file handle", []⟩ := by
  rcases it with ⟨ik, iv, ie⟩
  cases iv <;> simp [purgeVisit, PurgeVisitorFunc, _Value.close_eq, M.panic]

/-- The purge visitor changes what an eviction may change, and not the table. -/
theorem purgeVisit_step {c : List Item} {w w1 : World} (h : purgeVisit c w = .done () w1) :
    CacheStep w w1 ∧ w1.c = w.c := by
  induction c generalizing w with
  | nil =>
    cases h
    exact ⟨CacheStep.refl _, rfl⟩
  | cons it rest ih =>
    rw [purgeVisit_cons] at h
    rcases it with ⟨ik, iv, ie⟩
    cases iv with
    | ptrValue a =>
      obtain ⟨st, hc⟩ := ih h
      refine ⟨(World.closed_step w a).trans st, ?_⟩
      rw [hc]
      unfold World.closed
      cases (w.heap a).f <;> rfl
    | key _ => cases h
    | other _ => cases h

theorem Cache.Purge_visits (w : World) :
    Cache.Purge w = match purgeVisit w.c w with
      | .done _ w1 => .done () { w1 with c := [] }
      | .blocked => .blocked
      | .panic p => .panic p
      | .spin => .spin := by
  simp only [Cache.Purge, M.bind_run, getWorld, setItems]
  cases purgeVisit w.c w <;> rfl

/-- The cache purge changes what an eviction may change, and empties the table. -/
theorem Cache.Purge_step {w w1 : World} (h : Cache.Purge w = .done () w1) :
    CacheStep w w1 ∧ w1.c = [] := by
  rw [Cache.Purge_visits] at h
  cases hv : purgeVisit w.c w with
  | done u w0 =>
    rw [hv] at h
    simp only [Res.done.injEq, true_and] at h
    subst h
    obtain ⟨st, _⟩ := purgeVisit_step hv
    exact ⟨⟨st.heap, st.next, fun it hit => (by cases hit), st.openFDCount, st.purgeLock,
      st.openLock, st.closeLock, st.numConcurrentReadLock, st.numConcurrentReads, st.trace⟩,
      rfl⟩
  | blocked => rw [hv] at h; cases h
  | panic p => rw [hv] at h; cases h
  | spin => rw [hv] at h; cases h

theorem RWMutex.eta_false (m : RWMutex) (h : m.writer = false) :
    ({ readers := m.readers, writer := false } : RWMutex) = m := by
  cases m
  simp_all

/-- `Purge` once the cache has been purged, the locks being free. -/
theorem Purge_eq (w w1 : World) (hp : w.purgeLock = false)
    (ho : w.openLock.writer = false) (hc : w.closeLock.writer = false)
    (hv : Cache.Purge { w with purgeLock := true } = .done () w1) :
    Purge w =
      if w1.openFDCount ≠ w1.closeFDCount then .panic (purgePanic w1)
      else .done () { w1 with purgeLock := false } := by
  obtain ⟨st, _⟩ := Cache.Purge_step hv
  have hp1 : w1.purgeLock = true := st.purgeLock
  have ho1 : w1.openLock = w.openLock := st.openLock
  have hc1 : w1.closeLock = w.closeLock := st.closeLock
  by_cases hne : w1.openFDCount = w1.closeFDCount
  · simp [Purge, onPurgeLock, mutexLock, mutexUnlock, hp, hv, onOpenLock, onCloseLock,
      onCounterLock, RWMutex.RLock, RWMutex.RUnlock, ho1, hc1, ho, hc, getWorld, hne, hp1,
      RWMutex.eta_false]
  · simp [Purge, onPurgeLock, mutexLock, hp, hv, onOpenLock, onCloseLock,
      onCounterLock, RWMutex.RLock, ho1, hc1, ho, hc, getWorld, hne, M.panic, purgePanic]

/-- No returning `Cache.Get` opens a file: `openFDCount` is unchanged and no open is
attempted. -/
theorem Cache.Get_opens_nothing {cfg : FHCacheConfig} {env : Env} {key : _Key} {w w0 : World}
    {r : Option Iface × Option Err} (h : Cache.Get cfg env key w = .done r w0) :
    w0.openFDCount = w.openFDCount ∧
      ∃ es, w0.trace = w.trace ++ es ∧ es.filter Event.isOpen = [] := by
  obtain ⟨es, htr, hint⟩ := Cache.Get_trace h
  refine ⟨?_, .cacheGet key :: es, htr, ?_⟩
  · rcases Cache.Get_done h with ⟨e, _, _, hw⟩ | ⟨it, _, _, _, _, hw⟩ | ⟨w2, _, _, st, ld⟩
    · rw [hw]; rfl
    · rw [hw]; rfl
    · rw [ld.openFDCount, st.openFDCount]; rfl
  · rw [List.filter_eq_nil_iff]
    intro e he
    rcases List.mem_cons.mp he with h1 | h1
    · subst h1
      simp [Event.isOpen]
    · have := hint e h1
      cases e <;> simp_all [Event.internal, Event.isOpen]

/-- The loop of `getLocked` neither reads nor writes the table of the cache. -/
theorem getLockedLoop_ignores_cache (cfg : FHCacheConfig) (env : Env) (key : _Key) (a : Nat)
    (c' : List Item) :
    ∀ (fuel : Nat) (w : World),
      getLockedLoop cfg env key a fuel { w with c := c' }
        = (getLockedLoop cfg env key a fuel w).mapWorld (fun w1 => { w1 with c := c' }) := by
  intro fuel
  induction fuel with
  | zero => intro w; rfl
  | succ n ih =>
    intro w
    rw [getLockedLoop_succ, getLockedLoop_succ]
    unfold loopBody
    have hh : ({ w with c := c' } : World).heap a = w.heap a := rfl
    rw [hh]
    cases (w.heap a).lock.writer with
    | true => rfl
    | false =>
      simp only [Bool.false_eq_true, if_false]
      cases (w.heap a).f with
      | some fd => rfl
      | none =>
        simp only []
        by_cases hr : 0 < (w.heap a).lock.readers
        · simp only [hr, if_true]
          rfl
        · simp only [hr, if_false]
          cases env.osOpen ((w.heap a).key.Filename env cfg.PGDataPath) with
          | error e => rfl
          | ok fd => exact ih (w.opened cfg env a fd)

/-- What a returning loop of `getLocked` did: it returned nil or the entry it was given,
left the table and the allocator alone, and its events concern that entry only. -/
theorem getLockedLoop_frame {cfg : FHCacheConfig} {env : Env} {key : _Key} {a fuel : Nat}
    {w w1 : World} {r : Option Nat × Option Err}
    (h : getLockedLoop cfg env key a fuel w = .done r w1) :
    (r.1 = none ∨ r.1 = some a) ∧ w1.c = w.c ∧ w1.next = w.next ∧
      ∃ es, w1.trace = w.trace ++ es ∧ ∀ e ∈ es, e.onEntry a = true := by
  obtain ⟨_, hcase⟩ := getLockedLoop_done h
  rcases hcase with ⟨fd, _, hr, hw⟩ | ⟨e, _, _, _, hr, hw⟩ | ⟨fd, _, _, _, hr, hw⟩
  · subst hr hw
    exact ⟨Or.inr rfl, rfl, rfl, _, rfl, by simp [Event.onEntry]⟩
  · subst hr hw
    exact ⟨Or.inl rfl, rfl, rfl, _, rfl, by simp [Event.onEntry]⟩
  · subst hr hw
    refine ⟨Or.inr rfl, rfl, rfl, [.RLock a, .RUnlock a, .Lock a,
      .osOpen a ((w.heap a).key.Filename env cfg.PGDataPath) (some fd), .Unlock a,
      .RLock a], ?_, by simp [Event.onEntry]⟩
    simp [World.withGuard, World.opened]

theorem Event.onEntry_not_cacheGet {a : Nat} {e : Event} (h : e.onEntry a = true) :
    e.isCacheGet = false := by
  cases e <;> simp_all [Event.onEntry, Event.isCacheGet]

/-- The events of a returning `getLocked`: one cache lookup, then no other. -/
theorem getLocked_trace {pg : PgConsts} {cfg : FHCacheConfig} {env : Env} {fuel : Nat}
    {ioReq : IOCacheKey} {w w1 : World} {r : Option Nat × Option Err}
    (h : getLocked pg cfg env fuel ioReq w = .done r w1) :
    ∃ es, w1.trace = w.trace ++ .cacheGet (_NewKey pg ioReq) :: es ∧
      es.filter Event.isCacheGet = [] := by
  rcases getLocked_done h with ⟨e, _, _, hw⟩ | ⟨a, w0, hg, hl⟩
  · exact ⟨[], by simp [hw, World.log], rfl⟩
  · obtain ⟨es1, ht1, hi1⟩ := Cache.Get_trace hg
    obtain ⟨_, _, _, es2, ht2, hi2⟩ := getLockedLoop_frame hl
    refine ⟨es1 ++ es2, by rw [ht2, ht1]; simp, ?_⟩
    rw [List.filter_eq_nil_iff]
    intro e he
    rcases List.mem_append.mp he with h3 | h3
    · simp [Event.internal_not_cacheGet (hi1 e h3)]
    · simp [Event.onEntry_not_cacheGet (hi2 e h3)]

theorem lookup_none_iff {c : List Item} {k : _Key} :
    lookup c k = none ↔ ∀ it ∈ c, it.key ≠ k := by
  unfold lookup
  rw [List.find?_eq_none]
  simp

theorem mem_remove {c : List Item} {k : _Key} {x : Item} :
    x ∈ remove c k ↔ x ∈ c ∧ x.key ≠ k := by
  unfold remove
  rw [List.mem_filter]
  simp

theorem remove_sublist (c : List Item) (k : _Key) : (remove c k).Sublist c :=
  List.filter_sublist c

theorem remove_of_lookup_none {c : List Item} {k : _Key} (h : lookup c k = none) :
    remove c k = c := by
  unfold remove
  rw [List.filter_eq_self]
  intro it hit
  simpa using lookup_none_iff.mp h it hit

theorem lookup_remove (c : List Item) (k : _Key) : lookup (remove c k) k = none := by
  rw [lookup_none_iff]
  intro it hit
  exact (mem_remove.mp hit).2

/-- Removing a key removes exactly the item found under it, when keys are distinct. -/
theorem countP_remove (p : Item → Bool) {c : List Item} {k : _Key} {it : Item}
    (hk : (c.map Item.key).Nodup) (hl : lookup c k = some it) :
    c.countP p = (remove c k).countP p + if p it then 1 else 0 := by
  induction c with
  | nil => cases hl
  | cons x xs ih =>
    rw [List.map_cons, List.nodup_cons] at hk
    by_cases hx : x.key = k
    · have hit : it = x := by
        simp [lookup, hx] at hl
        exact hl.symm
      have hnone : lookup xs k = none := by
        rw [lookup_none_iff]
        intro y hy hyk
        exact hk.1 (List.mem_map.mpr ⟨y, hy, by rw [hyk, hx]⟩)
      have : remove (x :: xs) k = xs := by
        have h1 : remove (x :: xs) k = remove xs k := by
          simp [remove, hx]
        rw [h1, remove_of_lookup_none hnone]
      rw [this, hit, List.countP_cons]
    · have hl2 : lookup xs k = some it := by
        simpa [lookup, hx] using hl
      have h1 : remove (x :: xs) k = x :: remove xs k := by
        simp [remove, hx]
      rw [h1, List.countP_cons, List.countP_cons, ih hk.2 hl2]
      omega

/-- Distinct values: two resident items with the same value are the same item. -/
theorem item_eq_of_value {c : List Item} (hv : (c.map Item.value).Nodup) {x y : Item}
    (hx : x ∈ c) (hy : y ∈ c) (h : x.value = y.value) : x = y :=
  List.inj_on_of_nodup_map hv hx hy h

/-- Distinct keys: two resident items with the same key are the same item. -/
theorem item_eq_of_key {c : List Item} (hk : (c.map Item.key).Nodup) {x y : Item}
    (hx : x ∈ c) (hy : y ∈ c) (h : x.key = y.key) : x = y :=
  List.inj_on_of_nodup_map hk hx hy h

theorem World.holds_congr {w w' : World} (hheap : ∀ a, w'.heap a = w.heap a) :
    w'.holds = w.holds := by
  funext it
  unfold World.holds
  cases it.value <;> simp [hheap]

theorem countP_none {es : List Event} {p : Event → Bool} (h : ∀ e ∈ es, p e = false) :
    es.countP p = 0 := by
  rw [List.countP_eq_zero]
  intro e he
  simp [h e he]

/-- The invariant does not see the guards of a world that agrees with another on the
entries, the table, the counters and what the trace counts. -/
theorem Inv.congr {w w' : World} (h : Inv w) (hheap : ∀ a, w'.heap a = w.heap a)
    (hnext : w'.next = w.next) (hc : w'.c = w.c) (hpl : w'.purgeLock = false)
    (hol : w'.openLock = w.openLock) (hcl : w'.closeLock = w.closeLock)
    (hn : w'.numConcurrentReadLock = false) (hopen : w'.openFDCount = w.openFDCount)
    (hclose : w'.closeFDCount = w.closeFDCount)
    (htr : ∃ es, w'.trace = w.trace ++ es ∧
      ∀ e ∈ es, ∀ a, Event.opens a e = false ∧ Event.closes a e = false) : Inv w' := by
  obtain ⟨es, hes, hno⟩ := htr
  have hlive : w'.live = w.live := by
    unfold World.live
    rw [hc, World.holds_congr hheap]
  have hres : ∀ a, w'.resident a = w.resident a := by
    intro a
    unfold World.resident
    rw [hc]
  refine ⟨hpl, by rw [hol]; exact h.openLock, by rw [hcl]; exact h.closeLock, hn, ?_,
    by rw [hc]; exact h.keys, by rw [hc]; exact h.values, ?_, by rw [hclose]; exact h.closeBound,
    by rw [hopen, hclose, hlive]; exact h.count, ?_, ?_⟩
  · intro it hit
    rw [hc] at hit
    obtain ⟨a, hv, ha, hlk⟩ := h.items it hit
    exact ⟨a, hv, by rw [hnext]; exact ha, by rw [hheap]; exact hlk⟩
  · intro a ha
    rw [hheap]
    exact h.unallocated a (by rw [← hnext]; exact ha)
  · intro a
    rw [hes, List.countP_append, countP_none (fun e he => (hno e he a).1), hheap, Nat.add_zero]
    exact h.opens a
  · intro a
    rw [hes, List.countP_append, countP_none (fun e he => (hno e he a).2), hheap, hres,
      Nat.add_zero]
    exact h.closes a

theorem World.new_Inv : Inv World.new := by
  refine ⟨rfl, rfl, rfl, rfl, ?_, ?_, ?_, ?_, ?_, rfl, ?_, ?_⟩
  · intro it hit
    cases hit
  · exact List.nodup_nil
  · exact List.nodup_nil
  · intro a _
    rfl
  · show (0 : Nat) < 2 ^ 64
    norm_num
  · intro a
    rfl
  · intro a
    rfl

/-- The invariant survives the cache lookup event. -/
theorem Inv.log {w : World} (h : Inv w) (k : _Key) : Inv (w.log [.cacheGet k]) :=
  h.congr (fun _ => rfl) rfl rfl h.purgeLock rfl rfl h.numConcurrentReadLock rfl rfl
    ⟨[.cacheGet k], rfl, by simp [Event.opens, Event.closes]⟩

/-- The invariant survives the allocation of an entry by the loader. -/
theorem Inv.alloc {w : World} (h : Inv w) (k : _Key) : Inv (w.alloc k) := by
  have hheap : ∀ a, ((w.alloc k).heap a).f = (w.heap a).f := by
    intro a
    by_cases ha : a = w.next
    · subst ha
      simp [World.alloc, h.unallocated w.next (Nat.le_refl _)]
    · simp [World.alloc, Function.update_noteq ha]
  have hholds : (w.alloc k).holds = w.holds := by
    funext it
    unfold World.holds
    cases it.value <;> simp [hheap]
  refine ⟨h.purgeLock, h.openLock, h.closeLock, h.numConcurrentReadLock, ?_, h.keys, h.values,
    ?_, h.closeBound, ?_, ?_, ?_⟩
  · intro it hit
    obtain ⟨a, hv, ha, hlk⟩ := h.items it hit
    have hne : a ≠ w.next := by omega
    refine ⟨a, hv, ?_, ?_⟩
    · show a < w.next + 1
      omega
    · simpa [World.alloc, Function.update_noteq hne] using hlk
  · intro a ha
    rw [hheap]
    exact h.unallocated a (by
      have : w.next + 1 ≤ a := ha
      omega)
  · show w.openFDCount = (w.closeFDCount + (w.alloc k).live) % 2 ^ 64
    unfold World.live
    rw [hholds]
    exact h.count
  · intro a
    rw [hheap]
    show (w.trace ++ [Event.loader k w.next]).countP (Event.opens a) = _
    rw [List.countP_append]
    simpa [Event.opens] using h.opens a
  · intro a
    rw [hheap]
    show (w.trace ++ [Event.loader k w.next]).countP (Event.closes a)
      = if ((w.heap a).f.isSome && !(w.resident a)) = true then 1 else 0
    rw [List.countP_append]
    simpa [Event.closes] using h.closes a

/-- Residency after the removal of a key: the entry removed is gone, the others stay. -/
theorem resident_remove {c : List Item} {k : _Key} {it : Item} {a : Nat}
    (hk : (c.map Item.key).Nodup) (hv : (c.map Item.value).Nodup)
    (hl : lookup c k = some it) (hit : it.value = .ptrValue a) (b : Nat) :
    (remove c k).any (fun x => decide (x.value = .ptrValue b))
      = if b = a then false else c.any (fun x => decide (x.value = .ptrValue b)) := by
  obtain ⟨hmem, hkey⟩ := lookup_mem hl
  by_cases hb : b = a
  · subst hb
    rw [if_pos rfl, List.any_eq_false]
    intro x hx
    obtain ⟨hxc, hxk⟩ := mem_remove.mp hx
    simp only [decide_eq_true_eq]
    intro hxv
    have : x = it := item_eq_of_value hv hxc hmem (by rw [hxv, hit])
    exact hxk (by rw [this, hkey])
  · rw [if_neg hb]
    apply Bool.eq_iff_iff.mpr
    simp only [List.any_eq_true, decide_eq_true_eq]
    constructor
    · rintro ⟨x, hx, hxv⟩
      exact ⟨x, (mem_remove.mp hx).1, hxv⟩
    · rintro ⟨x, hx, hxv⟩
      refine ⟨x, mem_remove.mpr ⟨hx, ?_⟩, hxv⟩
      intro hxk
      have : x = it := item_eq_of_key hk hx hmem (by rw [hxk, hkey])
      rw [this, hit] at hxv
      simp only [Iface.ptrValue.injEq] at hxv
      exact hb hxv.symm

/-- The invariant survives the eviction of a resident item. -/
theorem Inv.evicted {w : World} (h : Inv w) {k : _Key} {it : Item} {a : Nat}
    (hl : lookup w.c k = some it) (hit : it.value = .ptrValue a) :
    Inv (World.closed { w with c := remove w.c k } a) := by
  obtain ⟨hmem, hkey⟩ := lookup_mem hl
  have hres : ∀ b, (remove w.c k).any (fun x => decide (x.value = .ptrValue b))
      = if b = a then false else w.resident b :=
    resident_remove h.keys h.values hl hit
  have hresa : w.resident a = true := by
    unfold World.resident
    rw [List.any_eq_true]
    exact ⟨it, hmem, by simp [hit]⟩
  have hlive : w.live = (remove w.c k).countP w.holds + if (w.heap a).f.isSome then 1 else 0 := by
    have := countP_remove w.holds h.keys hl
    simpa [World.live, World.holds, hit] using this
  have hitems : ∀ x ∈ remove w.c k, ∃ b, x.value = .ptrValue b ∧ b < w.next ∧
      (w.heap b).lock = ⟨0, false⟩ := fun x hx => h.items x (mem_remove.mp hx).1
  have hkeys : ((remove w.c k).map Item.key).Nodup :=
    List.Nodup.sublist ((remove_sublist w.c k).map _) h.keys
  have hvalues : ((remove w.c k).map Item.value).Nodup :=
    List.Nodup.sublist ((remove_sublist w.c k).map _) h.values
  unfold World.closed
  cases hf : (w.heap a).f with
  | none =>
    simp only []
    rw [hf] at hlive
    refine ⟨h.purgeLock, h.openLock, h.closeLock, h.numConcurrentReadLock, hitems, hkeys,
      hvalues, h.unallocated, h.closeBound, ?_, h.opens, ?_⟩
    · show w.openFDCount = (w.closeFDCount + (remove w.c k).countP w.holds) % 2 ^ 64
      rw [h.count, hlive]
      simp
    · intro b
      show w.trace.countP (Event.closes b)
        = if ((w.heap b).f.isSome
            && !((remove w.c k).any (fun x => decide (x.value = .ptrValue b)))) = true
          then 1 else 0
      rw [hres b, h.closes b]
      by_cases hb : b = a
      · subst hb
        simp [hf]
      · simp [hb]
  | some fd =>
    simp only []
    rw [hf] at hlive
    refine ⟨h.purgeLock, h.openLock, h.closeLock, h.numConcurrentReadLock, hitems, hkeys,
      hvalues, h.unallocated, Nat.mod_lt _ (by norm_num), ?_, ?_, ?_⟩
    · show w.openFDCount
        = ((w.closeFDCount + 1) % 2 ^ 64 + (remove w.c k).countP w.holds) % 2 ^ 64
      rw [h.count, hlive]
      simp only [Option.isSome_some, if_true]
      omega
    · intro b
      show (w.trace ++ [Event.osClose a fd]).countP (Event.opens b) = _
      rw [List.countP_append]
      simpa [Event.opens] using h.opens b
    · intro b
      show (w.trace ++ [Event.osClose a fd]).countP (Event.closes b)
        = if ((w.heap b).f.isSome
            && !((remove w.c k).any (fun x => decide (x.value = .ptrValue b)))) = true
          then 1 else 0
      rw [List.countP_append, hres b, h.closes b]
      by_cases hb : b = a
      · subst hb
        simp [hf, hresa, Event.closes]
      · have hab : ¬ a = b := fun e => hb e.symm
        simp [hb, hab, Event.closes]

/-- The invariant survives the storing of a new entry under a key that is not resident. -/
theorem Inv.stored {w : World} (h : Inv w) {key : _Key} {a ttl : Nat}
    (hl : lookup w.c key = none) (ha : a < w.next) (hr : w.resident a = false)
    (hf : (w.heap a).f = none) (hlk : (w.heap a).lock = ⟨0, false⟩) :
    Inv (w.stored ⟨key, .ptrValue a, ttl⟩) := by
  have hnot : ∀ x ∈ w.c, x.value ≠ .ptrValue a := by
    intro x hx hxv
    have : w.resident a = true := by
      unfold World.resident
      rw [List.any_eq_true]
      exact ⟨x, hx, by simp [hxv]⟩
    rw [hr] at this
    cases this
  refine ⟨h.purgeLock, h.openLock, h.closeLock, h.numConcurrentReadLock, ?_, ?_, ?_,
    h.unallocated, h.closeBound, ?_, h.opens, ?_⟩
  · intro it hit
    rcases List.mem_cons.mp hit with h1 | h1
    · subst h1
      exact ⟨a, rfl, ha, hlk⟩
    · exact h.items it h1
  · show ((⟨key, .ptrValue a, ttl⟩ :: w.c).map Item.key).Nodup
    rw [List.map_cons, List.nodup_cons]
    refine ⟨?_, h.keys⟩
    intro hmem
    obtain ⟨x, hx, hxk⟩ := List.mem_map.mp hmem
    exact lookup_none_iff.mp hl x hx hxk
  · show ((⟨key, .ptrValue a, ttl⟩ :: w.c).map Item.value).Nodup
    rw [List.map_cons, List.nodup_cons]
    refine ⟨?_, h.values⟩
    intro hmem
    obtain ⟨x, hx, hxv⟩ := List.mem_map.mp hmem
    exact hnot x hx hxv
  · show w.openFDCount
      = (w.closeFDCount + (⟨key, .ptrValue a, ttl⟩ :: w.c).countP w.holds) % 2 ^ 64
    rw [List.countP_cons]
    simpa [World.holds, hf] using h.count
  · intro b
    show w.trace.countP (Event.closes b)
      = if ((w.heap b).f.isSome
          && !((⟨key, .ptrValue a, ttl⟩ :: w.c).any (fun x => decide (x.value = .ptrValue b))))
            = true
        then 1 else 0
    rw [h.closes b]
    by_cases hb : b = a
    · subst hb
      simp [hf]
    · have hab : ¬ a = b := fun e => hb e.symm
      simp [World.resident, hab]

/-- Counting with a predicate that differs on one item of a list without repetition. -/
theorem countP_flip {p q : Item → Bool} {c : List Item} {it : Item} (hn : c.Nodup)
    (hit : it ∈ c) (hp : p it = false) (hq : q it = true)
    (hsame : ∀ x ∈ c, x ≠ it → q x = p x) : c.countP q = c.countP p + 1 := by
  induction c with
  | nil => cases hit
  | cons x xs ih =>
    rw [List.nodup_cons] at hn
    rw [List.countP_cons, List.countP_cons]
    by_cases hx : x = it
    · subst hx
      have : xs.countP q = xs.countP p := by
        apply List.countP_congr
        intro y hy
        have hne : y ≠ x := fun e => hn.1 (e ▸ hy)
        rw [hsame y (List.mem_cons_of_mem _ hy) hne]
      rw [this, hp, hq]
      simp
    · have hmem : it ∈ xs := by
        rcases List.mem_cons.mp hit with h1 | h1
        · exact absurd h1.symm hx
        · exact h1
      rw [ih hn.2 hmem (fun y hy hne => hsame y (List.mem_cons_of_mem _ hy) hne),
        hsame x (List.mem_cons_self _ _) hx]
      omega

/-- The invariant survives the opening of the file of a resident entry whose descriptor
was none. -/
theorem Inv.opened {w w' : World} (h : Inv w) {it : Item} {a : Nat} (fd : Nat)
    (hit : it ∈ w.c)
    (hv : it.value = .ptrValue a) (hf : (w.heap a).f = none)
    (hheap : ∀ b, b ≠ a → w'.heap b = w.heap b)
    (hheapa : w'.heap a = { w.heap a with f := some fd })
    (hnext : w'.next = w.next) (hc : w'.c = w.c) (hpl : w'.purgeLock = false)
    (hol : w'.openLock = w.openLock) (hcl : w'.closeLock = w.closeLock)
    (hn : w'.numConcurrentReadLock = false)
    (hopen : w'.openFDCount = (w.openFDCount + 1) % 2 ^ 64)
    (hclose : w'.closeFDCount = w.closeFDCount)
    (htr : ∃ es, w'.trace = w.trace ++ es ∧
      ∀ b, es.countP (Event.opens b) = (if b = a then 1 else 0) ∧
        es.countP (Event.closes b) = 0) : Inv w' := by
  obtain ⟨es, hes, hcnt⟩ := htr
  have hnodup : w.c.Nodup := List.Nodup.of_map _ h.keys
  have hresa : w.resident a = true := by
    unfold World.resident
    rw [List.any_eq_true]
    exact ⟨it, hit, by simp [hv]⟩
  have hres : ∀ b, w'.resident b = w.resident b := by
    intro b
    unfold World.resident
    rw [hc]
  have hlive : w'.live = w.live + 1 := by
    unfold World.live
    rw [hc]
    apply countP_flip hnodup hit
    · simp [World.holds, hv, hf]
    · simp [World.holds, hv, hheapa]
    · intro x hx hne
      obtain ⟨b, hxv, _, _⟩ := h.items x hx
      have hba : b ≠ a := by
        intro e
        exact hne (item_eq_of_value h.values hx hit (by rw [hxv, hv, e]))
      simp [World.holds, hxv, hheap b hba]
  refine ⟨hpl, by rw [hol]; exact h.openLock, by rw [hcl]; exact h.closeLock, hn, ?_,
    by rw [hc]; exact h.keys, by rw [hc]; exact h.values, ?_, by rw [hclose]; exact h.closeBound,
    ?_, ?_, ?_⟩
  · intro x hx
    rw [hc] at hx
    obtain ⟨b, hxv, hb, hlk⟩ := h.items x hx
    refine ⟨b, hxv, by rw [hnext]; exact hb, ?_⟩
    by_cases hba : b = a
    · subst hba
      rw [hheapa]
      exact hlk
    · rw [hheap b hba]
      exact hlk
  · intro b hb
    have hba : b ≠ a := by
      obtain ⟨a', hv', ha', _⟩ := h.items it hit
      have : a' = a := by
        rw [hv] at hv'
        simp only [Iface.ptrValue.injEq] at hv'
        exact hv'.symm
      subst this
      rw [hnext] at hb
      omega
    rw [hheap b hba]
    exact h.unallocated b (by rw [← hnext]; exact hb)
  · rw [hopen, hclose, hlive, h.count]
    omega
  · intro b
    rw [hes, List.countP_append, (hcnt b).1, h.opens b]
    by_cases hba : b = a
    · subst hba
      simp [hf, hheapa]
    · simp [hba, hheap b hba]
  · intro b
    rw [hes, List.countP_append, (hcnt b).2, h.closes b, hres b, Nat.add_zero]
    by_cases hba : b = a
    · subst hba
      simp [hresa]
    · rw [hheap b hba]

/-- Under the invariant an eviction returns and keeps the invariant. -/
theorem Cache.evict_Inv {w : World} (h : Inv w) (k : _Key) :
    ∃ w1, Cache.evict k w = .done () w1 ∧ Inv w1 ∧ CacheStep w w1 := by
  rw [Cache.evict_eq]
  cases hl : lookup w.c k with
  | none => exact ⟨w, rfl, h, CacheStep.refl w⟩
  | some it =>
    obtain ⟨a, hv, _, _⟩ := h.items it (lookup_mem hl).1
    have heq : Cache.evict k w = .done () (World.closed { w with c := remove w.c k } a) := by
      rw [Cache.evict_eq, hl]
      simp only [hv]
    simp only [hv]
    exact ⟨_, rfl, h.evicted hl hv, Cache.evict_step heq⟩

/-- Under the invariant making room returns and keeps the invariant. -/
theorem Cache.makeRoom_Inv {w : World} (h : Inv w) (cfg : FHCacheConfig) (env : Env) :
    ∃ w1, Cache.makeRoom cfg env w = .done () w1 ∧ Inv w1 ∧ CacheStep w w1 := by
  unfold Cache.makeRoom
  by_cases hsz : cfg.Size ≤ w.c.length
  · rw [if_pos hsz]
    cases env.victim with
    | none => exact ⟨w, rfl, h, CacheStep.refl w⟩
    | some k => exact Cache.evict_Inv h k
  · rw [if_neg hsz]
    exact ⟨w, rfl, h, CacheStep.refl w⟩

/-- Under the invariant the miss path returns a new entry, resident under the key, with
no descriptor, and keeps the invariant. -/
theorem Cache.load_Inv {w : World} (h : Inv w) (cfg : FHCacheConfig) (env : Env) (key : _Key)
    (hl : lookup w.c key = none) :
    ∃ w1 it, Cache.load cfg env key w = .done (some (.ptrValue w.next), none) w1 ∧ Inv w1 ∧
      lookup w1.c key = some it ∧ it.value = .ptrValue w.next ∧
      (w1.heap w.next).f = none := by
  rw [Cache.load_eq]
  obtain ⟨w2, hm, hinv2, st⟩ := Cache.makeRoom_Inv (h.alloc key) cfg env
  rw [hm]
  have hheap : w2.heap = (w.alloc key).heap := st.heap
  have hnext : w2.next = w.next + 1 := st.next
  have hsub : ∀ x ∈ w2.c, x ∈ w.c := st.items
  have hfresh : w2.heap w.next = { key := key, lock := RWMutex.new, f := none } := by
    rw [hheap]
    simp [World.alloc]
  have hl2 : lookup w2.c key = none := by
    rw [lookup_none_iff]
    intro x hx
    exact lookup_none_iff.mp hl x (hsub x hx)
  have hres : w2.resident w.next = false := by
    unfold World.resident
    rw [List.any_eq_false]
    intro x hx
    obtain ⟨b, hxv, hb, _⟩ := h.items x (hsub x hx)
    simp only [decide_eq_true_eq, hxv, Iface.ptrValue.injEq]
    omega
  have hinv : Inv (w2.stored ⟨key, .ptrValue w.next, cfg.TTL⟩) :=
    hinv2.stored hl2 (by rw [hnext]; omega) hres (by rw [hfresh]) (by rw [hfresh]; rfl)
  exact ⟨_, ⟨key, .ptrValue w.next, cfg.TTL⟩, rfl, hinv, lookup_cons_self _ _, rfl,
    by show (w2.heap w.next).f = none; rw [hfresh]⟩

/-- Under the invariant `Cache.Get` returns: an error, or an entry resident under the
key; and it keeps the invariant. -/
theorem Cache.Get_Inv {w : World} (h : Inv w) (cfg : FHCacheConfig) (env : Env) (key : _Key) :
    ∃ r w0, Cache.Get cfg env key w = .done r w0 ∧ Inv w0 ∧
      ((∃ e, r = (none, some e)) ∨
       (∃ it a, r = (some (.ptrValue a), none) ∧ lookup w0.c key = some it ∧
          it.value = .ptrValue a)) := by
  rw [Cache.Get_eq]
  cases hce : env.cacheErr key with
  | some e => exact ⟨_, _, rfl, h.log key, Or.inl ⟨e, rfl⟩⟩
  | none =>
    simp only []
    cases hl : lookup w.c key with
    | none =>
      simp only []
      obtain ⟨w1, it, hld, hinv, hl1, hv, _⟩ :=
        Cache.load_Inv (h.log key) cfg env key hl
      exact ⟨_, _, hld, hinv, Or.inr ⟨it, _, rfl, hl1, hv⟩⟩
    | some it =>
      simp only []
      cases hx : env.expired key with
      | false =>
        simp only [Bool.false_eq_true, if_false]
        obtain ⟨a, hv, _, _⟩ := h.items it (lookup_mem hl).1
        refine ⟨_, _, rfl, h.log key, Or.inr ⟨it, a, ?_, hl, hv⟩⟩
        rw [hv]
      | true =>
        simp only [if_true]
        obtain ⟨w1, hev, hinv1, _⟩ := Cache.evict_Inv (h.log key) key
        rw [hev]
        simp only []
        have hl1 : lookup w1.c key = none := by
          have heq := hev
          rw [Cache.evict_eq] at heq
          have hl' : lookup (w.log [.cacheGet key]).c key = some it := hl
          rw [hl'] at heq
          obtain ⟨a, hv, _, _⟩ := h.items it (lookup_mem hl).1
          simp only [hv, Res.done.injEq, true_and] at heq
          rw [← heq]
          have : (World.closed { w.log [.cacheGet key] with
              c := remove (w.log [.cacheGet key]).c key } a).c = remove w.c key := by
            unfold World.closed
            cases ((({ w.log [.cacheGet key] with
              c := remove (w.log [.cacheGet key]).c key } : World)).heap a).f <;> rfl
          rw [this]
          exact lookup_remove w.c key
        obtain ⟨w2, it2, hld, hinv, hl2, hv2, _⟩ := Cache.load_Inv hinv1 cfg env key hl1
        exact ⟨_, _, hld, hinv, Or.inr ⟨it2, _, rfl, hl2, hv2⟩⟩

/-- Under the invariant `PrefaultPage`, with fuel for two iterations, returns and keeps
the invariant. -/
theorem PrefaultPage_Inv {w : World} (h : Inv w) (pg : PgConsts) (cfg : FHCacheConfig)
    (env : Env) (fuel : Nat) (ioReq : IOCacheKey) :
    ∃ r w1, PrefaultPage pg cfg env (fuel + 2) ioReq w = .done r w1 ∧ Inv w1 := by
  obtain ⟨r, w0, hg, hinv0, hcase⟩ := Cache.Get_Inv h cfg env (_NewKey pg ioReq)
  rw [PrefaultPage_eq, getLocked_eq, hg]
  rcases hcase with ⟨e, hr⟩ | ⟨it, a, hr, hl, hv⟩
  · subst hr
    exact ⟨_, _, rfl, hinv0⟩
  · subst hr
    simp only []
    obtain ⟨a', hv', ha, hlk⟩ := hinv0.items it (lookup_mem hl).1
    have haa : a' = a := by
      rw [hv] at hv'
      simp only [Iface.ptrValue.injEq] at hv'
      exact hv'.symm
    subst haa
    rw [getLockedLoop_succ]
    unfold loopBody
    simp only [hlk, Bool.false_eq_true, if_false, Nat.lt_irrefl]
    cases hf : (w0.heap a').f with
    | some fd =>
      simp only []
      have hn : (w0.withGuard a' ⟨0 + 1, false⟩ [.RLock a']).numConcurrentReadLock = false :=
        hinv0.numConcurrentReadLock
      simp only [hn, Bool.false_eq_true, if_false, World.withGuard_heap_same]
      refine ⟨_, _, rfl, hinv0.congr ?_ rfl rfl hinv0.purgeLock rfl rfl rfl rfl rfl
        ⟨[.RLock a', adviseEvent pg env
          ((w0.withGuard a' ⟨0 + 1, false⟩ [.RLock a']).heap a').f ioReq.Block, .RUnlock a'],
          by simp [World.prefaulted, World.withGuard],
          by simp [Event.opens, Event.closes, adviseEvent]⟩⟩
      intro b
      by_cases hb : b = a'
      · subst hb
        simp [World.prefaulted, World.withGuard, ← hlk]
      · simp [World.prefaulted, World.withGuard, Function.update_noteq hb]
    | none =>
      simp only []
      cases ho : env.osOpen ((w0.heap a').key.Filename env cfg.PGDataPath) with
      | error e =>
        simp only []
        refine ⟨_, _, rfl, hinv0.congr ?_ rfl rfl hinv0.purgeLock rfl rfl
          hinv0.numConcurrentReadLock rfl rfl
          ⟨_, rfl, by simp [Event.opens, Event.closes]⟩⟩
        intro b
        by_cases hb : b = a'
        · subst hb
          simp [World.withGuard, ← hlk]
        · simp [World.withGuard, Function.update_noteq hb]
      | ok fd =>
        simp only []
        rw [getLockedLoop_opened cfg env _ a' fuel fd w0 (by rw [hlk]) (by rw [hlk])]
        simp only []
        have hn : ((w0.opened cfg env a' fd).withGuard a' ⟨1, false⟩
            [.RLock a']).numConcurrentReadLock = false := hinv0.numConcurrentReadLock
        simp only [hn, Bool.false_eq_true, if_false, World.withGuard_heap_same]
        refine ⟨_, _, rfl, hinv0.opened fd (lookup_mem hl).1 hv hf ?_ ?_ rfl rfl hinv0.purgeLock
          rfl rfl rfl rfl rfl
          ⟨[.RLock a', .RUnlock a', .Lock a',
            .osOpen a' ((w0.heap a').key.Filename env cfg.PGDataPath) (some fd), .Unlock a',
            .RLock a', adviseEvent pg env
              (((w0.opened cfg env a' fd).withGuard a' ⟨1, false⟩ [.RLock a']).heap a').f
              ioReq.Block, .RUnlock a'],
            by simp [World.prefaulted, World.withGuard, World.opened], ?_⟩⟩
        · intro b hb
          simp [World.prefaulted, World.withGuard, World.opened, Function.update_noteq hb]
        · simp [World.prefaulted, World.withGuard, World.opened, ← hlk]
        · intro b
          by_cases hb : a' = b
          · subst hb
            simp [Event.opens, Event.closes, adviseEvent]
          · have hb' : ¬ b = a' := fun e => hb e.symm
            simp [Event.opens, Event.closes, adviseEvent, hb, hb']

/-- Under the invariant every history returns and keeps the invariant. -/
theorem runOps_Inv (pg : PgConsts) (cfg : FHCacheConfig) (ops : List Op) :
    ∀ w, Inv w → ∃ w1, runOps pg cfg ops w = .done () w1 ∧ Inv w1 := by
  induction ops with
  | nil => exact fun w h => ⟨w, rfl, h⟩
  | cons op rest ih =>
    intro w h
    cases op with
    | prefault env fuel ioReq =>
      obtain ⟨r, w1, hp, hinv⟩ := PrefaultPage_Inv h pg cfg env fuel ioReq
      obtain ⟨w2, hr, hinv2⟩ := ih w1 hinv
      refine ⟨w2, ?_, hinv2⟩
      simp only [runOps, runOp, hp]
      exact hr
    | evict k =>
      obtain ⟨w1, he, hinv, _⟩ := Cache.evict_Inv h k
      obtain ⟨w2, hr, hinv2⟩ := ih w1 hinv
      refine ⟨w2, ?_, hinv2⟩
      simp only [runOps, runOp, he]
      exact hr

/-- What the purge visitor does on a list of items pointing to distinct entries: it
returns, changes neither entries, table nor locks nor the open counter, adds to the close
counter the number of visited items that hold a descriptor, and records one close for
each of them. -/
theorem purgeVisit_spec (l : List Item) :
    ∀ w : World, (∀ it ∈ l, ∃ a, it.value = .ptrValue a) → (l.map Item.value).Nodup →
      ∃ w1, purgeVisit l w = .done () w1 ∧ CacheStep w w1 ∧ w1.c = w.c ∧
        w1.closeFDCount % 2 ^ 64 = (w.closeFDCount + l.countP w.holds) % 2 ^ 64 ∧
        (w.closeFDCount < 2 ^ 64 → w1.closeFDCount < 2 ^ 64) ∧
        ∀ b, w1.trace.countP (Event.opens b) = w.trace.countP (Event.opens b) ∧
          w1.trace.countP (Event.closes b) = w.trace.countP (Event.closes b) +
            if ((w.heap b).f.isSome && l.any (fun x => decide (x.value = .ptrValue b)))
              then 1 else 0 := by
  induction l with
  | nil =>
    intro w _ _
    exact ⟨w, rfl, CacheStep.refl w, rfl, by simp, fun hb => hb, fun b => by simp⟩
  | cons it rest ih =>
    intro w htyped hnodup
    obtain ⟨a, hv⟩ := htyped it (List.mem_cons_self _ _)
    rw [List.map_cons, List.nodup_cons] at hnodup
    have hnot : ∀ x ∈ rest, x.value ≠ .ptrValue a := by
      intro x hx hxv
      exact hnodup.1 (List.mem_map.mpr ⟨x, hx, by rw [hxv, hv]⟩)
    have hanyrest : rest.any (fun x => decide (x.value = .ptrValue a)) = false := by
      rw [List.any_eq_false]
      intro x hx
      simpa using hnot x hx
    rw [purgeVisit_cons]
    simp only [hv]
    obtain ⟨w1, hrun, st, hc, hcnt, hbound, htr⟩ :=
      ih (w.closed a) (fun x hx => htyped x (List.mem_cons_of_mem _ hx)) hnodup.2
    have st0 := World.closed_step w a
    have hheap : (w.closed a).heap = w.heap := st0.heap
    have hholds : (w.closed a).holds = w.holds := World.holds_congr (fun b => by rw [hheap])
    have hcc : (w.closed a).c = w.c := by
      unfold World.closed
      cases (w.heap a).f <;> rfl
    refine ⟨w1, hrun, st0.trans st, by rw [hc, hcc], ?_, ?_, ?_⟩
    · rw [hcnt, hholds, List.countP_cons]
      unfold World.closed World.holds
      simp only [hv]
      cases (w.heap a).f with
      | none => simp
      | some fd =>
        simp only [Option.isSome_some, if_true]
        omega
    · intro hb
      apply hbound
      unfold World.closed
      cases (w.heap a).f with
      | none => exact hb
      | some fd => exact Nat.mod_lt _ (by norm_num)
    · intro b
      obtain ⟨ho, hcl⟩ := htr b
      rw [ho, hcl, hheap]
      have hany : (it :: rest).any (fun x => decide (x.value = .ptrValue b))
          = (decide (a = b) || rest.any (fun x => decide (x.value = .ptrValue b))) := by
        simp [hv]
      rw [hany]
      unfold World.closed
      cases hf : (w.heap a).f with
      | none =>
        refine ⟨by simp, ?_⟩
        by_cases hab : a = b
        · subst hab
          simp [hf]
        · simp [hab]
      | some fd =>
        simp only [List.countP_append]
        constructor
        · simp [Event.opens]
        · by_cases hab : a = b
          · subst hab
            simp [Event.closes, hf, hanyrest]
          · simp [Event.closes, hab]

/-- Under the invariant `Purge` returns with an empty cache, equal counters, and for
every entry as many closes as successful opens: one of each if its descriptor was ever
there, none otherwise. -/
theorem Purge_Inv {w : World} (h : Inv w) :
    ∃ w2, Purge w = .done () w2 ∧ w2.c = [] ∧ w2.openFDCount = w2.closeFDCount ∧
      ∀ a, w2.trace.countP (Event.opens a) = (if (w2.heap a).f.isSome then 1 else 0) ∧
        w2.trace.countP (Event.closes a) = (if (w2.heap a).f.isSome then 1 else 0) := by
  have htyped : ∀ it ∈ w.c, ∃ a, it.value = .ptrValue a := fun it hit =>
    let ⟨a, hv, _⟩ := h.items it hit
    ⟨a, hv⟩
  obtain ⟨w1, hrun, st, hc, hcnt, hbound, htr⟩ :=
    purgeVisit_spec w.c { w with purgeLock := true } htyped h.values
  have hpurge : Cache.Purge { w with purgeLock := true } = .done () { w1 with c := [] } := by
    rw [Cache.Purge_visits]
    show (match purgeVisit w.c { w with purgeLock := true } with
      | .done _ w1 => Res.done () { w1 with c := [] }
      | .blocked => .blocked
      | .panic p => .panic p
      | .spin => .spin) = _
    rw [hrun]
  have hopen : w1.openFDCount = w.openFDCount := st.openFDCount
  have hclose : w1.closeFDCount = w.openFDCount := by
    have hb : w1.closeFDCount < 2 ^ 64 := hbound h.closeBound
    have h1 : w1.closeFDCount % 2 ^ 64 = (w.closeFDCount + w.live) % 2 ^ 64 := hcnt
    rw [Nat.mod_eq_of_lt hb] at h1
    rw [h1, h.count]
  have heq := Purge_eq w { w1 with c := [] } h.purgeLock h.openLock h.closeLock hpurge
  have hcounters : ({ w1 with c := [] } : World).openFDCount
      = ({ w1 with c := [] } : World).closeFDCount := by
    show w1.openFDCount = w1.closeFDCount
    rw [hopen, hclose]
  rw [if_neg (not_not.mpr hcounters)] at heq
  refine ⟨_, heq, rfl, hcounters, ?_⟩
  intro a
  obtain ⟨ho, hcl⟩ := htr a
  have hheap : w1.heap = w.heap := st.heap
  show w1.trace.countP (Event.opens a) = (if (w1.heap a).f.isSome then 1 else 0) ∧
    w1.trace.countP (Event.closes a) = (if (w1.heap a).f.isSome then 1 else 0)
  rw [ho, hcl, hheap]
  have hopens := h.opens a
  have hcloses := h.closes a
  have hres : w.c.any (fun x => decide (x.value = .ptrValue a)) = w.resident a := rfl
  refine ⟨hopens, ?_⟩
  show w.trace.countP (Event.closes a)
      + (if ((w.heap a).f.isSome && w.c.any (fun x => decide (x.value = .ptrValue a))) = true
          then 1 else 0) = _
  rw [hcloses, hres]
  cases (w.heap a).f.isSome <;> cases w.resident a <;> simp

/-- After a successful `PrefaultPage`, a call for a request with the same key, made while
the entry is still resident, succeeds on the same cached file and opens nothing. -/
theorem PrefaultPage_same_key {pg : PgConsts} {cfg : FHCacheConfig} {env : Env} {fuel : Nat}
    {r1 r2 : IOCacheKey} {w w1 : World}
    (h : PrefaultPage pg cfg env fuel r1 w = .done none w1)
    (hk : _NewKey pg r2 = _NewKey pg r1) (env2 : Env) (fuel2 : Nat)
    (hce : env2.cacheErr (_NewKey pg r2) = none)
    (hx : env2.expired (_NewKey pg r2) = false) :
    ∃ w2 es, PrefaultPage pg cfg env2 (fuel2 + 1) r2 w1 = .done none w2 ∧
      w2.openFDCount = w1.openFDCount ∧ w2.c = w1.c ∧ w2.trace = w1.trace ++ es ∧
      es.filter Event.isOpen = [] := by
  rcases PrefaultPage_done h with ⟨v, e, _, hr⟩ | ⟨a, w0, hg, _, hn, _, hw⟩
  · simp at hr
  · obtain ⟨⟨it, hit, hv⟩, ⟨fd, hf⟩, _⟩ := getLocked_ok hg
    obtain ⟨hwr, _⟩ := getLocked_ok_guard hg
    have hit1 : lookup w1.c (_NewKey pg r2) = some it := by rw [hw, hk]; exact hit
    have hf1 : (w1.heap a).f = some fd := by rw [hw]; simp [World.prefaulted, hf]
    have hwr1 : (w1.heap a).lock.writer = false := by rw [hw]; simp [World.prefaulted, hwr]
    have hn1 : w1.numConcurrentReadLock = false := by rw [hw]; rfl
    exact ⟨_, _, PrefaultPage_warm pg cfg env2 fuel2 r2 w1 it a fd hce hit1 hv hx hwr1 hf1 hn1,
      rfl, rfl,
      by simp only [World.prefaulted, World.withGuard, World.log, List.append_assoc]; rfl,
      by simp [Event.isOpen, adviseEvent]⟩

/-- What `_Value.open_` does: one open of the path resolved from the key of the entry,
recorded with its outcome. -/
theorem _Value.open_path (env : Env) (a : Nat) (root : String) (w : World) :
    ∃ r w1, _Value.open_ env a root w = .done r w1 ∧
      w1.trace = w.trace ++ [.osOpen a ((w.heap a).key.Filename env root) r.1] ∧
      (∀ fd, env.osOpen ((w.heap a).key.Filename env root) = .ok fd → r = (some fd, none)) ∧
      (∀ e, env.osOpen ((w.heap a).key.Filename env root) = .error e → r = (none, some e)) := by
  cases h : env.osOpen ((w.heap a).key.Filename env root) with
  | error e =>
    have heq : _Value.open_ env a root w = .done (none, some e)
        { w with trace := w.trace ++ [.osOpen a ((w.heap a).key.Filename env root) none] } := by
      simp only [_Value.open_, h]
    refine ⟨_, _, heq, rfl, ?_, ?_⟩
    · intro fd hfd
      cases hfd
    · intro e' he
      cases he
      rfl
  | ok fd =>
    have heq : _Value.open_ env a root w = .done (some fd, none)
        { w with
          openFDCount := (w.openFDCount + 1) % 2 ^ 64
          trace := w.trace ++ [.osOpen a ((w.heap a).key.Filename env root) (some fd)] } := by
      simp only [_Value.open_, h]
    refine ⟨_, _, heq, rfl, ?_, ?_⟩
    · intro fd' hfd
      cases hfd
      rfl
    · intro e' he
      cases he

/-- Adding one and taking one away brings an `int64` back to where it was, wrap-around
included. -/
theorem wrapInt64_inc_dec (n : Int) (hlo : -(2 : Int) ^ 63 ≤ n) (hhi : n < (2 : Int) ^ 63) :
    wrapInt64 (wrapInt64 (n + 1) + -1) = n := by
  unfold wrapInt64
  norm_num at hlo hhi ⊢
  omega

/-- `getLocked` does not touch the gauge of concurrent reads nor its mutex. -/
theorem getLocked_gauge {pg : PgConsts} {cfg : FHCacheConfig} {env : Env} {fuel : Nat}
    {ioReq : IOCacheKey} {w w1 : World} {r : Option Nat × Option Err}
    (h : getLocked pg cfg env fuel ioReq w = .done r w1) :
    w1.numConcurrentReads = w.numConcurrentReads ∧
      w1.numConcurrentReadLock = w.numConcurrentReadLock := by
  rcases getLocked_done h with ⟨e, _, _, hw⟩ | ⟨a, w0, hg, hl⟩
  · subst hw
    exact ⟨rfl, rfl⟩
  · have h0 : w0.numConcurrentReads = w.numConcurrentReads ∧
        w0.numConcurrentReadLock = w.numConcurrentReadLock := by
      rcases Cache.Get_done hg with ⟨e, _, _, hw⟩ | ⟨it, _, _, _, _, hw⟩ | ⟨w2, _, _, st, ld⟩
      · subst hw
        exact ⟨rfl, rfl⟩
      · subst hw
        exact ⟨rfl, rfl⟩
      · exact ⟨by rw [ld.numConcurrentReads, st.numConcurrentReads]; rfl,
          by rw [ld.numConcurrentReadLock, st.numConcurrentReadLock]; rfl⟩
    obtain ⟨_, hcase⟩ := getLockedLoop_done hl
    rcases hcase with ⟨fd, _, _, hw⟩ | ⟨e, _, _, _, _, hw⟩ | ⟨fd, _, _, _, _, hw⟩ <;>
      (subst hw; exact h0)

/-- What a `getLocked` that returned an entry did to the guards: seen from the world the
cache lookup left, whose guards are those before the call, it added one reader to the
guard of the entry returned and touched no other. -/
theorem getLocked_ok_guards {pg : PgConsts} {cfg : FHCacheConfig} {env : Env} {fuel : Nat}
    {ioReq : IOCacheKey} {w w1 : World} {a : Nat}
    (h : getLocked pg cfg env fuel ioReq w = .done (some a, none) w1) :
    ∃ w0 : World, (∀ b, w0.guard b = w.guard b) ∧ w1.next = w0.next ∧
      (∀ b, b ≠ a → w1.heap b = w0.heap b) ∧ (w0.heap a).lock.writer = false ∧
      (w1.heap a).lock = ⟨(w0.heap a).lock.readers + 1, false⟩ := by
  rcases getLocked_done h with ⟨e, _, hr, _⟩ | ⟨a0, w0, hg, hl⟩
  · simp at hr
  · have hothers := Cache.Get_guards hg
    obtain ⟨hwr, hcase⟩ := getLockedLoop_done hl
    rcases hcase with ⟨fd, hf, hr, hw⟩ | ⟨e, _, _, _, hr, _⟩ | ⟨fd, hf, hrd, ho, hr, hw⟩
    · simp only [Prod.mk.injEq, Option.some.injEq, and_true] at hr
      subst hr hw
      refine ⟨w0, hothers, rfl, ?_, hwr, by simp⟩
      intro b hb
      simp [World.withGuard, Function.update_noteq hb]
    · simp at hr
    · simp only [Prod.mk.injEq, Option.some.injEq, and_true] at hr
      subst hr hw
      refine ⟨w0, hothers, rfl, ?_, hwr, by simp [hrd]⟩
      intro b hb
      simp [World.withGuard, World.opened, Function.update_noteq hb]

/-- The guards after a `getLocked` that returned an error are those before the call. -/
theorem getLocked_error_guards {pg : PgConsts} {cfg : FHCacheConfig} {env : Env} {fuel : Nat}
    {ioReq : IOCacheKey} {w w1 : World} {v : Option Nat} {e : Err}
    (h : getLocked pg cfg env fuel ioReq w = .done (v, some e) w1) :
    ∀ b, w1.guard b = w.guard b := by
  rcases getLocked_done h with ⟨e1, _, _, hw⟩ | ⟨a, w0, hg, hl⟩
  · subst hw
    exact fun b => rfl
  · have hothers := Cache.Get_guards hg
    obtain ⟨_, hcase⟩ := getLockedLoop_done hl
    rcases hcase with ⟨fd, _, hr, _⟩ | ⟨e2, _, _, _, _, hw⟩ | ⟨fd, _, _, _, hr, _⟩
    · simp at hr
    · subst hw
      intro b
      rw [World.withGuard_guard_self, hothers b]
    · simp at hr

theorem countP_split_zero {p : Pc → Bool} {l1 l2 : List Pc} {pc : Pc}
    (h : (l1 ++ pc :: l2).countP p = 0) :
    l1.countP p = 0 ∧ p pc = false ∧ l2.countP p = 0 := by
  simp only [List.countP_append, List.countP_cons] at h
  cases hp : p pc
  · simp only [hp, Bool.false_eq_true, if_false] at h
    exact ⟨by omega, rfl, by omega⟩
  · simp only [hp, if_true] at h
    omega

theorem countP_isAssign_le (l : List Pc) : l.countP Pc.isAssign ≤ l.countP Pc.holdsWrite := by
  apply List.countP_mono_left
  intro pc _ h
  cases pc <;> simp_all [Pc.isAssign, Pc.holdsWrite]

theorem countP_sawNone_le (l : List Pc) : l.countP Pc.sawNone ≤ l.countP Pc.holdsWrite := by
  apply List.countP_mono_left
  intro pc _ h
  cases pc <;> simp_all [Pc.sawNone, Pc.holdsWrite]

theorem rank_mono (pc : Pc) : pc.rank true ≤ pc.rank false := by
  cases pc <;> simp [Pc.rank]

theorem rank_sum_mono (l : List Pc) :
    (l.map (Pc.rank true)).sum ≤ (l.map (Pc.rank false)).sum := by
  induction l with
  | nil => simp
  | cons pc l ih =>
    have := rank_mono pc
    simp only [List.map_cons, List.sum_cons]
    omega

theorem Pc.step_rlock (pg : PgConsts) (cfg : FHCacheConfig) (env : Env) (req : IOCacheKey)
    (key : _Key) (a fd : Nat) (w0 w : World) (l1 l2 : List Pc) (v : Nat)
    (h : Episode cfg key a fd w0 (l1 ++ Pc.rlock v :: l2) w) :
    StepOk cfg key a fd w0 l1 l2 (Pc.rlock v) w ((Pc.rlock v).step pg cfg env req w) := by
  obtain ⟨hres, hkey, hoff, hrd, hwr, hg, hfile, hsf, hsn, hop, hcnt⟩ := h
  obtain ⟨ho1, hpc, ho2⟩ := countP_split_zero hoff
  have ha1 := countP_isAssign_le l1
  have ha2 := countP_isAssign_le l2
  have hn1 := countP_sawNone_le l1
  have hn2 := countP_sawNone_le l2
  have hm1 := rank_sum_mono l1
  have hm2 := rank_sum_mono l2
  simp only [
    List.countP_append, List.countP_cons, Pc.holdsRead, Pc.holdsWrite, Pc.holdsGauge, Pc.sawFile,
    Pc.sawNone, Pc.isAssign, Bool.false_eq_true, if_false, if_true, Nat.add_zero]
    at hrd hwr hg hsf hsn hop hcnt
  simp [Pc.off] at hpc
  subst hpc
  simp only [StepOk, Pc.step, _Value.RLock, onGuard, RWMutex.RLock, M.bind_run, M.pure_run]
  cases hw : (w.heap v).lock.writer
  · simp only [Bool.false_eq_true, if_false]
    try simp only [hw, Bool.false_eq_true, if_true, if_false, true_and, true_implies]
      at hrd hwr hg hsf hsn hop hcnt
    refine ⟨⟨?_, ?_, ?_, ?_, ?_, ?_, ?_, ?_, ?_, ?_, ?_⟩, ?_⟩
    all_goals try simp only [
      List.countP_append, List.countP_cons, Pc.holdsRead, Pc.holdsWrite, Pc.holdsGauge, Pc.sawFile,
      Pc.sawNone, Pc.isAssign, Bool.false_eq_true, if_false, if_true, Nat.add_zero, Pc.off,
      Function.update_same, List.filter_append, List.filter_cons, List.filter_nil, Event.isOpen,
      List.append_nil, budget, List.map_append, List.map_cons, List.sum_append, List.sum_cons,
      Pc.rank, decide_not, decide_True, Bool.not_true, Option.isSome_some, Option.isSome_none,
      World.log, List.length_append, List.length_cons, List.length_nil, true_and, true_implies,
      hw]
    all_goals first
      | assumption
      | omega
      | (split_ifs at * <;> omega)
      | (intro _; omega)
      | (intro _; split_ifs at * <;> omega)
      | (simp_all; done)
  · simp

theorem Pc.step_check (pg : PgConsts) (cfg : FHCacheConfig) (env : Env) (req : IOCacheKey)
    (key : _Key) (a fd : Nat) (w0 w : World) (l1 l2 : List Pc) (v : Nat)
    (h : Episode cfg key a fd w0 (l1 ++ Pc.check v :: l2) w) :
    StepOk cfg key a fd w0 l1 l2 (Pc.check v) w ((Pc.check v).step pg cfg env req w) := by
  obtain ⟨hres, hkey, hoff, hrd, hwr, hg, hfile, hsf, hsn, hop, hcnt⟩ := h
  obtain ⟨ho1, hpc, ho2⟩ := countP_split_zero hoff
  have ha1 := countP_isAssign_le l1
  have ha2 := countP_isAssign_le l2
  have hn1 := countP_sawNone_le l1
  have hn2 := countP_sawNone_le l2
  have hm1 := rank_sum_mono l1
  have hm2 := rank_sum_mono l2
  simp only [
    List.countP_append, List.countP_cons, Pc.holdsRead, Pc.holdsWrite, Pc.holdsGauge, Pc.sawFile,
    Pc.sawNone, Pc.isAssign, Bool.false_eq_true, if_false, if_true, Nat.add_zero]
    at hrd hwr hg hsf hsn hop hcnt
  simp [Pc.off] at hpc
  subst hpc
  simp only [StepOk, Pc.step, _Value.getF, M.bind_run, M.pure_run]
  cases hf : (w.heap v).f with
  | none =>
    try simp only [hf, Bool.false_eq_true, if_true, if_false, true_and, true_implies]
      at hrd hwr hg hsf hsn hop hcnt
    refine ⟨⟨?_, ?_, ?_, ?_, ?_, ?_, ?_, ?_, ?_, ?_, ?_⟩, ?_⟩
    all_goals try simp only [
      List.countP_append, List.countP_cons, Pc.holdsRead, Pc.holdsWrite, Pc.holdsGauge, Pc.sawFile,
      Pc.sawNone, Pc.isAssign, Bool.false_eq_true, if_false, if_true, Nat.add_zero, Pc.off,
      Function.update_same, List.filter_append, List.filter_cons, List.filter_nil, Event.isOpen,
      List.append_nil, budget, List.map_append, List.map_cons, List.sum_append, List.sum_cons,
      Pc.rank, decide_not, decide_True, Bool.not_true, Option.isSome_some, Option.isSome_none,
      World.log, List.length_append, List.length_cons, List.length_nil, true_and, true_implies,
      hf]
    all_goals first
      | assumption
      | omega
      | (split_ifs at * <;> omega)
      | (intro _; omega)
      | (intro _; split_ifs at * <;> omega)
      | (simp_all; done)
  | some x =>
    try simp only [hf, Bool.false_eq_true, if_true, if_false, true_and, true_implies]
      at hrd hwr hg hsf hsn hop hcnt
    refine ⟨⟨?_, ?_, ?_, ?_, ?_, ?_, ?_, ?_, ?_, ?_, ?_⟩, ?_⟩
    all_goals try simp only [
      List.countP_append, List.countP_cons, Pc.holdsRead, Pc.holdsWrite, Pc.holdsGauge, Pc.sawFile,
      Pc.sawNone, Pc.isAssign, Bool.false_eq_true, if_false, if_true, Nat.add_zero, Pc.off,
      Function.update_same, List.filter_append, List.filter_cons, List.filter_nil, Event.isOpen,
      List.append_nil, budget, List.map_append, List.map_cons, List.sum_append, List.sum_cons,
      Pc.rank, decide_not, decide_True, Bool.not_true, Option.isSome_some, Option.isSome_none,
      World.log, List.length_append, List.length_cons, List.length_nil, true_and, true_implies,
      hf]
    all_goals first
      | assumption
      | omega
      | (split_ifs at * <;> omega)
      | (intro _; omega)
      | (intro _; split_ifs at * <;> omega)
      | (simp_all; done)

theorem Pc.step_recheck (pg : PgConsts) (cfg : FHCacheConfig) (env : Env) (req : IOCacheKey)
    (key : _Key) (a fd : Nat) (w0 w : World) (l1 l2 : List Pc) (v : Nat)
    (h : Episode cfg key a fd w0 (l1 ++ Pc.recheck v :: l2) w) :
    StepOk cfg key a fd w0 l1 l2 (Pc.recheck v) w ((Pc.recheck v).step pg cfg env req w) := by
  obtain ⟨hres, hkey, hoff, hrd, hwr, hg, hfile, hsf, hsn, hop, hcnt⟩ := h
  obtain ⟨ho1, hpc, ho2⟩ := countP_split_zero hoff
  have ha1 := countP_isAssign_le l1
  have ha2 := countP_isAssign_le l2
  have hn1 := countP_sawNone_le l1
  have hn2 := countP_sawNone_le l2
  have hm1 := rank_sum_mono l1
  have hm2 := rank_sum_mono l2
  simp only [
    List.countP_append, List.countP_cons, Pc.holdsRead, Pc.holdsWrite, Pc.holdsGauge, Pc.sawFile,
    Pc.sawNone, Pc.isAssign, Bool.false_eq_true, if_false, if_true, Nat.add_zero]
    at hrd hwr hg hsf hsn hop hcnt
  simp [Pc.off] at hpc
  subst hpc
  simp only [StepOk, Pc.step, _Value.getF, M.bind_run, M.pure_run]
  cases hf : (w.heap v).f with
  | none =>
    try simp only [hf, Bool.false_eq_true, if_true, if_false, true_and, true_implies]
      at hrd hwr hg hsf hsn hop hcnt
    refine ⟨⟨?_, ?_, ?_, ?_, ?_, ?_, ?_, ?_, ?_, ?_, ?_⟩, ?_⟩
    all_goals try simp only [
      List.countP_append, List.countP_cons, Pc.holdsRead, Pc.holdsWrite, Pc.holdsGauge, Pc.sawFile,
      Pc.sawNone, Pc.isAssign, Bool.false_eq_true, if_false, if_true, Nat.add_zero, Pc.off,
      Function.update_same, List.filter_append, List.filter_cons, List.filter_nil, Event.isOpen,
      List.append_nil, budget, List.map_append, List.map_cons, List.sum_append, List.sum_cons,
      Pc.rank, decide_not, decide_True, Bool.not_true, Option.isSome_some, Option.isSome_none,
      World.log, List.length_append, List.length_cons, List.length_nil, true_and, true_implies,
      hf]
    all_goals first
      | assumption
      | omega
      | (split_ifs at * <;> omega)
      | (intro _; omega)
      | (intro _; split_ifs at * <;> omega)
      | (simp_all; done)
  | some x =>
    try simp only [hf, Bool.false_eq_true, if_true, if_false, true_and, true_implies]
      at hrd hwr hg hsf hsn hop hcnt
    refine ⟨⟨?_, ?_, ?_, ?_, ?_, ?_, ?_, ?_, ?_, ?_, ?_⟩, ?_⟩
    all_goals try simp only [
      List.countP_append, List.countP_cons, Pc.holdsRead, Pc.holdsWrite, Pc.holdsGauge, Pc.sawFile,
      Pc.sawNone, Pc.isAssign, Bool.false_eq_true, if_false, if_true, Nat.add_zero, Pc.off,
      Function.update_same, List.filter_append, List.filter_cons, List.filter_nil, Event.isOpen,
      List.append_nil, budget, List.map_append, List.map_cons, List.sum_append, List.sum_cons,
      Pc.rank, decide_not, decide_True, Bool.not_true, Option.isSome_some, Option.isSome_none,
      World.log, List.length_append, List.length_cons, List.length_nil, true_and, true_implies,
      hf]
    all_goals first
      | assumption
      | omega
      | (split_ifs at * <;> omega)
      | (intro _; omega)
      | (intro _; split_ifs at * <;> omega)
      | (simp_all; done)

theorem Pc.step_runlock (pg : PgConsts) (cfg : FHCacheConfig) (env : Env) (req : IOCacheKey)
    (key : _Key) (a fd : Nat) (w0 w : World) (l1 l2 : List Pc) (v : Nat)
    (h : Episode cfg key a fd w0 (l1 ++ Pc.runlock v :: l2) w) :
    StepOk cfg key a fd w0 l1 l2 (Pc.runlock v) w ((Pc.runlock v).step pg cfg env req w) := by
  obtain ⟨hres, hkey, hoff, hrd, hwr, hg, hfile, hsf, hsn, hop, hcnt⟩ := h
  obtain ⟨ho1, hpc, ho2⟩ := countP_split_zero hoff
  have ha1 := countP_isAssign_le l1
  have ha2 := countP_isAssign_le l2
  have hn1 := countP_sawNone_le l1
  have hn2 := countP_sawNone_le l2
  have hm1 := rank_sum_mono l1
  have hm2 := rank_sum_mono l2
  simp only [
    List.countP_append, List.countP_cons, Pc.holdsRead, Pc.holdsWrite, Pc.holdsGauge, Pc.sawFile,
    Pc.sawNone, Pc.isAssign, Bool.false_eq_true, if_false, if_true, Nat.add_zero]
    at hrd hwr hg hsf hsn hop hcnt
  simp [Pc.off] at hpc
  subst hpc
  have hr : (w.heap v).lock.readers ≠ 0 := by omega
  simp only [StepOk, Pc.step, _Value.RUnlock, onGuard, RWMutex.RUnlock, M.bind_run, M.pure_run]
  simp only [hr, if_false]
  refine ⟨⟨?_, ?_, ?_, ?_, ?_, ?_, ?_, ?_, ?_, ?_, ?_⟩, ?_⟩
  all_goals try simp only [
    List.countP_append, List.countP_cons, Pc.holdsRead, Pc.holdsWrite, Pc.holdsGauge, Pc.sawFile,
    Pc.sawNone, Pc.isAssign, Bool.false_eq_true, if_false, if_true, Nat.add_zero, Pc.off,
    Function.update_same, List.filter_append, List.filter_cons, List.filter_nil, Event.isOpen,
    List.append_nil, budget, List.map_append, List.map_cons, List.sum_append, List.sum_cons,
    Pc.rank, decide_not, decide_True, Bool.not_true, Option.isSome_some, Option.isSome_none,
    World.log, List.length_append, List.length_cons, List.length_nil, true_and, true_implies]
  all_goals first
    | assumption
    | omega
    | (split_ifs at * <;> omega)
    | (intro _; omega)
    | (intro _; split_ifs at * <;> omega)
    | (simp_all; done)

theorem Pc.step_lock (pg : PgConsts) (cfg : FHCacheConfig) (env : Env) (req : IOCacheKey)
    (key : _Key) (a fd : Nat) (w0 w : World) (l1 l2 : List Pc) (v : Nat)
    (h : Episode cfg key a fd w0 (l1 ++ Pc.lock v :: l2) w) :
    StepOk cfg key a fd w0 l1 l2 (Pc.lock v) w ((Pc.lock v).step pg cfg env req w) := by
  obtain ⟨hres, hkey, hoff, hrd, hwr, hg, hfile, hsf, hsn, hop, hcnt⟩ := h
  obtain ⟨ho1, hpc, ho2⟩ := countP_split_zero hoff
  have ha1 := countP_isAssign_le l1
  have ha2 := countP_isAssign_le l2
  have hn1 := countP_sawNone_le l1
  have hn2 := countP_sawNone_le l2
  have hm1 := rank_sum_mono l1
  have hm2 := rank_sum_mono l2
  simp only [
    List.countP_append, List.countP_cons, Pc.holdsRead, Pc.holdsWrite, Pc.holdsGauge, Pc.sawFile,
    Pc.sawNone, Pc.isAssign, Bool.false_eq_true, if_false, if_true, Nat.add_zero]
    at hrd hwr hg hsf hsn hop hcnt
  simp [Pc.off] at hpc
  subst hpc
  simp only [StepOk, Pc.step, _Value.Lock, onGuard, RWMutex.Lock, M.bind_run, M.pure_run]
  cases hw : (w.heap v).lock.writer
  · by_cases hr : 0 < (w.heap v).lock.readers
    · simp [hr]
    · simp only [Bool.false_or, hr, decide_False, Bool.false_eq_true, if_false]
      try simp only [hw, Bool.false_eq_true, if_true, if_false, true_and, true_implies]
        at hrd hwr hg hsf hsn hop hcnt
      refine ⟨⟨?_, ?_, ?_, ?_, ?_, ?_, ?_, ?_, ?_, ?_, ?_⟩, ?_⟩
      all_goals try simp only [
        List.countP_append, List.countP_cons, Pc.holdsRead, Pc.holdsWrite, Pc.holdsGauge,
        Pc.sawFile, Pc.sawNone, Pc.isAssign, Bool.false_eq_true, if_false, if_true, Nat.add_zero,
        Pc.off, Function.update_same, List.filter_append, List.filter_cons, List.filter_nil,
        Event.isOpen, List.append_nil, budget, List.map_append, List.map_cons, List.sum_append,
        List.sum_cons, Pc.rank, decide_not, decide_True, Bool.not_true, Option.isSome_some,
        Option.isSome_none, World.log, List.length_append, List.length_cons, List.length_nil,
        true_and, true_implies,
        hw]
      all_goals first
        | assumption
        | omega
        | (split_ifs at * <;> omega)
        | (intro _; omega)
        | (intro _; split_ifs at * <;> omega)
        | (simp_all; done)
  · simp

theorem Pc.step_unlockRetry (pg : PgConsts) (cfg : FHCacheConfig) (env : Env) (req : IOCacheKey)
    (key : _Key) (a fd : Nat) (w0 w : World) (l1 l2 : List Pc) (v : Nat)
    (h : Episode cfg key a fd w0 (l1 ++ Pc.unlockRetry v :: l2) w) :
    StepOk cfg key a fd w0 l1 l2 (Pc.unlockRetry v) w
      ((Pc.unlockRetry v).step pg cfg env req w) := by
  obtain ⟨hres, hkey, hoff, hrd, hwr, hg, hfile, hsf, hsn, hop, hcnt⟩ := h
  obtain ⟨ho1, hpc, ho2⟩ := countP_split_zero hoff
  have ha1 := countP_isAssign_le l1
  have ha2 := countP_isAssign_le l2
  have hn1 := countP_sawNone_le l1
  have hn2 := countP_sawNone_le l2
  have hm1 := rank_sum_mono l1
  have hm2 := rank_sum_mono l2
  simp only [
    List.countP_append, List.countP_cons, Pc.holdsRead, Pc.holdsWrite, Pc.holdsGauge, Pc.sawFile,
    Pc.sawNone, Pc.isAssign, Bool.false_eq_true, if_false, if_true, Nat.add_zero]
    at hrd hwr hg hsf hsn hop hcnt
  simp [Pc.off] at hpc
  subst hpc
  have hw : (w.heap v).lock.writer = true := by
    cases hw : (w.heap v).lock.writer
    · rw [hw] at hwr
      simp at hwr
    · rfl
  have hf : (w.heap v).f = some fd := by
    rcases hfile with hf | hf
    · have := hsf hf
      omega
    · exact hf
  simp only [StepOk, Pc.step, _Value.Unlock, onGuard, RWMutex.Unlock, M.bind_run, M.pure_run]
  simp only [hw, if_true]
  try simp only [hw, hf, Bool.false_eq_true, if_true, if_false, true_and, true_implies]
    at hrd hwr hg hsf hsn hop hcnt
  refine ⟨⟨?_, ?_, ?_, ?_, ?_, ?_, ?_, ?_, ?_, ?_, ?_⟩, ?_⟩
  all_goals try simp only [
    List.countP_append, List.countP_cons, Pc.holdsRead, Pc.holdsWrite, Pc.holdsGauge, Pc.sawFile,
    Pc.sawNone, Pc.isAssign, Bool.false_eq_true, if_false, if_true, Nat.add_zero, Pc.off,
    Function.update_same, List.filter_append, List.filter_cons, List.filter_nil, Event.isOpen,
    List.append_nil, budget, List.map_append, List.map_cons, List.sum_append, List.sum_cons,
    Pc.rank, decide_not, decide_True, Bool.not_true, Option.isSome_some, Option.isSome_none,
    World.log, List.length_append, List.length_cons, List.length_nil, true_and, true_implies,
    hw, hf]
  all_goals first
    | assumption
    | omega
    | (split_ifs at * <;> omega)
    | (intro _; omega)
    | (intro _; split_ifs at * <;> omega)
    | (simp_all; done)

theorem Pc.step_unlockOpened (pg : PgConsts) (cfg : FHCacheConfig) (env : Env) (req : IOCacheKey)
    (key : _Key) (a fd : Nat) (w0 w : World) (l1 l2 : List Pc) (v : Nat)
    (h : Episode cfg key a fd w0 (l1 ++ Pc.unlockOpened v :: l2) w) :
    StepOk cfg key a fd w0 l1 l2 (Pc.unlockOpened v) w
      ((Pc.unlockOpened v).step pg cfg env req w) := by
  obtain ⟨hres, hkey, hoff, hrd, hwr, hg, hfile, hsf, hsn, hop, hcnt⟩ := h
  obtain ⟨ho1, hpc, ho2⟩ := countP_split_zero hoff
  have ha1 := countP_isAssign_le l1
  have ha2 := countP_isAssign_le l2
  have hn1 := countP_sawNone_le l1
  have hn2 := countP_sawNone_le l2
  have hm1 := rank_sum_mono l1
  have hm2 := rank_sum_mono l2
  simp only [
    List.countP_append, List.countP_cons, Pc.holdsRead, Pc.holdsWrite, Pc.holdsGauge, Pc.sawFile,
    Pc.sawNone, Pc.isAssign, Bool.false_eq_true, if_false, if_true, Nat.add_zero]
    at hrd hwr hg hsf hsn hop hcnt
  simp [Pc.off] at hpc
  subst hpc
  have hw : (w.heap v).lock.writer = true := by
    cases hw : (w.heap v).lock.writer
    · rw [hw] at hwr
      simp at hwr
    · rfl
  have hf : (w.heap v).f = some fd := by
    rcases hfile with hf | hf
    · have := hsf hf
      omega
    · exact hf
  simp only [StepOk, Pc.step, _Value.Unlock, onGuard, RWMutex.Unlock, M.bind_run, M.pure_run]
  simp only [hw, if_true]
  try simp only [hw, hf, Bool.false_eq_true, if_true, if_false, true_and, true_implies]
    at hrd hwr hg hsf hsn hop hcnt
  refine ⟨⟨?_, ?_, ?_, ?_, ?_, ?_, ?_, ?_, ?_, ?_, ?_⟩, ?_⟩
  all_goals try simp only [
    List.countP_append, List.countP_cons, Pc.holdsRead, Pc.holdsWrite, Pc.holdsGauge, Pc.sawFile,
    Pc.sawNone, Pc.isAssign, Bool.false_eq_true, if_false, if_true, Nat.add_zero, Pc.off,
    Function.update_same, List.filter_append, List.filter_cons, List.filter_nil, Event.isOpen,
    List.append_nil, budget, List.map_append, List.map_cons, List.sum_append, List.sum_cons,
    Pc.rank, decide_not, decide_True, Bool.not_true, Option.isSome_some, Option.isSome_none,
    World.log, List.length_append, List.length_cons, List.length_nil, true_and, true_implies,
    hw, hf]
  all_goals first
    | assumption
    | omega
    | (split_ifs at * <;> omega)
    | (intro _; omega)
    | (intro _; split_ifs at * <;> omega)
    | (simp_all; done)

theorem Pc.step_open_ (pg : PgConsts) (cfg : FHCacheConfig) (env : Env) (req : IOCacheKey)
    (key : _Key) (a fd : Nat) (w0 w : World) (l1 l2 : List Pc) (v : Nat)
    (hopen : env.osOpen (key.Filename env cfg.PGDataPath) = .ok fd)
    (h : Episode cfg key a fd w0 (l1 ++ Pc.open_ v :: l2) w) :
    StepOk cfg key a fd w0 l1 l2 (Pc.open_ v) w ((Pc.open_ v).step pg cfg env req w) := by
  obtain ⟨hres, hkey, hoff, hrd, hwr, hg, hfile, hsf, hsn, hop, hcnt⟩ := h
  obtain ⟨ho1, hpc, ho2⟩ := countP_split_zero hoff
  have ha1 := countP_isAssign_le l1
  have ha2 := countP_isAssign_le l2
  have hn1 := countP_sawNone_le l1
  have hn2 := countP_sawNone_le l2
  have hm1 := rank_sum_mono l1
  have hm2 := rank_sum_mono l2
  simp only [
    List.countP_append, List.countP_cons, Pc.holdsRead, Pc.holdsWrite, Pc.holdsGauge, Pc.sawFile,
    Pc.sawNone, Pc.isAssign, Bool.false_eq_true, if_false, if_true, Nat.add_zero]
    at hrd hwr hg hsf hsn hop hcnt
  simp [Pc.off] at hpc
  subst hpc
  have hf : (w.heap v).f = none := by
    rcases hfile with hf | hf
    · exact hf
    · have := hsn hf
      omega
  have hw : (w.heap v).lock.writer = true := by
    cases hw : (w.heap v).lock.writer
    · rw [hw] at hwr
      simp at hwr
    · rfl
  simp only [StepOk, Pc.step, _Value.open_, hkey, hopen, M.bind_run, M.pure_run]
  try simp only [hw, hf, Bool.false_eq_true, if_true, if_false, true_and, true_implies]
    at hrd hwr hg hsf hsn hop hcnt
  refine ⟨⟨?_, ?_, ?_, ?_, ?_, ?_, ?_, ?_, ?_, ?_, ?_⟩, ?_⟩
  all_goals try simp only [
    List.countP_append, List.countP_cons, Pc.holdsRead, Pc.holdsWrite, Pc.holdsGauge, Pc.sawFile,
    Pc.sawNone, Pc.isAssign, Bool.false_eq_true, if_false, if_true, Nat.add_zero, Pc.off,
    Function.update_same, List.filter_append, List.filter_cons, List.filter_nil, Event.isOpen,
    List.append_nil, budget, List.map_append, List.map_cons, List.sum_append, List.sum_cons,
    Pc.rank, decide_not, decide_True, Bool.not_true, Option.isSome_some, Option.isSome_none,
    World.log, List.length_append, List.length_cons, List.length_nil, true_and, true_implies,
    hw, hf]
  all_goals first
    | assumption
    | omega
    | (split_ifs at * <;> omega)
    | (intro _; omega)
    | (intro _; split_ifs at * <;> omega)
    | (simp_all; done)

theorem Pc.step_warn (pg : PgConsts) (cfg : FHCacheConfig) (env : Env) (req : IOCacheKey)
    (key : _Key) (a fd : Nat) (w0 w : World) (l1 l2 : List Pc) (v : Nat) (err : Err)
    (h : Episode cfg key a fd w0 (l1 ++ Pc.warn v err :: l2) w) :
    StepOk cfg key a fd w0 l1 l2 (Pc.warn v err) w ((Pc.warn v err).step pg cfg env req w) := by
  obtain ⟨hres, hkey, hoff, hrd, hwr, hg, hfile, hsf, hsn, hop, hcnt⟩ := h
  obtain ⟨ho1, hpc, ho2⟩ := countP_split_zero hoff
  have ha1 := countP_isAssign_le l1
  have ha2 := countP_isAssign_le l2
  have hn1 := countP_sawNone_le l1
  have hn2 := countP_sawNone_le l2
  have hm1 := rank_sum_mono l1
  have hm2 := rank_sum_mono l2
  simp only [
    List.countP_append, List.countP_cons, Pc.holdsRead, Pc.holdsWrite, Pc.holdsGauge, Pc.sawFile,
    Pc.sawNone, Pc.isAssign, Bool.false_eq_true, if_false, if_true, Nat.add_zero]
    at hrd hwr hg hsf hsn hop hcnt
  simp [Pc.off] at hpc

theorem Pc.step_unlockFail (pg : PgConsts) (cfg : FHCacheConfig) (env : Env) (req : IOCacheKey)
    (key : _Key) (a fd : Nat) (w0 w : World) (l1 l2 : List Pc) (v : Nat) (err : Err)
    (h : Episode cfg key a fd w0 (l1 ++ Pc.unlockFail v err :: l2) w) :
    StepOk cfg key a fd w0 l1 l2 (Pc.unlockFail v err) w
      ((Pc.unlockFail v err).step pg cfg env req w) := by
  obtain ⟨hres, hkey, hoff, hrd, hwr, hg, hfile, hsf, hsn, hop, hcnt⟩ := h
  obtain ⟨ho1, hpc, ho2⟩ := countP_split_zero hoff
  have ha1 := countP_isAssign_le l1
  have ha2 := countP_isAssign_le l2
  have hn1 := countP_sawNone_le l1
  have hn2 := countP_sawNone_le l2
  have hm1 := rank_sum_mono l1
  have hm2 := rank_sum_mono l2
  simp only [
    List.countP_append, List.countP_cons, Pc.holdsRead, Pc.holdsWrite, Pc.holdsGauge, Pc.sawFile,
    Pc.sawNone, Pc.isAssign, Bool.false_eq_true, if_false, if_true, Nat.add_zero]
    at hrd hwr hg hsf hsn hop hcnt
  simp [Pc.off] at hpc

theorem Pc.step_assign (pg : PgConsts) (cfg : FHCacheConfig) (env : Env) (req : IOCacheKey)
    (key : _Key) (a fd : Nat) (w0 w : World) (l1 l2 : List Pc) (v : Nat) (f : Option Nat)
    (h : Episode cfg key a fd w0 (l1 ++ Pc.assign v f :: l2) w) :
    StepOk cfg key a fd w0 l1 l2 (Pc.assign v f) w ((Pc.assign v f).step pg cfg env req w) := by
  obtain ⟨hres, hkey, hoff, hrd, hwr, hg, hfile, hsf, hsn, hop, hcnt⟩ := h
  obtain ⟨ho1, hpc, ho2⟩ := countP_split_zero hoff
  have ha1 := countP_isAssign_le l1
  have ha2 := countP_isAssign_le l2
  have hn1 := countP_sawNone_le l1
  have hn2 := countP_sawNone_le l2
  have hm1 := rank_sum_mono l1
  have hm2 := rank_sum_mono l2
  simp only [
    List.countP_append, List.countP_cons, Pc.holdsRead, Pc.holdsWrite, Pc.holdsGauge, Pc.sawFile,
    Pc.sawNone, Pc.isAssign, Bool.false_eq_true, if_false, if_true, Nat.add_zero]
    at hrd hwr hg hsf hsn hop hcnt
  simp [Pc.off] at hpc
  obtain ⟨hv, hf⟩ := hpc
  subst hv
  subst hf
  have hf0 : (w.heap v).f = none := by
    rcases hfile with hf | hf
    · exact hf
    · have := hsn hf
      omega
  have hw : (w.heap v).lock.writer = true := by
    cases hw : (w.heap v).lock.writer
    · rw [hw] at hwr
      simp at hwr
    · rfl
  simp only [StepOk, Pc.step, _Value.setF, M.bind_run, M.pure_run]
  try simp only [hw, hf0, Bool.false_eq_true, if_true, if_false, true_and, true_implies]
    at hrd hwr hg hsf hsn hop hcnt
  refine ⟨⟨?_, ?_, ?_, ?_, ?_, ?_, ?_, ?_, ?_, ?_, ?_⟩, ?_⟩
  all_goals try simp only [
    List.countP_append, List.countP_cons, Pc.holdsRead, Pc.holdsWrite, Pc.holdsGauge, Pc.sawFile,
    Pc.sawNone, Pc.isAssign, Bool.false_eq_true, if_false, if_true, Nat.add_zero, Pc.off,
    Function.update_same, List.filter_append, List.filter_cons, List.filter_nil, Event.isOpen,
    List.append_nil, budget, List.map_append, List.map_cons, List.sum_append, List.sum_cons,
    Pc.rank, decide_not, decide_True, Bool.not_true, Option.isSome_some, Option.isSome_none,
    World.log, List.length_append, List.length_cons, List.length_nil, true_and, true_implies,
    hw, hf0]
  all_goals first
    | assumption
    | omega
    | (split_ifs at * <;> omega)
    | (intro _; omega)
    | (intro _; split_ifs at * <;> omega)
    | (simp_all; done)

theorem Pc.step_gaugeLock (pg : PgConsts) (cfg : FHCacheConfig) (env : Env) (req : IOCacheKey)
    (key : _Key) (a fd : Nat) (w0 w : World) (l1 l2 : List Pc) (v : Nat)
    (h : Episode cfg key a fd w0 (l1 ++ Pc.gaugeLock v :: l2) w) :
    StepOk cfg key a fd w0 l1 l2 (Pc.gaugeLock v) w ((Pc.gaugeLock v).step pg cfg env req w) := by
  obtain ⟨hres, hkey, hoff, hrd, hwr, hg, hfile, hsf, hsn, hop, hcnt⟩ := h
  obtain ⟨ho1, hpc, ho2⟩ := countP_split_zero hoff
  have ha1 := countP_isAssign_le l1
  have ha2 := countP_isAssign_le l2
  have hn1 := countP_sawNone_le l1
  have hn2 := countP_sawNone_le l2
  have hm1 := rank_sum_mono l1
  have hm2 := rank_sum_mono l2
  simp only [
    List.countP_append, List.countP_cons, Pc.holdsRead, Pc.holdsWrite, Pc.holdsGauge, Pc.sawFile,
    Pc.sawNone, Pc.isAssign, Bool.false_eq_true, if_false, if_true, Nat.add_zero]
    at hrd hwr hg hsf hsn hop hcnt
  simp [Pc.off] at hpc
  subst hpc
  have hf : (w.heap v).f = some fd := by
    rcases hfile with hf | hf
    · have := hsf hf
      omega
    · exact hf
  simp only [StepOk, Pc.step, numConcurrentReadLock_Lock, mutexLock, M.bind_run, M.pure_run]
  cases hgl : w.numConcurrentReadLock
  · simp only [Bool.false_eq_true, if_false]
    try simp only [hgl, hf, Bool.false_eq_true, if_true, if_false, true_and, true_implies]
      at hrd hwr hg hsf hsn hop hcnt
    refine ⟨⟨?_, ?_, ?_, ?_, ?_, ?_, ?_, ?_, ?_, ?_, ?_⟩, ?_⟩
    all_goals try simp only [
      List.countP_append, List.countP_cons, Pc.holdsRead, Pc.holdsWrite, Pc.holdsGauge, Pc.sawFile,
      Pc.sawNone, Pc.isAssign, Bool.false_eq_true, if_false, if_true, Nat.add_zero, Pc.off,
      Function.update_same, List.filter_append, List.filter_cons, List.filter_nil, Event.isOpen,
      List.append_nil, budget, List.map_append, List.map_cons, List.sum_append, List.sum_cons,
      Pc.rank, decide_not, decide_True, Bool.not_true, Option.isSome_some, Option.isSome_none,
      World.log, List.length_append, List.length_cons, List.length_nil, true_and, true_implies,
      hgl, hf]
    all_goals first
      | assumption
      | omega
      | (split_ifs at * <;> omega)
      | (intro _; omega)
      | (intro _; split_ifs at * <;> omega)
      | (simp_all; done)
  · simp

theorem Pc.step_deferLock (pg : PgConsts) (cfg : FHCacheConfig) (env : Env) (req : IOCacheKey)
    (key : _Key) (a fd : Nat) (w0 w : World) (l1 l2 : List Pc) (v : Nat)
    (h : Episode cfg key a fd w0 (l1 ++ Pc.deferLock v :: l2) w) :
    StepOk cfg key a fd w0 l1 l2 (Pc.deferLock v) w ((Pc.deferLock v).step pg cfg env req w) := by
  obtain ⟨hres, hkey, hoff, hrd, hwr, hg, hfile, hsf, hsn, hop, hcnt⟩ := h
  obtain ⟨ho1, hpc, ho2⟩ := countP_split_zero hoff
  have ha1 := countP_isAssign_le l1
  have ha2 := countP_isAssign_le l2
  have hn1 := countP_sawNone_le l1
  have hn2 := countP_sawNone_le l2
  have hm1 := rank_sum_mono l1
  have hm2 := rank_sum_mono l2
  simp only [
    List.countP_append, List.countP_cons, Pc.holdsRead, Pc.holdsWrite, Pc.holdsGauge, Pc.sawFile,
    Pc.sawNone, Pc.isAssign, Bool.false_eq_true, if_false, if_true, Nat.add_zero]
    at hrd hwr hg hsf hsn hop hcnt
  simp [Pc.off] at hpc
  subst hpc
  have hf : (w.heap v).f = some fd := by
    rcases hfile with hf | hf
    · have := hsf hf
      omega
    · exact hf
  simp only [StepOk, Pc.step, numConcurrentReadLock_Lock, mutexLock, M.bind_run, M.pure_run]
  cases hgl : w.numConcurrentReadLock
  · simp only [Bool.false_eq_true, if_false]
    try simp only [hgl, hf, Bool.false_eq_true, if_true, if_false, true_and, true_implies]
      at hrd hwr hg hsf hsn hop hcnt
    refine ⟨⟨?_, ?_, ?_, ?_, ?_, ?_, ?_, ?_, ?_, ?_, ?_⟩, ?_⟩
    all_goals try simp only [
      List.countP_append, List.countP_cons, Pc.holdsRead, Pc.holdsWrite, Pc.holdsGauge, Pc.sawFile,
      Pc.sawNone, Pc.isAssign, Bool.false_eq_true, if_false, if_true, Nat.add_zero, Pc.off,
      Function.update_same, List.filter_append, List.filter_cons, List.filter_nil, Event.isOpen,
      List.append_nil, budget, List.map_append, List.map_cons, List.sum_append, List.sum_cons,
      Pc.rank, decide_not, decide_True, Bool.not_true, Option.isSome_some, Option.isSome_none,
      World.log, List.length_append, List.length_cons, List.length_nil, true_and, true_implies,
      hgl, hf]
    all_goals first
      | assumption
      | omega
      | (split_ifs at * <;> omega)
      | (intro _; omega)
      | (intro _; split_ifs at * <;> omega)
      | (simp_all; done)
  · simp

theorem Pc.step_gaugeInc (pg : PgConsts) (cfg : FHCacheConfig) (env : Env) (req : IOCacheKey)
    (key : _Key) (a fd : Nat) (w0 w : World) (l1 l2 : List Pc) (v : Nat)
    (h : Episode cfg key a fd w0 (l1 ++ Pc.gaugeInc v :: l2) w) :
    StepOk cfg key a fd w0 l1 l2 (Pc.gaugeInc v) w ((Pc.gaugeInc v).step pg cfg env req w) := by
  obtain ⟨hres, hkey, hoff, hrd, hwr, hg, hfile, hsf, hsn, hop, hcnt⟩ := h
  obtain ⟨ho1, hpc, ho2⟩ := countP_split_zero hoff
  have ha1 := countP_isAssign_le l1
  have ha2 := countP_isAssign_le l2
  have hn1 := countP_sawNone_le l1
  have hn2 := countP_sawNone_le l2
  have hm1 := rank_sum_mono l1
  have hm2 := rank_sum_mono l2
  simp only [
    List.countP_append, List.countP_cons, Pc.holdsRead, Pc.holdsWrite, Pc.holdsGauge, Pc.sawFile,
    Pc.sawNone, Pc.isAssign, Bool.false_eq_true, if_false, if_true, Nat.add_zero]
    at hrd hwr hg hsf hsn hop hcnt
  simp [Pc.off] at hpc
  subst hpc
  have hf : (w.heap v).f = some fd := by
    rcases hfile with hf | hf
    · have := hsf hf
      omega
    · exact hf
  simp only [StepOk, Pc.step, addConcurrentReads, M.bind_run, M.pure_run]
  try simp only [hf, Bool.false_eq_true, if_true, if_false, true_and, true_implies]
    at hrd hwr hg hsf hsn hop hcnt
  refine ⟨⟨?_, ?_, ?_, ?_, ?_, ?_, ?_, ?_, ?_, ?_, ?_⟩, ?_⟩
  all_goals try simp only [
    List.countP_append, List.countP_cons, Pc.holdsRead, Pc.holdsWrite, Pc.holdsGauge, Pc.sawFile,
    Pc.sawNone, Pc.isAssign, Bool.false_eq_true, if_false, if_true, Nat.add_zero, Pc.off,
    Function.update_same, List.filter_append, List.filter_cons, List.filter_nil, Event.isOpen,
    List.append_nil, budget, List.map_append, List.map_cons, List.sum_append, List.sum_cons,
    Pc.rank, decide_not, decide_True, Bool.not_true, Option.isSome_some, Option.isSome_none,
    World.log, List.length_append, List.length_cons, List.length_nil, true_and, true_implies,
    hf]
  all_goals first
    | assumption
    | omega
    | (split_ifs at * <;> omega)
    | (intro _; omega)
    | (intro _; split_ifs at * <;> omega)
    | (simp_all; done)

theorem Pc.step_deferDec (pg : PgConsts) (cfg : FHCacheConfig) (env : Env) (req : IOCacheKey)
    (key : _Key) (a fd : Nat) (w0 w : World) (l1 l2 : List Pc) (v : Nat)
    (h : Episode cfg key a fd w0 (l1 ++ Pc.deferDec v :: l2) w) :
    StepOk cfg key a fd w0 l1 l2 (Pc.deferDec v) w ((Pc.deferDec v).step pg cfg env req w) := by
  obtain ⟨hres, hkey, hoff, hrd, hwr, hg, hfile, hsf, hsn, hop, hcnt⟩ := h
  obtain ⟨ho1, hpc, ho2⟩ := countP_split_zero hoff
  have ha1 := countP_isAssign_le l1
  have ha2 := countP_isAssign_le l2
  have hn1 := countP_sawNone_le l1
  have hn2 := countP_sawNone_le l2
  have hm1 := rank_sum_mono l1
  have hm2 := rank_sum_mono l2
  simp only [
    List.countP_append, List.countP_cons, Pc.holdsRead, Pc.holdsWrite, Pc.holdsGauge, Pc.sawFile,
    Pc.sawNone, Pc.isAssign, Bool.false_eq_true, if_false, if_true, Nat.add_zero]
    at hrd hwr hg hsf hsn hop hcnt
  simp [Pc.off] at hpc
  subst hpc
  have hf : (w.heap v).f = some fd := by
    rcases hfile with hf | hf
    · have := hsf hf
      omega
    · exact hf
  simp only [StepOk, Pc.step, addConcurrentReads, M.bind_run, M.pure_run]
  try simp only [hf, Bool.false_eq_true, if_true, if_false, true_and, true_implies]
    at hrd hwr hg hsf hsn hop hcnt
  refine ⟨⟨?_, ?_, ?_, ?_, ?_, ?_, ?_, ?_, ?_, ?_, ?_⟩, ?_⟩
  all_goals try simp only [
    List.countP_append, List.countP_cons, Pc.holdsRead, Pc.holdsWrite, Pc.holdsGauge, Pc.sawFile,
    Pc.sawNone, Pc.isAssign, Bool.false_eq_true, if_false, if_true, Nat.add_zero, Pc.off,
    Function.update_same, List.filter_append, List.filter_cons, List.filter_nil, Event.isOpen,
    List.append_nil, budget, List.map_append, List.map_cons, List.sum_append, List.sum_cons,
    Pc.rank, decide_not, decide_True, Bool.not_true, Option.isSome_some, Option.isSome_none,
    World.log, List.length_append, List.length_cons, List.length_nil, true_and, true_implies,
    hf]
  all_goals first
    | assumption
    | omega
    | (split_ifs at * <;> omega)
    | (intro _; omega)
    | (intro _; split_ifs at * <;> omega)
    | (simp_all; done)

theorem Pc.step_gaugeUnlock (pg : PgConsts) (cfg : FHCacheConfig) (env : Env) (req : IOCacheKey)
    (key : _Key) (a fd : Nat) (w0 w : World) (l1 l2 : List Pc) (v : Nat)
    (h : Episode cfg key a fd w0 (l1 ++ Pc.gaugeUnlock v :: l2) w) :
    StepOk cfg key a fd w0 l1 l2 (Pc.gaugeUnlock v) w
      ((Pc.gaugeUnlock v).step pg cfg env req w) := by
  obtain ⟨hres, hkey, hoff, hrd, hwr, hg, hfile, hsf, hsn, hop, hcnt⟩ := h
  obtain ⟨ho1, hpc, ho2⟩ := countP_split_zero hoff
  have ha1 := countP_isAssign_le l1
  have ha2 := countP_isAssign_le l2
  have hn1 := countP_sawNone_le l1
  have hn2 := countP_sawNone_le l2
  have hm1 := rank_sum_mono l1
  have hm2 := rank_sum_mono l2
  simp only [
    List.countP_append, List.countP_cons, Pc.holdsRead, Pc.holdsWrite, Pc.holdsGauge, Pc.sawFile,
    Pc.sawNone, Pc.isAssign, Bool.false_eq_true, if_false, if_true, Nat.add_zero]
    at hrd hwr hg hsf hsn hop hcnt
  simp [Pc.off] at hpc
  subst hpc
  have hf : (w.heap v).f = some fd := by
    rcases hfile with hf | hf
    · have := hsf hf
      omega
    · exact hf
  have hgl : w.numConcurrentReadLock = true := by
    cases hgl : w.numConcurrentReadLock
    · rw [hgl] at hg
      simp at hg
    · rfl
  simp only [StepOk, Pc.step, numConcurrentReadLock_Unlock, mutexUnlock, hgl, if_true,
    M.bind_run, M.pure_run]
  try simp only [hgl, hf, Bool.false_eq_true, if_true, if_false, true_and, true_implies]
    at hrd hwr hg hsf hsn hop hcnt
  refine ⟨⟨?_, ?_, ?_, ?_, ?_, ?_, ?_, ?_, ?_, ?_, ?_⟩, ?_⟩
  all_goals try simp only [
    List.countP_append, List.countP_cons, Pc.holdsRead, Pc.holdsWrite, Pc.holdsGauge, Pc.sawFile,
    Pc.sawNone, Pc.isAssign, Bool.false_eq_true, if_false, if_true, Nat.add_zero, Pc.off,
    Function.update_same, List.filter_append, List.filter_cons, List.filter_nil, Event.isOpen,
    List.append_nil, budget, List.map_append, List.map_cons, List.sum_append, List.sum_cons,
    Pc.rank, decide_not, decide_True, Bool.not_true, Option.isSome_some, Option.isSome_none,
    World.log, List.length_append, List.length_cons, List.length_nil, true_and, true_implies,
    hgl, hf]
  all_goals first
    | assumption
    | omega
    | (split_ifs at * <;> omega)
    | (intro _; omega)
    | (intro _; split_ifs at * <;> omega)
    | (simp_all; done)

theorem Pc.step_deferUnlock (pg : PgConsts) (cfg : FHCacheConfig) (env : Env) (req : IOCacheKey)
    (key : _Key) (a fd : Nat) (w0 w : World) (l1 l2 : List Pc) (v : Nat)
    (h : Episode cfg key a fd w0 (l1 ++ Pc.deferUnlock v :: l2) w) :
    StepOk cfg key a fd w0 l1 l2 (Pc.deferUnlock v) w
      ((Pc.deferUnlock v).step pg cfg env req w) := by
  obtain ⟨hres, hkey, hoff, hrd, hwr, hg, hfile, hsf, hsn, hop, hcnt⟩ := h
  obtain ⟨ho1, hpc, ho2⟩ := countP_split_zero hoff
  have ha1 := countP_isAssign_le l1
  have ha2 := countP_isAssign_le l2
  have hn1 := countP_sawNone_le l1
  have hn2 := countP_sawNone_le l2
  have hm1 := rank_sum_mono l1
  have hm2 := rank_sum_mono l2
  simp only [
    List.countP_append, List.countP_cons, Pc.holdsRead, Pc.holdsWrite, Pc.holdsGauge, Pc.sawFile,
    Pc.sawNone, Pc.isAssign, Bool.false_eq_true, if_false, if_true, Nat.add_zero]
    at hrd hwr hg hsf hsn hop hcnt
  simp [Pc.off] at hpc
  subst hpc
  have hf : (w.heap v).f = some fd := by
    rcases hfile with hf | hf
    · have := hsf hf
      omega
    · exact hf
  have hgl : w.numConcurrentReadLock = true := by
    cases hgl : w.numConcurrentReadLock
    · rw [hgl] at hg
      simp at hg
    · rfl
  simp only [StepOk, Pc.step, numConcurrentReadLock_Unlock, mutexUnlock, hgl, if_true,
    M.bind_run, M.pure_run]
  try simp only [hgl, hf, Bool.false_eq_true, if_true, if_false, true_and, true_implies]
    at hrd hwr hg hsf hsn hop hcnt
  refine ⟨⟨?_, ?_, ?_, ?_, ?_, ?_, ?_, ?_, ?_, ?_, ?_⟩, ?_⟩
  all_goals try simp only [
    List.countP_append, List.countP_cons, Pc.holdsRead, Pc.holdsWrite, Pc.holdsGauge, Pc.sawFile,
    Pc.sawNone, Pc.isAssign, Bool.false_eq_true, if_false, if_true, Nat.add_zero, Pc.off,
    Function.update_same, List.filter_append, List.filter_cons, List.filter_nil, Event.isOpen,
    List.append_nil, budget, List.map_append, List.map_cons, List.sum_append, List.sum_cons,
    Pc.rank, decide_not, decide_True, Bool.not_true, Option.isSome_some, Option.isSome_none,
    World.log, List.length_append, List.length_cons, List.length_nil, true_and, true_implies,
    hgl, hf]
  all_goals first
    | assumption
    | omega
    | (split_ifs at * <;> omega)
    | (intro _; omega)
    | (intro _; split_ifs at * <;> omega)
    | (simp_all; done)

theorem Pc.step_advise (pg : PgConsts) (cfg : FHCacheConfig) (env : Env) (req : IOCacheKey)
    (key : _Key) (a fd : Nat) (w0 w : World) (l1 l2 : List Pc) (v : Nat)
    (h : Episode cfg key a fd w0 (l1 ++ Pc.advise v :: l2) w) :
    StepOk cfg key a fd w0 l1 l2 (Pc.advise v) w ((Pc.advise v).step pg cfg env req w) := by
  obtain ⟨hres, hkey, hoff, hrd, hwr, hg, hfile, hsf, hsn, hop, hcnt⟩ := h
  obtain ⟨ho1, hpc, ho2⟩ := countP_split_zero hoff
  have ha1 := countP_isAssign_le l1
  have ha2 := countP_isAssign_le l2
  have hn1 := countP_sawNone_le l1
  have hn2 := countP_sawNone_le l2
  have hm1 := rank_sum_mono l1
  have hm2 := rank_sum_mono l2
  simp only [
    List.countP_append, List.countP_cons, Pc.holdsRead, Pc.holdsWrite, Pc.holdsGauge, Pc.sawFile,
    Pc.sawNone, Pc.isAssign, Bool.false_eq_true, if_false, if_true, Nat.add_zero]
    at hrd hwr hg hsf hsn hop hcnt
  simp [Pc.off] at hpc
  subst hpc
  have hf : (w.heap v).f = some fd := by
    rcases hfile with hf | hf
    · have := hsf hf
      omega
    · exact hf
  simp only [StepOk, Pc.step, _Value.getF, Fadvise, emit, M.bind_run, M.pure_run]
  try simp only [hf, Bool.false_eq_true, if_true, if_false, true_and, true_implies]
    at hrd hwr hg hsf hsn hop hcnt
  refine ⟨⟨?_, ?_, ?_, ?_, ?_, ?_, ?_, ?_, ?_, ?_, ?_⟩, ?_⟩
  all_goals try simp only [
    List.countP_append, List.countP_cons, Pc.holdsRead, Pc.holdsWrite, Pc.holdsGauge, Pc.sawFile,
    Pc.sawNone, Pc.isAssign, Bool.false_eq_true, if_false, if_true, Nat.add_zero, Pc.off,
    Function.update_same, List.filter_append, List.filter_cons, List.filter_nil, Event.isOpen,
    List.append_nil, budget, List.map_append, List.map_cons, List.sum_append, List.sum_cons,
    Pc.rank, decide_not, decide_True, Bool.not_true, Option.isSome_some, Option.isSome_none,
    World.log, List.length_append, List.length_cons, List.length_nil, true_and, true_implies,
    hf]
  all_goals first
    | assumption
    | omega
    | (split_ifs at * <;> omega)
    | (intro _; omega)
    | (intro _; split_ifs at * <;> omega)
    | (simp_all; done)

theorem Pc.step_release (pg : PgConsts) (cfg : FHCacheConfig) (env : Env) (req : IOCacheKey)
    (key : _Key) (a fd : Nat) (w0 w : World) (l1 l2 : List Pc) (v : Nat)
    (h : Episode cfg key a fd w0 (l1 ++ Pc.release v :: l2) w) :
    StepOk cfg key a fd w0 l1 l2 (Pc.release v) w ((Pc.release v).step pg cfg env req w) := by
  obtain ⟨hres, hkey, hoff, hrd, hwr, hg, hfile, hsf, hsn, hop, hcnt⟩ := h
  obtain ⟨ho1, hpc, ho2⟩ := countP_split_zero hoff
  have ha1 := countP_isAssign_le l1
  have ha2 := countP_isAssign_le l2
  have hn1 := countP_sawNone_le l1
  have hn2 := countP_sawNone_le l2
  have hm1 := rank_sum_mono l1
  have hm2 := rank_sum_mono l2
  simp only [
    List.countP_append, List.countP_cons, Pc.holdsRead, Pc.holdsWrite, Pc.holdsGauge, Pc.sawFile,
    Pc.sawNone, Pc.isAssign, Bool.false_eq_true, if_false, if_true, Nat.add_zero]
    at hrd hwr hg hsf hsn hop hcnt
  simp [Pc.off] at hpc
  subst hpc
  have hr : (w.heap v).lock.readers ≠ 0 := by omega
  have hf : (w.heap v).f = some fd := by
    rcases hfile with hf | hf
    · have := hsf hf
      omega
    · exact hf
  simp only [StepOk, Pc.step, _Value.RUnlock, onGuard, RWMutex.RUnlock, M.bind_run, M.pure_run]
  simp only [hr, if_false]
  try simp only [hf, Bool.false_eq_true, if_true, if_false, true_and, true_implies]
    at hrd hwr hg hsf hsn hop hcnt
  refine ⟨⟨?_, ?_, ?_, ?_, ?_, ?_, ?_, ?_, ?_, ?_, ?_⟩, ?_⟩
  all_goals try simp only [
    List.countP_append, List.countP_cons, Pc.holdsRead, Pc.holdsWrite, Pc.holdsGauge, Pc.sawFile,
    Pc.sawNone, Pc.isAssign, Bool.false_eq_true, if_false, if_true, Nat.add_zero, Pc.off,
    Function.update_same, List.filter_append, List.filter_cons, List.filter_nil, Event.isOpen,
    List.append_nil, budget, List.map_append, List.map_cons, List.sum_append, List.sum_cons,
    Pc.rank, decide_not, decide_True, Bool.not_true, Option.isSome_some, Option.isSome_none,
    World.log, List.length_append, List.length_cons, List.length_nil, true_and, true_implies,
    hf]
  all_goals first
    | assumption
    | omega
    | (split_ifs at * <;> omega)
    | (intro _; omega)
    | (intro _; split_ifs at * <;> omega)
    | (simp_all; done)

theorem Pc.step_start (pg : PgConsts) (cfg : FHCacheConfig) (env : Env) (req : IOCacheKey)
    (key : _Key) (a fd : Nat) (w0 w : World) (l1 l2 : List Pc) 
    (hkeydef : key = _NewKey pg req) (hce : env.cacheErr key = none)
    (hx : env.expired key = false)
    (h : Episode cfg key a fd w0 (l1 ++ Pc.start :: l2) w) :
    StepOk cfg key a fd w0 l1 l2 (Pc.start) w ((Pc.start).step pg cfg env req w) := by
  obtain ⟨hres, hkey, hoff, hrd, hwr, hg, hfile, hsf, hsn, hop, hcnt⟩ := h
  obtain ⟨ho1, hpc, ho2⟩ := countP_split_zero hoff
  have ha1 := countP_isAssign_le l1
  have ha2 := countP_isAssign_le l2
  have hn1 := countP_sawNone_le l1
  have hn2 := countP_sawNone_le l2
  have hm1 := rank_sum_mono l1
  have hm2 := rank_sum_mono l2
  simp only [
    List.countP_append, List.countP_cons, Pc.holdsRead, Pc.holdsWrite, Pc.holdsGauge, Pc.sawFile,
    Pc.sawNone, Pc.isAssign, Bool.false_eq_true, if_false, if_true, Nat.add_zero]
    at hrd hwr hg hsf hsn hop hcnt
  subst hkeydef
  simp only [StepOk, Pc.step, M.bind_run, M.pure_run,
    Cache.Get_hit cfg env _ w _ hce hres hx]
  refine ⟨⟨?_, ?_, ?_, ?_, ?_, ?_, ?_, ?_, ?_, ?_, ?_⟩, ?_⟩
  all_goals try simp only [
    List.countP_append, List.countP_cons, Pc.holdsRead, Pc.holdsWrite, Pc.holdsGauge, Pc.sawFile,
    Pc.sawNone, Pc.isAssign, Bool.false_eq_true, if_false, if_true, Nat.add_zero, Pc.off,
    Function.update_same, List.filter_append, List.filter_cons, List.filter_nil, Event.isOpen,
    List.append_nil, budget, List.map_append, List.map_cons, List.sum_append, List.sum_cons,
    Pc.rank, decide_not, decide_True, Bool.not_true, Option.isSome_some, Option.isSome_none,
    World.log, List.length_append, List.length_cons, List.length_nil, true_and, true_implies]
  all_goals first
    | assumption
    | omega
    | (split_ifs at * <;> omega)
    | (intro _; omega)
    | (intro _; split_ifs at * <;> omega)
    | (simp_all; done)

/-- Every step of a goroutine keeps the episode and uses up budget. -/
theorem Pc.step_episode (pg : PgConsts) (cfg : FHCacheConfig) (env : Env) (req : IOCacheKey)
    (key : _Key) (a fd : Nat) (w0 w : World) (l1 l2 : List Pc) (pc : Pc)
    (hkeydef : key = _NewKey pg req) (hce : env.cacheErr key = none)
    (hx : env.expired key = false)
    (hopen : env.osOpen (key.Filename env cfg.PGDataPath) = .ok fd)
    (h : Episode cfg key a fd w0 (l1 ++ pc :: l2) w) :
    StepOk cfg key a fd w0 l1 l2 pc w (pc.step pg cfg env req w) := by
  cases pc with
  | start => exact Pc.step_start pg cfg env req key a fd w0 w l1 l2 hkeydef hce hx h
  | rlock v => exact Pc.step_rlock pg cfg env req key a fd w0 w l1 l2 v h
  | check v => exact Pc.step_check pg cfg env req key a fd w0 w l1 l2 v h
  | runlock v => exact Pc.step_runlock pg cfg env req key a fd w0 w l1 l2 v h
  | lock v => exact Pc.step_lock pg cfg env req key a fd w0 w l1 l2 v h
  | recheck v => exact Pc.step_recheck pg cfg env req key a fd w0 w l1 l2 v h
  | unlockRetry v => exact Pc.step_unlockRetry pg cfg env req key a fd w0 w l1 l2 v h
  | open_ v => exact Pc.step_open_ pg cfg env req key a fd w0 w l1 l2 v hopen h
  | warn v err => exact Pc.step_warn pg cfg env req key a fd w0 w l1 l2 v err h
  | unlockFail v err => exact Pc.step_unlockFail pg cfg env req key a fd w0 w l1 l2 v err h
  | assign v f => exact Pc.step_assign pg cfg env req key a fd w0 w l1 l2 v f h
  | unlockOpened v => exact Pc.step_unlockOpened pg cfg env req key a fd w0 w l1 l2 v h
  | gaugeLock v => exact Pc.step_gaugeLock pg cfg env req key a fd w0 w l1 l2 v h
  | gaugeInc v => exact Pc.step_gaugeInc pg cfg env req key a fd w0 w l1 l2 v h
  | gaugeUnlock v => exact Pc.step_gaugeUnlock pg cfg env req key a fd w0 w l1 l2 v h
  | advise v => exact Pc.step_advise pg cfg env req key a fd w0 w l1 l2 v h
  | deferLock v => exact Pc.step_deferLock pg cfg env req key a fd w0 w l1 l2 v h
  | deferDec v => exact Pc.step_deferDec pg cfg env req key a fd w0 w l1 l2 v h
  | deferUnlock v => exact Pc.step_deferUnlock pg cfg env req key a fd w0 w l1 l2 v h
  | release v => exact Pc.step_release pg cfg env req key a fd w0 w l1 l2 v h
  | ret e => exact True.intro

/-- On an empty table `Get` loads the entry, whatever the capacity. -/
theorem Cache.Get_cold (cfg : FHCacheConfig) (env : Env) (key : _Key) (w : World)
    (hce : env.cacheErr key = none) (hc : w.c = []) :
    Cache.Get cfg env key w = .done (some (.ptrValue w.next), none) (w.missed cfg key) := by
  have hl : lookup w.c key = none := by rw [hc]; rfl
  rw [Cache.Get_eq, hce, hl]
  simp only []
  rw [Cache.load_eq]
  have hc2 : ((w.log [.cacheGet key]).alloc key).c = [] := hc
  have hm : Cache.makeRoom cfg env ((w.log [.cacheGet key]).alloc key)
      = .done () ((w.log [.cacheGet key]).alloc key) := by
    unfold Cache.makeRoom
    split
    · cases hv : env.victim with
      | none => rfl
      | some k =>
        simp only [Cache.evict, hc2]
        rfl
    · rfl
  rw [hm]
  rfl

theorem countP_all_start {p : Pc → Bool} (hp : p .start = false) {l : List Pc}
    (h : ∀ pc ∈ l, pc = .start) : l.countP p = 0 := by
  rw [List.countP_eq_zero]
  intro pc hpc
  rw [h pc hpc, hp]
  simp

theorem rank_all_start (b : Bool) {l : List Pc} (h : ∀ pc ∈ l, pc = .start) :
    (l.map (Pc.rank b)).sum = 19 * l.length := by
  induction l with
  | nil => rfl
  | cons pc l ih =>
    have h1 : pc = .start := h pc (List.mem_cons_self _ _)
    have h2 := ih (fun q hq => h q (List.mem_cons_of_mem _ hq))
    subst h1
    simp only [List.map_cons, List.sum_cons, List.length_cons, h2, Pc.rank]
    omega

/-- The first `Get` of the run starts the episode. -/
theorem Pc.step_cold (pg : PgConsts) (cfg : FHCacheConfig) (env : Env) (req : IOCacheKey)
    (key : _Key) (fd : Nat) (w0 : World) (l1 l2 : List Pc)
    (hkeydef : key = _NewKey pg req) (hce : env.cacheErr key = none)
    (hc : w0.c = []) (hfree : w0.numConcurrentReadLock = false)
    (h1 : ∀ pc ∈ l1, pc = .start) (h2 : ∀ pc ∈ l2, pc = .start) :
    StepOk cfg key w0.next fd w0 l1 l2 .start w0 (Pc.start.step pg cfg env req w0) := by
  subst hkeydef
  simp only [StepOk, Pc.step, M.bind_run, M.pure_run, Cache.Get_cold cfg env _ w0 hce hc]
  refine ⟨⟨?_, ?_, ?_, ?_, ?_, ?_, ?_, ?_, ?_, ?_, ?_⟩, ?_⟩
  all_goals try simp only [World.missed_heap_next, List.countP_append, List.countP_cons,
    countP_all_start (rfl : Pc.holdsRead .start = false) h1,
    countP_all_start (rfl : Pc.holdsRead .start = false) h2,
    countP_all_start (rfl : Pc.holdsWrite .start = false) h1,
    countP_all_start (rfl : Pc.holdsWrite .start = false) h2,
    countP_all_start (rfl : Pc.holdsGauge .start = false) h1,
    countP_all_start (rfl : Pc.holdsGauge .start = false) h2,
    countP_all_start (rfl : Pc.sawFile .start = false) h1,
    countP_all_start (rfl : Pc.sawFile .start = false) h2,
    countP_all_start (rfl : Pc.sawNone .start = false) h1,
    countP_all_start (rfl : Pc.sawNone .start = false) h2,
    countP_all_start (rfl : Pc.isAssign .start = false) h1,
    countP_all_start (rfl : Pc.isAssign .start = false) h2,
    countP_all_start (rfl : Pc.off w0.next fd .start = false) h1,
    countP_all_start (rfl : Pc.off w0.next fd .start = false) h2,
    Pc.holdsRead, Pc.holdsWrite, Pc.holdsGauge, Pc.sawFile, Pc.sawNone, Pc.isAssign, Pc.off,
    RWMutex.new, budget, List.map_append, List.map_cons, List.sum_append, List.sum_cons,
    rank_all_start _ h1, rank_all_start _ h2, Pc.rank, Option.isSome_none,
    Bool.false_eq_true, if_false, if_true, decide_not, decide_True, Bool.not_true,
    and_self, Nat.add_zero]
  all_goals first
    | rfl
    | omega
    | (simp [World.missed, World.stored, World.alloc, World.log, lookup, hfree, Event.isOpen];
       done)

theorem getElem?_split {l : List Pc} {i : Nat} {pc : Pc} (h : l[i]? = some pc) :
    ∃ l1 l2, l = l1 ++ pc :: l2 ∧ ∀ pc1, l.set i pc1 = l1 ++ pc1 :: l2 := by
  induction l generalizing i with
  | nil => simp at h
  | cons q l ih =>
    cases i with
    | zero =>
      simp only [List.getElem?_cons_zero, Option.some.injEq] at h
      subst h
      exact ⟨[], l, rfl, fun _ => rfl⟩
    | succ i =>
      simp only [List.getElem?_cons_succ] at h
      obtain ⟨l1, l2, h1, h2⟩ := ih h
      refine ⟨q :: l1, l2, by rw [h1]; rfl, fun pc1 => ?_⟩
      simp only [List.set_cons_succ, h2 pc1, List.cons_append]

/-- A step of the run keeps what holds throughout, uses up budget, and does not panic. -/
theorem stepAt_racing (pg : PgConsts) (cfg : FHCacheConfig) (env : Env) (req : IOCacheKey)
    (fd : Nat) (w0 : World)
    (hce : env.cacheErr (_NewKey pg req) = none) (hx : env.expired (_NewKey pg req) = false)
    (hopen : env.osOpen ((_NewKey pg req).Filename env cfg.PGDataPath) = .ok fd)
    (hc : w0.c = []) (hfree : w0.numConcurrentReadLock = false)
    (i : Nat) (ts : List Pc) (w : World) (h : Racing cfg (_NewKey pg req) fd w0 ts w) :
    match stepAt pg cfg env req i ts w with
    | .done ts1 w1 => Racing cfg (_NewKey pg req) fd w0 ts1 w1 ∧ ts1.length = ts.length ∧
        budget w0.next ts1 w1 < budget w0.next ts w
    | .blocked => True
    | .panic _ => False
    | .spin => False := by
  unfold stepAt
  cases hi : ts[i]? with
  | none => exact True.intro
  | some pc =>
    obtain ⟨l1, l2, hts, hset⟩ := getElem?_split hi
    simp only []
    have key : StepOk cfg (_NewKey pg req) w0.next fd w0 l1 l2 pc w
        (pc.step pg cfg env req w) := by
      rcases h with ⟨hw, hall⟩ | hep
      · subst hw
        have hpc : pc = .start := hall pc (by rw [hts]; simp)
        subst hpc
        exact Pc.step_cold pg cfg env req _ fd w l1 l2 rfl hce hc hfree
          (fun q hq => hall q (by rw [hts]; simp [hq]))
          (fun q hq => hall q (by rw [hts]; simp [hq]))
      · rw [hts] at hep
        exact Pc.step_episode pg cfg env req _ w0.next fd w0 w l1 l2 pc rfl hce hx hopen hep
    cases hs : pc.step pg cfg env req w with
    | done pc1 w1 =>
      rw [hs] at key
      simp only [StepOk] at key
      simp only [hset pc1]
      refine ⟨Or.inr key.1, ?_, ?_⟩
      · rw [hts]
        simp
      · rw [hts]
        exact key.2
    | blocked => exact True.intro
    | panic p =>
      rw [hs] at key
      exact key
    | spin =>
      rw [hs] at key
      exact key

/-- A run keeps what holds throughout, takes no more steps than the budget allows, and
does not panic. -/
theorem runSched_racing (pg : PgConsts) (cfg : FHCacheConfig) (env : Env) (req : IOCacheKey)
    (fd : Nat) (w0 : World)
    (hce : env.cacheErr (_NewKey pg req) = none) (hx : env.expired (_NewKey pg req) = false)
    (hopen : env.osOpen ((_NewKey pg req).Filename env cfg.PGDataPath) = .ok fd)
    (hc : w0.c = []) (hfree : w0.numConcurrentReadLock = false)
    (sched : List Nat) : ∀ (ts : List Pc) (w : World),
    Racing cfg (_NewKey pg req) fd w0 ts w →
    match runSched pg cfg env req sched ts w with
    | .done ts1 w1 => Racing cfg (_NewKey pg req) fd w0 ts1 w1 ∧ ts1.length = ts.length ∧
        sched.length + budget w0.next ts1 w1 ≤ budget w0.next ts w
    | .blocked => True
    | .panic _ => False
    | .spin => False := by
  induction sched with
  | nil =>
    intro ts w h
    simp only [runSched, List.length_nil, Nat.zero_add]
    exact ⟨h, trivial, Nat.le_refl _⟩
  | cons i rest ih =>
    intro ts w h
    have hstep := stepAt_racing pg cfg env req fd w0 hce hx hopen hc hfree i ts w h
    simp only [runSched]
    cases hs : stepAt pg cfg env req i ts w with
    | done ts1 w1 =>
      rw [hs] at hstep
      simp only [] at hstep
      have hrest := ih ts1 w1 hstep.1
      simp only []
      cases hr : runSched pg cfg env req rest ts1 w1 with
      | done ts2 w2 =>
        rw [hr] at hrest
        simp only [] at hrest
        simp only [List.length_cons]
        exact ⟨hrest.1, by omega, by omega⟩
      | blocked => exact True.intro
      | panic p =>
        rw [hr] at hrest
        exact hrest
      | spin =>
        rw [hr] at hrest
        exact hrest
    | blocked => exact True.intro
    | panic p =>
      rw [hs] at hstep
      exact hstep
    | spin =>
      rw [hs] at hstep
      exact hstep

/-- A call that waits is one of the waiting calls (the cache's `Get` apart). -/
theorem Pc.step_blocked (pg : PgConsts) (cfg : FHCacheConfig) (env : Env) (req : IOCacheKey)
    (pc : Pc) (w : World) (h : pc.step pg cfg env req w = .blocked) :
    pc = .start ∨ pc.waits w = true := by
  cases pc with
  | start => exact Or.inl rfl
  | ret e => exact Or.inr rfl
  | rlock v =>
    right
    simp only [Pc.step, _Value.RLock, onGuard, RWMutex.RLock, M.bind_run, M.pure_run] at h
    cases hw : (w.heap v).lock.writer
    · simp only [hw, Bool.false_eq_true, if_false] at h
      cases h
    · simpa [Pc.waits] using hw
  | lock v =>
    right
    simp only [Pc.step, _Value.Lock, onGuard, RWMutex.Lock, M.bind_run, M.pure_run] at h
    by_cases hc : ((w.heap v).lock.writer || decide (0 < (w.heap v).lock.readers)) = true
    · simpa [Pc.waits] using hc
    · simp only [hc, if_false] at h
      cases h
  | gaugeLock v =>
    right
    simp only [Pc.step, numConcurrentReadLock_Lock, mutexLock, M.bind_run, M.pure_run] at h
    cases hg : w.numConcurrentReadLock
    · simp only [hg, Bool.false_eq_true, if_false] at h
      cases h
    · simpa [Pc.waits] using hg
  | deferLock v =>
    right
    simp only [Pc.step, numConcurrentReadLock_Lock, mutexLock, M.bind_run, M.pure_run] at h
    cases hg : w.numConcurrentReadLock
    · simp only [hg, Bool.false_eq_true, if_false] at h
      cases h
    · simpa [Pc.waits] using hg
  | check v =>
    simp only [Pc.step, _Value.getF, M.bind_run, M.pure_run] at h
    cases hf : (w.heap v).f <;> simp only [hf] at h <;> cases h
  | recheck v =>
    simp only [Pc.step, _Value.getF, M.bind_run, M.pure_run] at h
    cases hf : (w.heap v).f <;> simp only [hf] at h <;> cases h
  | runlock v =>
    simp only [Pc.step, _Value.RUnlock, onGuard, RWMutex.RUnlock, M.bind_run, M.pure_run] at h
    by_cases hr : (w.heap v).lock.readers = 0 <;> simp only [hr, if_true, if_false] at h <;>
      cases h
  | release v =>
    simp only [Pc.step, _Value.RUnlock, onGuard, RWMutex.RUnlock, M.bind_run, M.pure_run] at h
    by_cases hr : (w.heap v).lock.readers = 0 <;> simp only [hr, if_true, if_false] at h <;>
      cases h
  | unlockRetry v =>
    simp only [Pc.step, _Value.Unlock, onGuard, RWMutex.Unlock, M.bind_run, M.pure_run] at h
    cases hw : (w.heap v).lock.writer <;>
      simp only [hw, Bool.false_eq_true, if_true, if_false] at h <;> cases h
  | unlockOpened v =>
    simp only [Pc.step, _Value.Unlock, onGuard, RWMutex.Unlock, M.bind_run, M.pure_run] at h
    cases hw : (w.heap v).lock.writer <;>
      simp only [hw, Bool.false_eq_true, if_true, if_false] at h <;> cases h
  | unlockFail v err =>
    simp only [Pc.step, _Value.Unlock, onGuard, RWMutex.Unlock, getWorld, M.bind_run,
      M.pure_run] at h
    cases hw : (w.heap v).lock.writer <;>
      simp only [hw, Bool.false_eq_true, if_true, if_false] at h <;> cases h
  | open_ v =>
    simp only [Pc.step, _Value.open_, M.bind_run, M.pure_run] at h
    cases ho : env.osOpen ((w.heap v).key.Filename env cfg.PGDataPath) <;>
      simp only [ho] at h <;> cases h
  | warn v err =>
    simp only [Pc.step, emit, M.bind_run, M.pure_run] at h
    cases h
  | assign v f =>
    simp only [Pc.step, _Value.setF, M.bind_run, M.pure_run] at h
    cases h
  | gaugeInc v =>
    simp only [Pc.step, addConcurrentReads, M.bind_run, M.pure_run] at h
    cases h
  | deferDec v =>
    simp only [Pc.step, addConcurrentReads, M.bind_run, M.pure_run] at h
    cases h
  | gaugeUnlock v =>
    simp only [Pc.step, numConcurrentReadLock_Unlock, mutexUnlock, M.bind_run, M.pure_run] at h
    cases hg : w.numConcurrentReadLock <;>
      simp only [hg, Bool.false_eq_true, if_true, if_false] at h <;> cases h
  | deferUnlock v =>
    simp only [Pc.step, numConcurrentReadLock_Unlock, mutexUnlock, M.bind_run, M.pure_run] at h
    cases hg : w.numConcurrentReadLock <;>
      simp only [hg, Bool.false_eq_true, if_true, if_false] at h <;> cases h
  | advise v =>
    simp only [Pc.step, _Value.getF, Fadvise, emit, M.bind_run, M.pure_run] at h
    cases h

theorem Pc.holdsWrite_waits (w : World) (pc : Pc) (h : pc.holdsWrite = true) :
    pc.waits w = false := by
  cases pc <;> simp_all [Pc.holdsWrite, Pc.waits]

theorem Pc.holdsGauge_waits (w : World) (pc : Pc) (h : pc.holdsGauge = true) :
    pc.waits w = false := by
  cases pc <;> simp_all [Pc.holdsGauge, Pc.waits]

theorem Pc.holdsRead_waits (w : World) (pc : Pc) (h : pc.holdsRead = true)
    (hg : w.numConcurrentReadLock = false) : pc.waits w = false := by
  cases pc <;> simp_all [Pc.holdsRead, Pc.waits]

theorem Pc.free_waits (a fd : Nat) (w : World) (pc : Pc) (hoff : pc.off a fd = false)
    (hret : pc.returned = false) (hw : (w.heap a).lock.writer = false)
    (hr : (w.heap a).lock.readers = 0) (hg : w.numConcurrentReadLock = false) :
    pc.waits w = false := by
  cases pc <;> simp_all [Pc.off, Pc.returned, Pc.waits]

/-- During the run the cache's `Get` does not wait. -/
theorem Pc.start_racing (pg : PgConsts) (cfg : FHCacheConfig) (env : Env) (req : IOCacheKey)
    (fd : Nat) (w0 : World)
    (hce : env.cacheErr (_NewKey pg req) = none) (hx : env.expired (_NewKey pg req) = false)
    (hc : w0.c = []) (ts : List Pc) (w : World)
    (h : Racing cfg (_NewKey pg req) fd w0 ts w) :
    Pc.start.step pg cfg env req w ≠ .blocked := by
  rcases h with ⟨hw, _⟩ | hep
  · subst hw
    simp only [Pc.step, M.bind_run, M.pure_run, Cache.Get_cold cfg env _ w hce hc]
    intro h
    cases h
  · simp only [Pc.step, M.bind_run, M.pure_run, Cache.Get_hit cfg env _ w _ hce hep.resident hx]
    intro h
    cases h

/-- During the run some goroutine that has not returned is at a call that does not
wait. -/
theorem Racing.ready (pg : PgConsts) (cfg : FHCacheConfig) (env : Env) (req : IOCacheKey)
    (fd : Nat) (w0 : World)
    (hce : env.cacheErr (_NewKey pg req) = none) (hx : env.expired (_NewKey pg req) = false)
    (hc : w0.c = []) (ts : List Pc) (w : World)
    (h : Racing cfg (_NewKey pg req) fd w0 ts w)
    (hnot : ∃ pc ∈ ts, pc.returned = false) :
    ∃ pc ∈ ts, pc.step pg cfg env req w ≠ .blocked := by
  have hstart := Pc.start_racing pg cfg env req fd w0 hce hx hc ts w h
  have key : ∃ pc ∈ ts, pc = .start ∨ pc.waits w = false := by
    rcases h with ⟨_, hall⟩ | hep
    · obtain ⟨pc, hpc, _⟩ := hnot
      exact ⟨pc, hpc, Or.inl (hall pc hpc)⟩
    · cases hw : (w.heap w0.next).lock.writer with
      | true =>
        have h1 : 0 < ts.countP Pc.holdsWrite := by
          rw [hep.writer, hw]
          simp
        obtain ⟨pc, hpc, hp⟩ := List.countP_pos_iff.1 h1
        exact ⟨pc, hpc, Or.inr (Pc.holdsWrite_waits w pc hp)⟩
      | false =>
        cases hg : w.numConcurrentReadLock with
        | true =>
          have h1 : 0 < ts.countP Pc.holdsGauge := by
            rw [hep.gauge, hg]
            simp
          obtain ⟨pc, hpc, hp⟩ := List.countP_pos_iff.1 h1
          exact ⟨pc, hpc, Or.inr (Pc.holdsGauge_waits w pc hp)⟩
        | false =>
          by_cases hr : (w.heap w0.next).lock.readers = 0
          · obtain ⟨pc, hpc, hret⟩ := hnot
            have hoff : pc.off w0.next fd = false := by
              have := List.countP_eq_zero.1 hep.off pc hpc
              simpa using this
            exact ⟨pc, hpc, Or.inr (Pc.free_waits w0.next fd w pc hoff hret hw hr hg)⟩
          · have h1 : 0 < ts.countP Pc.holdsRead := by
              rw [← hep.readers]
              omega
            obtain ⟨pc, hpc, hp⟩ := List.countP_pos_iff.1 h1
            exact ⟨pc, hpc, Or.inr (Pc.holdsRead_waits w pc hp hg)⟩
  obtain ⟨pc, hpc, hk⟩ := key
  refine ⟨pc, hpc, ?_⟩
  intro hb
  rcases hk with hk | hk
  · subst hk
    exact hstart hb
  · rcases Pc.step_blocked pg cfg env req pc w hb with h1 | h1
    · subst h1
      exact hstart hb
    · rw [hk] at h1
      cases h1

/-- While a goroutine has not returned, some goroutine can take its step. -/
theorem Racing.progress (pg : PgConsts) (cfg : FHCacheConfig) (env : Env) (req : IOCacheKey)
    (fd : Nat) (w0 : World)
    (hce : env.cacheErr (_NewKey pg req) = none) (hx : env.expired (_NewKey pg req) = false)
    (hopen : env.osOpen ((_NewKey pg req).Filename env cfg.PGDataPath) = .ok fd)
    (hc : w0.c = []) (hfree : w0.numConcurrentReadLock = false)
    (ts : List Pc) (w : World) (h : Racing cfg (_NewKey pg req) fd w0 ts w)
    (hnot : ∃ pc ∈ ts, pc.returned = false) :
    ∃ i ts1 w1, stepAt pg cfg env req i ts w = .done ts1 w1 := by
  obtain ⟨pc, hpc, hnb⟩ := Racing.ready pg cfg env req fd w0 hce hx hc ts w h hnot
  obtain ⟨i, hi⟩ := List.getElem?_of_mem hpc
  have hstep := stepAt_racing pg cfg env req fd w0 hce hx hopen hc hfree i ts w h
  refine ⟨i, ?_⟩
  unfold stepAt at hstep ⊢
  simp only [hi] at hstep ⊢
  cases hs : pc.step pg cfg env req w with
  | done pc1 w1 => exact ⟨_, _, rfl⟩
  | blocked => exact absurd hs hnb
  | panic p =>
    rw [hs] at hstep
    exact hstep.elim
  | spin =>
    rw [hs] at hstep
    exact hstep.elim

/-- From every state of the run some schedule lets every goroutine return. -/
theorem Racing.finish (pg : PgConsts) (cfg : FHCacheConfig) (env : Env) (req : IOCacheKey)
    (fd : Nat) (w0 : World)
    (hce : env.cacheErr (_NewKey pg req) = none) (hx : env.expired (_NewKey pg req) = false)
    (hopen : env.osOpen ((_NewKey pg req).Filename env cfg.PGDataPath) = .ok fd)
    (hc : w0.c = []) (hfree : w0.numConcurrentReadLock = false)
    (n : Nat) : ∀ (ts : List Pc) (w : World), budget w0.next ts w ≤ n →
    Racing cfg (_NewKey pg req) fd w0 ts w →
    ∃ sched ts1 w1, runSched pg cfg env req sched ts w = .done ts1 w1 ∧
      ∀ pc ∈ ts1, pc.returned = true := by
  induction n with
  | zero =>
    intro ts w hb h
    by_cases hall : ∀ pc ∈ ts, pc.returned = true
    · exact ⟨[], ts, w, rfl, hall⟩
    · have hnot : ∃ pc ∈ ts, pc.returned = false := by
        simpa using hall
      obtain ⟨i, ts1, w1, hs⟩ :=
        Racing.progress pg cfg env req fd w0 hce hx hopen hc hfree ts w h hnot
      have hstep := stepAt_racing pg cfg env req fd w0 hce hx hopen hc hfree i ts w h
      rw [hs] at hstep
      simp only [] at hstep
      omega
  | succ n ih =>
    intro ts w hb h
    by_cases hall : ∀ pc ∈ ts, pc.returned = true
    · exact ⟨[], ts, w, rfl, hall⟩
    · have hnot : ∃ pc ∈ ts, pc.returned = false := by
        simpa using hall
      obtain ⟨i, ts1, w1, hs⟩ :=
        Racing.progress pg cfg env req fd w0 hce hx hopen hc hfree ts w h hnot
      have hstep := stepAt_racing pg cfg env req fd w0 hce hx hopen hc hfree i ts w h
      rw [hs] at hstep
      simp only [] at hstep
      obtain ⟨sched, ts2, w2, hr, hall2⟩ := ih ts1 w1 (by omega) hstep.1
      refine ⟨i :: sched, ts2, w2, ?_, hall2⟩
      simp only [runSched, hs]
      exact hr

theorem run_pure {α : Type} (a : α) (w : World) : (pure a : M α) w = .done a w := rfl

theorem solo_add (pg : PgConsts) (cfg : FHCacheConfig) (env : Env) (req : IOCacheKey)
    (m n : Nat) : ∀ (pc pc1 : Pc) (w w1 : World),
    solo pg cfg env req m pc w = .done pc1 w1 →
    solo pg cfg env req (m + n) pc w = solo pg cfg env req n pc1 w1 := by
  induction m with
  | zero =>
    intro pc pc1 w w1 h
    simp only [solo, Res.done.injEq] at h
    rw [Nat.zero_add, h.1, h.2]
  | succ m ih =>
    intro pc pc1 w w1 h
    rw [Nat.succ_add]
    simp only [solo] at h ⊢
    cases hs : pc.step pg cfg env req w with
    | done pc2 w2 =>
      rw [hs] at h
      exact ih pc2 pc1 w2 w1 h
    | blocked => rw [hs] at h; cases h
    | panic p => rw [hs] at h; cases h
    | spin => rw [hs] at h; cases h

theorem runSched_solo (pg : PgConsts) (cfg : FHCacheConfig) (env : Env) (req : IOCacheKey)
    (n : Nat) : ∀ (pc : Pc) (w : World),
    runSched pg cfg env req (List.replicate n 0) [pc] w =
      match solo pg cfg env req n pc w with
      | .done pc1 w1 => .done [pc1] w1
      | .blocked => .blocked
      | .panic p => .panic p
      | .spin => .spin := by
  induction n with
  | zero =>
    intro pc w
    rfl
  | succ n ih =>
    intro pc w
    simp only [List.replicate_succ, runSched, stepAt, solo, List.getElem?_cons_zero]
    cases hs : pc.step pg cfg env req w with
    | done pc1 w1 =>
      simp only [List.set_cons_zero]
      exact ih pc1 w1
    | blocked => rfl
    | panic p => rfl
    | spin => rfl

/-- The loop on an entry whose descriptor is set: two steps. -/
theorem solo_warm (pg : PgConsts) (cfg : FHCacheConfig) (env : Env) (req : IOCacheKey)
    (v fd : Nat) (w : World) (hw : (w.heap v).lock.writer = false)
    (hf : (w.heap v).f = some fd) :
    solo pg cfg env req 2 (.rlock v) w =
      .done (.gaugeLock v) (w.withGuard v ⟨(w.heap v).lock.readers + 1, false⟩ [.RLock v]) := by
  rcases hv : w.heap v with ⟨k, ⟨r, wr⟩, f⟩
  rw [hv] at hw hf
  simp only at hw hf
  subst hw
  subst hf
  simp [solo, run_pure, Pc.step, _Value.RLock, onGuard, RWMutex.RLock, _Value.getF, hv, World.withGuard]

/-- The loop on an entry whose open fails: eight steps. -/
theorem solo_fail (pg : PgConsts) (cfg : FHCacheConfig) (env : Env) (req : IOCacheKey)
    (v : Nat) (e : Err) (w : World) (hw : (w.heap v).lock.writer = false)
    (hr : (w.heap v).lock.readers = 0) (hf : (w.heap v).f = none)
    (ho : env.osOpen ((w.heap v).key.Filename env cfg.PGDataPath) = .error e) :
    solo pg cfg env req 8 (.rlock v) w =
      .done (.ret (some (.wrap (.wrapf e "unable to re-open file: %+v" (w.heap v).key)
          "unable to obtain file handle")))
        (w.withGuard v (w.heap v).lock [.RLock v, .RUnlock v, .Lock v,
          .osOpen v ((w.heap v).key.Filename env cfg.PGDataPath) none,
          .warn "unable to open relation file" (_NewKey pg req), .Unlock v]) := by
  rcases hv : w.heap v with ⟨k, ⟨r, wr⟩, f⟩
  rw [hv] at hw hf hr ho
  simp only at hw hf hr ho
  subst hw
  subst hf
  subst hr
  simp [solo, run_pure, Pc.step, _Value.RLock, _Value.RUnlock, _Value.Lock, _Value.Unlock,
    onGuard, RWMutex.RLock, RWMutex.RUnlock, RWMutex.Lock, RWMutex.Unlock,
    _Value.getF, _Value.setF, _Value.open_, emit, getWorld, hv, ho, World.withGuard]

/-- The loop on an entry whose open succeeds: ten steps. -/
theorem solo_cold (pg : PgConsts) (cfg : FHCacheConfig) (env : Env) (req : IOCacheKey)
    (v fd : Nat) (w : World) (hw : (w.heap v).lock.writer = false)
    (hr : (w.heap v).lock.readers = 0) (hf : (w.heap v).f = none)
    (ho : env.osOpen ((w.heap v).key.Filename env cfg.PGDataPath) = .ok fd) :
    solo pg cfg env req 10 (.rlock v) w =
      .done (.gaugeLock v) ((w.opened cfg env v fd).withGuard v ⟨1, false⟩ [.RLock v]) := by
  rcases hv : w.heap v with ⟨k, ⟨r, wr⟩, f⟩
  rw [hv] at hw hf hr ho
  simp only at hw hf hr ho
  subst hw
  subst hf
  subst hr
  simp [solo, run_pure, Pc.step, _Value.RLock, _Value.RUnlock, _Value.Lock, _Value.Unlock,
    onGuard, RWMutex.RLock, RWMutex.RUnlock, RWMutex.Lock, RWMutex.Unlock,
    _Value.getF, _Value.setF, _Value.open_, emit, getWorld, hv, ho, World.withGuard,
    World.opened]

/-- The part of `PrefaultPage` after `getLocked`: eight steps. -/
theorem solo_tail (pg : PgConsts) (cfg : FHCacheConfig) (env : Env) (req : IOCacheKey)
    (v : Nat) (w : World) (hg : w.numConcurrentReadLock = false)
    (hr : (w.heap v).lock.readers ≠ 0) :
    solo pg cfg env req 8 (.gaugeLock v) w =
      .done (.ret none) (w.prefaulted pg env v req.Block) := by
  simp [solo, run_pure, Pc.step, numConcurrentReadLock_Lock, numConcurrentReadLock_Unlock, mutexLock,
    mutexUnlock, hg, addConcurrentReads, _Value.getF, Fadvise, emit, _Value.RUnlock,
    onGuard, RWMutex.RUnlock, hr, World.prefaulted, adviseEvent]

/-- One goroutine on its own: whatever `PrefaultPage` of the sequential embedding returns,
the steps of the goroutine return, and they leave the same world. -/
theorem solo_PrefaultPage (pg : PgConsts) (cfg : FHCacheConfig) (env : Env) (fuel : Nat)
    (req : IOCacheKey) (w w1 : World) (e : Option Err)
    (h : PrefaultPage pg cfg env fuel req w = .done e w1) :
    ∃ n, runSched pg cfg env req (List.replicate n 0) [.start] w = .done [.ret e] w1 := by
  suffices hs : ∃ n, solo pg cfg env req n .start w = .done (.ret e) w1 by
    obtain ⟨n, hn⟩ := hs
    exact ⟨n, by rw [runSched_solo, hn]⟩
  have hstart : ∀ a w0,
      Cache.Get cfg env (_NewKey pg req) w = .done (some (.ptrValue a), none) w0 →
      solo pg cfg env req 1 .start w = .done (.rlock a) w0 := by
    intro a w0 hget
    simp [solo, Pc.step, hget, run_pure]
  rcases PrefaultPage_done h with ⟨v, e0, hg, hr⟩ | ⟨a, w0, hg, hr, hgl, hrd, hw1⟩
  · subst hr
    rcases getLocked_done hg with ⟨e1, hce, hr2, hw⟩ | ⟨a, w0, hget, hloop⟩
    · simp only [Prod.mk.injEq, Option.some.injEq] at hr2
      obtain ⟨_, rfl⟩ := hr2
      subst hw
      refine ⟨1, ?_⟩
      simp [solo, Pc.step, Cache.Get_eq, hce, run_pure]
    · obtain ⟨hwr, hcase⟩ := getLockedLoop_done hloop
      rcases hcase with ⟨fd, _, hr2, _⟩ | ⟨e2, hf, hrd, ho, hr2, hw⟩ | ⟨fd, _, _, _, hr2, _⟩
      · simp at hr2
      · simp only [Prod.mk.injEq, Option.some.injEq] at hr2
        obtain ⟨_, rfl⟩ := hr2
        subst hw
        refine ⟨1 + 8, ?_⟩
        rw [solo_add pg cfg env req 1 8 _ _ _ _ (hstart a w0 hget)]
        exact solo_fail pg cfg env req a e2 w0 hwr hrd hf ho
      · simp at hr2
  · subst hr
    subst hw1
    rcases getLocked_done hg with ⟨e1, hce, hr2, hw⟩ | ⟨a1, w2, hget, hloop⟩
    · simp at hr2
    · obtain ⟨hwr, hcase⟩ := getLockedLoop_done hloop
      rcases hcase with ⟨fd, hf, hr2, hw⟩ | ⟨e2, _, _, _, hr2, _⟩ | ⟨fd, hf, hr0, ho, hr2, hw⟩
      · simp only [Prod.mk.injEq, Option.some.injEq, and_true] at hr2
        subst hr2
        refine ⟨1 + (2 + 8), ?_⟩
        rw [solo_add pg cfg env req 1 _ _ _ _ _ (hstart _ w2 hget),
          solo_add pg cfg env req 2 8 _ _ _ _ (solo_warm pg cfg env req _ fd w2 hwr hf), ← hw]
        exact solo_tail pg cfg env req _ w0 hgl hrd
      · simp at hr2
      · simp only [Prod.mk.injEq, Option.some.injEq, and_true] at hr2
        subst hr2
        refine ⟨1 + (10 + 8), ?_⟩
        rw [solo_add pg cfg env req 1 _ _ _ _ _ (hstart _ w2 hget),
          solo_add pg cfg env req 10 8 _ _ _ _ (solo_cold pg cfg env req _ fd w2 hwr hr0 hf ho),
          ← hw]
        exact solo_tail pg cfg env req _ w0 hgl hrd

/-- What the run has done so far: at most one open, and no goroutine has returned an
error. -/
theorem Racing.so_far (cfg : FHCacheConfig) (key : _Key) (fd : Nat) (w0 : World)
    (ts : List Pc) (w : World) (h : Racing cfg key fd w0 ts w) :
    (w.trace.filter Event.isOpen).length ≤ (w0.trace.filter Event.isOpen).length + 1 ∧
    ∀ e, Pc.ret e ∈ ts → e = none := by
  rcases h with ⟨hw, hall⟩ | hep
  · subst hw
    refine ⟨Nat.le_succ _, fun e he => ?_⟩
    have := hall _ he
    cases this
  · refine ⟨?_, fun e he => ?_⟩
    · rw [hep.opens]
      split_ifs <;> omega
    · have := List.countP_eq_zero.1 hep.off _ he
      cases e with
      | none => rfl
      | some x => simp [Pc.off] at this

/-- What holds once every goroutine has returned: each returned nil, the entry holds the
descriptor and its guard is free, the file was opened once. -/
theorem Racing.at_end (cfg : FHCacheConfig) (key : _Key) (fd : Nat) (w0 : World)
    (ts : List Pc) (w : World) (h : Racing cfg key fd w0 ts w) (hpos : 0 < ts.length)
    (hall : ∀ pc ∈ ts, pc.returned = true) :
    ts = List.replicate ts.length (.ret none) ∧
    (w.heap w0.next).f = some fd ∧
    (w.heap w0.next).lock = RWMutex.new ∧
    (w.trace.filter Event.isOpen).length = (w0.trace.filter Event.isOpen).length + 1 ∧
    w.openFDCount = (w0.openFDCount + 1) % 2 ^ 64 := by
  have hret : ∀ pc ∈ ts, pc = .ret none := by
    intro pc hpc
    have h1 := hall pc hpc
    cases pc with
    | ret e => rw [(Racing.so_far cfg key fd w0 ts w h).2 e hpc]
    | _ => simp [Pc.returned] at h1
  obtain ⟨pc0, hpc0⟩ := List.exists_mem_of_length_pos hpos
  rcases h with ⟨_, hstart⟩ | hep
  · have h1 := hstart pc0 hpc0
    have h2 := hret pc0 hpc0
    rw [h1] at h2
    cases h2
  · have hsaw : 0 < ts.countP Pc.sawFile :=
      List.countP_pos_iff.2 ⟨pc0, hpc0, by rw [hret pc0 hpc0]; rfl⟩
    have hf : (w.heap w0.next).f = some fd := by
      rcases hep.file with hf | hf
      · have := hep.sawFile hf
        omega
      · exact hf
    have hrd : ts.countP Pc.holdsRead = 0 :=
      List.countP_eq_zero.2 (fun pc hpc => by rw [hret pc hpc]; simp [Pc.holdsRead])
    have hwr : ts.countP Pc.holdsWrite = 0 :=
      List.countP_eq_zero.2 (fun pc hpc => by rw [hret pc hpc]; simp [Pc.holdsWrite])
    have hw : (w.heap w0.next).lock.writer = false := by
      cases hw : (w.heap w0.next).lock.writer
      · rfl
      · have := hep.writer
        rw [hw, hwr] at this
        simp at this
    refine ⟨List.eq_replicate_iff.2 ⟨rfl, hret⟩, hf, ?_, ?_, ?_⟩
    · have h1 := hep.readers
      rw [hrd] at h1
      cases hl : (w.heap w0.next).lock with
      | mk r wr =>
        rw [hl] at h1 hw
        simp only at h1 hw
        rw [h1, hw]
        rfl
    · rw [hep.opens]
      simp [hf]
    · rw [hep.count]
      simp [hf]

/-- No returning `Cache.Get` touches an entry that is allocated. -/
theorem Cache.Get_heap {cfg : FHCacheConfig} {env : Env} {key : _Key} {w w0 : World}
    {r : Option Iface × Option Err} (h : Cache.Get cfg env key w = .done r w0) (a : Nat)
    (ha : a < w.next) : w0.heap a = w.heap a := by
  rcases Cache.Get_done h with ⟨e, _, _, hw⟩ | ⟨it, _, _, _, _, hw⟩ | ⟨w2, _, _, st, ld⟩
  · subst hw
    rfl
  · subst hw
    rfl
  · have hn : w2.next = w.next := st.next
    have hh : w2.heap = w.heap := st.heap
    rw [ld.heap, hn, hh]
    have : a ≠ w.next := by omega
    simp [Function.update_noteq this]

theorem Event.internal_not_open {e : Event} (h : e.internal = true) : e.isOpen = false := by
  cases e <;> simp_all [Event.internal, Event.isOpen]

/-- A returning `getLocked` leaves a descriptor that is there as it is and does not
attempt to open the file of its entry. -/
theorem getLocked_keeps_descriptor {pg : PgConsts} {cfg : FHCacheConfig} {env : Env}
    {fuel : Nat} {ioReq : IOCacheKey} {w w1 : World} {r : Option Nat × Option Err}
    (h : getLocked pg cfg env fuel ioReq w = .done r w1) (a fd : Nat) (ha : a < w.next)
    (hf : (w.heap a).f = some fd) :
    (w1.heap a).f = some fd ∧
      ∃ es, w1.trace = w.trace ++ es ∧ ∀ path res, Event.osOpen a path res ∉ es := by
  rcases getLocked_done h with ⟨e, _, _, hw⟩ | ⟨b, w0, hg, hl⟩
  · subst hw
    exact ⟨hf, [.cacheGet (_NewKey pg ioReq)], rfl, by simp⟩
  · have hh := Cache.Get_heap hg a ha
    obtain ⟨es1, ht1, hi1⟩ := Cache.Get_trace hg
    have hf0 : (w0.heap a).f = some fd := by rw [hh]; exact hf
    have hes1 : ∀ path res, Event.osOpen a path res ∉ es1 := by
      intro path res hm
      have := hi1 _ hm
      simp [Event.internal] at this
    obtain ⟨_, hcase⟩ := getLockedLoop_done hl
    rcases hcase with ⟨fd1, hfb, _, hw⟩ | ⟨e, hfb, _, _, _, hw⟩ | ⟨fd1, hfb, _, _, _, hw⟩
    · subst hw
      refine ⟨?_, .cacheGet (_NewKey pg ioReq) :: es1 ++ [.RLock b], ?_, ?_⟩
      · by_cases hab : a = b
        · subst hab
          simp [hf0]
        · simp [World.withGuard, Function.update_noteq hab, hf0]
      · simp [World.withGuard, ht1]
      · intro path res hm
        simp only [List.cons_append, List.mem_cons, List.mem_append, List.mem_singleton,
          reduceCtorEq, false_or, or_false, List.not_mem_nil] at hm
        exact hes1 path res hm
    · have hab : a ≠ b := by
        intro hab
        subst hab
        rw [hfb] at hf0
        cases hf0
      subst hw
      refine ⟨by simp [World.withGuard, Function.update_noteq hab, hf0],
        .cacheGet (_NewKey pg ioReq) :: es1 ++ [.RLock b, .RUnlock b, .Lock b,
          .osOpen b ((w0.heap b).key.Filename env cfg.PGDataPath) none,
          .warn "unable to open relation file" (_NewKey pg ioReq), .Unlock b], ?_, ?_⟩
      · simp [World.withGuard, ht1]
      · intro path res hm
        simp only [List.cons_append, List.mem_cons, List.mem_append, List.mem_singleton,
          reduceCtorEq, false_or, or_false, List.not_mem_nil, Event.osOpen.injEq] at hm
        rcases hm with hm | hm
        · exact hes1 path res hm
        · exact hab hm.1
    · have hab : a ≠ b := by
        intro hab
        subst hab
        rw [hfb] at hf0
        cases hf0
      subst hw
      refine ⟨by simp [World.withGuard, World.opened, Function.update_noteq hab, hf0],
        .cacheGet (_NewKey pg ioReq) :: es1 ++ [.RLock b, .RUnlock b, .Lock b,
          .osOpen b ((w0.heap b).key.Filename env cfg.PGDataPath) (some fd1), .Unlock b,
          .RLock b], ?_, ?_⟩
      · simp [World.withGuard, World.opened, ht1]
      · intro path res hm
        simp only [List.cons_append, List.mem_cons, List.mem_append, List.mem_singleton,
          reduceCtorEq, false_or, or_false, List.not_mem_nil, Event.osOpen.injEq] at hm
        rcases hm with hm | hm
        · exact hes1 path res hm
        · exact hab hm.1

/-- A returning `getLocked` attempts at most one open; the attempt follows the taking of
the exclusive lock of the entry the cache gave, whose descriptor was none. -/
theorem getLocked_opens_once {pg : PgConsts} {cfg : FHCacheConfig} {env : Env}
    {fuel : Nat} {ioReq : IOCacheKey} {w w1 : World} {r : Option Nat × Option Err}
    (h : getLocked pg cfg env fuel ioReq w = .done r w1) :
    ∃ es, w1.trace = w.trace ++ es ∧ es.countP Event.isOpen ≤ 1 ∧
      ∀ b path res, Event.osOpen b path res ∈ es →
        ∃ w0, Cache.Get cfg env (_NewKey pg ioReq) w = .done (some (.ptrValue b), none) w0 ∧
          (w0.heap b).f = none ∧ [Event.Lock b, Event.osOpen b path res] <:+: es := by
  rcases getLocked_done h with ⟨e, _, _, hw⟩ | ⟨b, w0, hg, hl⟩
  · subst hw
    exact ⟨[.cacheGet (_NewKey pg ioReq)], rfl, by simp [Event.isOpen], by simp⟩
  · obtain ⟨es1, ht1, hi1⟩ := Cache.Get_trace hg
    have hc1 : es1.countP Event.isOpen = 0 :=
      countP_none (fun e he => Event.internal_not_open (hi1 e he))
    have hes1 : ∀ c path res, Event.osOpen c path res ∉ es1 := by
      intro c path res hm
      have := hi1 _ hm
      simp [Event.internal] at this
    obtain ⟨_, hcase⟩ := getLockedLoop_done hl
    rcases hcase with ⟨fd1, hfb, _, hw⟩ | ⟨e, hfb, _, _, _, hw⟩ | ⟨fd1, hfb, _, _, _, hw⟩
    · subst hw
      refine ⟨.cacheGet (_NewKey pg ioReq) :: es1 ++ [.RLock b], by simp [World.withGuard, ht1], ?_, ?_⟩
      · simp [List.countP_cons, List.countP_append, hc1, Event.isOpen]
      · intro c path res hm
        simp only [List.cons_append, List.mem_cons, List.mem_append, List.mem_singleton,
          reduceCtorEq, false_or, or_false, List.not_mem_nil] at hm
        exact absurd hm (hes1 c path res)
    · subst hw
      refine ⟨.cacheGet (_NewKey pg ioReq) :: es1 ++ [.RLock b, .RUnlock b, .Lock b,
          .osOpen b ((w0.heap b).key.Filename env cfg.PGDataPath) none,
          .warn "unable to open relation file" (_NewKey pg ioReq), .Unlock b],
        by simp [World.withGuard, ht1], ?_, ?_⟩
      · simp [List.countP_cons, List.countP_append, hc1, Event.isOpen]
      · intro c path res hm
        simp only [List.cons_append, List.mem_cons, List.mem_append, List.mem_singleton,
          reduceCtorEq, false_or, or_false, List.not_mem_nil, Event.osOpen.injEq] at hm
        rcases hm with hm | ⟨hc, hp, hr⟩
        · exact absurd hm (hes1 c path res)
        · subst hc hp hr
          exact ⟨w0, hg, hfb, .cacheGet (_NewKey pg ioReq) :: es1 ++ [.RLock c, .RUnlock c],
            [.warn "unable to open relation file" (_NewKey pg ioReq), .Unlock c], by simp⟩
    · subst hw
      refine ⟨.cacheGet (_NewKey pg ioReq) :: es1 ++ [.RLock b, .RUnlock b, .Lock b,
          .osOpen b ((w0.heap b).key.Filename env cfg.PGDataPath) (some fd1), .Unlock b,
          .RLock b], by simp [World.withGuard, World.opened, ht1], ?_, ?_⟩
      · simp [List.countP_cons, List.countP_append, hc1, Event.isOpen]
      · intro c path res hm
        simp only [List.cons_append, List.mem_cons, List.mem_append, List.mem_singleton,
          reduceCtorEq, false_or, or_false, List.not_mem_nil, Event.osOpen.injEq] at hm
        rcases hm with hm | ⟨hc, hp, hr⟩
        · exact absurd hm (hes1 c path res)
        · subst hc hp hr
          exact ⟨w0, hg, hfb, .cacheGet (_NewKey pg ioReq) :: es1 ++ [.RLock c, .RUnlock c],
            [.Unlock c, .RLock c], by simp⟩

theorem step_then {α : Type} (m : M α) (f : α → Pc) (w w1 : World) (pc1 : Pc)
    (h : (m >>= fun x => pure (f x)) w = .done pc1 w1) :
    ∃ x, m w = .done x w1 ∧ pc1 = f x := by
  simp only [M.bind_run] at h
  cases hm : m w with
  | done x w0 =>
    rw [hm] at h
    cases h
    exact ⟨x, rfl, rfl⟩
  | blocked => rw [hm] at h; cases h
  | panic p => rw [hm] at h; cases h
  | spin => rw [hm] at h; cases h

theorem _Value.Lock_done {a : Nat} {w w1 : World} (h : _Value.Lock a w = .done () w1) :
    (w1.heap a).lock.writer = true := by
  simp only [_Value.Lock, onGuard, RWMutex.Lock] at h
  split at h
  · rename_i m hm
    split at hm
    · cases hm
    · cases hm
      cases h
      simp
  · cases h
  · cases h

/-- How a goroutine comes to the open and to the assignment: the open is reached only
from the check made with the exclusive lock held, when it read none; that check only by
taking the exclusive lock; the assignment only from an open that gave a descriptor. -/
theorem Pc.step_order (pg : PgConsts) (cfg : FHCacheConfig) (env : Env) (ioReq : IOCacheKey)
    (pc pc1 : Pc) (w w1 : World) (v : Nat)
    (h : pc.step pg cfg env ioReq w = .done pc1 w1) :
    (pc1 = .open_ v → pc = .recheck v ∧ (w.heap v).f = none ∧ w1 = w) ∧
    (pc1 = .recheck v → pc = .lock v ∧ (w1.heap v).lock.writer = true) ∧
    (∀ f, pc1 = .assign v f → pc = .open_ v ∧ ∃ fd, f = some fd) := by
  cases pc with
  | start =>
    simp only [Pc.step, M.bind_run] at h
    cases hg : Cache.Get cfg env (_NewKey pg ioReq) w with
    | done rg w0 =>
      rw [hg] at h
      obtain ⟨x, err⟩ := rg
      cases err with
      | some e => cases h; simp
      | none =>
        cases x with
        | none => cases h
        | some i =>
          cases i <;> cases h
          simp
    | blocked => rw [hg] at h; cases h
    | panic p => rw [hg] at h; cases h
    | spin => rw [hg] at h; cases h
  | rlock a =>
    obtain ⟨x, _, rfl⟩ := step_then _ _ _ _ _ h
    simp
  | check a =>
    simp only [Pc.step, _Value.getF, M.bind_run] at h
    cases hf : (w.heap a).f <;> rw [hf] at h <;> cases h <;> simp
  | runlock a =>
    obtain ⟨x, _, rfl⟩ := step_then _ _ _ _ _ h
    simp
  | lock a =>
    obtain ⟨x, hm, rfl⟩ := step_then _ _ _ _ _ h
    have := _Value.Lock_done hm
    simp only [reduceCtorEq, false_and, imp_false, not_false_eq_true, Pc.recheck.injEq,
      Pc.lock.injEq, true_and, implies_true, and_true]
    intro hv
    subst hv
    exact ⟨rfl, this⟩
  | recheck a =>
    simp only [Pc.step, _Value.getF, M.bind_run] at h
    cases hf : (w.heap a).f with
    | none =>
      rw [hf] at h
      cases h
      simp only [Pc.open_.injEq, Pc.recheck.injEq, and_true, reduceCtorEq, false_and,
        imp_false, not_false_eq_true, implies_true]
      intro hv
      subst hv
      exact ⟨rfl, hf⟩
    | some fd =>
      rw [hf] at h
      cases h
      simp
  | unlockRetry a =>
    obtain ⟨x, _, rfl⟩ := step_then _ _ _ _ _ h
    simp
  | open_ a =>
    simp only [Pc.step, _Value.open_, M.bind_run] at h
    cases ho : env.osOpen ((w.heap a).key.Filename env cfg.PGDataPath) with
    | ok fd =>
      rw [ho] at h
      cases h
      simp only [reduceCtorEq, false_and, imp_false, not_false_eq_true, Pc.assign.injEq,
        Pc.open_.injEq, true_and, and_imp]
      intro f hv hf
      exact ⟨hv, fd, hf.symm⟩
    | error e =>
      rw [ho] at h
      cases h
      simp
  | warn a e =>
    obtain ⟨x, _, rfl⟩ := step_then _ _ _ _ _ h
    simp
  | unlockFail a e =>
    simp only [Pc.step, M.bind_run, getWorld] at h
    cases hm : _Value.Unlock a w with
    | done x w0 =>
      rw [hm] at h
      cases h
      simp
    | blocked => rw [hm] at h; cases h
    | panic p => rw [hm] at h; cases h
    | spin => rw [hm] at h; cases h
  | assign a f =>
    obtain ⟨x, _, rfl⟩ := step_then _ _ _ _ _ h
    simp
  | unlockOpened a =>
    obtain ⟨x, _, rfl⟩ := step_then _ _ _ _ _ h
    simp
  | gaugeLock a =>
    obtain ⟨x, _, rfl⟩ := step_then _ _ _ _ _ h
    simp
  | gaugeInc a =>
    obtain ⟨x, _, rfl⟩ := step_then _ _ _ _ _ h
    simp
  | gaugeUnlock a =>
    obtain ⟨x, _, rfl⟩ := step_then _ _ _ _ _ h
    simp
  | advise a =>
    simp only [Pc.step, _Value.getF, Fadvise, emit, M.bind_run] at h
    cases h
    simp
  | deferLock a =>
    obtain ⟨x, _, rfl⟩ := step_then _ _ _ _ _ h
    simp
  | deferDec a =>
    obtain ⟨x, _, rfl⟩ := step_then _ _ _ _ _ h
    simp
  | deferUnlock a =>
    obtain ⟨x, _, rfl⟩ := step_then _ _ _ _ _ h
    simp
  | release a =>
    obtain ⟨x, _, rfl⟩ := step_then _ _ _ _ _ h
    simp
  | ret e => cases h

theorem onGuard_f {a : Nat} {op : RWMutex → LockRes RWMutex} {e : Event} {w w1 : World}
    (h : onGuard a op e w = .done () w1) (b : Nat) : (w1.heap b).f = (w.heap b).f := by
  simp only [onGuard] at h
  split at h
  · cases h
    by_cases hb : b = a
    · subst hb
      simp
    · simp [Function.update_noteq hb]
  · cases h
  · cases h

theorem numConcurrentReadLock_Lock_heap {w w1 : World}
    (h : numConcurrentReadLock_Lock w = .done () w1) : w1.heap = w.heap := by
  simp only [numConcurrentReadLock_Lock] at h
  split at h <;> cases h
  rfl

theorem numConcurrentReadLock_Unlock_heap {w w1 : World}
    (h : numConcurrentReadLock_Unlock w = .done () w1) : w1.heap = w.heap := by
  simp only [numConcurrentReadLock_Unlock] at h
  split at h <;> cases h
  rfl

/-- The one statement that writes the descriptor of an allocated entry is the assignment
`value.f = f`. -/
theorem Pc.step_writes (pg : PgConsts) (cfg : FHCacheConfig) (env : Env) (ioReq : IOCacheKey)
    (pc pc1 : Pc) (w w1 : World) (a : Nat) (ha : a < w.next)
    (h : pc.step pg cfg env ioReq w = .done pc1 w1)
    (hne : (w1.heap a).f ≠ (w.heap a).f) : ∃ f, pc = .assign a f := by
  cases pc with
  | start =>
    simp only [Pc.step, M.bind_run] at h
    cases hg : Cache.Get cfg env (_NewKey pg ioReq) w with
    | done rg w0 =>
      rw [hg] at h
      have hh := Cache.Get_heap hg a ha
      obtain ⟨x, err⟩ := rg
      cases err with
      | some e =>
        cases h
        exact absurd (by rw [hh]) hne
      | none =>
        cases x with
        | none => cases h
        | some i =>
          cases i <;> cases h
          exact absurd (by rw [hh]) hne
    | blocked => rw [hg] at h; cases h
    | panic p => rw [hg] at h; cases h
    | spin => rw [hg] at h; cases h
  | rlock v =>
    obtain ⟨x, hm, _⟩ := step_then _ _ _ _ _ h
    exact absurd (onGuard_f hm a) hne
  | check v =>
    simp only [Pc.step, _Value.getF, M.bind_run] at h
    cases hf : (w.heap v).f <;> rw [hf] at h <;> cases h <;> exact absurd rfl hne
  | runlock v =>
    obtain ⟨x, hm, _⟩ := step_then _ _ _ _ _ h
    exact absurd (onGuard_f hm a) hne
  | lock v =>
    obtain ⟨x, hm, _⟩ := step_then _ _ _ _ _ h
    exact absurd (onGuard_f hm a) hne
  | recheck v =>
    simp only [Pc.step, _Value.getF, M.bind_run] at h
    cases hf : (w.heap v).f <;> rw [hf] at h <;> cases h <;> exact absurd rfl hne
  | unlockRetry v =>
    obtain ⟨x, hm, _⟩ := step_then _ _ _ _ _ h
    exact absurd (onGuard_f hm a) hne
  | open_ v =>
    simp only [Pc.step, _Value.open_, M.bind_run] at h
    cases ho : env.osOpen ((w.heap v).key.Filename env cfg.PGDataPath) <;> rw [ho] at h <;>
      cases h <;> exact absurd rfl hne
  | warn v e =>
    obtain ⟨x, hm, _⟩ := step_then _ _ _ _ _ h
    cases hm
    exact absurd rfl hne
  | unlockFail v e =>
    simp only [Pc.step, M.bind_run, getWorld] at h
    cases hm : _Value.Unlock v w with
    | done x w0 =>
      rw [hm] at h
      cases h
      exact absurd (onGuard_f hm a) hne
    | blocked => rw [hm] at h; cases h
    | panic p => rw [hm] at h; cases h
    | spin => rw [hm] at h; cases h
  | assign v f =>
    obtain ⟨x, hm, _⟩ := step_then _ _ _ _ _ h
    cases hm
    by_cases hav : a = v
    · subst hav
      exact ⟨f, rfl⟩
    · exact absurd (by simp [Function.update_noteq hav]) hne
  | unlockOpened v =>
    obtain ⟨x, hm, _⟩ := step_then _ _ _ _ _ h
    exact absurd (onGuard_f hm a) hne
  | gaugeLock v =>
    obtain ⟨x, hm, _⟩ := step_then _ _ _ _ _ h
    exact absurd (by rw [numConcurrentReadLock_Lock_heap hm]) hne
  | gaugeInc v =>
    obtain ⟨x, hm, _⟩ := step_then _ _ _ _ _ h
    cases hm
    exact absurd rfl hne
  | gaugeUnlock v =>
    obtain ⟨x, hm, _⟩ := step_then _ _ _ _ _ h
    exact absurd (by rw [numConcurrentReadLock_Unlock_heap hm]) hne
  | advise v =>
    simp only [Pc.step, _Value.getF, Fadvise, emit, M.bind_run] at h
    cases h
    exact absurd rfl hne
  | deferLock v =>
    obtain ⟨x, hm, _⟩ := step_then _ _ _ _ _ h
    exact absurd (by rw [numConcurrentReadLock_Lock_heap hm]) hne
  | deferDec v =>
    obtain ⟨x, hm, _⟩ := step_then _ _ _ _ _ h
    cases hm
    exact absurd rfl hne
  | deferUnlock v =>
    obtain ⟨x, hm, _⟩ := step_then _ _ _ _ _ h
    exact absurd (by rw [numConcurrentReadLock_Unlock_heap hm]) hne
  | release v =>
    obtain ⟨x, hm, _⟩ := step_then _ _ _ _ _ h
    exact absurd (onGuard_f hm a) hne
  | ret e => cases h

/-- A returning `PrefaultPage` leaves a descriptor that is there as it is and does not
attempt to open the file of its entry. -/
theorem PrefaultPage_keeps_descriptor {pg : PgConsts} {cfg : FHCacheConfig} {env : Env}
    {fuel : Nat} {ioReq : IOCacheKey} {w w1 : World} {r : Option Err}
    (h : PrefaultPage pg cfg env fuel ioReq w = .done r w1) (a fd : Nat) (ha : a < w.next)
    (hf : (w.heap a).f = some fd) :
    (w1.heap a).f = some fd ∧
      ∃ es, w1.trace = w.trace ++ es ∧ ∀ path res, Event.osOpen a path res ∉ es := by
  rcases PrefaultPage_done h with ⟨v, e, hg, _⟩ | ⟨b, w0, hg, _, _, _, hw⟩
  · exact getLocked_keeps_descriptor hg a fd ha hf
  · obtain ⟨hf0, es, ht, hes⟩ := getLocked_keeps_descriptor hg a fd ha hf
    subst hw
    refine ⟨?_, es ++ [adviseEvent pg env (w0.heap b).f ioReq.Block, .RUnlock b], ?_, ?_⟩
    · by_cases hab : a = b
      · subst hab
        simp [World.prefaulted, hf0]
      · simp [World.prefaulted, Function.update_noteq hab, hf0]
    · simp [World.prefaulted, ht]
    · intro path res hm
      simp only [List.mem_append, List.mem_cons, List.mem_singleton, adviseEvent,
        reduceCtorEq, false_or, or_false, List.not_mem_nil] at hm
      exact hes path res hm

/-! ## Properties of the file-handle cache and the prefault engine -/

/-- C1: whenever `getLocked` returns without error, it returns an entry that is allocated
and whose descriptor is non-nil; the guard of that entry holds exactly one more read lock
than before the call, its write lock is not held, and no other guard has changed. -/
theorem getLocked_returns_read_locked (pg : PgConsts) (cfg : FHCacheConfig) (env : Env)
    (fuel : Nat) (ioReq : IOCacheKey) (w w1 : World) (v : Option Nat) (hwf : w.WF)
    (h : getLocked pg cfg env fuel ioReq w = .done (v, none) w1) :
    ∃ a, v = some a ∧ a < w1.next ∧ (w1.heap a).f ≠ none ∧
      (w1.guard a).readers = (w.guard a).readers + 1 ∧ (w1.guard a).writer = false ∧
      ∀ b, b ≠ a → w1.guard b = w.guard b := by
  rcases getLocked_done h with ⟨e, _, hr, _⟩ | ⟨a, w0, hg, hl⟩
  · simp at hr
  · obtain ⟨ha, hlock, _, hothers⟩ := Cache.Get_guard hwf hg
    obtain ⟨hwr, hcase⟩ := getLockedLoop_done hl
    refine ⟨a, ?_⟩
    rcases hcase with ⟨fd, hf, hr, hw⟩ | ⟨e, _, _, _, hr, _⟩ | ⟨fd, hf, hrd, ho, hr, hw⟩
    · simp only [Prod.mk.injEq, and_true] at hr
      subst hw
      refine ⟨hr, ha, ?_, ?_, ?_, ?_⟩
      · simp [hf]
      · rw [← hlock]
        simp [World.guard, ha]
      · simp [World.guard, ha]
      · intro b hb
        rw [← hothers b]
        simp [World.guard, World.withGuard, Function.update_noteq hb]
    · simp at hr
    · simp only [Prod.mk.injEq, and_true] at hr
      subst hw
      refine ⟨hr, ha, ?_, ?_, ?_, ?_⟩
      · simp
      · rw [← hlock, hrd]
        simp [World.guard, ha]
      · simp [World.guard, ha]
      · intro b hb
        rw [← hothers b]
        simp [World.guard, World.withGuard, World.opened, Function.update_noteq hb]

theorem getLocked_returns_read_locked_witness :
    World.new.WF ∧
    ∃ a, some World.new.next = some a ∧
      a < (World.new.coldOpened demoCfg demoEnv (_NewKey demoPg demoReq) 7).next ∧
      ((World.new.coldOpened demoCfg demoEnv (_NewKey demoPg demoReq) 7).heap a).f ≠ none ∧
      ((World.new.coldOpened demoCfg demoEnv (_NewKey demoPg demoReq) 7).guard a).readers
        = (World.new.guard a).readers + 1 ∧
      ((World.new.coldOpened demoCfg demoEnv (_NewKey demoPg demoReq) 7).guard a).writer
        = false ∧
      ∀ b, b ≠ a →
        (World.new.coldOpened demoCfg demoEnv (_NewKey demoPg demoReq) 7).guard b
          = World.new.guard b :=
  ⟨World.new_WF,
    getLocked_returns_read_locked demoPg demoCfg demoEnv 2 demoReq World.new _ _ World.new_WF
      (getLocked_cold demoPg demoCfg demoEnv 0 demoReq World.new 7 rfl rfl (by decide) rfl)⟩

/-- C2: whenever `getLocked` returns an error, the entry it returns is nil and every guard
is in the lock state it had before the call (the guard of an entry created by the call is
free): the caller holds neither a read lock nor a write lock. -/
theorem getLocked_error_releases (pg : PgConsts) (cfg : FHCacheConfig) (env : Env)
    (fuel : Nat) (ioReq : IOCacheKey) (w w1 : World) (v : Option Nat) (e : Err)
    (h : getLocked pg cfg env fuel ioReq w = .done (v, some e) w1) :
    v = none ∧ ∀ b, w1.guard b = w.guard b := by
  rcases getLocked_done h with ⟨e1, _, hr, hw⟩ | ⟨a, w0, hg, hl⟩
  · simp only [Prod.mk.injEq] at hr
    subst hw
    exact ⟨hr.1, fun b => rfl⟩
  · have hothers := Cache.Get_guards hg
    obtain ⟨_, hcase⟩ := getLockedLoop_done hl
    rcases hcase with ⟨fd, _, hr, _⟩ | ⟨e2, _, _, _, hr, hw⟩ | ⟨fd, _, _, _, hr, _⟩
    · simp at hr
    · simp only [Prod.mk.injEq] at hr
      subst hw
      refine ⟨hr.1, fun b => ?_⟩
      rw [World.withGuard_guard_self, hothers b]
    · simp at hr

theorem getLocked_error_releases_witness :
    (none : Option Nat) = none ∧
      ∀ b, (World.new.coldFailed demoCfg demoEnvFail (_NewKey demoPg demoReq)).guard b
        = World.new.guard b :=
  getLocked_error_releases demoPg demoCfg demoEnvFail 2 demoReq World.new _ _ _
    (getLocked_cold_fail demoPg demoCfg demoEnvFail 1 demoReq World.new _ rfl rfl
      (by decide) rfl)

/-- C3: when `PrefaultPage` succeeds for a request with block number B (the handle was
obtained), the entry resident under the request's key has a descriptor `fd`, and the
call has issued exactly one advisory: on `fd`, with byte offset (B mod G)·P and length P
(G blocks per segment, P the page size, a segment being smaller than 2^63 bytes). -/
theorem PrefaultPage_advises_once (pg : PgConsts) (cfg : FHCacheConfig) (env : Env)
    (fuel : Nat) (ioReq : IOCacheKey) (w w1 : World)
    (hG : 0 < pg.BlocksPerSegment) (hGP : pg.BlocksPerSegment * pg.HeapPageSize < 2 ^ 63)
    (h : PrefaultPage pg cfg env fuel ioReq w = .done none w1) :
    ∃ it a fd es rc, lookup w1.c (_NewKey pg ioReq) = some it ∧ it.value = .ptrValue a ∧
      (w1.heap a).f = some fd ∧ w1.trace = w.trace ++ es ∧
      es.filter Event.isAdvise =
        [.posix_fadvise (fd : Int)
          ((ioReq.Block % pg.BlocksPerSegment * pg.HeapPageSize : Nat) : Int)
          (pg.HeapPageSize : Int) (POSIX_FADV_WILLNEED ||| POSIX_FADV_RANDOM) rc] := by
  rcases PrefaultPage_done h with ⟨v, e, _, hr⟩ | ⟨a, w0, hg, _, _, _, hw⟩
  · simp at hr
  · obtain ⟨⟨it, hit, hv⟩, ⟨fd, hf⟩, es, htr, hes⟩ := getLocked_ok hg
    obtain ⟨hoff, hlen⟩ := offset_no_wrap pg ioReq.Block hG hGP
    subst hw
    refine ⟨it, a, fd, .cacheGet (_NewKey pg ioReq) :: es ++
      [adviseEvent pg env (w0.heap a).f ioReq.Block, .RUnlock a],
      env.posix_fadvise (fdOf (w0.heap a).f)
        (toInt64 (toUint64 (HeapSegmentPageNum pg ioReq.Block) * toUint64 pg.HeapPageSize))
        (toInt64 pg.HeapPageSize) (POSIX_FADV_WILLNEED ||| POSIX_FADV_RANDOM),
      hit, hv, ?_, ?_, ?_⟩
    · simp [World.prefaulted, hf]
    · simp [World.prefaulted, htr]
    · simp only [List.cons_append, List.filter_cons, Event.isCacheGet, Event.isAdvise,
        List.filter_append, filter_advise_nil hes, adviseEvent, hoff, hlen, hf, fdOf,
        List.nil_append, List.filter_nil, Bool.false_eq_true, if_false, if_true]

theorem PrefaultPage_advises_once_witness :
    0 < demoPg.BlocksPerSegment ∧ demoPg.BlocksPerSegment * demoPg.HeapPageSize < 2 ^ 63 ∧
    ∃ it a fd es rc,
      lookup ((World.new.coldOpened demoCfg demoEnv (_NewKey demoPg demoReq) 7).prefaulted
        demoPg demoEnv World.new.next demoReq.Block).c (_NewKey demoPg demoReq) = some it ∧
      it.value = .ptrValue a ∧
      (((World.new.coldOpened demoCfg demoEnv (_NewKey demoPg demoReq) 7).prefaulted
        demoPg demoEnv World.new.next demoReq.Block).heap a).f = some fd ∧
      ((World.new.coldOpened demoCfg demoEnv (_NewKey demoPg demoReq) 7).prefaulted
        demoPg demoEnv World.new.next demoReq.Block).trace = World.new.trace ++ es ∧
      es.filter Event.isAdvise =
        [.posix_fadvise (fd : Int)
          ((demoReq.Block % demoPg.BlocksPerSegment * demoPg.HeapPageSize : Nat) : Int)
          (demoPg.HeapPageSize : Int) (POSIX_FADV_WILLNEED ||| POSIX_FADV_RANDOM) rc] :=
  ⟨by decide, by decide,
    PrefaultPage_advises_once demoPg demoCfg demoEnv 2 demoReq World.new _ (by decide)
      (by decide)
      (PrefaultPage_cold demoPg demoCfg demoEnv 0 demoReq World.new 7 rfl rfl (by decide) rfl
        rfl)⟩

/-- C4: from the world `New` leaves, after any history of `PrefaultPage` calls (each in
its own environment, its open succeeding or failing) and cache evictions, the history
returns and the final `Purge` returns too (its fatal branch is not reached), with the
cache empty and `openFDCount` equal to `closeFDCount`; for every entry the trace holds as
many closes as successful opens, at most one; and an entry whose descriptor is still
none has neither an open nor a close. -/
theorem Purge_no_leak (pg : PgConsts) (cfg : FHCacheConfig) (ops : List Op) :
    ∃ w1 w2, runOps pg cfg ops World.new = .done () w1 ∧ Purge w1 = .done () w2 ∧
      w2.c = [] ∧ w2.openFDCount = w2.closeFDCount ∧
      ∀ a, w2.trace.countP (Event.opens a) = w2.trace.countP (Event.closes a) ∧
        w2.trace.countP (Event.closes a) ≤ 1 ∧
        ((w2.heap a).f = none →
          w2.trace.countP (Event.opens a) = 0 ∧ w2.trace.countP (Event.closes a) = 0) := by
  obtain ⟨w1, hrun, hinv⟩ := runOps_Inv pg cfg ops World.new World.new_Inv
  obtain ⟨w2, hp, hc, hcount, htr⟩ := Purge_Inv hinv
  refine ⟨w1, w2, hrun, hp, hc, hcount, ?_⟩
  intro a
  obtain ⟨ho, hcl⟩ := htr a
  rw [ho, hcl]
  refine ⟨rfl, ?_, ?_⟩
  · split <;> omega
  · intro hf
    simp [hf]

/-- C5: a `PrefaultPage` that returns, returns an error if and only if `getLocked`
returned one, which happens only when the cache lookup or the open of the segment file
fails; and whatever `posix_fadvise` returns, the result of `PrefaultPage` and the state
it leaves are the same. -/
theorem PrefaultPage_error_iff (pg : PgConsts) (cfg : FHCacheConfig) (env : Env)
    (fuel : Nat) (ioReq : IOCacheKey) (w w1 : World) (r : Option Err)
    (h : PrefaultPage pg cfg env fuel ioReq w = .done r w1) :
    (r ≠ none ↔ ∃ v e, getLocked pg cfg env fuel ioReq w = .done (v, some e) w1) ∧
    (r ≠ none →
      (∃ e0, env.cacheErr (_NewKey pg ioReq) = some e0) ∨
      (∃ (k : _Key) (e0 : Err), env.osOpen (k.Filename env cfg.PGDataPath) = .error e0)) ∧
    (∀ adv : Int → Int → Int → Nat → Int,
      (PrefaultPage pg cfg { env with posix_fadvise := adv } fuel ioReq w).untraced
        = (PrefaultPage pg cfg env fuel ioReq w).untraced) := by
  have key : r ≠ none ↔ ∃ v e, getLocked pg cfg env fuel ioReq w = .done (v, some e) w1 := by
    rcases PrefaultPage_done h with ⟨v, e, hg, hr⟩ | ⟨a, w0, hg, hr, _, _, _⟩
    · constructor
      · intro _
        exact ⟨v, e, hg⟩
      · intro _
        simp [hr]
    · constructor
      · intro hne
        exact absurd hr hne
      · rintro ⟨v, e, hg2⟩
        rw [hg] at hg2
        simp at hg2
  refine ⟨key, ?_, fun adv => PrefaultPage_advice_irrelevant pg cfg env adv fuel ioReq w⟩
  intro hne
  obtain ⟨v, e, hg⟩ := key.mp hne
  rcases getLocked_error_cause hg with ⟨e0, hce, _⟩ | ⟨k, e0, ho, _⟩
  · exact Or.inl ⟨e0, hce⟩
  · exact Or.inr ⟨k, e0, ho⟩

theorem PrefaultPage_error_iff_witness :
    (some (Err.wrap (.wrapf (.cause "no such file or directory")
        "unable to re-open file: %+v" (_NewKey demoPg demoReq))
        "unable to obtain file handle") ≠ none ↔
      ∃ v e, getLocked demoPg demoCfg demoEnvFail 2 demoReq World.new
        = .done (v, some e) (World.new.coldFailed demoCfg demoEnvFail (_NewKey demoPg demoReq))) ∧
    (some (Err.wrap (.wrapf (.cause "no such file or directory")
        "unable to re-open file: %+v" (_NewKey demoPg demoReq))
        "unable to obtain file handle") ≠ none →
      (∃ e0, demoEnvFail.cacheErr (_NewKey demoPg demoReq) = some e0) ∨
      (∃ (k : _Key) (e0 : Err), demoEnvFail.osOpen (k.Filename demoEnvFail demoCfg.PGDataPath) = .error e0)) ∧
    (∀ adv : Int → Int → Int → Nat → Int,
      (PrefaultPage demoPg demoCfg { demoEnvFail with posix_fadvise := adv } 2 demoReq
          World.new).untraced
        = (PrefaultPage demoPg demoCfg demoEnvFail 2 demoReq World.new).untraced) :=
  PrefaultPage_error_iff demoPg demoCfg demoEnvFail 2 demoReq World.new _ _
    (PrefaultPage_cold_fail demoPg demoCfg demoEnvFail 1 demoReq World.new _ rfl rfl
      (by decide) rfl)

/-- C6: when `getLocked` returns an error and the cache lookup did not fail (so the open
failed), the entry of the key is still resident with descriptor none; and the next
`getLocked` for the same request, on the entry still resident, returns after having
attempted the open of that entry again. -/
theorem getLocked_open_failure_retries (pg : PgConsts) (cfg : FHCacheConfig) (env : Env)
    (fuel : Nat) (ioReq : IOCacheKey) (w w1 : World) (v : Option Nat) (e : Err)
    (hce : env.cacheErr (_NewKey pg ioReq) = none)
    (h : getLocked pg cfg env fuel ioReq w = .done (v, some e) w1) :
    ∃ it a, lookup w1.c (_NewKey pg ioReq) = some it ∧ it.value = .ptrValue a ∧
      (w1.heap a).f = none ∧
      ∀ (env2 : Env) (fuel2 : Nat), env2.cacheErr (_NewKey pg ioReq) = none →
        env2.expired (_NewKey pg ioReq) = false →
        ∃ r2 w2 es fd2, getLocked pg cfg env2 (fuel2 + 2) ioReq w1 = .done r2 w2 ∧
          w2.trace = w1.trace ++ es ∧
          Event.osOpen a ((w1.heap a).key.Filename env2 cfg.PGDataPath) fd2 ∈ es := by
  obtain ⟨it, a, hit, hv, hf, hwr, hrd⟩ := getLocked_open_failed hce h
  refine ⟨it, a, hit, hv, hf, ?_⟩
  intro env2 fuel2 hce2 hx2
  have h2 := getLocked_retry pg cfg env2 fuel2 ioReq w1 it a hce2 hit hv hx2 hwr hrd hf
  cases ho : env2.osOpen ((w1.heap a).key.Filename env2 cfg.PGDataPath) with
  | error e2 =>
    rw [ho] at h2
    exact ⟨_, _, _, none, h2, by simp only [World.withGuard, World.log, List.append_assoc]; rfl,
      by simp⟩
  | ok fd =>
    rw [ho] at h2
    exact ⟨_, _, _, some fd, h2,
      by simp only [World.withGuard, World.opened, World.log, List.append_assoc]; rfl,
      by simp⟩

theorem getLocked_open_failure_retries_witness :
    demoEnvFail.cacheErr (_NewKey demoPg demoReq) = none ∧
    ∃ it a,
      lookup (World.new.coldFailed demoCfg demoEnvFail (_NewKey demoPg demoReq)).c
        (_NewKey demoPg demoReq) = some it ∧
      it.value = .ptrValue a ∧
      ((World.new.coldFailed demoCfg demoEnvFail (_NewKey demoPg demoReq)).heap a).f = none ∧
      ∀ (env2 : Env) (fuel2 : Nat), env2.cacheErr (_NewKey demoPg demoReq) = none →
        env2.expired (_NewKey demoPg demoReq) = false →
        ∃ r2 w2 es fd2,
          getLocked demoPg demoCfg env2 (fuel2 + 2) demoReq
            (World.new.coldFailed demoCfg demoEnvFail (_NewKey demoPg demoReq))
            = .done r2 w2 ∧
          w2.trace
            = (World.new.coldFailed demoCfg demoEnvFail (_NewKey demoPg demoReq)).trace ++ es ∧
          Event.osOpen a
            (((World.new.coldFailed demoCfg demoEnvFail (_NewKey demoPg demoReq)).heap a).key.Filename
              env2 demoCfg.PGDataPath) fd2 ∈ es :=
  ⟨rfl,
    getLocked_open_failure_retries demoPg demoCfg demoEnvFail 2 demoReq World.new _ _ _ rfl
      (getLocked_cold_fail demoPg demoCfg demoEnvFail 1 demoReq World.new _ rfl rfl
        (by decide) rfl)⟩

/-- C7: `PrefaultPage` is idempotent: when a first call succeeds, a second call with the
same request, made while the entry is still resident, succeeds as well and opens
nothing: `openFDCount` is unchanged and no open is attempted. -/
theorem PrefaultPage_idempotent (pg : PgConsts) (cfg : FHCacheConfig) (env : Env)
    (fuel : Nat) (ioReq : IOCacheKey) (w w1 : World)
    (h : PrefaultPage pg cfg env fuel ioReq w = .done none w1) :
    ∀ (env2 : Env) (fuel2 : Nat), env2.cacheErr (_NewKey pg ioReq) = none →
      env2.expired (_NewKey pg ioReq) = false →
      ∃ w2 es, PrefaultPage pg cfg env2 (fuel2 + 1) ioReq w1 = .done none w2 ∧
        w2.openFDCount = w1.openFDCount ∧ w2.trace = w1.trace ++ es ∧
        es.filter Event.isOpen = [] := by
  rcases PrefaultPage_done h with ⟨v, e, _, hr⟩ | ⟨a, w0, hg, _, hn, _, hw⟩
  · simp at hr
  · obtain ⟨⟨it, hit, hv⟩, ⟨fd, hf⟩, _⟩ := getLocked_ok hg
    obtain ⟨hwr, _⟩ := getLocked_ok_guard hg
    intro env2 fuel2 hce2 hx2
    have hit1 : lookup w1.c (_NewKey pg ioReq) = some it := by rw [hw]; exact hit
    have hf1 : (w1.heap a).f = some fd := by rw [hw]; simp [World.prefaulted, hf]
    have hwr1 : (w1.heap a).lock.writer = false := by rw [hw]; simp [World.prefaulted, hwr]
    have hn1 : w1.numConcurrentReadLock = false := by rw [hw]; rfl
    exact ⟨_, _, PrefaultPage_warm pg cfg env2 fuel2 ioReq w1 it a fd hce2 hit1 hv hx2 hwr1 hf1
      hn1, rfl,
      by simp only [World.prefaulted, World.withGuard, World.log, List.append_assoc]; rfl,
      by simp [Event.isOpen, adviseEvent]⟩

theorem PrefaultPage_idempotent_witness :
    ∃ w2 es,
      PrefaultPage demoPg demoCfg demoEnv (0 + 1) demoReq
        ((World.new.coldOpened demoCfg demoEnv (_NewKey demoPg demoReq) 7).prefaulted
          demoPg demoEnv World.new.next demoReq.Block) = .done none w2 ∧
      w2.openFDCount
        = ((World.new.coldOpened demoCfg demoEnv (_NewKey demoPg demoReq) 7).prefaulted
          demoPg demoEnv World.new.next demoReq.Block).openFDCount ∧
      w2.trace
        = ((World.new.coldOpened demoCfg demoEnv (_NewKey demoPg demoReq) 7).prefaulted
          demoPg demoEnv World.new.next demoReq.Block).trace ++ es ∧
      es.filter Event.isOpen = [] :=
  PrefaultPage_idempotent demoPg demoCfg demoEnv 2 demoReq World.new _
    (PrefaultPage_cold demoPg demoCfg demoEnv 0 demoReq World.new 7 rfl rfl (by decide) rfl
      rfl) demoEnv 0 rfl rfl

/-- C8: with the locks free and `w1` the world after the cache has been purged, `Purge`
panics if and only if `openFDCount` differs from `closeFDCount` in `w1`; the panic
carries both counter values; and when the counters are equal `Purge` returns, all locks
released. -/
theorem Purge_panics_iff (w w1 : World) (hp : w.purgeLock = false)
    (ho : w.openLock.writer = false) (hc : w.closeLock.writer = false)
    (hv : Cache.Purge { w with purgeLock := true } = .done () w1) :
    ((∃ p, Purge w = .panic p) ↔ w1.openFDCount ≠ w1.closeFDCount) ∧
    (∀ p, Purge w = .panic p →
      p.msg = "bad, open vs close count not the same after purge" ∧
      p.fields = [("close-count", w1.closeFDCount), ("open-count", w1.openFDCount)]) ∧
    (w1.openFDCount = w1.closeFDCount → Purge w = .done () { w1 with purgeLock := false }) := by
  have heq := Purge_eq w w1 hp ho hc hv
  by_cases hne : w1.openFDCount = w1.closeFDCount
  · rw [if_neg (not_not.mpr hne)] at heq
    refine ⟨⟨?_, fun h => absurd hne h⟩, ?_, fun _ => heq⟩
    · rintro ⟨p, h⟩
      rw [heq] at h
      cases h
    · intro p h
      rw [heq] at h
      cases h
  · rw [if_pos hne] at heq
    refine ⟨⟨fun _ => hne, fun _ => ⟨_, heq⟩⟩, ?_, fun h => absurd h hne⟩
    intro p h
    rw [heq] at h
    simp only [Res.panic.injEq] at h
    subst h
    exact ⟨rfl, rfl⟩

theorem Purge_panics_iff_witness :
    ((∃ p, Purge demoLeak = .panic p) ↔ (1 : Nat) ≠ 0) ∧
    (∀ p, Purge demoLeak = .panic p →
      p.msg = "bad, open vs close count not the same after purge" ∧
      p.fields = [("close-count", 0), ("open-count", 1)]) ∧
    ((1 : Nat) = 0 → Purge demoLeak
      = .done () { ({ demoLeak with purgeLock := true } : World) with purgeLock := false }) :=
  Purge_panics_iff demoLeak { demoLeak with purgeLock := true } rfl rfl rfl rfl

/-- C9: for every key the loader returns, without error, a pointer to an entry that did
not exist before (the first free address), carrying exactly that key, descriptor none
and a new unlocked guard, together with the configured TTL; it touches no other entry,
opens no file and leaves `openFDCount` alone; and a cache miss as a whole leaves
`openFDCount` alone and attempts no open. -/
theorem LoaderExpireFunc_fresh (cfg : FHCacheConfig) (env : Env) (key : _Key) (w : World) :
    (∃ w1, LoaderExpireFunc cfg (.key key) w = .done (.ptrValue w.next, cfg.TTL, none) w1 ∧
      w1.heap w.next = { key := key, lock := { readers := 0, writer := false }, f := none } ∧
      w1.next = w.next + 1 ∧ (∀ b, b ≠ w.next → w1.heap b = w.heap b) ∧
      w1.c = w.c ∧ w1.openFDCount = w.openFDCount ∧
      w1.trace = w.trace ++ [.loader key w.next]) ∧
    (∀ r w0, lookup w.c key = none → Cache.Get cfg env key w = .done r w0 →
      w0.openFDCount = w.openFDCount ∧
      ∃ es, w0.trace = w.trace ++ es ∧ es.filter Event.isOpen = []) := by
  refine ⟨⟨w.alloc key, rfl, ?_, rfl, ?_, rfl, rfl, rfl⟩, ?_⟩
  · simp [World.alloc, RWMutex.new]
  · intro b hb
    simp [World.alloc, Function.update_noteq hb]
  · intro r w0 _ h
    exact Cache.Get_opens_nothing h

theorem LoaderExpireFunc_fresh_witness :
    (∃ w1, LoaderExpireFunc demoCfg (.key (_NewKey demoPg demoReq)) World.new
        = .done (.ptrValue World.new.next, demoCfg.TTL, none) w1 ∧
      w1.heap World.new.next
        = _Value.mk (_NewKey demoPg demoReq) { readers := 0, writer := false } none ∧
      w1.next = World.new.next + 1 ∧ (∀ b, b ≠ World.new.next → w1.heap b = World.new.heap b) ∧
      w1.c = World.new.c ∧ w1.openFDCount = World.new.openFDCount ∧
      w1.trace = World.new.trace ++ [.loader (_NewKey demoPg demoReq) World.new.next]) ∧
    (World.new.missed demoCfg (_NewKey demoPg demoReq)).openFDCount = World.new.openFDCount ∧
    ∃ es, (World.new.missed demoCfg (_NewKey demoPg demoReq)).trace = World.new.trace ++ es ∧
      es.filter Event.isOpen = [] :=
  ⟨(LoaderExpireFunc_fresh demoCfg demoEnv (_NewKey demoPg demoReq) World.new).1,
    (LoaderExpireFunc_fresh demoCfg demoEnv (_NewKey demoPg demoReq) World.new).2 _ _ rfl
      (Cache.Get_miss demoCfg demoEnv (_NewKey demoPg demoReq) World.new rfl rfl (by decide))⟩

/-- C10, as stated, fails: a cold `getLocked` fetches entry 0 from the cache and its
first iteration opens the file and releases the write lock; when the cache evicts the
key at that point, the second iteration does not fetch again: it read-locks and returns
the evicted entry 0, while no entry is resident for the key, no new entry has been
created, and the trace holds the single cache lookup made before the loop. -/
theorem getLocked_refetch_counterexample :
    Cache.Get demoCfg demoEnv demoKey World.new = .done (some (.ptrValue 0), none) demoFetched ∧
    getLockedLoop demoCfg demoEnv demoKey 0 2 demoFetched
      = getLockedLoop demoCfg demoEnv demoKey 0 1 demoIterated ∧
    Cache.evict demoKey demoIterated = .done () demoEvicted ∧
    getLockedLoop demoCfg demoEnv demoKey 0 1 demoEvicted = .done (some 0, none) demoReturned ∧
    lookup demoReturned.c demoKey = none ∧
    demoReturned.next = 1 ∧
    demoReturned.trace.filter Event.isCacheGet = [.cacheGet demoKey] ∧
    demoReturned.trace.filter (fun e => decide (e = .RLock 0)) = [.RLock 0, .RLock 0] := by
  have h0 : demoFetched.heap 0 = { key := demoKey, lock := RWMutex.new, f := none } :=
    World.missed_heap_next demoCfg World.new demoKey
  have hc : demoIterated.c = [⟨demoKey, .ptrValue 0, demoCfg.TTL⟩] := rfl
  have hrm : remove demoIterated.c demoKey = [] := by
    rw [hc]
    simp [remove]
  have h2 : demoEvicted.heap 0 = { key := demoKey, lock := RWMutex.new, f := some 7 } := by
    have : demoIterated.heap 0 = { key := demoKey, lock := RWMutex.new, f := some 7 } := by
      unfold demoIterated
      rw [World.opened_heap_same, h0]
    unfold demoEvicted World.closed
    simp only [this]
  refine ⟨Cache.Get_miss demoCfg demoEnv demoKey World.new rfl rfl (by decide), ?_, ?_, ?_, ?_,
    rfl, ?_, ?_⟩
  · rw [getLockedLoop_succ]
    simp only [loopBody, h0, RWMutex.new, Bool.false_eq_true, if_false, Nat.lt_irrefl]
    rfl
  · rw [Cache.evict_eq, hc]
    rw [show lookup [(⟨demoKey, .ptrValue 0, demoCfg.TTL⟩ : Item)] demoKey
      = some ⟨demoKey, .ptrValue 0, demoCfg.TTL⟩ from lookup_cons_self _ _]
    rfl
  · rw [getLockedLoop_succ]
    simp only [loopBody, h2, RWMutex.new, Bool.false_eq_true, if_false]
    rfl
  · show lookup (remove demoIterated.c demoKey) demoKey = none
    rw [hrm]
    rfl
  · simp [demoReturned, demoEvicted, World.closed, World.withGuard, demoIterated,
      World.opened, demoFetched, World.missed, World.stored, World.alloc, World.log,
      World.new, Event.isCacheGet, RWMutex.new]
  · simp [demoReturned, demoEvicted, World.closed, World.withGuard, demoIterated,
      World.opened, demoFetched, World.missed, World.stored, World.alloc, World.log,
      World.new, RWMutex.new]

/-- C10 (amended): `getLocked` fetches the entry of the key from the cache once, before
the retry loop: the events of a returning call are that one lookup followed by no other.
The loop itself never consults the cache: its outcome is the same whatever the table
holds, it leaves the table and the allocator alone, every event of it concerns the entry
it was given, and the entry it returns is that one. -/
theorem getLocked_fetches_once (pg : PgConsts) (cfg : FHCacheConfig) (env : Env) (fuel : Nat)
    (ioReq : IOCacheKey) (w : World) :
    (∀ r w1, getLocked pg cfg env fuel ioReq w = .done r w1 →
      ∃ es, w1.trace = w.trace ++ .cacheGet (_NewKey pg ioReq) :: es ∧
        es.filter Event.isCacheGet = []) ∧
    (∀ (a : Nat) (c' : List Item),
      getLockedLoop cfg env (_NewKey pg ioReq) a fuel { w with c := c' }
        = (getLockedLoop cfg env (_NewKey pg ioReq) a fuel w).mapWorld
            (fun w1 => { w1 with c := c' })) ∧
    (∀ (a : Nat) r w1, getLockedLoop cfg env (_NewKey pg ioReq) a fuel w = .done r w1 →
      (r.1 = none ∨ r.1 = some a) ∧ w1.c = w.c ∧ w1.next = w.next ∧
      ∃ es, w1.trace = w.trace ++ es ∧ ∀ e ∈ es, e.onEntry a = true) :=
  ⟨fun _ _ h => getLocked_trace h,
    fun a c' => getLockedLoop_ignores_cache cfg env (_NewKey pg ioReq) a c' fuel w,
    fun _ _ _ h => getLockedLoop_frame h⟩

theorem getLocked_fetches_once_witness :
    ∃ es, (World.new.coldOpened demoCfg demoEnv (_NewKey demoPg demoReq) 7).trace
        = World.new.trace ++ .cacheGet (_NewKey demoPg demoReq) :: es ∧
      es.filter Event.isCacheGet = [] :=
  (getLocked_fetches_once demoPg demoCfg demoEnv 2 demoReq World.new).1 _ _
    (getLocked_cold demoPg demoCfg demoEnv 0 demoReq World.new 7 rfl rfl (by decide) rfl)

/-- C11: the key built from a request has segment number block / G; two requests that
agree on tablespace, database, relation and fork and whose blocks fall in the same
segment yield equal keys, and then share one cached file: after a successful
`PrefaultPage` for the first, a call for the second on the entry still resident succeeds
and opens nothing; and with G = 131072, block 131072 yields segment 1, page 0 of the
segment and byte offset 0. -/
theorem _NewKey_segment (pg : PgConsts) (r1 r2 : IOCacheKey) :
    (_NewKey pg r1).segment = r1.Block / pg.BlocksPerSegment ∧
    (r1.Tablespace = r2.Tablespace → r1.Database = r2.Database → r1.Relation = r2.Relation →
      r1.Fork = r2.Fork → r1.Block / pg.BlocksPerSegment = r2.Block / pg.BlocksPerSegment →
      _NewKey pg r2 = _NewKey pg r1 ∧
      ∀ (cfg : FHCacheConfig) (env env2 : Env) (fuel fuel2 : Nat) (w w1 : World),
        PrefaultPage pg cfg env fuel r1 w = .done none w1 →
        env2.cacheErr (_NewKey pg r2) = none → env2.expired (_NewKey pg r2) = false →
        ∃ w2, PrefaultPage pg cfg env2 (fuel2 + 1) r2 w1 = .done none w2 ∧
          w2.openFDCount = w1.openFDCount ∧ w2.c = w1.c) ∧
    (pg.BlocksPerSegment = 131072 → r1.Block = 131072 →
      (_NewKey pg r1).segment = 1 ∧ HeapSegmentPageNum pg r1.Block = 0 ∧
      toInt64 (toUint64 (HeapSegmentPageNum pg r1.Block) * toUint64 pg.HeapPageSize) = 0) := by
  refine ⟨rfl, ?_, ?_⟩
  · intro ht hd hr hf hb
    have hk : _NewKey pg r2 = _NewKey pg r1 := by
      simp [_NewKey, ht, hd, hr, hf, hb]
    refine ⟨hk, ?_⟩
    intro cfg env env2 fuel fuel2 w w1 h hce hx
    obtain ⟨w2, es, h2, ho, hc, _, _⟩ := PrefaultPage_same_key h hk env2 fuel2 hce hx
    exact ⟨w2, h2, ho, hc⟩
  · intro hG hB
    have h1 : HeapSegmentPageNum pg r1.Block = 0 := by
      simp [HeapSegmentPageNum, hG, hB]
    refine ⟨by simp [_NewKey, hG, hB], h1, ?_⟩
    rw [h1]
    simp [toInt64, toUint64]

theorem _NewKey_segment_witness :
    (_NewKey demoPg demoReq2 = _NewKey demoPg demoReq ∧
      ∀ (cfg : FHCacheConfig) (env env2 : Env) (fuel fuel2 : Nat) (w w1 : World),
        PrefaultPage demoPg cfg env fuel demoReq w = .done none w1 →
        env2.cacheErr (_NewKey demoPg demoReq2) = none →
        env2.expired (_NewKey demoPg demoReq2) = false →
        ∃ w2, PrefaultPage demoPg cfg env2 (fuel2 + 1) demoReq2 w1 = .done none w2 ∧
          w2.openFDCount = w1.openFDCount ∧ w2.c = w1.c) ∧
    ((_NewKey demoPg { demoReq with Block := 131072 }).segment = 1 ∧
      HeapSegmentPageNum demoPg 131072 = 0 ∧
      toInt64 (toUint64 (HeapSegmentPageNum demoPg 131072) * toUint64 demoPg.HeapPageSize)
        = 0) :=
  ⟨(_NewKey_segment demoPg demoReq demoReq2).2.1 rfl rfl rfl rfl (by decide),
    (_NewKey_segment demoPg { demoReq with Block := 131072 } demoReq2).2.2 rfl rfl⟩

/-- C12: for every key and data root, the path resolved for an entry is
`<pgdata_root>/<tablespace-dir>/<db-dir>/<relation-id><fork-suffix>`, followed by
`.<segment#>` when the segment number is not 0 and by nothing when it is 0, the fork
suffix being empty for main and `_fsm`, `_vm`, `_init` for the other forks; and it is the
path `open` hands to the operating system, also in a cold `getLocked` for a request. -/
theorem Filename_convention (env : Env) (root : String) (k : _Key) :
    (k.segment = 0 →
      k.Filename env root = root ++ "/" ++ env.tablespaceDir k.tablespace ++ "/"
        ++ env.dbDir k.database ++ "/" ++ toString k.relation ++ forkSuffix k.fork) ∧
    (k.segment ≠ 0 →
      k.Filename env root = root ++ "/" ++ env.tablespaceDir k.tablespace ++ "/"
        ++ env.dbDir k.database ++ "/" ++ toString k.relation ++ forkSuffix k.fork
        ++ "." ++ toString k.segment) ∧
    (forkSuffix .main = "" ∧ forkSuffix .fsm = "_fsm" ∧ forkSuffix .vm = "_vm" ∧
      forkSuffix .init = "_init") ∧
    (∀ (a : Nat) (w : World), (w.heap a).key = k →
      ∃ r w1, _Value.open_ env a root w = .done r w1 ∧
        w1.trace = w.trace ++ [.osOpen a (k.Filename env root) r.1]) ∧
    (∀ (pg : PgConsts) (cfg : FHCacheConfig) (fuel : Nat) (ioReq : IOCacheKey) (w : World)
      (e : Err), _NewKey pg ioReq = k → cfg.PGDataPath = root → env.cacheErr k = none →
      lookup w.c k = none → w.c.length < cfg.Size → env.osOpen (k.Filename env root) = .error e →
      ∃ r w1, getLocked pg cfg env (fuel + 1) ioReq w = .done r w1 ∧
        Event.osOpen w.next (k.Filename env root) none ∈ w1.trace) := by
  refine ⟨?_, ?_, ⟨rfl, rfl, rfl, rfl⟩, ?_, ?_⟩
  · intro h
    simp [_Key.Filename, h]
  · intro h
    simp [_Key.Filename, h, String.append_assoc]
  · intro a w hk
    obtain ⟨r, w1, h1, h2, _⟩ := _Value.open_path env a root w
    exact ⟨r, w1, h1, by rw [h2, hk]⟩
  · intro pg cfg fuel ioReq w e hk hroot hce hl hsz ho
    subst hk hroot
    refine ⟨_, _, getLocked_cold_fail pg cfg env fuel ioReq w e hce hl hsz ho, ?_⟩
    simp [World.coldFailed, World.withGuard]

theorem Filename_convention_witness :
    (_Key.mk 1 1 16384 .main 0).Filename demoEnv "/tmp/pgdata" = "/tmp/pgdata/base/1/16384" ∧
    (_Key.mk 1 1 16384 .fsm 1).Filename demoEnv "/tmp/pgdata"
      = "/tmp/pgdata/base/1/16384_fsm.1" ∧
    ∃ r w1, getLocked demoPg demoCfg demoEnvFail (1 + 1) demoReq World.new = .done r w1 ∧
      Event.osOpen World.new.next
        ((_NewKey demoPg demoReq).Filename demoEnvFail "/tmp/pgdata") none ∈ w1.trace :=
  ⟨((Filename_convention demoEnv "/tmp/pgdata" (_Key.mk 1 1 16384 .main 0)).1 rfl).trans
      (by decide),
    ((Filename_convention demoEnv "/tmp/pgdata" (_Key.mk 1 1 16384 .fsm 1)).2.1
      (by decide)).trans (by decide),
    (Filename_convention demoEnvFail "/tmp/pgdata" (_NewKey demoPg demoReq)).2.2.2.2
      demoPg demoCfg 1 demoReq World.new _ rfl rfl rfl rfl (by decide) rfl⟩

/-- C13: for every `PrefaultPage` that returns, with success or with an error, the gauge
`numConcurrentReads` (an `int64`) has the value it had before the call; `getLocked` does
not touch it, so it is incremented only once the read-locked entry has been obtained, and
the deferred decrement runs before the return. -/
theorem PrefaultPage_gauge_restored (pg : PgConsts) (cfg : FHCacheConfig) (env : Env)
    (fuel : Nat) (ioReq : IOCacheKey) (w w1 : World) (r : Option Err)
    (hlo : -(2 : Int) ^ 63 ≤ w.numConcurrentReads) (hhi : w.numConcurrentReads < (2 : Int) ^ 63)
    (h : PrefaultPage pg cfg env fuel ioReq w = .done r w1) :
    w1.numConcurrentReads = w.numConcurrentReads ∧
    (∀ r0 w0, getLocked pg cfg env fuel ioReq w = .done r0 w0 →
      w0.numConcurrentReads = w.numConcurrentReads) ∧
    (r = none → ∃ a w0, getLocked pg cfg env fuel ioReq w = .done (some a, none) w0 ∧
      w1.numConcurrentReads = wrapInt64 (wrapInt64 (w0.numConcurrentReads + 1) + -1)) := by
  refine ⟨?_, fun r0 w0 h0 => (getLocked_gauge h0).1, ?_⟩
  · rcases PrefaultPage_done h with ⟨v, e, hg, _⟩ | ⟨a, w0, hg, _, _, _, hw⟩
    · exact (getLocked_gauge hg).1
    · have h0 := (getLocked_gauge hg).1
      subst hw
      show wrapInt64 (wrapInt64 (w0.numConcurrentReads + 1) + -1) = w.numConcurrentReads
      rw [h0]
      exact wrapInt64_inc_dec _ hlo hhi
  · intro hr
    rcases PrefaultPage_done h with ⟨v, e, hg, hr2⟩ | ⟨a, w0, hg, _, _, _, hw⟩
    · rw [hr] at hr2
      cases hr2
    · exact ⟨a, w0, hg, by rw [hw]; rfl⟩

theorem PrefaultPage_gauge_restored_witness :
    -(2 : Int) ^ 63 ≤ World.new.numConcurrentReads ∧
    World.new.numConcurrentReads < (2 : Int) ^ 63 ∧
    ((World.new.coldOpened demoCfg demoEnv (_NewKey demoPg demoReq) 7).prefaulted
      demoPg demoEnv World.new.next demoReq.Block).numConcurrentReads
        = World.new.numConcurrentReads :=
  ⟨by decide, by decide,
    (PrefaultPage_gauge_restored demoPg demoCfg demoEnv 2 demoReq World.new _ _ (by decide)
      (by decide)
      (PrefaultPage_cold demoPg demoCfg demoEnv 0 demoReq World.new 7 rfl rfl (by decide) rfl
        rfl)).1⟩

/-- C14: for every `PrefaultPage` that returns, with success or with an error, every
guard is in the lock state it had before the call (the guard of an entry created by the
call is free): the read lock `getLocked` took is released once, by the deferred
`RUnlock`, and the caller holds no lock. -/
theorem PrefaultPage_releases_guard (pg : PgConsts) (cfg : FHCacheConfig) (env : Env)
    (fuel : Nat) (ioReq : IOCacheKey) (w w1 : World) (r : Option Err)
    (h : PrefaultPage pg cfg env fuel ioReq w = .done r w1) :
    (∀ b, w1.guard b = w.guard b) ∧
    (r = none → ∃ a w0 es, getLocked pg cfg env fuel ioReq w = .done (some a, none) w0 ∧
      (w1.heap a).lock = ⟨(w0.heap a).lock.readers - 1, (w0.heap a).lock.writer⟩ ∧
      0 < (w0.heap a).lock.readers ∧
      w1.trace = w0.trace ++ es ∧ es.filter (fun e => decide (e = .RUnlock a)) = [.RUnlock a]) := by
  rcases PrefaultPage_done h with ⟨v, e, hg, hr⟩ | ⟨a, w0, hg, hr, _, hrd, hw⟩
  · refine ⟨getLocked_error_guards hg, ?_⟩
    intro hn
    rw [hn] at hr
    cases hr
  · obtain ⟨w', hothers, hnext, hheap, hwr, hlock⟩ := getLocked_ok_guards hg
    subst hw
    refine ⟨?_, ?_⟩
    · intro b
      rw [← hothers b]
      unfold World.guard
      show (if b < w0.next then ((World.prefaulted pg env w0 a ioReq.Block).heap b).lock
        else RWMutex.new) = _
      rw [hnext]
      by_cases hb : b = a
      · subst hb
        have : ((World.prefaulted pg env w0 b ioReq.Block).heap b).lock = (w'.heap b).lock := by
          simp only [World.prefaulted, Function.update_same, hlock]
          cases hl : (w'.heap b).lock with
          | mk rd wr =>
            rw [hl] at hwr
            simp only at hwr
            simp [hwr]
        rw [this]
      · have : ((World.prefaulted pg env w0 a ioReq.Block).heap b) = w'.heap b := by
          simp only [World.prefaulted, Function.update_noteq hb]
          exact hheap b hb
        rw [this]
    · intro _
      refine ⟨a, w0, _, hg, ?_, by omega, rfl, ?_⟩
      · simp [World.prefaulted]
      · simp [adviseEvent]

theorem PrefaultPage_releases_guard_witness :
    (∀ b, ((World.new.coldOpened demoCfg demoEnv (_NewKey demoPg demoReq) 7).prefaulted
      demoPg demoEnv World.new.next demoReq.Block).guard b = World.new.guard b) ∧
    ((none : Option Err) = none → ∃ a w0 es,
      getLocked demoPg demoCfg demoEnv 2 demoReq World.new = .done (some a, none) w0 ∧
      (((World.new.coldOpened demoCfg demoEnv (_NewKey demoPg demoReq) 7).prefaulted
        demoPg demoEnv World.new.next demoReq.Block).heap a).lock
          = ⟨(w0.heap a).lock.readers - 1, (w0.heap a).lock.writer⟩ ∧
      0 < (w0.heap a).lock.readers ∧
      ((World.new.coldOpened demoCfg demoEnv (_NewKey demoPg demoReq) 7).prefaulted
        demoPg demoEnv World.new.next demoReq.Block).trace = w0.trace ++ es ∧
      es.filter (fun e => decide (e = .RUnlock a)) = [.RUnlock a]) :=
  PrefaultPage_releases_guard demoPg demoCfg demoEnv 2 demoReq World.new _ _
    (PrefaultPage_cold demoPg demoCfg demoEnv 0 demoReq World.new 7 rfl rfl (by decide) rfl rfl)

/-- C16, on the code: `Fadvise` makes one call of `posix_fadvise` on the range given, with
the advice value `POSIX_FADV_WILLNEED | POSIX_FADV_RANDOM` = 3 | 1 = 3, which is
`POSIX_FADV_WILLNEED` itself: the kernel is told that the range will be needed, not that
access is random. -/
theorem Fadvise_advice_is_willneed (env : Env) (fd off len : Int) (w : World) :
    (∃ w1 rc, Fadvise env fd off len w = .done () w1 ∧
      w1.trace = w.trace ++ [.posix_fadvise fd off len 3 rc]) ∧
    POSIX_FADV_WILLNEED = Advice.willneed.code ∧ POSIX_FADV_RANDOM = Advice.random.code ∧
    adviceOf (POSIX_FADV_WILLNEED ||| POSIX_FADV_RANDOM) = some .willneed ∧
    adviceOf (POSIX_FADV_WILLNEED ||| POSIX_FADV_RANDOM) ≠ some .random :=
  ⟨⟨_, _, rfl, rfl⟩, rfl, rfl, by decide, by decide⟩

/-- C17, as stated, fails: on a cold cache, with an open that fails with
"no such file or directory", `PrefaultPage` returns that error wrapped by `getLocked`
and wrapped again by `PrefaultPage`, which is not the error of the open. -/
theorem PrefaultPage_open_error_counterexample :
    demoEnvFail.osOpen ((_NewKey demoPg demoReq).Filename demoEnvFail demoCfg.PGDataPath)
      = .error (.cause "no such file or directory") ∧
    PrefaultPage demoPg demoCfg demoEnvFail 2 demoReq World.new =
      .done (some (.wrap (.wrapf (.cause "no such file or directory")
          "unable to re-open file: %+v" (_NewKey demoPg demoReq))
          "unable to obtain file handle"))
        (World.new.coldFailed demoCfg demoEnvFail (_NewKey demoPg demoReq)) ∧
    Err.wrap (.wrapf (.cause "no such file or directory")
        "unable to re-open file: %+v" (_NewKey demoPg demoReq))
        "unable to obtain file handle" ≠ .cause "no such file or directory" :=
  ⟨rfl,
    PrefaultPage_cold_fail demoPg demoCfg demoEnvFail 1 demoReq World.new _ rfl rfl
      (by decide) rfl,
    by simp⟩

/-- C17 (amended): when `PrefaultPage` returns an error and the cache lookup did not
fail, the open of the segment file of some key `k` failed with an error `e`, and the
error returned is `e` wrapped by `getLocked` with the message
"unable to re-open file" and the key, wrapped again by `PrefaultPage` with the message
"unable to obtain file handle"; its cause is the cause of `e`. -/
theorem PrefaultPage_wraps_open_error (pg : PgConsts) (cfg : FHCacheConfig) (env : Env)
    (fuel : Nat) (ioReq : IOCacheKey) (w w1 : World) (err : Err)
    (hce : env.cacheErr (_NewKey pg ioReq) = none)
    (h : PrefaultPage pg cfg env fuel ioReq w = .done (some err) w1) :
    ∃ (k : _Key) (e : Err), env.osOpen (k.Filename env cfg.PGDataPath) = .error e ∧
      err = .wrap (.wrapf e "unable to re-open file: %+v" k) "unable to obtain file handle" ∧
      err.Cause = e.Cause := by
  rcases PrefaultPage_done h with ⟨v, e, hg, hr⟩ | ⟨a, w0, _, hr, _⟩
  · simp only [Option.some.injEq] at hr
    rcases getLocked_error_cause hg with ⟨e0, hce0, _⟩ | ⟨k, e0, ho, he⟩
    · rw [hce] at hce0
      cases hce0
    · subst he
      exact ⟨k, e0, ho, hr, by rw [hr]; rfl⟩
  · cases hr

theorem PrefaultPage_wraps_open_error_witness :
    demoEnvFail.cacheErr (_NewKey demoPg demoReq) = none ∧
    ∃ (k : _Key) (e : Err),
      demoEnvFail.osOpen (k.Filename demoEnvFail demoCfg.PGDataPath) = .error e ∧
      Err.wrap (.wrapf (.cause "no such file or directory")
          "unable to re-open file: %+v" (_NewKey demoPg demoReq))
          "unable to obtain file handle"
        = .wrap (.wrapf e "unable to re-open file: %+v" k) "unable to obtain file handle" ∧
      (Err.wrap (.wrapf (.cause "no such file or directory")
          "unable to re-open file: %+v" (_NewKey demoPg demoReq))
          "unable to obtain file handle").Cause = e.Cause :=
  ⟨rfl,
    PrefaultPage_wraps_open_error demoPg demoCfg demoEnvFail 2 demoReq World.new _ _ rfl
      (PrefaultPage_cold_fail demoPg demoCfg demoEnvFail 1 demoReq World.new _ rfl rfl
        (by decide) rfl)⟩

/-- C18: for every block number, when a segment of G blocks of P bytes is at most 2^63
bytes long, the byte offset `int64(uint64(pageNum) * uint64(pageSize))` computed by
`PrefaultPage` neither overflows nor wraps: it is non-negative, equal to the product
(B mod G)·P, and smaller than the segment size G·P. -/
theorem offset_in_segment (pg : PgConsts) (block : Nat) (hG : 0 < pg.BlocksPerSegment)
    (hP : 0 < pg.HeapPageSize)
    (hGP : pg.BlocksPerSegment * pg.HeapPageSize ≤ 2 ^ 63) :
    toUint64 (HeapSegmentPageNum pg block) * toUint64 pg.HeapPageSize
      = HeapSegmentPageNum pg block * pg.HeapPageSize ∧
    0 ≤ toInt64 (toUint64 (HeapSegmentPageNum pg block) * toUint64 pg.HeapPageSize) ∧
    toInt64 (toUint64 (HeapSegmentPageNum pg block) * toUint64 pg.HeapPageSize)
      = ((block % pg.BlocksPerSegment * pg.HeapPageSize : Nat) : Int) ∧
    toInt64 (toUint64 (HeapSegmentPageNum pg block) * toUint64 pg.HeapPageSize)
      < ((pg.BlocksPerSegment * pg.HeapPageSize : Nat) : Int) := by
  have hlt : block % pg.BlocksPerSegment < pg.BlocksPerSegment := Nat.mod_lt _ hG
  have hprod : block % pg.BlocksPerSegment * pg.HeapPageSize
      < pg.BlocksPerSegment * pg.HeapPageSize := Nat.mul_lt_mul_of_pos_right hlt hP
  have hP63 : pg.HeapPageSize ≤ 2 ^ 63 := le_trans (Nat.le_mul_of_pos_left _ hG) hGP
  have hG63 : pg.BlocksPerSegment ≤ 2 ^ 63 := le_trans (Nat.le_mul_of_pos_right _ hP) hGP
  have h1 : toUint64 (HeapSegmentPageNum pg block) = block % pg.BlocksPerSegment := by
    unfold toUint64 HeapSegmentPageNum
    exact Nat.mod_eq_of_lt (by omega)
  have h2 : toUint64 pg.HeapPageSize = pg.HeapPageSize := by
    unfold toUint64
    exact Nat.mod_eq_of_lt (by omega)
  have h3 : toInt64 (block % pg.BlocksPerSegment * pg.HeapPageSize)
      = ((block % pg.BlocksPerSegment * pg.HeapPageSize : Nat) : Int) := by
    unfold toInt64
    have h4 : block % pg.BlocksPerSegment * pg.HeapPageSize % 2 ^ 64
        = block % pg.BlocksPerSegment * pg.HeapPageSize := Nat.mod_eq_of_lt (by omega)
    rw [h4, if_pos (by omega)]
  rw [h1, h2, h3]
  refine ⟨rfl, Int.ofNat_nonneg _, rfl, ?_⟩
  exact Int.ofNat_lt.mpr hprod

theorem offset_in_segment_witness :
    0 < demoPg.BlocksPerSegment ∧ 0 < demoPg.HeapPageSize ∧
    demoPg.BlocksPerSegment * demoPg.HeapPageSize ≤ 2 ^ 63 ∧
    toUint64 (HeapSegmentPageNum demoPg 131075) * toUint64 demoPg.HeapPageSize
      = HeapSegmentPageNum demoPg 131075 * demoPg.HeapPageSize ∧
    0 ≤ toInt64 (toUint64 (HeapSegmentPageNum demoPg 131075) * toUint64 demoPg.HeapPageSize) ∧
    toInt64 (toUint64 (HeapSegmentPageNum demoPg 131075) * toUint64 demoPg.HeapPageSize)
      = ((131075 % demoPg.BlocksPerSegment * demoPg.HeapPageSize : Nat) : Int) ∧
    toInt64 (toUint64 (HeapSegmentPageNum demoPg 131075) * toUint64 demoPg.HeapPageSize)
      < ((demoPg.BlocksPerSegment * demoPg.HeapPageSize : Nat) : Int) :=
  ⟨by decide, by decide, by decide,
    offset_in_segment demoPg 131075 (by decide) (by decide) (by decide)⟩

/-- C15: `N` goroutines (`N > 0`) call `PrefaultPage` with the same key on a cold cache
(empty table, `numConcurrentReadLock` free) whose `Get` does not fail and whose entry
does not expire, the open of the segment file succeeding with `fd`.  However their steps
interleave: the run takes no more than `19 * N` steps and does not panic; so far the file
has been opened at most once and no goroutine has returned an error; as long as a
goroutine has not returned, some goroutine can take its step; and once all have returned,
each has returned nil, the entry holds `fd` with its guard free, the file has been opened
exactly once and `openFDCount` is one more than at the start (as a `uint64`).  Some
schedule lets all goroutines return. -/
theorem PrefaultPage_concurrent_single_open (pg : PgConsts) (cfg : FHCacheConfig) (env : Env)
    (req : IOCacheKey) (fd N : Nat) (w0 : World) (hN : 0 < N)
    (hcold : w0.c = []) (hfree : w0.numConcurrentReadLock = false)
    (hce : env.cacheErr (_NewKey pg req) = none)
    (hx : env.expired (_NewKey pg req) = false)
    (hopen : env.osOpen ((_NewKey pg req).Filename env cfg.PGDataPath) = .ok fd) :
    (∀ sched : List Nat,
      match runSched pg cfg env req sched (List.replicate N .start) w0 with
      | .done ts w =>
        sched.length ≤ 19 * N ∧
        (w.trace.filter Event.isOpen).length ≤ (w0.trace.filter Event.isOpen).length + 1 ∧
        (∀ e, Pc.ret e ∈ ts → e = none) ∧
        ((∃ pc ∈ ts, pc.returned = false) →
          ∃ i ts1 w1, stepAt pg cfg env req i ts w = .done ts1 w1) ∧
        ((∀ pc ∈ ts, pc.returned = true) →
          ts = List.replicate N (.ret none) ∧
          (w.heap w0.next).f = some fd ∧
          (w.heap w0.next).lock = RWMutex.new ∧
          (w.trace.filter Event.isOpen).length
            = (w0.trace.filter Event.isOpen).length + 1 ∧
          w.openFDCount = (w0.openFDCount + 1) % 2 ^ 64)
      | .blocked => True
      | .panic _ => False
      | .spin => False) ∧
    ∃ sched ts w, runSched pg cfg env req sched (List.replicate N .start) w0 = .done ts w ∧
      ∀ pc ∈ ts, pc.returned = true := by
  have hinit : Racing cfg (_NewKey pg req) fd w0 (List.replicate N .start) w0 :=
    Or.inl ⟨rfl, fun pc hpc => (List.mem_replicate.1 hpc).2⟩
  have hbud : budget w0.next (List.replicate N .start) w0 = 19 * N := by
    unfold budget
    rw [rank_all_start _ (fun pc hpc => (List.mem_replicate.1 hpc).2), List.length_replicate]
  refine ⟨fun sched => ?_, ?_⟩
  · have hrun := runSched_racing pg cfg env req fd w0 hce hx hopen hcold hfree sched
      (List.replicate N .start) w0 hinit
    cases hr : runSched pg cfg env req sched (List.replicate N .start) w0 with
    | done ts w =>
      rw [hr] at hrun
      simp only [] at hrun ⊢
      obtain ⟨hrace, hlen, hb⟩ := hrun
      rw [List.length_replicate] at hlen
      have hsf := Racing.so_far cfg _ fd w0 ts w hrace
      refine ⟨by omega, hsf.1, hsf.2, ?_, fun hall => ?_⟩
      · exact Racing.progress pg cfg env req fd w0 hce hx hopen hcold hfree ts w hrace
      · have := Racing.at_end cfg _ fd w0 ts w hrace (by omega) hall
        rw [hlen] at this
        exact this
    | blocked => exact True.intro
    | panic p =>
      rw [hr] at hrun
      exact hrun
    | spin =>
      rw [hr] at hrun
      exact hrun
  · exact Racing.finish pg cfg env req fd w0 hce hx hopen hcold hfree _ _ w0 (Nat.le_refl _)
      hinit

theorem PrefaultPage_concurrent_single_open_witness :
    (0 < 3 ∧ World.new.c = [] ∧ World.new.numConcurrentReadLock = false ∧
      demoEnv.cacheErr (_NewKey demoPg demoReq) = none ∧
      demoEnv.expired (_NewKey demoPg demoReq) = false ∧
      demoEnv.osOpen ((_NewKey demoPg demoReq).Filename demoEnv demoCfg.PGDataPath) = .ok 7) ∧
    ∃ sched ts w,
      runSched demoPg demoCfg demoEnv demoReq sched (List.replicate 3 .start) World.new
        = .done ts w ∧ ∀ pc ∈ ts, pc.returned = true :=
  ⟨⟨by decide, rfl, rfl, rfl, rfl, rfl⟩,
    (PrefaultPage_concurrent_single_open demoPg demoCfg demoEnv demoReq 7 3 World.new
      (by decide) rfl rfl rfl rfl rfl).2⟩

/-- C27: once the descriptor of an allocated entry is `some fd`, a later `getLocked` or
`PrefaultPage` that returns, for any request, leaves it `some fd` and attempts no open
of that entry.  A `getLocked` attempts at most one open; the attempt comes right after
the taking of the exclusive lock of the entry the cache gave, whose descriptor was none.
In the program order of a goroutine the open is reached only from the check under the
exclusive lock that read none, that check only by taking the exclusive lock, the
assignment only from an open that gave a descriptor, and no other statement writes the
descriptor of an allocated entry. -/
theorem descriptor_assigned_once (pg : PgConsts) (cfg : FHCacheConfig) (env : Env)
    (fuel : Nat) (ioReq : IOCacheKey) (w w1 : World) :
    (∀ a fd, a < w.next → (w.heap a).f = some fd →
      (∀ r, getLocked pg cfg env fuel ioReq w = .done r w1 →
        (w1.heap a).f = some fd ∧
          ∃ es, w1.trace = w.trace ++ es ∧ ∀ path res, Event.osOpen a path res ∉ es) ∧
      (∀ r, PrefaultPage pg cfg env fuel ioReq w = .done r w1 →
        (w1.heap a).f = some fd ∧
          ∃ es, w1.trace = w.trace ++ es ∧ ∀ path res, Event.osOpen a path res ∉ es)) ∧
    (∀ r, getLocked pg cfg env fuel ioReq w = .done r w1 →
      ∃ es, w1.trace = w.trace ++ es ∧ es.countP Event.isOpen ≤ 1 ∧
        ∀ b path res, Event.osOpen b path res ∈ es →
          ∃ w0, Cache.Get cfg env (_NewKey pg ioReq) w
              = .done (some (.ptrValue b), none) w0 ∧
            (w0.heap b).f = none ∧ [Event.Lock b, Event.osOpen b path res] <:+: es) ∧
    (∀ (pc pc1 : Pc) (v : Nat), pc.step pg cfg env ioReq w = .done pc1 w1 →
      (pc1 = Pc.open_ v → pc = Pc.recheck v ∧ (w.heap v).f = none ∧ w1 = w) ∧
      (pc1 = .recheck v → pc = .lock v ∧ (w1.heap v).lock.writer = true) ∧
      (∀ f, pc1 = .assign v f → pc = .open_ v ∧ ∃ fd, f = some fd) ∧
      (v < w.next → (w1.heap v).f ≠ (w.heap v).f → ∃ f, pc = .assign v f)) :=
  ⟨fun a fd ha hf =>
      ⟨fun _ h => getLocked_keeps_descriptor h a fd ha hf,
        fun _ h => PrefaultPage_keeps_descriptor h a fd ha hf⟩,
    fun _ h => getLocked_opens_once h,
    fun pc pc1 v h =>
      ⟨(Pc.step_order pg cfg env ioReq pc pc1 w w1 v h).1,
        (Pc.step_order pg cfg env ioReq pc pc1 w w1 v h).2.1,
        (Pc.step_order pg cfg env ioReq pc pc1 w w1 v h).2.2,
        fun hv hne => Pc.step_writes pg cfg env ioReq pc pc1 w w1 v hv h hne⟩⟩

theorem descriptor_assigned_once_witness :
    (0 < demoOpened.next ∧ (demoOpened.heap 0).f = some 7 ∧
      getLocked demoPg demoCfg demoEnv 1 demoReq demoOpened
        = .done (some 0, none)
            ((demoOpened.log [.cacheGet demoKey]).withGuard 0 ⟨1 + 1, false⟩ [.RLock 0])) ∧
    (((demoOpened.log [.cacheGet demoKey]).withGuard 0 ⟨1 + 1, false⟩ [.RLock 0]).heap 0).f
      = some 7 ∧
    ∃ es, ((demoOpened.log [.cacheGet demoKey]).withGuard 0 ⟨1 + 1, false⟩ [.RLock 0]).trace
        = demoOpened.trace ++ es ∧
      ∀ path res, Event.osOpen 0 path res ∉ es :=
  ⟨⟨by decide, rfl,
      getLocked_warm demoPg demoCfg demoEnv 0 demoReq demoOpened ⟨demoKey, .ptrValue 0, 3600⟩
        0 7 rfl rfl rfl rfl rfl rfl⟩,
    ((descriptor_assigned_once demoPg demoCfg demoEnv 1 demoReq demoOpened
        ((demoOpened.log [.cacheGet demoKey]).withGuard 0 ⟨1 + 1, false⟩ [.RLock 0])).1 0 7
      (by decide) rfl).1 _
      (getLocked_warm demoPg demoCfg demoEnv 0 demoReq demoOpened ⟨demoKey, .ptrValue 0, 3600⟩
        0 7 rfl rfl rfl rfl rfl rfl)⟩

/-- C28: in a world reached between calls (no lock is held by a peer), `getLocked` with
fuel for two iterations of its loop returns, for every request.  When the cache lookup
fails it returns the error before the loop, with no open attempt.  When the descriptor of
the entry is there, one iteration is enough and no open is attempted.  When it is none,
exactly one open is attempted: if the open fails the error is returned in that first
iteration; if it succeeds the first iteration does not return (fuel for one iteration is
not enough) and the second returns the entry, its descriptor assigned. -/
theorem getLocked_terminates_alone (pg : PgConsts) (cfg : FHCacheConfig) (env : Env)
    (ioReq : IOCacheKey) (w : World) (hinv : Inv w) :
    ∃ r w1 es, (∀ fuel, getLocked pg cfg env (fuel + 2) ioReq w = .done r w1) ∧
      w1.trace = w.trace ++ es ∧
      ((∃ e, env.cacheErr (_NewKey pg ioReq) = some e ∧
          r = (none, some (.wrap e "unable to open cache file")) ∧
          getLocked pg cfg env 0 ioReq w = .done r w1 ∧ es.countP Event.isOpen = 0) ∨
       (∃ a w0 fd, Cache.Get cfg env (_NewKey pg ioReq) w
            = .done (some (.ptrValue a), none) w0 ∧
          (w0.heap a).f = some fd ∧ r = (some a, none) ∧
          getLocked pg cfg env 1 ioReq w = .done r w1 ∧ es.countP Event.isOpen = 0) ∨
       (∃ a w0 e, Cache.Get cfg env (_NewKey pg ioReq) w
            = .done (some (.ptrValue a), none) w0 ∧
          (w0.heap a).f = none ∧
          env.osOpen ((w0.heap a).key.Filename env cfg.PGDataPath) = .error e ∧
          r = (none, some (.wrapf e "unable to re-open file: %+v" (w0.heap a).key)) ∧
          getLocked pg cfg env 1 ioReq w = .done r w1 ∧ es.countP Event.isOpen = 1) ∨
       (∃ a w0 fd, Cache.Get cfg env (_NewKey pg ioReq) w
            = .done (some (.ptrValue a), none) w0 ∧
          (w0.heap a).f = none ∧
          env.osOpen ((w0.heap a).key.Filename env cfg.PGDataPath) = .ok fd ∧
          r = (some a, none) ∧ (w1.heap a).f = some fd ∧
          getLocked pg cfg env 1 ioReq w = .spin ∧ es.countP Event.isOpen = 1)) := by
  obtain ⟨rg, w0, hg, hinv0, hcase⟩ := Cache.Get_Inv hinv cfg env (_NewKey pg ioReq)
  obtain ⟨es1, ht1, hi1⟩ := Cache.Get_trace hg
  have hc1 : es1.countP Event.isOpen = 0 :=
    countP_none (fun e he => Event.internal_not_open (hi1 e he))
  rcases hcase with ⟨e, hr⟩ | ⟨it, a, hr, hl, hv⟩
  · subst hr
    have hce : env.cacheErr (_NewKey pg ioReq) = some e := by
      rcases Cache.Get_done hg with ⟨e1, hce, hr, _⟩ | ⟨_, _, _, _, hr, _⟩ | ⟨_, _, hr, _⟩
      · simp only [Prod.mk.injEq, Option.some.injEq, true_and] at hr
        rw [hce, hr]
      · simp at hr
      · simp at hr
    refine ⟨_, w0, .cacheGet (_NewKey pg ioReq) :: es1, ?_, ht1, Or.inl ⟨e, hce, rfl, ?_, ?_⟩⟩
    · intro fuel
      rw [getLocked_eq, hg]
    · rw [getLocked_eq, hg]
    · simp [List.countP_cons, hc1, Event.isOpen]
  · subst hr
    obtain ⟨a1, hv1, ha, hlk⟩ := hinv0.items it (lookup_mem hl).1
    have haa : a1 = a := by
      rw [hv] at hv1
      simp only [Iface.ptrValue.injEq] at hv1
      exact hv1.symm
    subst haa
    cases hf : (w0.heap a1).f with
    | some fd =>
      refine ⟨(some a1, none), w0.withGuard a1 ⟨0 + 1, false⟩ [.RLock a1],
        .cacheGet (_NewKey pg ioReq) :: es1 ++ [.RLock a1], ?_, ?_,
        Or.inr (Or.inl ⟨a1, w0, fd, hg, hf, rfl, ?_, ?_⟩)⟩
      · intro fuel
        rw [getLocked_eq, hg]
        simp only []
        rw [getLockedLoop_succ]
        simp only [loopBody, hlk, hf, Bool.false_eq_true, if_false]
      · simp [World.withGuard, ht1]
      · rw [getLocked_eq, hg]
        simp only []
        rw [getLockedLoop_succ]
        simp only [loopBody, hlk, hf, Bool.false_eq_true, if_false]
      · simp [List.countP_cons, List.countP_append, hc1, Event.isOpen]
    | none =>
      cases ho : env.osOpen ((w0.heap a1).key.Filename env cfg.PGDataPath) with
      | error e =>
        refine ⟨(none, some (.wrapf e "unable to re-open file: %+v" (w0.heap a1).key)),
          w0.withGuard a1 (w0.heap a1).lock [.RLock a1, .RUnlock a1, .Lock a1,
            .osOpen a1 ((w0.heap a1).key.Filename env cfg.PGDataPath) none,
            .warn "unable to open relation file" (_NewKey pg ioReq), .Unlock a1],
          .cacheGet (_NewKey pg ioReq) :: es1 ++ [.RLock a1, .RUnlock a1, .Lock a1,
            .osOpen a1 ((w0.heap a1).key.Filename env cfg.PGDataPath) none,
            .warn "unable to open relation file" (_NewKey pg ioReq), .Unlock a1], ?_, ?_,
          Or.inr (Or.inr (Or.inl ⟨a1, w0, e, hg, hf, ho, rfl, ?_, ?_⟩))⟩
        · intro fuel
          rw [getLocked_eq, hg]
          simp only []
          rw [getLockedLoop_succ]
          simp only [loopBody, hlk, hf, ho, Bool.false_eq_true, if_false, Nat.lt_irrefl]
        · simp [World.withGuard, ht1]
        · rw [getLocked_eq, hg]
          simp only []
          rw [getLockedLoop_succ]
          simp only [loopBody, hlk, hf, ho, Bool.false_eq_true, if_false, Nat.lt_irrefl]
        · simp [List.countP_cons, List.countP_append, hc1, Event.isOpen]
      | ok fd =>
        refine ⟨(some a1, none), (w0.opened cfg env a1 fd).withGuard a1 ⟨1, false⟩ [.RLock a1],
          .cacheGet (_NewKey pg ioReq) :: es1 ++ [.RLock a1, .RUnlock a1, .Lock a1,
            .osOpen a1 ((w0.heap a1).key.Filename env cfg.PGDataPath) (some fd), .Unlock a1,
            .RLock a1], ?_, ?_,
          Or.inr (Or.inr (Or.inr ⟨a1, w0, fd, hg, hf, ho, rfl, ?_, ?_, ?_⟩))⟩
        · intro fuel
          rw [getLocked_eq, hg]
          simp only []
          rw [getLockedLoop_succ]
          simp only [loopBody, hlk, hf, ho, Bool.false_eq_true, if_false, Nat.lt_irrefl]
          rw [getLockedLoop_opened cfg env _ a1 fuel fd w0 (by rw [hlk]) (by rw [hlk])]
        · simp [World.withGuard, World.opened, ht1]
        · simp [World.withGuard, World.opened]
        · rw [getLocked_eq, hg]
          simp only []
          rw [getLockedLoop_succ]
          simp only [loopBody, hlk, hf, ho, Bool.false_eq_true, if_false, Nat.lt_irrefl]
          rfl
        · simp [List.countP_cons, List.countP_append, hc1, Event.isOpen]

theorem getLocked_terminates_alone_witness :
    Inv World.new ∧
    getLocked demoPg demoCfg demoEnv 2 demoReq World.new
      = .done (some 0, none) (World.new.coldOpened demoCfg demoEnv demoKey 7) ∧
    ∃ r w1 es, (∀ fuel, getLocked demoPg demoCfg demoEnv (fuel + 2) demoReq World.new
        = .done r w1) ∧
      w1.trace = World.new.trace ++ es ∧
      ((∃ e, demoEnv.cacheErr (_NewKey demoPg demoReq) = some e ∧
          r = (none, some (.wrap e "unable to open cache file")) ∧
          getLocked demoPg demoCfg demoEnv 0 demoReq World.new = .done r w1 ∧
          es.countP Event.isOpen = 0) ∨
       (∃ a w0 fd, Cache.Get demoCfg demoEnv (_NewKey demoPg demoReq) World.new
            = .done (some (.ptrValue a), none) w0 ∧
          (w0.heap a).f = some fd ∧ r = (some a, none) ∧
          getLocked demoPg demoCfg demoEnv 1 demoReq World.new = .done r w1 ∧
          es.countP Event.isOpen = 0) ∨
       (∃ a w0 e, Cache.Get demoCfg demoEnv (_NewKey demoPg demoReq) World.new
            = .done (some (.ptrValue a), none) w0 ∧
          (w0.heap a).f = none ∧
          demoEnv.osOpen ((w0.heap a).key.Filename demoEnv demoCfg.PGDataPath) = .error e ∧
          r = (none, some (.wrapf e "unable to re-open file: %+v" (w0.heap a).key)) ∧
          getLocked demoPg demoCfg demoEnv 1 demoReq World.new = .done r w1 ∧
          es.countP Event.isOpen = 1) ∨
       (∃ a w0 fd, Cache.Get demoCfg demoEnv (_NewKey demoPg demoReq) World.new
            = .done (some (.ptrValue a), none) w0 ∧
          (w0.heap a).f = none ∧
          demoEnv.osOpen ((w0.heap a).key.Filename demoEnv demoCfg.PGDataPath) = .ok fd ∧
          r = (some a, none) ∧ (w1.heap a).f = some fd ∧
          getLocked demoPg demoCfg demoEnv 1 demoReq World.new = .spin ∧
          es.countP Event.isOpen = 1)) :=
  ⟨World.new_Inv,
    getLocked_cold demoPg demoCfg demoEnv 0 demoReq World.new 7 rfl rfl (by decide) rfl,
    getLocked_terminates_alone demoPg demoCfg demoEnv demoReq World.new World.new_Inv⟩

end fhcache

namespace config

/-! ## Properties of the log formats -/

/-- C19: each of the four log formats has the documented name ("auto", "zerolog",
"bunyan", "human"), which `String` returns without panicking; and when the configured
log format is the name `String` returned for a format, `LogLevelParse` returns that
format and no error, whatever its argument (lower-casing leaves the four names alone). -/
theorem LogFormat_String_parse (strings : Strings) (viper : Viper) (s : String)
    (hlow : ∀ n ∈ ["auto", "zerolog", "bunyan", "human"], strings.ToLower n = n) :
    LogFormatAuto.String = .ok "auto" ∧ LogFormatZerolog.String = .ok "zerolog" ∧
    LogFormatBunyan.String = .ok "bunyan" ∧ LogFormatHuman.String = .ok "human" ∧
    ∀ (f : LogFormat) (name : String), f.String = .ok name →
      viper.GetString KeyAgentLogFormat = name →
      LogLevelParse strings viper s = (f, none) := by
  refine ⟨rfl, rfl, rfl, rfl, ?_⟩
  intro f name hs hv
  have h1 : strings.ToLower "auto" = "auto" := hlow _ (by simp)
  have h2 : strings.ToLower "zerolog" = "zerolog" := hlow _ (by simp)
  have h3 : strings.ToLower "bunyan" = "bunyan" := hlow _ (by simp)
  have h4 : strings.ToLower "human" = "human" := hlow _ (by simp)
  unfold LogFormat.String at hs
  unfold LogLevelParse
  rw [hv]
  split at hs
  · cases hs
    rename_i hf
    rw [hf]
    simp only [h1]
    rfl
  · split at hs
    · cases hs
      rename_i hf
      rw [hf]
      simp only [h2]
      rfl
    · split at hs
      · cases hs
        rename_i hf
        rw [hf]
        simp only [h3]
        rfl
      · split at hs
        · cases hs
          rename_i hf
          rw [hf]
          simp only [h4]
          rfl
        · cases hs

theorem LogFormat_String_parse_witness :
    (∀ n ∈ ["auto", "zerolog", "bunyan", "human"], asciiStrings.ToLower n = n) ∧
    LogFormatBunyan.String = .ok "bunyan" ∧
    LogLevelParse asciiStrings (constViper "bunyan") "ignored" = (LogFormatBunyan, none) :=
  ⟨by decide, rfl,
    (LogFormat_String_parse asciiStrings (constViper "bunyan") "ignored" (by decide)).2.2.2.2
      LogFormatBunyan "bunyan" rfl rfl⟩

/-- C29: the result of `LogLevelParse` does not depend on its argument: for any two
arguments, and any two configuration stores with the same value under the key of the log
format, it returns the same format and the same error; what it parses is the configured
value. -/
theorem LogLevelParse_ignores_argument (strings : Strings) (viper viper2 : Viper)
    (s s2 : String)
    (h : viper.GetString KeyAgentLogFormat = viper2.GetString KeyAgentLogFormat) :
    LogLevelParse strings viper s = LogLevelParse strings viper2 s2 := by
  unfold LogLevelParse
  rw [h]

theorem LogLevelParse_ignores_argument_witness :
    (constViper "Bunyan").GetString KeyAgentLogFormat
      = ({ constViper "Bunyan" with GetBool := fun _ => true } : Viper).GetString
          KeyAgentLogFormat ∧
    LogLevelParse asciiStrings (constViper "Bunyan") "human"
      = LogLevelParse asciiStrings { constViper "Bunyan" with GetBool := fun _ => true }
          "no such format" ∧
    LogLevelParse asciiStrings (constViper "Bunyan") "human" = (LogFormatBunyan, none) :=
  ⟨rfl, LogLevelParse_ignores_argument asciiStrings (constViper "Bunyan")
      { constViper "Bunyan" with GetBool := fun _ => true } "human" "no such format" rfl,
    by decide⟩

end config

namespace cmd

open config

/-! ## Properties of the pre-run hook -/

/-- The level check accepts exactly the five names. -/
theorem validateLogLevel_accepts (strings : Strings) (viper : Viper) (z : Logging) :
    (validateLogLevel strings viper z).2 = none ↔
      strings.ToUpper (viper.GetString KeyLogLevel) ∈ supportedLevels := by
  unfold validateLogLevel supportedLevels
  simp only [List.mem_cons, List.mem_singleton, List.not_mem_nil, or_false]
  by_cases h1 : strings.ToUpper (viper.GetString KeyLogLevel) = "DEBUG"
  · simp [h1]
  by_cases h2 : strings.ToUpper (viper.GetString KeyLogLevel) = "INFO"
  · simp [h2]
  by_cases h3 : strings.ToUpper (viper.GetString KeyLogLevel) = "WARN"
  · simp [h3]
  by_cases h4 : strings.ToUpper (viper.GetString KeyLogLevel) = "ERROR"
  · simp [h4]
  by_cases h5 : strings.ToUpper (viper.GetString KeyLogLevel) = "FATAL"
  · simp [h5]
  simp [h1, h2, h3, h4, h5]

/-- The level check rejects every other value with the error that lists the five
names, and leaves the state alone. -/
theorem validateLogLevel_rejects (strings : Strings) (viper : Viper) (z : Logging)
    (h : strings.ToUpper (viper.GetString KeyLogLevel) ∉ supportedLevels) :
    validateLogLevel strings viper z =
      (z, some (.errorf "unsupported error level: %q (supported levels: %s)"
        [strings.ToUpper (viper.GetString KeyLogLevel), "DEBUG INFO WARN ERROR FATAL"])) := by
  unfold supportedLevels at h
  simp only [List.mem_cons, List.mem_singleton, List.not_mem_nil, or_false, not_or] at h
  obtain ⟨h1, h2, h3, h4, h5⟩ := h
  unfold validateLogLevel
  simp only [h1, h2, h3, h4, h5, if_false]
  rfl

/-- C20: once the logging block of the pre-run hook has passed, the hook returns no error
if and only if the upper-cased value of the configured log level is one of DEBUG, INFO,
WARN, ERROR, FATAL, so that two configured values with the same upper-cased value are
both accepted or both rejected; every other value makes it return the error
"unsupported error level" carrying the upper-cased value and the list
"DEBUG INFO WARN ERROR FATAL" of the supported levels. -/
theorem PersistentPreRunE_log_level (strings : Strings) (viper : Viper) (host : Host)
    (z z1 : Logging) (hinit : initLogging strings viper host z = (z1, none)) :
    ((PersistentPreRunE strings viper host z).2 = none ↔
      strings.ToUpper (viper.GetString KeyLogLevel) ∈ supportedLevels) ∧
    (strings.ToUpper (viper.GetString KeyLogLevel) ∉ supportedLevels →
      PersistentPreRunE strings viper host z =
        (z1, some (.errorf "unsupported error level: %q (supported levels: %s)"
          [strings.ToUpper (viper.GetString KeyLogLevel), "DEBUG INFO WARN ERROR FATAL"]))) ∧
    (∀ viper2 : Viper,
      strings.ToUpper (viper2.GetString KeyLogLevel)
        = strings.ToUpper (viper.GetString KeyLogLevel) →
      ((validateLogLevel strings viper2 z1).2 = none ↔
        (validateLogLevel strings viper z1).2 = none)) := by
  have hacc := validateLogLevel_accepts strings viper z1
  refine ⟨?_, ?_, ?_⟩
  · rw [← hacc]
    unfold PersistentPreRunE
    rw [hinit]
    simp only []
    cases hv : validateLogLevel strings viper z1 with
    | mk z2 e =>
      cases e <;> simp
  · intro h
    unfold PersistentPreRunE
    rw [hinit]
    simp only []
    rw [validateLogLevel_rejects strings viper z1 h]
  · intro viper2 h2
    rw [validateLogLevel_accepts, validateLogLevel_accepts, h2]

theorem PersistentPreRunE_log_level_witness :
    ((PersistentPreRunE asciiStrings demoViper demoHost Logging.init).2 = none ↔
      asciiStrings.ToUpper (demoViper.GetString KeyLogLevel) ∈ supportedLevels) ∧
    (PersistentPreRunE asciiStrings demoViper demoHost Logging.init).2 = none ∧
    (PersistentPreRunE asciiStrings demoViper demoHost Logging.init).1.GlobalLevel
      = .InfoLevel :=
  ⟨(PersistentPreRunE_log_level asciiStrings demoViper demoHost Logging.init
      (initLogging asciiStrings demoViper demoHost Logging.init).1 (by decide)).1,
    by decide, by decide⟩

end cmd

namespace pgx

/-! ## Sanitized identifiers -/

/-- Doubling of a double quote. -/
theorem Replace_quote (p : List Char) :
    Replace p ['"'] ['"', '"'] = p.flatMap doubled := by
  unfold Replace
  induction p with
  | nil => rfl
  | cons c cs ih =>
    by_cases hc : c = '"'
    · subst hc
      have e : ('"' :: cs).flatMap doubled = '"' :: '"' :: cs.flatMap doubled := rfl
      rw [e, ← ih]
      simp [replaceFrom, List.isPrefixOf]
    · have hb : (('"' : Char) == c) = false := by
        simp only [beq_eq_false_iff_ne, ne_eq]
        exact fun h => hc h.symm
      have e : (c :: cs).flatMap doubled = c :: cs.flatMap doubled := by
        simp [List.flatMap_cons, doubled, hc]
      rw [e, ← ih]
      simp [replaceFrom, List.isPrefixOf, hb]

/-- The reader, inside a quoted identifier, reads a part with its quotes doubled and the
closing quote as that part. -/
theorem readQuoted_body (p : List Char) : ∀ (parts : List String) (cur tail : List Char),
    readQuoted .body parts cur (p.flatMap doubled ++ '"' :: tail)
      = readQuoted .quote parts (cur ++ p) tail := by
  induction p with
  | nil =>
    intro parts cur tail
    have e : ([] : List Char).flatMap doubled ++ '"' :: tail = '"' :: tail := rfl
    rw [e, readQuoted]
    simp
  | cons c cs ih =>
    intro parts cur tail
    by_cases hc : c = '"'
    · subst hc
      have e : ('"' :: cs).flatMap doubled ++ '"' :: tail
          = '"' :: '"' :: (cs.flatMap doubled ++ '"' :: tail) := rfl
      rw [e, readQuoted]
      simp only [if_true]
      rw [readQuoted]
      simp only [if_true]
      rw [ih]
      simp
    · have e : (c :: cs).flatMap doubled ++ '"' :: tail
          = c :: (cs.flatMap doubled ++ '"' :: tail) := by
        simp [List.flatMap_cons, doubled, hc]
      rw [e, readQuoted]
      simp only [hc, if_false]
      rw [ih]
      simp

theorem String_mk_toList (s : String) : String.mk s.toList = s := rfl

/-- The reader recovers the parts of a sanitized identifier. -/
theorem readQuoted_Join (ps : List String) : ∀ (p : String) (parts : List String)
    (st : Lex), st = .start ∨ st = .dot →
    readQuoted st parts []
        (Join ((p :: ps).map (fun p => ['"'] ++ p.toList.flatMap doubled ++ ['"'])) ['.'])
      = some (parts ++ p :: ps) := by
  induction ps with
  | nil =>
    intro p parts st hst
    have e : Join ([p].map (fun p => ['"'] ++ p.toList.flatMap doubled ++ ['"'])) ['.']
        = '"' :: (p.toList.flatMap doubled ++ '"' :: []) := by
      simp [Join]
    rw [e]
    rcases hst with rfl | rfl
    · rw [readQuoted]
      simp only [if_true]
      rw [readQuoted_body, readQuoted]
      simp [String_mk_toList]
    · rw [readQuoted]
      simp only [if_true]
      rw [readQuoted_body, readQuoted]
      simp [String_mk_toList]
  | cons q qs ih =>
    intro p parts st hst
    have hdot : ('.' : Char) ≠ '"' := by decide
    have e : Join ((p :: q :: qs).map (fun p => ['"'] ++ p.toList.flatMap doubled ++ ['"']))
          ['.']
        = '"' :: (p.toList.flatMap doubled ++ '"' :: '.' ::
            Join ((q :: qs).map (fun p => ['"'] ++ p.toList.flatMap doubled ++ ['"'])) ['.'])
        := by
      simp [Join]
    have ih2 := ih q (parts ++ [p]) .dot (Or.inr rfl)
    rw [e]
    rcases hst with rfl | rfl
    · rw [readQuoted]
      simp only [if_true]
      rw [readQuoted_body, readQuoted]
      simp only [hdot, if_false, if_true, List.nil_append, String_mk_toList]
      rw [ih2]
      simp
    · rw [readQuoted]
      simp only [if_true]
      rw [readQuoted_body, readQuoted]
      simp only [hdot, if_false, if_true, List.nil_append, String_mk_toList]
      rw [ih2]
      simp

/-- Reading a sanitized identifier gives the identifier. -/
theorem parseIdentifier_Sanitize (ident : List String) :
    parseIdentifier (Sanitize ident) = some ident := by
  cases ident with
  | nil => rfl
  | cons p ps =>
    have := readQuoted_Join ps p [] .start (Or.inl rfl)
    simp only [List.nil_append] at this
    simp only [parseIdentifier, Sanitize, Replace_quote]
    exact this

/-- C24: `Sanitize` returns every part between double quotes with each double quote of
the part doubled, the quoted parts joined by a dot; reading the result as a dotted
sequence of SQL quoted identifiers gives back exactly the parts, so that two identifiers
with the same sanitized text are equal. -/
theorem Sanitize_quotes_and_reads_back (ident : List String) :
    (Sanitize ident).toList
      = Join (ident.map (fun p => ['"'] ++ p.toList.flatMap doubled ++ ['"'])) ['.'] ∧
    parseIdentifier (Sanitize ident) = some ident ∧
    ∀ ident2 : List String, Sanitize ident = Sanitize ident2 → ident = ident2 := by
  refine ⟨?_, parseIdentifier_Sanitize ident, fun ident2 h => ?_⟩
  · simp only [Sanitize, Replace_quote]
    rfl
  · have h1 := parseIdentifier_Sanitize ident
    have h2 := parseIdentifier_Sanitize ident2
    rw [h] at h1
    rw [h1] at h2
    exact Option.some.inj h2

theorem Sanitize_quotes_and_reads_back_witness :
    parseIdentifier (Sanitize ["public", "we\"ird.name"]) = some ["public", "we\"ird.name"] ∧
    Sanitize ["public", "we\"ird.name"] = "\"public\".\"we\"\"ird.name\"" :=
  ⟨(Sanitize_quotes_and_reads_back ["public", "we\"ird.name"]).2.1, by decide⟩

/-! ## Command tags -/

theorem isDigit_toNat {d : Char} (h : d.isDigit = true) : d.toNat - '0'.toNat ≤ 9 := by
  simp only [Char.isDigit, Bool.and_eq_true, decide_eq_true_eq] at h
  obtain ⟨h1, h2⟩ := h
  have h2' : d.val.toNat ≤ (57 : UInt32).toNat := h2
  have h0 : '0'.toNat = 48 := rfl
  have h57 : (57 : UInt32).toNat = 57 := rfl
  have hd : d.toNat = d.val.toNat := rfl
  rw [h0, hd]
  omega

theorem le_decimalFrom (ds : List Char) : ∀ n, n ≤ decimalFrom n ds := by
  induction ds with
  | nil => intro n; exact Nat.le_refl _
  | cons d rest ih =>
    intro n
    have := ih (n * 10 + (d.toNat - '0'.toNat))
    show n ≤ decimalFrom (n * 10 + (d.toNat - '0'.toNat)) rest
    generalize d.toNat - '0'.toNat = v at this ⊢
    omega

theorem parseUintLoop_cons (d : Char) (rest : List Char) (n : Nat) (hd : d.isDigit = true) :
    parseUintLoop (d :: rest) n =
      if n ≥ 1844674407370955162 then (18446744073709551615, some .ErrRange)
      else if (n * 10 + (d.toNat - '0'.toNat)) % 18446744073709551616 < n * 10 ∨
          (n * 10 + (d.toNat - '0'.toNat)) % 18446744073709551616 > 18446744073709551615
        then (18446744073709551615, some .ErrRange)
      else parseUintLoop rest ((n * 10 + (d.toNat - '0'.toNat)) % 18446744073709551616) := by
  simp only [parseUintLoop, hd, if_true, maxUint64]
  rfl

/-- The loop of `ParseUint` on decimal digits. -/
theorem parseUintLoop_digits (ds : List Char) : ∀ n, n < 18446744073709551616 →
    (∀ d ∈ ds, d.isDigit = true) →
    parseUintLoop ds n =
      if decimalFrom n ds < 18446744073709551616 then (decimalFrom n ds, none)
      else (18446744073709551615, some .ErrRange) := by
  induction ds with
  | nil =>
    intro n hn _
    show (n, none) = _
    rw [if_pos (show decimalFrom n [] < 18446744073709551616 from hn)]
    rfl
  | cons d rest ih =>
    intro n hn hd
    have hdig := hd d (List.mem_cons_self _ _)
    have hv := isDigit_toNat hdig
    have hrest : ∀ x ∈ rest, x.isDigit = true := fun x hx => hd x (List.mem_cons_of_mem _ hx)
    have hle := le_decimalFrom rest (n * 10 + (d.toNat - '0'.toNat))
    rw [parseUintLoop_cons d rest n hdig]
    show _ = if decimalFrom (n * 10 + (d.toNat - '0'.toNat)) rest < 18446744073709551616
      then (decimalFrom (n * 10 + (d.toNat - '0'.toNat)) rest, (none : Option NumError))
      else (18446744073709551615, some NumError.ErrRange)
    generalize d.toNat - '0'.toNat = v at hv hle ⊢
    by_cases hov : n * 10 + v < 18446744073709551616
    · have hmod : (n * 10 + v) % 18446744073709551616 = n * 10 + v := Nat.mod_eq_of_lt hov
      rw [hmod, ih (n * 10 + v) hov hrest]
      have h1 : ¬ n ≥ 1844674407370955162 := by omega
      have h2 : ¬ (n * 10 + v < n * 10 ∨ n * 10 + v > 18446744073709551615) := by omega
      rw [if_neg h1, if_neg h2]
    · have h3 : ¬ decimalFrom (n * 10 + v) rest < 18446744073709551616 := by omega
      rw [if_neg h3]
      by_cases h1 : n ≥ 1844674407370955162
      · rw [if_pos h1]
      · have h2 : (n * 10 + v) % 18446744073709551616 < n * 10 ∨
            (n * 10 + v) % 18446744073709551616 > 18446744073709551615 := by omega
        rw [if_neg h1, if_pos h2]

/-- The loop of `ParseUint` on digits followed by another character: a syntax error,
unless the digits overflow first. -/
theorem parseUintLoop_syntax (ds : List Char) (c : Char) (rest : List Char)
    (hc : c.isDigit = false) : ∀ n, decimalFrom n ds < 18446744073709551616 →
    (∀ d ∈ ds, d.isDigit = true) →
    parseUintLoop (ds ++ c :: rest) n = (0, some .ErrSyntax) := by
  induction ds with
  | nil =>
    intro n _ _
    show parseUintLoop (c :: rest) n = _
    simp [parseUintLoop, hc]
  | cons d ds ih =>
    intro n hn hd
    have hdig := hd d (List.mem_cons_self _ _)
    have hv := isDigit_toNat hdig
    have hrest : ∀ x ∈ ds, x.isDigit = true := fun x hx => hd x (List.mem_cons_of_mem _ hx)
    have hle := le_decimalFrom ds (n * 10 + (d.toNat - '0'.toNat))
    replace hn : decimalFrom (n * 10 + (d.toNat - '0'.toNat)) ds < 18446744073709551616 := hn
    show parseUintLoop (d :: (ds ++ c :: rest)) n = _
    rw [parseUintLoop_cons d _ n hdig]
    have ih2 := ih (n * 10 + (d.toNat - '0'.toNat)) hn hrest
    generalize d.toNat - '0'.toNat = v at hv hle hn ih2 ⊢
    have hov : n * 10 + v < 18446744073709551616 := by omega
    have hmod : (n * 10 + v) % 18446744073709551616 = n * 10 + v := Nat.mod_eq_of_lt hov
    have h1 : ¬ n ≥ 1844674407370955162 := by omega
    have h2 : ¬ (n * 10 + v < n * 10 ∨ n * 10 + v > 18446744073709551615) := by omega
    rw [hmod, if_neg h1, if_neg h2]
    exact ih2

theorem lastIndexFrom_none (sep : Char) (s : List Char) (h : sep ∉ s) :
    ∀ i found, lastIndexFrom sep s i found = found := by
  induction s with
  | nil => intro i found; rfl
  | cons c cs ih =>
    intro i found
    have hc : c ≠ sep := fun e => h (by rw [e]; exact List.mem_cons_self _ _)
    have hcs : sep ∉ cs := fun e => h (List.mem_cons_of_mem _ e)
    rw [lastIndexFrom, if_neg hc]
    exact ih hcs _ _

theorem lastIndexFrom_last (sep : Char) (t : List Char) (h : sep ∉ t) (pre : List Char) :
    ∀ i found, lastIndexFrom sep (pre ++ sep :: t) i found = i + pre.length := by
  induction pre with
  | nil =>
    intro i found
    show lastIndexFrom sep (sep :: t) i found = i + ((0 : Nat) : Int)
    rw [lastIndexFrom, if_pos rfl, lastIndexFrom_none sep t h]
    simp
  | cons c cs ih =>
    intro i found
    show lastIndexFrom sep (c :: (cs ++ sep :: t)) i found = i + ((cs.length + 1 : Nat) : Int)
    rw [lastIndexFrom, ih]
    push_cast
    omega

/-- The text `RowsAffected` parses: what follows the last space. -/
theorem RowsAffected_eq (ct : String) (pre t : List Char) (hct : ct.toList = pre ++ ' ' :: t)
    (ht : ' ' ∉ t) : RowsAffected ct = (ParseInt t).1 := by
  have hidx : LastIndex ct.toList ' ' = (pre.length : Int) := by
    rw [hct, LastIndex, lastIndexFrom_last ' ' t ht]
    simp
  have hne : ¬ ((pre.length : Int) = -1) := by omega
  have hdrop : (pre ++ ' ' :: t).drop ((pre.length : Int) + 1).toNat = t := by
    have : ((pre.length : Int) + 1).toNat = pre.length + 1 := by omega
    rw [this]
    simp
  simp only [RowsAffected, hidx, hne, if_false]
  rw [hct, hdrop]

theorem RowsAffected_no_space (ct : String) (h : ' ' ∉ ct.toList) : RowsAffected ct = 0 := by
  have hidx : LastIndex ct.toList ' ' = -1 := by
    rw [LastIndex, lastIndexFrom_none ' ' _ h]
  simp only [RowsAffected, hidx, if_true]

theorem ParseUint_digits (ds : List Char) (hne : ds ≠ []) (hd : ∀ d ∈ ds, d.isDigit = true) :
    ParseUint ds = if decimal ds < 18446744073709551616 then (decimal ds, none)
      else (18446744073709551615, some .ErrRange) := by
  have hl : ¬ ds.length < 1 := by
    cases ds with
    | nil => exact absurd rfl hne
    | cons _ _ => simp
  rw [ParseUint, if_neg hl]
  exact parseUintLoop_digits ds 0 (by norm_num) hd

theorem ParseUint_syntax (ds : List Char) (c : Char) (rest : List Char)
    (hc : c.isDigit = false) (hd : ∀ d ∈ ds, d.isDigit = true)
    (hv : decimal ds < 18446744073709551616) :
    ParseUint (ds ++ c :: rest) = (0, some .ErrSyntax) := by
  have hl : ¬ (ds ++ c :: rest).length < 1 := by simp
  rw [ParseUint, if_neg hl]
  exact parseUintLoop_syntax ds c rest hc 0 hv hd

/-- The result of `ParseInt` from that of `ParseUint` on the text after the sign. -/
theorem ParseInt_of (c : Char) (cs s1 : List Char) (un : Nat) (err : Option NumError)
    (hs1 : (if c = '+' then cs else if c = '-' then cs else c :: cs) = s1)
    (hU : ParseUint s1 = (un, err)) :
    ParseInt (c :: cs) =
      if err = some .ErrSyntax then (0, err)
      else if (!decide (c = '-') && decide (un ≥ 9223372036854775808)) = true then
        (9223372036854775807, some .ErrRange)
      else if (decide (c = '-') && decide (un > 9223372036854775808)) = true then
        (-9223372036854775808, some .ErrRange)
      else (if decide (c = '-') = true then negInt64 (int64 un) else int64 un, none) := by
  simp only [ParseInt, hs1, hU]
  rfl

theorem digit_not_sign {d : Char} (h : d.isDigit = true) : d ≠ '+' ∧ d ≠ '-' := by
  constructor
  · intro e
    rw [e] at h
    exact absurd h (by decide)
  · intro e
    rw [e] at h
    exact absurd h (by decide)

/-- A numeral without a sign or with a plus sign. -/
theorem ParseInt_pos (ds t : List Char) (hne : ds ≠ []) (hd : ∀ d ∈ ds, d.isDigit = true)
    (ht : t = ds ∨ t = '+' :: ds) :
    (ParseInt t).1
      = if decimal ds < 9223372036854775808 then (decimal ds : Int)
        else 9223372036854775807 := by
  have hU := ParseUint_digits ds hne hd
  have key : ∀ (c : Char) (cs : List Char), c ≠ '-' →
      (if c = '+' then cs else if c = '-' then cs else c :: cs) = ds →
      (ParseInt (c :: cs)).1
        = if decimal ds < 9223372036854775808 then (decimal ds : Int)
          else 9223372036854775807 := by
    intro c cs hneg hs1
    have hdec : decide (c = '-') = false := by simp [hneg]
    by_cases h64 : decimal ds < 18446744073709551616
    · rw [if_pos h64] at hU
      rw [ParseInt_of c cs ds _ _ hs1 hU, hdec]
      by_cases h63 : decimal ds < 9223372036854775808
      · have hge : ¬ decimal ds ≥ 9223372036854775808 := by omega
        simp only [reduceCtorEq, if_false, Bool.not_false, Bool.true_and, hge, decide_False,
          Bool.false_eq_true, Bool.false_and, h63, if_true, int64]
        split_ifs <;> omega
      · have hge : decimal ds ≥ 9223372036854775808 := by omega
        simp [h63, hge]
    · rw [if_neg h64] at hU
      rw [ParseInt_of c cs ds _ _ hs1 hU, hdec]
      have h63 : ¬ decimal ds < 9223372036854775808 := by omega
      simp [h63]
  cases ds with
  | nil => exact absurd rfl hne
  | cons d ds' =>
    obtain ⟨hdp, hdm⟩ := digit_not_sign (hd d (List.mem_cons_self _ _))
    rcases ht with rfl | rfl
    · exact key d ds' hdm (by simp [hdp, hdm])
    · exact key '+' (d :: ds') (by decide) (by simp)

/-- A numeral with a minus sign. -/
theorem ParseInt_neg (ds : List Char) (hne : ds ≠ []) (hd : ∀ d ∈ ds, d.isDigit = true) :
    (ParseInt ('-' :: ds)).1
      = if decimal ds ≤ 9223372036854775808 then -(decimal ds : Int)
        else -9223372036854775808 := by
  have hU := ParseUint_digits ds hne hd
  have hs1 : (if ('-' : Char) = '+' then ds else if ('-' : Char) = '-' then ds else '-' :: ds)
      = ds := by simp
  have hdec : decide (('-' : Char) = '-') = true := by decide
  by_cases h64 : decimal ds < 18446744073709551616
  · rw [if_pos h64] at hU
    rw [ParseInt_of '-' ds ds _ _ hs1 hU, hdec]
    by_cases h63 : decimal ds ≤ 9223372036854775808
    · have hgt : ¬ decimal ds > 9223372036854775808 := by omega
      have hm : decimal ds % 2 ^ 64 = decimal ds := Nat.mod_eq_of_lt h64
      simp only [reduceCtorEq, if_false, Bool.not_true, Bool.false_and, Bool.false_eq_true,
        hgt, decide_False, Bool.and_false, h63, if_true, int64, hm, negInt64]
      split_ifs <;> omega
    · have hgt : decimal ds > 9223372036854775808 := by omega
      simp [h63, hgt]
  · rw [if_neg h64] at hU
    rw [ParseInt_of '-' ds ds _ _ hs1 hU, hdec]
    have h63 : ¬ decimal ds ≤ 9223372036854775808 := by omega
    simp [h63]

/-- A text that is not a number: after the optional sign, digits whose value fits 64 bits
and then a character that is not a digit. -/
theorem ParseInt_syntax (sign ds : List Char) (c : Char) (rest : List Char)
    (hsign : sign = [] ∨ sign = ['+'] ∨ sign = ['-'])
    (hd : ∀ d ∈ ds, d.isDigit = true) (hc : c.isDigit = false)
    (hlead : sign = [] → ds = [] → c ≠ '+' ∧ c ≠ '-')
    (hv : decimal ds < 18446744073709551616) :
    (ParseInt (sign ++ ds ++ c :: rest)).1 = 0 := by
  have hU := ParseUint_syntax ds c rest hc hd hv
  have key : ∀ (x : Char) (xs : List Char),
      (if x = '+' then xs else if x = '-' then xs else x :: xs) = ds ++ c :: rest →
      (ParseInt (x :: xs)).1 = 0 := by
    intro x xs hs1
    rw [ParseInt_of x xs _ _ _ hs1 hU]
    simp
  rcases hsign with rfl | rfl | rfl
  · cases ds with
    | nil =>
      obtain ⟨h1, h2⟩ := hlead rfl rfl
      exact key c rest (by simp [h1, h2])
    | cons d ds' =>
      obtain ⟨hdp, hdm⟩ := digit_not_sign (hd d (List.mem_cons_self _ _))
      exact key d (ds' ++ c :: rest) (by simp [hdp, hdm])
  · exact key '+' (ds ++ c :: rest) (by simp)
  · have hpm : ('-' : Char) ≠ '+' := by decide
    exact key '-' (ds ++ c :: rest) (by simp [hpm])

/-- An empty text and a lone sign are not numbers. -/
theorem ParseInt_empty (t : List Char) (h : t = [] ∨ t = ['+'] ∨ t = ['-']) :
    (ParseInt t).1 = 0 := by
  rcases h with rfl | rfl | rfl <;> decide

theorem RowsAffected_counterexample :
    decimal "9223372036854775808".toList = 9223372036854775808 ∧
    RowsAffected "UPDATE 9223372036854775808" = 9223372036854775807 := by
  decide

/-- C25: `RowsAffected` returns 0 for a tag without a space.  Otherwise it reads the
text after the last space: for a decimal numeral, with or without a sign, it returns the
integer the numeral denotes when that fits `int64`, and the `int64` bound on the side
of the numeral when it does not; it returns 0 when the text is empty or a lone sign, and
when, after the optional sign, digits that fit 64 bits are followed by a character that
is not a digit, as in "CREATE TABLE". -/
theorem RowsAffected_reads_last_word (ct : String) :
    (' ' ∉ ct.toList → RowsAffected ct = 0) ∧
    ∀ pre t : List Char, ct.toList = pre ++ ' ' :: t → ' ' ∉ t →
      (∀ ds : List Char, ds ≠ [] → (∀ d ∈ ds, d.isDigit = true) →
        (t = ds ∨ t = '+' :: ds →
          RowsAffected ct = if decimal ds < 2 ^ 63 then (decimal ds : Int) else 2 ^ 63 - 1) ∧
        (t = '-' :: ds →
          RowsAffected ct = if decimal ds ≤ 2 ^ 63 then -(decimal ds : Int) else -2 ^ 63)) ∧
      (t = [] ∨ t = ['+'] ∨ t = ['-'] → RowsAffected ct = 0) ∧
      (∀ (sign ds : List Char) (c : Char) (rest : List Char),
        sign = [] ∨ sign = ['+'] ∨ sign = ['-'] → (∀ d ∈ ds, d.isDigit = true) →
        c.isDigit = false → (sign = [] → ds = [] → c ≠ '+' ∧ c ≠ '-') →
        decimal ds < 2 ^ 64 → t = sign ++ ds ++ c :: rest → RowsAffected ct = 0) := by
  refine ⟨RowsAffected_no_space ct, fun pre t hct ht => ?_⟩
  rw [RowsAffected_eq ct pre t hct ht]
  refine ⟨fun ds hne hd => ⟨fun h => ?_, fun h => ?_⟩, ParseInt_empty t, ?_⟩
  · rw [ParseInt_pos ds t hne hd h]
    norm_num
  · rw [h, ParseInt_neg ds hne hd]
    norm_num
  · intro sign ds c rest hsign hd hc hlead hv h
    rw [h]
    exact ParseInt_syntax sign ds c rest hsign hd hc hlead (by norm_num at hv ⊢; exact hv)

theorem RowsAffected_reads_last_word_witness :
    RowsAffected "INSERT 0 42" = 42 ∧ RowsAffected "CREATE TABLE" = 0 ∧
    RowsAffected "UPDATE 18446744073709551615" = 2 ^ 63 - 1 :=
  ⟨((RowsAffected_reads_last_word "INSERT 0 42").2 "INSERT 0".toList "42".toList rfl
      (by decide)).1 "42".toList (by decide) (by decide) |>.1 (Or.inl rfl),
    (RowsAffected_reads_last_word "CREATE TABLE").2 "CREATE".toList "TABLE".toList rfl
      (by decide) |>.2.2 [] [] 'T' "ABLE".toList (Or.inl rfl) (by decide) (by decide)
      (fun _ _ => by decide) (by decide) rfl,
    ((RowsAffected_reads_last_word "UPDATE 18446744073709551615").2 "UPDATE".toList
      "18446744073709551615".toList rfl (by decide)).1 "18446744073709551615".toList
      (by decide) (by decide) |>.1 (Or.inl rfl)⟩

/-! ## Log level, merge of configurations, TLS modes -/

/-- C21: `SetLogLevel` with a valid level stores the level and returns that same level,
not the one in effect before the call; with an invalid level it returns the level in
effect with `ErrInvalidLogLevel` and leaves the connection as it was.  With levels 1 to 6,
a connection at level 2 that is set to level 5 returns 5. -/
theorem SetLogLevel_returns_new_level :
    (∀ (lo hi : Int) (c : Conn) (lvl : Int),
      Conn.SetLogLevel lo hi c lvl =
        if lvl < lo ∨ lvl > hi then (c, c.logLevel, some ErrInvalidLogLevel)
        else ({ c with logLevel := lvl }, lvl, none)) ∧
    Conn.SetLogLevel demoLogLevelNone demoLogLevelTrace ⟨none, 2⟩ 5 = (⟨none, 5⟩, 5, none) ∧
    (Conn.SetLogger ⟨some 1, 2⟩ (some 7)).2 = some 1 :=
  ⟨fun _ _ _ _ => rfl, by decide, by decide⟩

theorem get_filter_ne (m : StringMap) (k k2 : String) (h : k2 ≠ k) :
    StringMap.get (m.filter (fun e => decide (e.1 ≠ k2))) k = StringMap.get m k := by
  induction m with
  | nil => rfl
  | cons e m ih =>
    unfold StringMap.get at ih ⊢
    by_cases he : e.1 = k2
    · have hk : ¬ e.1 = k := fun e2 => h (he.symm.trans e2)
      simp only [List.filter_cons, he, ne_eq, not_true_eq_false, decide_False,
        Bool.false_eq_true, if_false, List.find?_cons, hk]
      rw [he] at hk
      simp only [hk, decide_False]
      exact ih
    · by_cases hk : e.1 = k
      · have h1 : decide (e.1 ≠ k2) = true := by simpa using he
        have h2 : decide (e.1 = k) = true := by simpa using hk
        simp only [List.filter_cons, h1, if_true, List.find?_cons, h2]
      · simp only [List.filter_cons, ne_eq, he, not_false_eq_true, decide_True, if_true,
          List.find?_cons, hk, decide_False]
        exact ih

theorem get_set (m : StringMap) (k k2 v : String) :
    StringMap.get (m.set k2 v) k = if k2 = k then some v else StringMap.get m k := by
  by_cases h : k2 = k
  · subst h
    simp [StringMap.set, StringMap.get]
  · rw [if_neg h]
    have := get_filter_ne m k k2 h
    unfold StringMap.get at this ⊢
    simp only [StringMap.set, List.find?_cons, h, decide_False]
    exact this

theorem get_none_of_not_mem (m : StringMap) (k : String) (h : k ∉ m.map Prod.fst) :
    StringMap.get m k = none := by
  unfold StringMap.get
  rw [Option.map_eq_none', List.find?_eq_none]
  intro e he hk
  simp only [decide_eq_true_eq] at hk
  exact h (List.mem_map.2 ⟨e, he, hk⟩)

/-- Copying the entries of a map into a map: the entries copied win. -/
theorem get_foldl_set (l : StringMap) (hl : (l.map Prod.fst).Nodup) (k : String) :
    ∀ acc : StringMap,
    StringMap.get (l.foldl (fun m e => m.set e.1 e.2) acc) k
      = (StringMap.get l k).orElse (fun _ => StringMap.get acc k) := by
  induction l with
  | nil =>
    intro acc
    rfl
  | cons e l ih =>
    intro acc
    simp only [List.map_cons, List.nodup_cons] at hl
    have hc : StringMap.get (e :: l) k
        = if e.1 = k then some e.2 else StringMap.get l k := by
      unfold StringMap.get
      by_cases hk : e.1 = k <;> simp [List.find?_cons, hk]
    rw [List.foldl_cons, ih hl.2, get_set, hc]
    by_cases hk : e.1 = k
    · have hn : StringMap.get l k = none :=
        get_none_of_not_mem l k (by rw [← hk]; exact hl.1)
      rw [if_pos hk, if_pos hk, hn]
      rfl
    · rw [if_neg hk, if_neg hk]

/-- `ConnConfig.Merge` field by field. -/
theorem Merge_eq (old other : ConnConfig) :
    old.Merge other =
      { Host := if other.Host ≠ "" then other.Host else old.Host
        Port := if other.Port ≠ 0 then other.Port else old.Port
        Database := if other.Database ≠ "" then other.Database else old.Database
        User := if other.User ≠ "" then other.User else old.User
        Password := if other.Password ≠ "" then other.Password else old.Password
        TLSConfig := if other.TLSConfig ≠ none then other.TLSConfig else old.TLSConfig
        UseFallbackTLS :=
          if other.TLSConfig ≠ none then other.UseFallbackTLS else old.UseFallbackTLS
        FallbackTLSConfig :=
          if other.TLSConfig ≠ none then other.FallbackTLSConfig else old.FallbackTLSConfig
        Logger := if other.Logger ≠ none then other.Logger else old.Logger
        LogLevel := if other.LogLevel ≠ 0 then other.LogLevel else old.LogLevel
        Dial := if other.Dial ≠ none then other.Dial else old.Dial
        RuntimeParams :=
          other.RuntimeParams.foldl (fun m e => m.set e.1 e.2)
            (old.RuntimeParams.foldl (fun m e => m.set e.1 e.2) [])
        OnNotice := old.OnNotice } := by
  unfold ConnConfig.Merge
  lift_lets
  intro cc0 cc1 cc2 cc3 cc4 cc5 cc6 cc7 cc8 cc9 p0 p1 p2
  have e0 : old = cc0 := rfl
  clear_value cc0
  subst e0
  have e1 : cc1 =
      { Host := if other.Host ≠ "" then other.Host else old.Host
        Port := old.Port
        Database := old.Database
        User := old.User
        Password := old.Password
        TLSConfig := old.TLSConfig
        UseFallbackTLS := old.UseFallbackTLS
        FallbackTLSConfig := old.FallbackTLSConfig
        Logger := old.Logger
        LogLevel := old.LogLevel
        Dial := old.Dial
        RuntimeParams := old.RuntimeParams
        OnNotice := old.OnNotice } := by
    by_cases h : other.Host ≠ ""
    · simp only [cc1, if_pos h]
    · simp only [cc1, if_neg h]
  clear_value cc1
  subst e1
  have e2 : cc2 =
      { Host := if other.Host ≠ "" then other.Host else old.Host
        Port := if other.Port ≠ 0 then other.Port else old.Port
        Database := old.Database
        User := old.User
        Password := old.Password
        TLSConfig := old.TLSConfig
        UseFallbackTLS := old.UseFallbackTLS
        FallbackTLSConfig := old.FallbackTLSConfig
        Logger := old.Logger
        LogLevel := old.LogLevel
        Dial := old.Dial
        RuntimeParams := old.RuntimeParams
        OnNotice := old.OnNotice } := by
    by_cases h : other.Port ≠ 0
    · simp only [cc2, if_pos h]
    · simp only [cc2, if_neg h]
  clear_value cc2
  subst e2
  have e3 : cc3 =
      { Host := if other.Host ≠ "" then other.Host else old.Host
        Port := if other.Port ≠ 0 then other.Port else old.Port
        Database := if other.Database ≠ "" then other.Database else old.Database
        User := old.User
        Password := old.Password
        TLSConfig := old.TLSConfig
        UseFallbackTLS := old.UseFallbackTLS
        FallbackTLSConfig := old.FallbackTLSConfig
        Logger := old.Logger
        LogLevel := old.LogLevel
        Dial := old.Dial
        RuntimeParams := old.RuntimeParams
        OnNotice := old.OnNotice } := by
    by_cases h : other.Database ≠ ""
    · simp only [cc3, if_pos h]
    · simp only [cc3, if_neg h]
  clear_value cc3
  subst e3
  have e4 : cc4 =
      { Host := if other.Host ≠ "" then other.Host else old.Host
        Port := if other.Port ≠ 0 then other.Port else old.Port
        Database := if other.Database ≠ "" then other.Database else old.Database
        User := if other.User ≠ "" then other.User else old.User
        Password := old.Password
        TLSConfig := old.TLSConfig
        UseFallbackTLS := old.UseFallbackTLS
        FallbackTLSConfig := old.FallbackTLSConfig
        Logger := old.Logger
        LogLevel := old.LogLevel
        Dial := old.Dial
        RuntimeParams := old.RuntimeParams
        OnNotice := old.OnNotice } := by
    by_cases h : other.User ≠ ""
    · simp only [cc4, if_pos h]
    · simp only [cc4, if_neg h]
  clear_value cc4
  subst e4
  have e5 : cc5 =
      { Host := if other.Host ≠ "" then other.Host else old.Host
        Port := if other.Port ≠ 0 then other.Port else old.Port
        Database := if other.Database ≠ "" then other.Database else old.Database
        User := if other.User ≠ "" then other.User else old.User
        Password := if other.Password ≠ "" then other.Password else old.Password
        TLSConfig := old.TLSConfig
        UseFallbackTLS := old.UseFallbackTLS
        FallbackTLSConfig := old.FallbackTLSConfig
        Logger := old.Logger
        LogLevel := old.LogLevel
        Dial := old.Dial
        RuntimeParams := old.RuntimeParams
        OnNotice := old.OnNotice } := by
    by_cases h : other.Password ≠ ""
    · simp only [cc5, if_pos h]
    · simp only [cc5, if_neg h]
  clear_value cc5
  subst e5
  have e6 : cc6 =
      { Host := if other.Host ≠ "" then other.Host else old.Host
        Port := if other.Port ≠ 0 then other.Port else old.Port
        Database := if other.Database ≠ "" then other.Database else old.Database
        User := if other.User ≠ "" then other.User else old.User
        Password := if other.Password ≠ "" then other.Password else old.Password
        TLSConfig := if other.TLSConfig ≠ none then other.TLSConfig else old.TLSConfig
        UseFallbackTLS := if other.TLSConfig ≠ none then other.UseFallbackTLS else old.UseFallbackTLS
        FallbackTLSConfig := if other.TLSConfig ≠ none then other.FallbackTLSConfig else old.FallbackTLSConfig
        Logger := old.Logger
        LogLevel := old.LogLevel
        Dial := old.Dial
        RuntimeParams := old.RuntimeParams
        OnNotice := old.OnNotice } := by
    by_cases h : other.TLSConfig ≠ none
    · simp only [cc6, if_pos h]
    · simp only [cc6, if_neg h]
  clear_value cc6
  subst e6
  have e7 : cc7 =
      { Host := if other.Host ≠ "" then other.Host else old.Host
        Port := if other.Port ≠ 0 then other.Port else old.Port
        Database := if other.Database ≠ "" then other.Database else old.Database
        User := if other.User ≠ "" then other.User else old.User
        Password := if other.Password ≠ "" then other.Password else old.Password
        TLSConfig := if other.TLSConfig ≠ none then other.TLSConfig else old.TLSConfig
        UseFallbackTLS := if other.TLSConfig ≠ none then other.UseFallbackTLS else old.UseFallbackTLS
        FallbackTLSConfig := if other.TLSConfig ≠ none then other.FallbackTLSConfig else old.FallbackTLSConfig
        Logger := if other.Logger ≠ none then other.Logger else old.Logger
        LogLevel := old.LogLevel
        Dial := old.Dial
        RuntimeParams := old.RuntimeParams
        OnNotice := old.OnNotice } := by
    by_cases h : other.Logger ≠ none
    · simp only [cc7, if_pos h]
    · simp only [cc7, if_neg h]
  clear_value cc7
  subst e7
  have e8 : cc8 =
      { Host := if other.Host ≠ "" then other.Host else old.Host
        Port := if other.Port ≠ 0 then other.Port else old.Port
        Database := if other.Database ≠ "" then other.Database else old.Database
        User := if other.User ≠ "" then other.User else old.User
        Password := if other.Password ≠ "" then other.Password else old.Password
        TLSConfig := if other.TLSConfig ≠ none then other.TLSConfig else old.TLSConfig
        UseFallbackTLS := if other.TLSConfig ≠ none then other.UseFallbackTLS else old.UseFallbackTLS
        FallbackTLSConfig := if other.TLSConfig ≠ none then other.FallbackTLSConfig else old.FallbackTLSConfig
        Logger := if other.Logger ≠ none then other.Logger else old.Logger
        LogLevel := if other.LogLevel ≠ 0 then other.LogLevel else old.LogLevel
        Dial := old.Dial
        RuntimeParams := old.RuntimeParams
        OnNotice := old.OnNotice } := by
    by_cases h : other.LogLevel ≠ 0
    · simp only [cc8, if_pos h]
    · simp only [cc8, if_neg h]
  clear_value cc8
  subst e8
  have e9 : cc9 =
      { Host := if other.Host ≠ "" then other.Host else old.Host
        Port := if other.Port ≠ 0 then other.Port else old.Port
        Database := if other.Database ≠ "" then other.Database else old.Database
        User := if other.User ≠ "" then other.User else old.User
        Password := if other.Password ≠ "" then other.Password else old.Password
        TLSConfig := if other.TLSConfig ≠ none then other.TLSConfig else old.TLSConfig
        UseFallbackTLS := if other.TLSConfig ≠ none then other.UseFallbackTLS else old.UseFallbackTLS
        FallbackTLSConfig := if other.TLSConfig ≠ none then other.FallbackTLSConfig else old.FallbackTLSConfig
        Logger := if other.Logger ≠ none then other.Logger else old.Logger
        LogLevel := if other.LogLevel ≠ 0 then other.LogLevel else old.LogLevel
        Dial := if other.Dial ≠ none then other.Dial else old.Dial
        RuntimeParams := old.RuntimeParams
        OnNotice := old.OnNotice } := by
    by_cases h : other.Dial ≠ none
    · simp only [cc9, if_pos h]
    · simp only [cc9, if_neg h]
  clear_value cc9
  subst e9
  rfl

theorem Merge_counterexample :
    demoOld.FallbackTLSConfig = none ∧
    demoOther.FallbackTLSConfig = some { InsecureSkipVerify := true, ServerName := "" } ∧
    (demoOld.Merge demoOther).FallbackTLSConfig = none := by
  decide

/-- C22: `old.Merge(other)` takes `Host`, `Port`, `Database`, `User`, `Password`,
`Logger`, `LogLevel` and `Dial` from `other` where `other` sets them (a non-zero value)
and from `old` otherwise; it takes `TLSConfig`, `UseFallbackTLS` and `FallbackTLSConfig`
together from `other` when `other.TLSConfig` is set and together from `old` otherwise;
and its `RuntimeParams` holds, for every key, the value of `other` if `other` has the
key and the value of `old` otherwise (the maps having no key twice). -/
theorem Merge_combines (old other : ConnConfig)
    (hold : (old.RuntimeParams.map Prod.fst).Nodup)
    (hother : (other.RuntimeParams.map Prod.fst).Nodup) :
    (old.Merge other).Host = (if other.Host ≠ "" then other.Host else old.Host) ∧
    (old.Merge other).Port = (if other.Port ≠ 0 then other.Port else old.Port) ∧
    (old.Merge other).Database
      = (if other.Database ≠ "" then other.Database else old.Database) ∧
    (old.Merge other).User = (if other.User ≠ "" then other.User else old.User) ∧
    (old.Merge other).Password
      = (if other.Password ≠ "" then other.Password else old.Password) ∧
    (old.Merge other).Logger = (if other.Logger ≠ none then other.Logger else old.Logger) ∧
    (old.Merge other).LogLevel
      = (if other.LogLevel ≠ 0 then other.LogLevel else old.LogLevel) ∧
    (old.Merge other).Dial = (if other.Dial ≠ none then other.Dial else old.Dial) ∧
    ((old.Merge other).TLSConfig, (old.Merge other).UseFallbackTLS,
        (old.Merge other).FallbackTLSConfig)
      = (if other.TLSConfig ≠ none
          then (other.TLSConfig, other.UseFallbackTLS, other.FallbackTLSConfig)
          else (old.TLSConfig, old.UseFallbackTLS, old.FallbackTLSConfig)) ∧
    ∀ k : String, (old.Merge other).RuntimeParams.get k
      = (other.RuntimeParams.get k).orElse (fun _ => old.RuntimeParams.get k) := by
  refine ⟨?_, ?_, ?_, ?_, ?_, ?_, ?_, ?_, ?_, ?_⟩
  · rw [Merge_eq]
  · rw [Merge_eq]
  · rw [Merge_eq]
  · rw [Merge_eq]
  · rw [Merge_eq]
  · rw [Merge_eq]
  · rw [Merge_eq]
  · rw [Merge_eq]
  · rw [Merge_eq]; split_ifs <;> rfl
  · intro k
    have h1 := get_foldl_set old.RuntimeParams hold k []
    have h2 := get_foldl_set other.RuntimeParams hother k
      (old.RuntimeParams.foldl (fun m e => m.set e.1 e.2) [])
    show StringMap.get (other.RuntimeParams.foldl (fun m e => m.set e.1 e.2)
      (old.RuntimeParams.foldl (fun m e => m.set e.1 e.2) [])) k = _
    rw [h2, h1]
    cases other.RuntimeParams.get k with
    | some v => rfl
    | none =>
      cases old.RuntimeParams.get k with
      | some v => rfl
      | none => rfl

theorem Merge_combines_witness :
    ((demoOld.RuntimeParams.map Prod.fst).Nodup ∧
      (demoOther.RuntimeParams.map Prod.fst).Nodup) ∧
    (demoOld.Merge demoOther).Host = "db1" ∧ (demoOld.Merge demoOther).Port = 5433 ∧
    (demoOld.Merge demoOther).RuntimeParams.get "application_name" = some "new" ∧
    (demoOld.Merge demoOther).RuntimeParams.get "search_path" = some "public" :=
  ⟨⟨by decide, by decide⟩,
    (Merge_combines demoOld demoOther (by decide) (by decide)).1.trans (by decide),
    (Merge_combines demoOld demoOther (by decide) (by decide)).2.1.trans (by decide),
    ((Merge_combines demoOld demoOther (by decide) (by decide)).2.2.2.2.2.2.2.2.2
      "application_name").trans (by decide),
    ((Merge_combines demoOld demoOther (by decide) (by decide)).2.2.2.2.2.2.2.2.2
      "search_path").trans (by decide)⟩

/-- C23: when `other.TLSConfig` is nil, `old.Merge(other)` has the `TLSConfig`,
`UseFallbackTLS` and `FallbackTLSConfig` of `old`, whatever `other.UseFallbackTLS` and
`other.FallbackTLSConfig` are. -/
theorem Merge_preserves_TLS (old other : ConnConfig) (h : other.TLSConfig = none) :
    (old.Merge other).TLSConfig = old.TLSConfig ∧
    (old.Merge other).UseFallbackTLS = old.UseFallbackTLS ∧
    (old.Merge other).FallbackTLSConfig = old.FallbackTLSConfig := by
  refine ⟨?_, ?_, ?_⟩
  · rw [Merge_eq]; simp only [h, ne_eq, not_true_eq_false, if_false]
  · rw [Merge_eq]; simp only [h, ne_eq, not_true_eq_false, if_false]
  · rw [Merge_eq]; simp only [h, ne_eq, not_true_eq_false, if_false]

theorem Merge_preserves_TLS_witness :
    demoOther.TLSConfig = none ∧ demoOther.UseFallbackTLS = true ∧
    (demoSecure.Merge demoOther).TLSConfig
      = some { InsecureSkipVerify := false, ServerName := "db1" } ∧
    (demoSecure.Merge demoOther).UseFallbackTLS = false ∧
    (demoSecure.Merge demoOther).FallbackTLSConfig = none :=
  ⟨rfl, rfl, (Merge_preserves_TLS demoSecure demoOther rfl).1,
    (Merge_preserves_TLS demoSecure demoOther rfl).2.1,
    (Merge_preserves_TLS demoSecure demoOther rfl).2.2⟩

/-- C26: for every configuration, `configSSL` with an empty sslmode leaves what it leaves
with "prefer", and with "verify-ca" what it leaves with "verify-full" (and returns no
error in these four cases); with an sslmode that is none of "", disable, allow, prefer,
require, verify-ca, verify-full it returns the error "sslmode is invalid" and leaves the
configuration as it was. -/
theorem configSSL_modes (cc : ConnConfig) :
    configSSL "" cc = configSSL "prefer" cc ∧
    configSSL "verify-ca" cc = configSSL "verify-full" cc ∧
    (configSSL "prefer" cc).2 = none ∧ (configSSL "verify-full" cc).2 = none ∧
    ∀ sslmode : String,
      sslmode ∉ ["", "disable", "allow", "prefer", "require", "verify-ca", "verify-full"] →
      configSSL sslmode cc = (cc, some ⟨"sslmode is invalid"⟩) := by
  refine ⟨rfl, rfl, rfl, rfl, fun sslmode h => ?_⟩
  simp only [List.mem_cons, List.mem_singleton, List.not_mem_nil, or_false, not_or] at h
  obtain ⟨h0, h1, h2, h3, h4, h5, h6⟩ := h
  simp only [configSSL, h0, h1, h2, h3, h4, h5, h6, if_false, or_self]

theorem configSSL_modes_witness :
    "bogus" ∉ ["", "disable", "allow", "prefer", "require", "verify-ca", "verify-full"] ∧
    configSSL "bogus" demoOld = (demoOld, some ⟨"sslmode is invalid"⟩) ∧
    (configSSL "" demoOld).1.TLSConfig
      = some { InsecureSkipVerify := true, ServerName := "" } :=
  ⟨by decide, (configSSL_modes demoOld).2.2.2.2 "bogus" (by decide), by decide⟩

end pgx
